import Mathlib

/-!
# The `market` contract of steemsmartcontracts: a shallow embedding

Source: `src/contracts/market.js`.

Conventions of the embedding.

* Decimal strings are integers counted in the smallest unit of their currency:
  peg-token amounts and prices in units of `10^-8` (the precision
  `STEEM_PEGGED_SYMBOL_PRESICION`), quantities of a traded symbol in units of
  `10^-precision` of that symbol.  `BigNumber.multipliedBy`, `plus`, `minus` are exact,
  so the only places where a value is rounded are the calls of `toFixed` on a product
  (and the division of `marketBuy` and of `updatePriceMetrics`).
* The store (`api.db`) is a record of four tables, each a list of rows in insertion
  order; `find` filters, sorts by the requested index, skips `offset` rows and keeps
  `limit` rows.
* `api.transferTokens`, the requests of `transferToContract` and the failed `api.assert`
  calls are recorded, in call order, in the `transfers`, `escrows` and `asserts` logs of
  the state; `fills` keeps one entry per settled match.
-/

namespace Market

/-! ## Constants -/

/-- Source constant `STEEM_PEGGED_SYMBOL`. -/
def STEEM_PEGGED_SYMBOL : String := "STEEMP"

/-- Source constant `STEEM_PEGGED_SYMBOL_PRESICION`. -/
def STEEM_PEGGED_SYMBOL_PRESICION : Nat := 8

/-- Source constant `CONTRACT_NAME`. -/
def CONTRACT_NAME : String := "market"

/-- Page size used by every paged `api.db.find` of the contract. -/
def PAGE : Nat := 1000

/-! ## Decimal arithmetic (the part of bignumber.js the contract uses) -/

/-- Source `toFixed` with the default rounding mode `ROUND_HALF_UP` (nearest, ties away from
zero) when `d` trailing digits are dropped: the result is `n / 10^d` rounded. -/
def roundHalfUp (n : Int) (d : Nat) : Int :=
  if 0 ≤ n then (2 * n + 10 ^ d) / (2 * 10 ^ d)
  else -((2 * (-n) + 10 ^ d) / (2 * 10 ^ d))

/-- Source `toFixed(_, ROUND_DOWN)` (towards zero) when `d` trailing digits are dropped. -/
def roundDown (n : Int) (d : Nat) : Int :=
  Int.tdiv n (10 ^ d)

/-- Source `a.dividedBy(b)` for `b > 0`: the quotient kept with `dp` decimals
(bignumber.js `DECIMAL_PLACES`, 20 by default), rounded half up. -/
def divRound (a b : Int) (dp : Nat) : Int :=
  if 0 ≤ a then (2 * a * 10 ^ dp + b) / (2 * b)
  else -((2 * (-a) * 10 ^ dp + b) / (2 * b))

/-- A decimal literal of a payload: `mant / 10^scale`. -/
structure Dec where
  mant : Int
  scale : Nat
deriving DecidableEq, Repr

/-- Number of decimals left once `scale` trailing zeros at most are stripped. -/
def stripZeros : Nat → Int → Nat
  | 0, _ => 0
  | s + 1, m => if m % 10 = 0 then stripZeros s (m / 10) else s + 1

/-- Source `countDecimals = value => api.BigNumber(value).dp()`. -/
def countDecimals (d : Dec) : Nat := stripZeros d.scale d.mant

/-- Source `a.multipliedBy(b)`: exact. -/
def Dec.mul (a b : Dec) : Dec := ⟨a.mant * b.mant, a.scale + b.scale⟩

/-- Source `d.toFixed(places)`, as a number of units of `10^-places`. -/
def Dec.toFixed (d : Dec) (places : Nat) : Int :=
  if d.scale ≤ places then d.mant * 10 ^ (places - d.scale)
  else roundHalfUp d.mant (d.scale - places)

/-- Source `d.toFixed(places, ROUND_DOWN)`, as a number of units of `10^-places`. -/
def Dec.toFixedDown (d : Dec) (places : Nat) : Int :=
  if d.scale ≤ places then d.mant * 10 ^ (places - d.scale)
  else roundDown d.mant (d.scale - places)

/-- Source `api.BigNumber(d).gt(0)`. -/
def Dec.gt0 (d : Dec) : Bool := decide (0 < d.mant)

/-! ### The strings produced by `toFixed(8)` and their JavaScript comparison

Two places of the source compare two `toFixed` strings with the JavaScript operator `>`
instead of `BigNumber.gt`; that comparison is lexicographic on the code units. -/

/-- Decimal digits of a natural number as code units, most significant first;
`fuel` bounds the number of digits. -/
def digitCodes : Nat → Nat → List Nat → List Nat
  | 0, _, acc => acc
  | fuel + 1, n, acc =>
    if n < 10 then (48 + n) :: acc else digitCodes fuel (n / 10) ((48 + n % 10) :: acc)

/-- The `width` lowest digits of `n`, zero padded. -/
def fracCodes : Nat → Nat → List Nat → List Nat
  | 0, _, acc => acc
  | w + 1, n, acc => fracCodes w (n / 10) ((48 + n % 10) :: acc)

/-- Code units of `x.toFixed(8)` for an amount of `n` units of `10^-8`. -/
def toFixed8Codes (n : Int) : List Nat :=
  let a := n.natAbs
  let body := digitCodes (a + 1) (a / 10 ^ 8) [] ++ 46 :: fracCodes 8 (a % 10 ^ 8) []
  if n < 0 then 45 :: body else body

/-- JavaScript `a > b` on two strings given by their code units. -/
def jsStringGt : List Nat → List Nat → Bool
  | [], _ => false
  | _ :: _, [] => true
  | x :: xs, y :: ys => if x = y then jsStringGt xs ys else decide (y < x)

/-! ## Data model -/

/-- A resting order, a row of `buyBook` or of `sellBook`.  `tokensLocked` is only
meaningful for a buy order (a sell order has no such field; it is kept at `0`). -/
structure Order where
  id : Nat
  txId : String
  timestamp : Int
  account : String
  symbol : String
  quantity : Int
  price : Int
  tokensLocked : Int
  expiration : Int
deriving DecidableEq, Repr

/-- The taker's side of a trade. -/
inductive Side where
  | buy
  | sell
deriving DecidableEq, Repr

/-- A row of `tradesHistory`. -/
structure Trade where
  id : Nat
  type : Side
  buyer : String
  seller : String
  symbol : String
  quantity : Int
  price : Int
  timestamp : Int
  volume : Int
deriving DecidableEq, Repr

/-- A row of `metrics`.  `priceChangePercent` is counted in hundredths of a percent;
`none` stands for the strings `NaN%` and `Infinity%` of a division by zero. -/
structure Metric where
  id : Nat
  symbol : String
  volume : Int
  volumeExpiration : Int
  lastPrice : Int
  lowestAsk : Int
  highestBid : Int
  lastDayPrice : Int
  lastDayPriceExpiration : Int
  priceChangeSteem : Int
  priceChangePercent : Option Int
deriving DecidableEq, Repr

/-- One call of `api.transferTokens(toAccount, symbol, quantity, 'user')`. -/
structure Transfer where
  toAccount : String
  symbol : String
  quantity : Int
deriving DecidableEq, Repr

/-- One settled match, kept for observation (it is not a table of the contract): the
resting order as the page gave it, the quantity of the symbol delivered to the buyer,
the peg-token amount paid to the seller, and what the paying side held when the match
was settled (`tokensLocked` of the buy order that pays, `steempRemaining` for
`marketBuy`). -/
structure Fill where
  maker : Order
  quantity : Int
  amount : Int
  locked : Int
deriving DecidableEq, Repr

/-- The contract's tables, the counter giving `_id` to inserted rows, and the logs:
`transfers` for `api.transferTokens`, `escrows` for the requests of `transferToContract`
(the account is the sender), `asserts` for the failed assertions, `fills` for the
settled matches. -/
structure State where
  buyBook : List Order
  sellBook : List Order
  tradesHistory : List Trade
  metrics : List Metric
  nextId : Nat
  transfers : List Transfer
  escrows : List Transfer
  asserts : List String
  fills : List Fill
deriving DecidableEq, Repr

/-- The state after `createSSC`: four empty tables. -/
def State.empty : State := ⟨[], [], [], [], 0, [], [], [], []⟩

/-- One element of `res.events` in the answer of `api.executeSmartContract`: the
contract and the name of the event and its `data` (`data.from`, `data.to`,
`data.symbol`, `data.quantity`; the quantity by its value, in units of the token). -/
structure TransferEvent where
  contract : String
  event : String
  fromAccount : String
  toAccount : String
  symbol : String
  quantity : Int
deriving DecidableEq, Repr

/-- The answer `res` of `api.executeSmartContract('tokens', 'transferToContract', ...)`:
`errors` tells whether `res.errors` is defined, `events` is `none` when `res.events` is
undefined. -/
structure TransferResult where
  errors : Bool
  events : Option (List TransferEvent)
deriving DecidableEq, Repr

/-- What an action reads from `api`, from the `tokens` contract and from the host: the
sender, the transaction id, the block time in seconds, the precision of each registered
token, the answer of the `tokens` contract to `transferToContract` for a symbol and a
quantity sent to the contract, and the two day shifts of the host.  `dayAhead` is the
number of seconds from the block date to `blockDate.setDate(blockDate.getDate() + 1)`
and `dayBehind` the number of seconds back to `blockDate.setDate(blockDate.getDate() - 1)`:
`Date.getDate` and `Date.setDate` move one calendar day in the time zone of the host,
which is `86400` seconds on a host in UTC and `82800` or `90000` seconds across a
change of daylight saving time elsewhere. -/
structure Env where
  sender : String
  transactionId : String
  timestampSec : Int
  tokens : String → Option Nat
  transferToContract : String → Int → TransferResult
  dayAhead : Nat
  dayBehind : Nat

/-- The test of `buy`, `sell`, `marketBuy` and `marketSell` on the answer `res` to their
escrow request for `quantity` of `symbol`: `res.errors === undefined && res.events &&
res.events.find(el => el.contract === 'tokens' && el.event === 'transferToContract' &&
el.data.from === api.sender && el.data.to === CONTRACT_NAME &&
el.data.quantity === quantity && el.data.symbol === symbol) !== undefined`. -/
def Env.escrowOk (env : Env) (symbol : String) (quantity : Int) : Bool :=
  !(env.transferToContract symbol quantity).errors &&
  match (env.transferToContract symbol quantity).events with
  | none => false
  | some events =>
    (events.find? (fun el => el.contract == "tokens" && el.event == "transferToContract" &&
      el.fromAccount == env.sender && el.toAccount == CONTRACT_NAME &&
      el.quantity == quantity && el.symbol == symbol)).isSome

/-- Which book a table name designates. -/
inductive Table where
  | buyBook
  | sellBook
deriving DecidableEq, Repr

/-! ## The store -/

/-- Insert `x` in a list sorted by `le`, after the rows that come strictly before it. -/
def insertBy {α : Type} (le : α → α → Bool) (x : α) : List α → List α
  | [] => [x]
  | y :: ys => if le x y then x :: y :: ys else y :: insertBy le x ys

/-- Sort by `le` (insertion sort, stable). -/
def sortBy {α : Type} (le : α → α → Bool) : List α → List α
  | [] => []
  | x :: xs => insertBy le x (sortBy le xs)

/-- Source `api.db.find(table, query, limit, offset, indexes)`. -/
def dbFind {α : Type} (rows : List α) (query : α → Bool) (limit offset : Nat)
    (le : α → α → Bool) : List α :=
  ((sortBy le (rows.filter query)).drop offset).take limit

/-- No index requested: rows come in insertion order. -/
def noSort {α : Type} : α → α → Bool := fun _ _ => true

/-- Sort `[{ index: 'priceDec', descending: false }, { index: '_id', descending: false }]`. -/
def priceAsc (a b : Order) : Bool :=
  decide (a.price < b.price) || (decide (a.price = b.price) && decide (a.id ≤ b.id))

/-- Sort `[{ index: 'priceDec', descending: true }, { index: '_id', descending: false }]`. -/
def priceDesc (a b : Order) : Bool :=
  decide (b.price < a.price) || (decide (a.price = b.price) && decide (a.id ≤ b.id))

/-- Rows of a book. -/
def State.book (s : State) : Table → List Order
  | Table.buyBook => s.buyBook
  | Table.sellBook => s.sellBook

/-- Replace the rows of a book. -/
def State.setBook (s : State) : Table → List Order → State
  | Table.buyBook, rows => { s with buyBook := rows }
  | Table.sellBook, rows => { s with sellBook := rows }

/-- Source `api.db.remove(table, order)`: the row with the order's `_id` leaves the table. -/
def removeOrder (s : State) (t : Table) (o : Order) : State :=
  s.setBook t ((s.book t).filter (fun r => r.id != o.id))

/-- Source `api.db.update(table, order)`: the row with the order's `_id` is replaced. -/
def updateOrder (s : State) (t : Table) (o : Order) : State :=
  s.setBook t ((s.book t).map (fun r => if r.id = o.id then o else r))

/-- Source `api.db.insert(table, order)`: the row gets a fresh `_id` and is returned. -/
def insertOrder (s : State) (t : Table) (o : Order) : State × Order :=
  let row := { o with id := s.nextId }
  ({ s.setBook t (s.book t ++ [row]) with nextId := s.nextId + 1 }, row)

/-- Source `api.transferTokens(to, symbol, quantity, 'user')`. -/
def transferTokens (s : State) (toAccount symbol : String) (quantity : Int) : State :=
  { s with transfers := s.transfers ++ [⟨toAccount, symbol, quantity⟩] }

/-- Source `api.assert(condition, message)`: a false condition records the message. -/
def apiAssert (s : State) (condition : Bool) (message : String) : State :=
  if condition then s else { s with asserts := s.asserts ++ [message] }

/-! ## Metrics -/

/-- Number of seconds of a day of 24 hours: what `blockDate.setDate(blockDate.getDate() + 1)`
adds on a host in UTC. -/
def DAY : Nat := 86400

/-- The row `getMetric` inserts for a symbol that has none. -/
def defaultMetric (id : Nat) (symbol : String) : Metric :=
  { id := id, symbol := symbol, volume := 0, volumeExpiration := 0, lastPrice := 0,
    lowestAsk := 0, highestBid := 0, lastDayPrice := 0, lastDayPriceExpiration := 0,
    priceChangeSteem := 0, priceChangePercent := some 0 }

/-- Source `getMetric(symbol)`: the symbol's row, inserted first when missing. -/
def getMetric (s : State) (symbol : String) : State × Metric :=
  match s.metrics.find? (fun m => m.symbol == symbol) with
  | some m => (s, m)
  | none =>
    let m := defaultMetric s.nextId symbol
    ({ s with metrics := s.metrics ++ [m], nextId := s.nextId + 1 }, m)

/-- Source `api.db.update('metrics', metric)`. -/
def updateMetric (s : State) (m : Metric) : State :=
  { s with metrics := s.metrics.map (fun r => if r.id = m.id then m else r) }

/-- Source `updateVolumeMetric(symbol, quantity, add)`. -/
def updateVolumeMetric (env : Env) (symbol : String) (quantity : Int) (add : Bool)
    (s : State) : State :=
  let (s1, metric) := getMetric s symbol
  let metric1 : Metric :=
    if add then
      let volume0 := if metric.volumeExpiration < env.timestampSec then 0 else metric.volume
      { metric with
        volume := volume0 + quantity, volumeExpiration := env.timestampSec + env.dayAhead }
    else
      { metric with volume := metric.volume - quantity }
  let metric2 : Metric := if metric1.volume < 0 then { metric1 with volume := 0 } else metric1
  updateMetric s1 metric2

/-- The string `priceChangePercent` of `updatePriceMetrics`, in hundredths of a percent:
`change.dividedBy(lastDayPrice).multipliedBy(100).toFixed(2)`. -/
def percentChange (change lastDayPrice : Int) : Option Int :=
  if lastDayPrice = 0 then none
  else if 0 < lastDayPrice then some (roundHalfUp (divRound change lastDayPrice 20) 16)
  else some (roundHalfUp (divRound (-change) (-lastDayPrice) 20) 16)

/-- Source `updatePriceMetrics(symbol, price)`. -/
def updatePriceMetrics (env : Env) (symbol : String) (price : Int) (s : State) : State :=
  let (s1, metric) := getMetric s symbol
  let metric1 : Metric := { metric with lastPrice := price }
  let metric2 : Metric :=
    if metric1.lastDayPriceExpiration < env.timestampSec then
      { metric1 with lastDayPrice := price,
                     lastDayPriceExpiration := env.timestampSec + env.dayAhead,
                     priceChangeSteem := 0, priceChangePercent := some 0 }
    else
      { metric1 with priceChangeSteem := price - metric1.lastDayPrice,
                     priceChangePercent := percentChange (price - metric1.lastDayPrice)
                       metric1.lastDayPrice }
  updateMetric s1 metric2

/-- Source `updateBidMetric(symbol)`. -/
def updateBidMetric (symbol : String) (s : State) : State :=
  let (s1, metric) := getMetric s symbol
  let buyOrderBook := dbFind s1.buyBook (fun o => o.symbol == symbol) 1 0 priceDesc
  match buyOrderBook with
  | o :: _ => updateMetric s1 { metric with highestBid := o.price }
  | [] => updateMetric s1 { metric with highestBid := 0 }

/-- Source `updateAskMetric(symbol)`. -/
def updateAskMetric (symbol : String) (s : State) : State :=
  let (s1, metric) := getMetric s symbol
  let sellOrderBook := dbFind s1.sellBook (fun o => o.symbol == symbol) 1 0 priceAsc
  match sellOrderBook with
  | o :: _ => updateMetric s1 { metric with lowestAsk := o.price }
  | [] => updateMetric s1 { metric with lowestAsk := 0 }

/-! ## Trade history -/

/-- Source `api.db.remove('tradesHistory', trade)`. -/
def removeTrade (s : State) (t : Trade) : State :=
  { s with tradesHistory := s.tradesHistory.filter (fun r => r.id != t.id) }

/-- Query of the purge of `updateTradesHistory`: the symbol's rows with `timestamp` below
`timestampMinus24hrs`, which is the block date moved one calendar day back by
`blockDate.setDate(blockDate.getDate() - 1)`. -/
def oldTrade (env : Env) (symbol : String) (t : Trade) : Bool :=
  t.symbol == symbol && decide (t.timestamp < env.timestampSec - env.dayBehind)

/-- One pass of the purge: every row read is subtracted from the volume and removed. -/
def purgePass (env : Env) (s : State) (tradesToDelete : List Trade) : State :=
  tradesToDelete.foldl
    (fun st trade => removeTrade (updateVolumeMetric env trade.symbol trade.volume false st) trade)
    s

/-- The `while (nbTradesToDelete > 0)` loop of `updateTradesHistory`; `fuel` bounds the
number of pages read. -/
def purgeTrades (env : Env) (symbol : String) : Nat → State → State
  | 0, s => s
  | fuel + 1, s =>
    let tradesToDelete := dbFind s.tradesHistory (oldTrade env symbol) PAGE 0 noSort
    if tradesToDelete.length > 0 then
      purgeTrades env symbol fuel (purgePass env s tradesToDelete)
    else s

/-- Source `updateTradesHistory(type, buyer, seller, symbol, quantity, price, volume)`. -/
def updateTradesHistory (env : Env) (type : Side) (buyer seller symbol : String)
    (quantity price volume : Int) (s : State) : State :=
  let s1 := purgeTrades env symbol (s.tradesHistory.length + 1) s
  let newTrade : Trade :=
    { id := s1.nextId, type := type, buyer := buyer, seller := seller, symbol := symbol,
      quantity := quantity, price := price, timestamp := env.timestampSec, volume := volume }
  let s2 : State :=
    { s1 with tradesHistory := s1.tradesHistory ++ [newTrade], nextId := s1.nextId + 1 }
  updatePriceMetrics env symbol price s2

/-! ## Expiration sweeper -/

/-- Query of `removeExpiredOrders`: `expiration <= timestampSec`. -/
def expired (env : Env) (o : Order) : Bool := decide (o.expiration ≤ env.timestampSec)

/-- Body of the `for` loop of `removeExpiredOrders` for one order: refund, remove, then
the metric update (`updateAskMetric` for `buyBook`, `updateBidMetric` otherwise, as the
source has it). -/
def removeExpiredOrder (table : Table) (s : State) (order : Order) : State :=
  match table with
  | Table.buyBook =>
    updateAskMetric order.symbol
      (removeOrder (transferTokens s order.account STEEM_PEGGED_SYMBOL order.tokensLocked)
        Table.buyBook order)
  | Table.sellBook =>
    updateBidMetric order.symbol
      (removeOrder (transferTokens s order.account order.symbol order.quantity)
        Table.sellBook order)

/-- The `while (nbOrdersToDelete > 0)` loop of `removeExpiredOrders`; `fuel` bounds the
number of pages read. -/
def removeExpiredLoop (env : Env) (table : Table) : Nat → State → State
  | 0, s => s
  | fuel + 1, s =>
    let ordersToDelete := dbFind (s.book table) (expired env) PAGE 0 noSort
    if ordersToDelete.length > 0 then
      removeExpiredLoop env table fuel (ordersToDelete.foldl (removeExpiredOrder table) s)
    else s

/-- Source `removeExpiredOrders(table)`. -/
def removeExpiredOrders (env : Env) (table : Table) (s : State) : State :=
  removeExpiredLoop env table ((s.book table).length + 1) s

/-! ## Cancel -/

/-- The `id` field of a cancel payload as JavaScript sees it. -/
inductive IdField where
  | missing
  | str (id : String)
  | nonString
deriving DecidableEq, Repr

/-- Payload of `cancel`. -/
structure CancelPayload where
  type : String
  id : IdField
  isSignedWithActiveKey : Bool
deriving DecidableEq, Repr

/-- Truthiness of the `id` field. -/
def IdField.truthy : IdField → Bool
  | IdField.missing => false
  | IdField.str id => id != ""
  | IdField.nonString => true

/-- Source `actions.cancel`. -/
def cancel (env : Env) (payload : CancelPayload) (s : State) : State :=
  let s1 := apiAssert s payload.isSignedWithActiveKey
    "you must use a custom_json signed with your active key"
  if !payload.isSignedWithActiveKey then s1 else
  let valid := (payload.type == "buy" || payload.type == "sell") && payload.id.truthy
  let s2 := apiAssert s1 valid "invalid params"
  if !valid then s2 else
  let table := if payload.type == "buy" then Table.buyBook else Table.sellBook
  let order : Option Order :=
    match payload.id with
    | IdField.str id =>
      if id.length < 50 then (s2.book table).find? (fun o => o.txId == id) else none
    | _ => none
  let s3 := apiAssert s2 order.isSome "order does not exist or invalid params"
  match order with
  | none => s3
  | some order =>
    if order.account == env.sender then
      let s4 :=
        if payload.type == "buy" then
          transferTokens s3 env.sender STEEM_PEGGED_SYMBOL order.tokensLocked
        else
          transferTokens s3 env.sender order.symbol order.quantity
      let s5 := removeOrder s4 table order
      if payload.type == "sell" then updateAskMetric order.symbol s5
      else updateBidMetric order.symbol s5
    else s3

/-- Record a settled match in the observation log. -/
def recordFill (s : State) (maker : Order) (quantity amount locked : Int) : State :=
  { s with fills := s.fills ++ [⟨maker, quantity, amount, locked⟩] }

/-! ## The two loops shared by the four matching passes

Each pass has the same skeleton: an inner `while (inc < nbOrders && remaining > 0)` over
the page read, inside a `do ... while (page.length > 0 && remaining > 0)` that advances
`offset` by 1000 and reads the next page when something remains to fill. -/

/-- The inner `while` loop over one page: `body` is run on each row for as long as
`active` (the taker has a positive remaining quantity) holds. -/
def pageWhile {σ : Type} (body : σ → Order → σ) (active : σ → Bool) : σ → List Order → σ
  | m, [] => m
  | m, o :: rest => if active m then pageWhile body active (body m o) rest else m

/-- The `do ... while` loop over the pages; `fetch m offset` is the `api.db.find` of the
pass at that offset, `fuel` bounds the number of pages. -/
def pagesLoop {σ : Type} (body : σ → Order → σ) (active : σ → Bool)
    (fetch : σ → Nat → List Order) : Nat → σ → List Order → Nat → σ
  | 0, m, _, _ => m
  | fuel + 1, m, page, offset =>
    let m1 := pageWhile body active m page
    let offset1 := offset + PAGE
    let page1 := if active m1 then fetch m1 offset1 else page
    if page1.length > 0 ∧ active m1 then pagesLoop body active fetch fuel m1 page1 offset1
    else m1

/-! ## Matching engine: limit buy against the sell book -/

/-- Local variables of a limit-order matching pass: the store, the taker order (a local
copy, written back at the end) and `volumeTraded`. -/
structure Taker where
  st : State
  order : Order
  volumeTraded : Int
deriving DecidableEq, Repr

/-- The test `api.BigNumber(order.quantity).gt(0)` on the taker. -/
def Taker.active (m : Taker) : Bool := decide (m.order.quantity > 0)

/-- The dust threshold `'0.00000001'`, in units of `10^-8`. -/
def DUST : Int := 1

/-- Amount of peg token for `quantity` at `price`: the product to the nearest unit,
recomputed rounded down when the first amount is greater than `available`. -/
def cappedAmount (tokenPrecision : Nat) (price quantity available : Int) : Int :=
  let nearest := roundHalfUp (price * quantity) tokenPrecision
  if nearest > available then roundDown (price * quantity) tokenPrecision else nearest

/-- Update or removal of the resting sell order once a taker was fully filled against it
(shared by `findMatchingSellOrders` and `marketBuy`). -/
def settleRestingSell (tokenPrecision : Nat) (st : State) (symbol : String)
    (sellOrder : Order) (filled : Int) : State :=
  let qtyLeftSellOrder := sellOrder.quantity - filled
  let nbTokensToFillOrder := roundHalfUp (sellOrder.price * qtyLeftSellOrder) tokenPrecision
  if qtyLeftSellOrder > 0 ∧ nbTokensToFillOrder ≥ DUST then
    updateOrder st Table.sellBook { sellOrder with quantity := qtyLeftSellOrder }
  else
    removeOrder
      (if qtyLeftSellOrder > 0 then
        transferTokens st sellOrder.account symbol qtyLeftSellOrder
      else st)
      Table.sellBook sellOrder

/-- First branch of the body of `findMatchingSellOrders`
(`buyOrder.quantity <= sellOrder.quantity`): the taker is filled whole. -/
def buyFilledWhole (env : Env) (tokenPrecision : Nat) (m : Taker) (sellOrder : Order) :
    Taker :=
  let buyOrder := m.order
  let account := buyOrder.account
  let symbol := buyOrder.symbol
  let qtyTokensToSend :=
    cappedAmount tokenPrecision sellOrder.price buyOrder.quantity buyOrder.tokensLocked
  let ok := decide (qtyTokensToSend > 0) && decide (buyOrder.quantity > 0)
  let st0 := apiAssert m.st ok "the order cannot be filled"
  if ok then
    let st1 := transferTokens st0 account symbol buyOrder.quantity
    let st2 := transferTokens st1 sellOrder.account STEEM_PEGGED_SYMBOL qtyTokensToSend
    let st3 := settleRestingSell tokenPrecision st2 symbol sellOrder buyOrder.quantity
    let tokensToUnlock := buyOrder.tokensLocked - qtyTokensToSend
    let st4 :=
      if tokensToUnlock > 0 then transferTokens st3 account STEEM_PEGGED_SYMBOL tokensToUnlock
      else st3
    let st5 := updateTradesHistory env Side.buy account sellOrder.account symbol
      buyOrder.quantity sellOrder.price qtyTokensToSend st4
    let st6 := recordFill st5 sellOrder buyOrder.quantity qtyTokensToSend buyOrder.tokensLocked
    let buyOrder1 : Order := { buyOrder with quantity := 0 }
    { st := removeOrder st6 Table.buyBook buyOrder1, order := buyOrder1,
      volumeTraded := m.volumeTraded + qtyTokensToSend }
  else { m with st := st0 }

/-- Second branch of the body of `findMatchingSellOrders`: the resting sell order is
consumed whole and the taker keeps a remainder. -/
def sellOrderConsumed (env : Env) (tokenPrecision : Nat) (m : Taker) (sellOrder : Order) :
    Taker :=
  let buyOrder := m.order
  let account := buyOrder.account
  let symbol := buyOrder.symbol
  let qtyTokensToSend :=
    cappedAmount tokenPrecision sellOrder.price sellOrder.quantity buyOrder.tokensLocked
  let ok := decide (qtyTokensToSend > 0) && decide (buyOrder.quantity > 0)
  let st0 := apiAssert m.st ok "the order cannot be filled"
  if ok then
    let st1 := transferTokens st0 account symbol sellOrder.quantity
    let st2 := transferTokens st1 sellOrder.account STEEM_PEGGED_SYMBOL qtyTokensToSend
    let st3 := removeOrder st2 Table.sellBook sellOrder
    let buyOrder1 : Order :=
      { buyOrder with tokensLocked := buyOrder.tokensLocked - qtyTokensToSend,
                      quantity := buyOrder.quantity - sellOrder.quantity }
    let nbTokensToFillOrder := roundHalfUp (buyOrder1.price * buyOrder1.quantity) tokenPrecision
    let dust := decide (nbTokensToFillOrder < DUST)
    let buyOrder2 : Order := if dust then { buyOrder1 with quantity := 0 } else buyOrder1
    let st4 :=
      if dust then
        removeOrder (transferTokens st3 account STEEM_PEGGED_SYMBOL buyOrder1.tokensLocked)
          Table.buyBook buyOrder2
      else st3
    let st5 := updateTradesHistory env Side.buy account sellOrder.account symbol
      sellOrder.quantity sellOrder.price qtyTokensToSend st4
    let st6 := recordFill st5 sellOrder sellOrder.quantity qtyTokensToSend buyOrder.tokensLocked
    { st := st6, order := buyOrder2, volumeTraded := m.volumeTraded + qtyTokensToSend }
  else { m with st := st0 }

/-- Body of the `while` loop of `findMatchingSellOrders` for one resting sell order. -/
def matchSellOrder (env : Env) (tokenPrecision : Nat) (m : Taker) (sellOrder : Order) :
    Taker :=
  if m.order.quantity ≤ sellOrder.quantity then buyFilledWhole env tokenPrecision m sellOrder
  else sellOrderConsumed env tokenPrecision m sellOrder

/-- Query of `findMatchingSellOrders`: the symbol's sell orders with `priceDec <= priceDec`
of the taker. -/
def crossingSell (symbol : String) (priceDec : Int) (o : Order) : Bool :=
  o.symbol == symbol && decide (o.price ≤ priceDec)

/-- The paged `api.db.find` of `findMatchingSellOrders`; `symbol` and `priceDec` are the
constants destructured from the order at entry. -/
def fetchCrossingSells (symbol : String) (priceDec : Int) (m : Taker) (offset : Nat) :
    List Order :=
  dbFind m.st.sellBook (crossingSell symbol priceDec) PAGE offset priceAsc

/-- The sweep, the first page and the page loop of `findMatchingSellOrders`: everything
before the write-back of the taker and the metric updates. -/
def findMatchingSellOrdersLoop (env : Env) (order : Order) (tokenPrecision : Nat)
    (s : State) : Taker :=
  let s1 := removeExpiredOrders env Table.sellBook s
  let m0 : Taker := { st := s1, order := order, volumeTraded := 0 }
  pagesLoop (matchSellOrder env tokenPrecision) Taker.active
    (fetchCrossingSells order.symbol order.price) (s1.sellBook.length + 1) m0
    (fetchCrossingSells order.symbol order.price m0 0) 0

/-- The end of a matching pass: the volume metric when something was traded, then both
best-price metrics. -/
def finishMetrics (env : Env) (symbol : String) (volumeTraded : Int) (s : State) : State :=
  let s1 := if volumeTraded > 0 then updateVolumeMetric env symbol volumeTraded true s else s
  updateBidMetric symbol (updateAskMetric symbol s1)

/-- Source `findMatchingSellOrders(order, tokenPrecision)`. -/
def findMatchingSellOrders (env : Env) (order : Order) (tokenPrecision : Nat)
    (s : State) : State :=
  let m := findMatchingSellOrdersLoop env order tokenPrecision s
  let s2 := if m.order.quantity > 0 then updateOrder m.st Table.buyBook m.order else m.st
  finishMetrics env order.symbol m.volumeTraded s2

/-! ## Matching engine: limit sell against the buy book -/

/-- Update or removal of the resting buy order once a taker was fully filled against it
(shared by `findMatchingBuyOrders` and `marketSell`). -/
def settleRestingBuy (tokenPrecision : Nat) (st : State) (buyOrder : Order)
    (filled qtyTokensToSend : Int) : State :=
  let qtyLeftBuyOrder := buyOrder.quantity - filled
  let buyOrdertokensLocked := buyOrder.tokensLocked - qtyTokensToSend
  let nbTokensToFillOrder := roundHalfUp (buyOrder.price * qtyLeftBuyOrder) tokenPrecision
  if qtyLeftBuyOrder > 0 ∧ nbTokensToFillOrder ≥ DUST then
    updateOrder st Table.buyBook
      { buyOrder with quantity := qtyLeftBuyOrder, tokensLocked := buyOrdertokensLocked }
  else
    removeOrder
      (if buyOrdertokensLocked > 0 then
        transferTokens st buyOrder.account STEEM_PEGGED_SYMBOL buyOrdertokensLocked
      else st)
      Table.buyBook buyOrder

/-- Amount paid for a resting buy order that is consumed whole: `price * quantity` to
the nearest unit, recomputed rounded down when the string of the first amount is
greater (JavaScript `>` on the two strings) than the string `tokensLocked`. -/
def payForWholeBuyOrder (tokenPrecision : Nat) (buyOrder : Order) : Int :=
  let nearest := roundHalfUp (buyOrder.price * buyOrder.quantity) tokenPrecision
  if jsStringGt (toFixed8Codes nearest) (toFixed8Codes buyOrder.tokensLocked) then
    roundDown (buyOrder.price * buyOrder.quantity) tokenPrecision
  else nearest

/-- Settlement of a resting buy order consumed whole, up to its removal (shared by
`findMatchingBuyOrders` and `marketSell`): the symbol goes to the buyer, the amount to
the `seller`, what is left of the escrow goes back to the buyer. -/
def consumeBuyOrder (st : State) (seller symbol : String) (buyOrder : Order)
    (qtyTokensToSend : Int) : State :=
  let st1 := transferTokens st buyOrder.account symbol buyOrder.quantity
  let st2 := transferTokens st1 seller STEEM_PEGGED_SYMBOL qtyTokensToSend
  let buyOrdertokensLocked := buyOrder.tokensLocked - qtyTokensToSend
  let st3 :=
    if buyOrdertokensLocked > 0 then
      transferTokens st2 buyOrder.account STEEM_PEGGED_SYMBOL buyOrdertokensLocked
    else st2
  removeOrder st3 Table.buyBook buyOrder

/-- First branch of the body of `findMatchingBuyOrders`
(`sellOrder.quantity <= buyOrder.quantity`): the taker is filled whole. -/
def sellFilledWhole (env : Env) (tokenPrecision : Nat) (m : Taker) (buyOrder : Order) :
    Taker :=
  let sellOrder := m.order
  let account := sellOrder.account
  let symbol := sellOrder.symbol
  let qtyTokensToSend :=
    cappedAmount tokenPrecision buyOrder.price sellOrder.quantity buyOrder.tokensLocked
  let ok := decide (qtyTokensToSend > 0) && decide (sellOrder.quantity > 0)
  let st0 := apiAssert m.st ok "the order cannot be filled"
  if ok then
    let st1 := transferTokens st0 buyOrder.account symbol sellOrder.quantity
    let st2 := transferTokens st1 account STEEM_PEGGED_SYMBOL qtyTokensToSend
    let st3 := settleRestingBuy tokenPrecision st2 buyOrder sellOrder.quantity qtyTokensToSend
    let st4 := updateTradesHistory env Side.sell buyOrder.account account symbol
      sellOrder.quantity buyOrder.price qtyTokensToSend st3
    let st5 := recordFill st4 buyOrder sellOrder.quantity qtyTokensToSend buyOrder.tokensLocked
    let sellOrder1 : Order := { sellOrder with quantity := 0 }
    { st := removeOrder st5 Table.sellBook sellOrder1, order := sellOrder1,
      volumeTraded := m.volumeTraded + qtyTokensToSend }
  else { m with st := st0 }

/-- Second branch of the body of `findMatchingBuyOrders`: the resting buy order is
consumed whole and the taker keeps a remainder. -/
def buyOrderConsumed (env : Env) (tokenPrecision : Nat) (m : Taker) (buyOrder : Order) :
    Taker :=
  let sellOrder := m.order
  let account := sellOrder.account
  let symbol := sellOrder.symbol
  let qtyTokensToSend := payForWholeBuyOrder tokenPrecision buyOrder
  let ok := decide (qtyTokensToSend > 0) && decide (sellOrder.quantity > 0)
  let st0 := apiAssert m.st ok "the order cannot be filled"
  if ok then
    let st4 := consumeBuyOrder st0 account symbol buyOrder qtyTokensToSend
    let sellOrder1 : Order := { sellOrder with quantity := sellOrder.quantity - buyOrder.quantity }
    let nbTokensToFillOrder :=
      roundHalfUp (sellOrder1.price * sellOrder1.quantity) tokenPrecision
    let dust := decide (nbTokensToFillOrder < DUST)
    let sellOrder2 : Order := if dust then { sellOrder1 with quantity := 0 } else sellOrder1
    let st5 :=
      if dust then
        removeOrder (transferTokens st4 account symbol sellOrder1.quantity)
          Table.sellBook sellOrder2
      else st4
    let st6 := updateTradesHistory env Side.sell buyOrder.account account symbol
      buyOrder.quantity buyOrder.price qtyTokensToSend st5
    let st7 := recordFill st6 buyOrder buyOrder.quantity qtyTokensToSend buyOrder.tokensLocked
    { st := st7, order := sellOrder2, volumeTraded := m.volumeTraded + qtyTokensToSend }
  else { m with st := st0 }

/-- Body of the `while` loop of `findMatchingBuyOrders` for one resting buy order. -/
def matchBuyOrder (env : Env) (tokenPrecision : Nat) (m : Taker) (buyOrder : Order) :
    Taker :=
  if m.order.quantity ≤ buyOrder.quantity then sellFilledWhole env tokenPrecision m buyOrder
  else buyOrderConsumed env tokenPrecision m buyOrder

/-- Query of `findMatchingBuyOrders`: the symbol's buy orders with `priceDec >= priceDec`
of the taker. -/
def crossingBuy (symbol : String) (priceDec : Int) (o : Order) : Bool :=
  o.symbol == symbol && decide (priceDec ≤ o.price)

/-- The paged `api.db.find` of `findMatchingBuyOrders`. -/
def fetchCrossingBuys (symbol : String) (priceDec : Int) (m : Taker) (offset : Nat) :
    List Order :=
  dbFind m.st.buyBook (crossingBuy symbol priceDec) PAGE offset priceDesc

/-- The sweep, the first page and the page loop of `findMatchingBuyOrders`. -/
def findMatchingBuyOrdersLoop (env : Env) (order : Order) (tokenPrecision : Nat)
    (s : State) : Taker :=
  let s1 := removeExpiredOrders env Table.buyBook s
  let m0 : Taker := { st := s1, order := order, volumeTraded := 0 }
  pagesLoop (matchBuyOrder env tokenPrecision) Taker.active
    (fetchCrossingBuys order.symbol order.price) (s1.buyBook.length + 1) m0
    (fetchCrossingBuys order.symbol order.price m0 0) 0

/-- Source `findMatchingBuyOrders(order, tokenPrecision)`. -/
def findMatchingBuyOrders (env : Env) (order : Order) (tokenPrecision : Nat)
    (s : State) : State :=
  let m := findMatchingBuyOrdersLoop env order tokenPrecision s
  let s2 := if m.order.quantity > 0 then updateOrder m.st Table.sellBook m.order else m.st
  finishMetrics env order.symbol m.volumeTraded s2

/-! ## Limit orders: `buy` and `sell` -/

/-- The `expiration` field of a payload as JavaScript sees it: absent, an integer, or
anything else. -/
inductive ExpirationField where
  | undefined
  | int (n : Int)
  | invalid
deriving DecidableEq, Repr

/-- Payload of `buy` and of `sell` whose numbers are finite decimals.  `symbol`,
`quantity` and `price` are `none` when the field is missing or is not a string; for the
two numbers `none` also covers a string that `BigNumber` reads as `NaN`.  The strings
`Infinity` and `-Infinity`, which `BigNumber` reads as numbers too, are payloads of
`RawOrderPayload`, checked by `validatePlacement`. -/
structure OrderPayload where
  symbol : Option String
  quantity : Option Dec
  price : Option Dec
  expiration : ExpirationField
  isSignedWithActiveKey : Bool
deriving DecidableEq, Repr

/-- The test on `expiration` of the first `invalid params` assertion. -/
def ExpirationField.valid : ExpirationField → Bool
  | ExpirationField.undefined => true
  | ExpirationField.int n => decide (0 < n)
  | ExpirationField.invalid => false

/-- The value `order.expiration`: 30 days when absent or above 30 days. -/
def orderExpiration (timestampSec : Int) : ExpirationField → Int
  | ExpirationField.int n => if n > 2592000 then timestampSec + 2592000 else timestampSec + n
  | _ => timestampSec + 2592000

/-- Request of `transferToContract` to the `tokens` contract. -/
def requestEscrow (env : Env) (s : State) (symbol : String) (quantity : Int) : State :=
  { s with escrows := s.escrows ++ [⟨env.sender, symbol, quantity⟩] }

/-- What the validation of `buy` and `sell` hands over once every assertion passed. -/
structure ValidOrder where
  symbol : String
  precision : Nat
  price : Dec
  quantity : Dec
deriving DecidableEq, Repr

/-- Validation shared by `buy` and `sell`, up to the escrow, on a payload whose numbers
are finite decimals: the assertions are recorded in the state; the result carries the
symbol, the precision of the token, the price and the quantity when all of them pass.
It is `validatePlacement` on these payloads (`validatePlacement_toRaw`). -/
def validateOrder (env : Env) (payload : OrderPayload) (s : State) :
    State × Option ValidOrder :=
  let s1 := apiAssert s payload.isSignedWithActiveKey
    "you must use a custom_json signed with your active key"
  if !payload.isSignedWithActiveKey then (s1, none) else
  match payload.price, payload.symbol, payload.quantity with
  | some price, some symbol, some quantity =>
    let valid := symbol != "" && symbol != STEEM_PEGGED_SYMBOL && payload.expiration.valid
    let s2 := apiAssert s1 valid "invalid params"
    if !valid then (s2, none) else
    match env.tokens symbol with
    | none => (apiAssert s2 false "invalid params", none)
    | some precision =>
      let valid2 := price.gt0
        && decide (countDecimals price ≤ STEEM_PEGGED_SYMBOL_PRESICION)
        && decide (countDecimals quantity ≤ precision)
      let s3 := apiAssert s2 valid2 "invalid params"
      if !valid2 then (s3, none) else
      let fillable :=
        decide ((price.mul quantity).toFixed STEEM_PEGGED_SYMBOL_PRESICION ≥ DUST)
      let s4 := apiAssert s3 fillable "order cannot be placed as it cannot be filled"
      if !fillable then (s4, none) else (s4, some ⟨symbol, precision, price, quantity⟩)
  | _, _, _ => (apiAssert s1 false "invalid params", none)

/-- A string as `api.BigNumber` reads it: a finite decimal, `Infinity` or `-Infinity`
(`negative`), and `NaN` for every other string. -/
inductive BigNum where
  | nan
  | finite (d : Dec)
  | infinity (negative : Bool)
deriving DecidableEq, Repr

/-- Source `x.isNaN()`. -/
def BigNum.isNaN : BigNum → Bool
  | BigNum.nan => true
  | _ => false

/-- Source `x.gt(0)`. -/
def BigNum.gt0 : BigNum → Bool
  | BigNum.nan => false
  | BigNum.finite d => d.gt0
  | BigNum.infinity negative => !negative

/-- Source `x.dp()`: the number of decimals, `null` (here `none`) for `NaN` and for
`±Infinity`. -/
def BigNum.dp : BigNum → Option Nat
  | BigNum.finite d => some (countDecimals d)
  | _ => none

/-- JavaScript `x <= n` for `x` a count of decimals or `null`: `null` converts to `0`. -/
def decimalsLe (x : Option Nat) (n : Nat) : Bool :=
  match x with
  | some k => decide (k ≤ n)
  | none => decide (0 ≤ n)

/-- Source `a.multipliedBy(b)`: `NaN` when one factor is `NaN` or the product is
`Infinity * 0`, else the product with its sign. -/
def BigNum.mul : BigNum → BigNum → BigNum
  | BigNum.nan, _ => BigNum.nan
  | _, BigNum.nan => BigNum.nan
  | BigNum.finite a, BigNum.finite b => BigNum.finite (a.mul b)
  | BigNum.infinity negative, BigNum.finite b =>
    if b.mant = 0 then BigNum.nan else BigNum.infinity (xor negative (decide (b.mant < 0)))
  | BigNum.finite a, BigNum.infinity negative =>
    if a.mant = 0 then BigNum.nan else BigNum.infinity (xor (decide (a.mant < 0)) negative)
  | BigNum.infinity n1, BigNum.infinity n2 => BigNum.infinity (xor n1 n2)

/-- Source `x.toFixed(places)`, the string read again by `api.BigNumber`: the string is
`NaN`, `Infinity` or `-Infinity` when the number is. -/
def BigNum.toFixed (x : BigNum) (places : Nat) : BigNum :=
  match x with
  | BigNum.finite d => BigNum.finite ⟨d.toFixed places, places⟩
  | other => other

/-- Source `x.gte('0.00000001')`. -/
def BigNum.gteDust : BigNum → Bool
  | BigNum.nan => false
  | BigNum.finite d => decide (d.toFixed STEEM_PEGGED_SYMBOL_PRESICION ≥ DUST)
  | BigNum.infinity negative => !negative

/-- The number is `Infinity` or `-Infinity`, or a decimal with at most `n` decimals. -/
def BigNum.decimalsAtMost (x : BigNum) (n : Nat) : Bool :=
  match x with
  | BigNum.finite d => decide (countDecimals d ≤ n)
  | _ => true

/-- The number is `Infinity`, or a decimal that is at least `0.00000001` once rounded to 8
decimals. -/
def BigNum.atLeastDust (x : BigNum) : Bool :=
  match x with
  | BigNum.finite d => decide (DUST ≤ d.toFixed 8)
  | BigNum.infinity negative => !negative
  | BigNum.nan => false

/-- Payload of `buy` and of `sell`, any strings: `symbol`, `quantity` and `price` are
`none` when the field is missing, is empty or is not a string. -/
structure RawOrderPayload where
  symbol : Option String
  quantity : Option BigNum
  price : Option BigNum
  expiration : ExpirationField
  isSignedWithActiveKey : Bool
deriving DecidableEq, Repr

/-- What `validatePlacement` hands over once every assertion passed. -/
structure RawValidOrder where
  symbol : String
  precision : Nat
  price : BigNum
  quantity : BigNum
deriving DecidableEq, Repr

/-- Source `actions.buy` and `actions.sell` from their first line to the escrow request
(the four assertions), on any payload. -/
def validatePlacement (env : Env) (payload : RawOrderPayload) (s : State) :
    State × Option RawValidOrder :=
  let s1 := apiAssert s payload.isSignedWithActiveKey
    "you must use a custom_json signed with your active key"
  if !payload.isSignedWithActiveKey then (s1, none) else
  match payload.price, payload.symbol, payload.quantity with
  | some price, some symbol, some quantity =>
    let valid := !price.isNaN && symbol != "" && symbol != STEEM_PEGGED_SYMBOL
      && !quantity.isNaN && payload.expiration.valid
    let s2 := apiAssert s1 valid "invalid params"
    if !valid then (s2, none) else
    match env.tokens symbol with
    | none => (apiAssert s2 false "invalid params", none)
    | some precision =>
      let valid2 := price.gt0
        && decimalsLe price.dp STEEM_PEGGED_SYMBOL_PRESICION
        && decimalsLe quantity.dp precision
      let s3 := apiAssert s2 valid2 "invalid params"
      if !valid2 then (s3, none) else
      let nbTokensToLock := (price.mul quantity).toFixed STEEM_PEGGED_SYMBOL_PRESICION
      let fillable := nbTokensToLock.gteDust
      let s4 := apiAssert s3 fillable "order cannot be placed as it cannot be filled"
      if !fillable then (s4, none) else (s4, some ⟨symbol, precision, price, quantity⟩)
  | _, _, _ => (apiAssert s1 false "invalid params", none)

/-- The symbol and the quantity that `buy` passes to `transferToContract`:
`price.multipliedBy(quantity).toFixed(8)` of the peg token. -/
def buyRequest (env : Env) (payload : RawOrderPayload) (s : State) :
    Option (String × BigNum) :=
  (validatePlacement env payload s).2.map
    (fun v => (STEEM_PEGGED_SYMBOL,
      (v.price.mul v.quantity).toFixed STEEM_PEGGED_SYMBOL_PRESICION))

/-- The symbol and the quantity that `sell` passes to `transferToContract`: the
`quantity` of the payload, of its symbol. -/
def sellRequest (env : Env) (payload : RawOrderPayload) (s : State) :
    Option (String × BigNum) :=
  (validatePlacement env payload s).2.map (fun v => (v.symbol, v.quantity))

/-- A payload of finite decimals as a payload of strings. -/
def OrderPayload.toRaw (payload : OrderPayload) : RawOrderPayload :=
  ⟨payload.symbol, payload.quantity.map BigNum.finite, payload.price.map BigNum.finite,
    payload.expiration, payload.isSignedWithActiveKey⟩

/-- The order built by `buy` and `sell` before insertion. -/
def newOrder (env : Env) (expiration : ExpirationField) (v : ValidOrder)
    (tokensLocked : Int) : Order :=
  { id := 0, txId := env.transactionId, timestamp := env.timestampSec,
    account := env.sender, symbol := v.symbol,
    quantity := v.quantity.toFixed v.precision,
    price := v.price.toFixed STEEM_PEGGED_SYMBOL_PRESICION,
    tokensLocked := tokensLocked,
    expiration := orderExpiration env.timestampSec expiration }

/-- Source `actions.buy`. -/
def buy (env : Env) (payload : OrderPayload) (s : State) : State :=
  match validateOrder env payload s with
  | (s1, none) => s1
  | (s1, some v) =>
    let nbTokensToLock := (v.price.mul v.quantity).toFixed STEEM_PEGGED_SYMBOL_PRESICION
    let s2 := requestEscrow env s1 STEEM_PEGGED_SYMBOL nbTokensToLock
    if env.escrowOk STEEM_PEGGED_SYMBOL nbTokensToLock then
      let r := insertOrder s2 Table.buyBook (newOrder env payload.expiration v nbTokensToLock)
      findMatchingSellOrders env r.2 v.precision r.1
    else s2

/-- Source `actions.sell`. -/
def sell (env : Env) (payload : OrderPayload) (s : State) : State :=
  match validateOrder env payload s with
  | (s1, none) => s1
  | (s1, some v) =>
    let s2 := requestEscrow env s1 v.symbol (v.quantity.toFixed v.precision)
    if env.escrowOk v.symbol (v.quantity.toFixed v.precision) then
      let r := insertOrder s2 Table.sellBook (newOrder env payload.expiration v 0)
      findMatchingBuyOrders env r.2 v.precision r.1
    else s2

/-! ## Market orders -/

/-- Payload of `marketBuy` and of `marketSell`; `none` as in `OrderPayload`. -/
structure MarketPayload where
  symbol : Option String
  quantity : Option Dec
  isSignedWithActiveKey : Bool
deriving DecidableEq, Repr

/-- Local variables of a market-order sweep: the store, the input not yet spent
(`steempRemaining` of `marketBuy`, `tokensRemaining` of `marketSell`) and `volumeTraded`. -/
structure Sweep where
  st : State
  remaining : Int
  volumeTraded : Int
deriving DecidableEq, Repr

/-- The test `api.BigNumber(remaining).gt(0)` of the market loops. -/
def Sweep.active (m : Sweep) : Bool := decide (m.remaining > 0)

/-- What the validation of a market order hands over once it passed. -/
structure ValidMarket where
  symbol : String
  precision : Nat
  quantity : Dec
deriving DecidableEq, Repr

/-- Validation shared by `marketBuy` and `marketSell`; `maxDecimals` gives the number of
decimals allowed for the quantity from the precision of the token. -/
def validateMarket (env : Env) (payload : MarketPayload) (maxDecimals : Nat → Nat)
    (s : State) : State × Option ValidMarket :=
  let s1 := apiAssert s payload.isSignedWithActiveKey
    "you must use a custom_json signed with your active key"
  if !payload.isSignedWithActiveKey then (s1, none) else
  match payload.symbol, payload.quantity with
  | some symbol, some quantity =>
    if symbol != "" && symbol != STEEM_PEGGED_SYMBOL && quantity.gt0 then
      match env.tokens symbol with
      | none => (apiAssert s1 false "invalid params", none)
      | some precision =>
        let valid := decide (countDecimals quantity ≤ maxDecimals precision)
        let s2 := apiAssert s1 valid "invalid params"
        if valid then (s2, some ⟨symbol, precision, quantity⟩) else (s2, none)
    else (s1, none)
  | _, _ => (s1, none)

/-- The quantity `steempRemaining.dividedBy(price).toFixed(precision, ROUND_DOWN)` of
`marketBuy`, in units of the symbol; `none` is `Infinity` (a price of zero). -/
def marketBuyQuantity (steempRemaining price : Int) (precision : Nat) : Option Int :=
  if price = 0 then none
  else
    let q := if 0 < price then divRound steempRemaining price 20
             else divRound (-steempRemaining) (-price) 20
    if precision ≤ 20 then some (roundDown q (20 - precision))
    else some (q * 10 ^ (precision - 20))

/-- First branch of the body of `marketBuy`: what remains of the input buys
`qtyTokensToSend` of the resting sell order. -/
def marketBuyAll (env : Env) (symbol : String) (precision : Nat) (m : Sweep)
    (sellOrder : Order) (qtyTokensToSend : Int) : Sweep :=
  let steempRemaining := m.remaining
  let ok := decide (qtyTokensToSend > 0) && decide (steempRemaining > 0)
  let st0 := apiAssert m.st ok "the order cannot be filled"
  if ok then
    let st1 := transferTokens st0 env.sender symbol qtyTokensToSend
    let st2 := transferTokens st1 sellOrder.account STEEM_PEGGED_SYMBOL steempRemaining
    let st3 := settleRestingSell precision st2 symbol sellOrder qtyTokensToSend
    let st4 := updateTradesHistory env Side.buy env.sender sellOrder.account symbol
      qtyTokensToSend sellOrder.price steempRemaining st3
    let st5 := recordFill st4 sellOrder qtyTokensToSend steempRemaining steempRemaining
    { st := st5, remaining := 0, volumeTraded := m.volumeTraded + steempRemaining }
  else { m with st := st0 }

/-- Second branch of the body of `marketBuy`: the resting sell order is consumed whole. -/
def marketBuyWhole (env : Env) (symbol : String) (precision : Nat) (m : Sweep)
    (sellOrder : Order) : Sweep :=
  let steempRemaining := m.remaining
  let qtySteempToSend :=
    cappedAmount precision sellOrder.price sellOrder.quantity steempRemaining
  let ok := decide (qtySteempToSend > 0) && decide (steempRemaining > 0)
  let st0 := apiAssert m.st ok "the order cannot be filled"
  if ok then
    let st1 := transferTokens st0 env.sender symbol sellOrder.quantity
    let st2 := transferTokens st1 sellOrder.account STEEM_PEGGED_SYMBOL qtySteempToSend
    let st3 := removeOrder st2 Table.sellBook sellOrder
    let st4 := updateTradesHistory env Side.buy env.sender sellOrder.account symbol
      sellOrder.quantity sellOrder.price qtySteempToSend st3
    let st5 := recordFill st4 sellOrder sellOrder.quantity qtySteempToSend steempRemaining
    { st := st5, remaining := steempRemaining - qtySteempToSend,
      volumeTraded := m.volumeTraded + qtySteempToSend }
  else { m with st := st0 }

/-- Body of the `while` loop of `marketBuy` for one resting sell order. -/
def marketBuyOrder (env : Env) (symbol : String) (precision : Nat) (m : Sweep)
    (sellOrder : Order) : Sweep :=
  match marketBuyQuantity m.remaining sellOrder.price precision with
  | some qtyTokensToSend =>
    if qtyTokensToSend ≤ sellOrder.quantity ∧ qtyTokensToSend > 0 then
      marketBuyAll env symbol precision m sellOrder qtyTokensToSend
    else if qtyTokensToSend > 0 then marketBuyWhole env symbol precision m sellOrder
    else m
  | none => marketBuyWhole env symbol precision m sellOrder

/-- Query of the market orders: every order of the symbol. -/
def ofSymbol (symbol : String) (o : Order) : Bool := o.symbol == symbol

/-- The paged `api.db.find` of `marketBuy`. -/
def fetchSells (symbol : String) (m : Sweep) (offset : Nat) : List Order :=
  dbFind m.st.sellBook (ofSymbol symbol) PAGE offset priceAsc

/-- The sweep of expired orders, the first page and the page loop of `marketBuy`, for an
escrowed input of `quantity` units of the peg token. -/
def marketBuyLoop (env : Env) (symbol : String) (precision : Nat) (quantity : Int)
    (s : State) : Sweep :=
  let s1 := removeExpiredOrders env Table.sellBook s
  let m0 : Sweep := { st := s1, remaining := quantity, volumeTraded := 0 }
  pagesLoop (marketBuyOrder env symbol precision) Sweep.active (fetchSells symbol)
    (s1.sellBook.length + 1) m0 (fetchSells symbol m0 0) 0

/-- Source `actions.marketBuy`. -/
def marketBuy (env : Env) (payload : MarketPayload) (s : State) : State :=
  match validateMarket env payload (fun _ => STEEM_PEGGED_SYMBOL_PRESICION) s with
  | (s1, none) => s1
  | (s1, some v) =>
    let steemp := v.quantity.toFixed STEEM_PEGGED_SYMBOL_PRESICION
    let s2 := requestEscrow env s1 STEEM_PEGGED_SYMBOL steemp
    if env.escrowOk STEEM_PEGGED_SYMBOL steemp then
      let m := marketBuyLoop env v.symbol v.precision steemp s2
      let s3 :=
        if m.remaining > 0 then transferTokens m.st env.sender STEEM_PEGGED_SYMBOL m.remaining
        else m.st
      finishMetrics env v.symbol m.volumeTraded s3
    else s2

/-- First branch of the body of `marketSell` (`tokensRemaining <= buyOrder.quantity`):
the resting buy order takes all that remains. -/
def marketSellAll (env : Env) (symbol : String) (precision : Nat) (m : Sweep)
    (buyOrder : Order) : Sweep :=
  let tokensRemaining := m.remaining
  let qtyTokensToSend :=
    cappedAmount precision buyOrder.price tokensRemaining buyOrder.tokensLocked
  let ok := decide (qtyTokensToSend > 0) && decide (tokensRemaining > 0)
  let st0 := apiAssert m.st ok "the order cannot be filled"
  if ok then
    let st1 := transferTokens st0 buyOrder.account symbol tokensRemaining
    let st2 := transferTokens st1 env.sender STEEM_PEGGED_SYMBOL qtyTokensToSend
    let st3 := settleRestingBuy precision st2 buyOrder tokensRemaining qtyTokensToSend
    let st4 := updateTradesHistory env Side.sell buyOrder.account env.sender symbol
      tokensRemaining buyOrder.price qtyTokensToSend st3
    let st5 := recordFill st4 buyOrder tokensRemaining qtyTokensToSend buyOrder.tokensLocked
    { st := st5, remaining := 0, volumeTraded := m.volumeTraded + qtyTokensToSend }
  else { m with st := st0 }

/-- Second branch of the body of `marketSell`: the resting buy order is consumed whole. -/
def marketSellWhole (env : Env) (symbol : String) (precision : Nat) (m : Sweep)
    (buyOrder : Order) : Sweep :=
  let tokensRemaining := m.remaining
  let qtyTokensToSend := payForWholeBuyOrder precision buyOrder
  let ok := decide (qtyTokensToSend > 0) && decide (tokensRemaining > 0)
  let st0 := apiAssert m.st ok "the order cannot be filled"
  if ok then
    let st4 := consumeBuyOrder st0 env.sender symbol buyOrder qtyTokensToSend
    let st5 := updateTradesHistory env Side.sell buyOrder.account env.sender symbol
      buyOrder.quantity buyOrder.price qtyTokensToSend st4
    let st6 := recordFill st5 buyOrder buyOrder.quantity qtyTokensToSend buyOrder.tokensLocked
    { st := st6, remaining := tokensRemaining - buyOrder.quantity,
      volumeTraded := m.volumeTraded + qtyTokensToSend }
  else { m with st := st0 }

/-- Body of the `while` loop of `marketSell` for one resting buy order. -/
def marketSellOrder (env : Env) (symbol : String) (precision : Nat) (m : Sweep)
    (buyOrder : Order) : Sweep :=
  if m.remaining ≤ buyOrder.quantity then marketSellAll env symbol precision m buyOrder
  else marketSellWhole env symbol precision m buyOrder

/-- The paged `api.db.find` of `marketSell`. -/
def fetchBuys (symbol : String) (m : Sweep) (offset : Nat) : List Order :=
  dbFind m.st.buyBook (ofSymbol symbol) PAGE offset priceDesc

/-- The sweep of expired orders, the first page and the page loop of `marketSell`, for
an escrowed input of `quantity` units of the symbol. -/
def marketSellLoop (env : Env) (symbol : String) (precision : Nat) (quantity : Int)
    (s : State) : Sweep :=
  let s1 := removeExpiredOrders env Table.buyBook s
  let m0 : Sweep := { st := s1, remaining := quantity, volumeTraded := 0 }
  pagesLoop (marketSellOrder env symbol precision) Sweep.active (fetchBuys symbol)
    (s1.buyBook.length + 1) m0 (fetchBuys symbol m0 0) 0

/-- Source `actions.marketSell`. -/
def marketSell (env : Env) (payload : MarketPayload) (s : State) : State :=
  match validateMarket env payload (fun precision => precision) s with
  | (s1, none) => s1
  | (s1, some v) =>
    let tokens := v.quantity.toFixed v.precision
    let s2 := requestEscrow env s1 v.symbol tokens
    if env.escrowOk v.symbol tokens then
      let m := marketSellLoop env v.symbol v.precision tokens s2
      let s3 :=
        if m.remaining > 0 then transferTokens m.st env.sender v.symbol m.remaining
        else m.st
      finishMetrics env v.symbol m.volumeTraded s3
    else s2

/-! ## Actions and reachable states -/

/-- The five actions of the contract that touch the books. -/
inductive Action where
  | buy (payload : OrderPayload)
  | sell (payload : OrderPayload)
  | marketBuy (payload : MarketPayload)
  | marketSell (payload : MarketPayload)
  | cancel (payload : CancelPayload)
deriving DecidableEq, Repr

/-- One transaction: an action run to completion in its environment. -/
def step (env : Env) (a : Action) (s : State) : State :=
  match a with
  | Action.buy p => buy env p s
  | Action.sell p => sell env p s
  | Action.marketBuy p => marketBuy env p s
  | Action.marketSell p => marketSell env p s
  | Action.cancel p => cancel env p s

/-- The symbol and the quantity that the action asks `transferToContract` to escrow, once
its payload passed the validation: `round8(price * quantity)` peg tokens for `buy`, the
quantity of the symbol for `sell` and `marketSell`, the quantity of peg tokens for
`marketBuy`; `none` when the validation fails, and for `cancel`. -/
def escrowRequest (env : Env) (a : Action) (s : State) : Option (String × Int) :=
  match a with
  | Action.buy p =>
    match validateOrder env p s with
    | (_, some v) =>
      some (STEEM_PEGGED_SYMBOL, (v.price.mul v.quantity).toFixed STEEM_PEGGED_SYMBOL_PRESICION)
    | (_, none) => none
  | Action.sell p =>
    match validateOrder env p s with
    | (_, some v) => some (v.symbol, v.quantity.toFixed v.precision)
    | (_, none) => none
  | Action.marketBuy p =>
    match validateMarket env p (fun _ => STEEM_PEGGED_SYMBOL_PRESICION) s with
    | (_, some v) =>
      some (STEEM_PEGGED_SYMBOL, v.quantity.toFixed STEEM_PEGGED_SYMBOL_PRESICION)
    | (_, none) => none
  | Action.marketSell p =>
    match validateMarket env p (fun precision => precision) s with
    | (_, some v) => some (v.symbol, v.quantity.toFixed v.precision)
    | (_, none) => none
  | Action.cancel _ => none

/-- The answer `res` of `transferToContract` does not show the escrow of `quantity` of
`symbol` by `sender`: it carries errors, or it has no event with contract `tokens`, event
`transferToContract`, `from` the sender, `to` the contract `market`, and the symbol and
the quantity requested. -/
def EscrowRefused (res : TransferResult) (sender symbol : String) (quantity : Int) : Prop :=
  res.errors = true ∨
  ∀ events, res.events = some events → ∀ el ∈ events,
    ¬ (el.contract = "tokens" ∧ el.event = "transferToContract" ∧ el.fromAccount = sender ∧
      el.toAccount = "market" ∧ el.symbol = symbol ∧ el.quantity = quantity)

/-- Run a sequence of transactions. -/
def run : List (Env × Action) → State → State
  | [], s => s
  | (env, a) :: rest, s => run rest (step env a s)

/-- States reachable from the empty tables, all transactions seeing the same token
registry. -/
def Reachable (tokens : String → Option Nat) (s : State) : Prop :=
  ∃ txs : List (Env × Action), (∀ tx ∈ txs, tx.1.tokens = tokens) ∧ s = run txs State.empty

/-! ## Example transactions

A token `ABC` with one decimal, and transactions on it.  Quantities are counted in
tenths of `ABC`, prices and peg-token amounts in units of `10^-8`. -/

/-- Token registry of the examples: `ABC` has precision 1. -/
def exampleTokens : String → Option Nat := fun symbol => if symbol = "ABC" then some 1 else none

/-- The answer of a `tokens` contract that makes the transfer asked for: no error and the
one event of the transfer from `sender` to the contract. -/
def transferDone (sender symbol : String) (quantity : Int) : TransferResult :=
  ⟨false, some [⟨"tokens", "transferToContract", sender, CONTRACT_NAME, symbol, quantity⟩]⟩

/-- The answer of a `tokens` contract that moved one unit less than asked: no error, and
the event of a transfer whose quantity is not the one requested. -/
def transferShort (sender symbol : String) (quantity : Int) : TransferResult :=
  ⟨false, some [⟨"tokens", "transferToContract", sender, CONTRACT_NAME, symbol,
    quantity - 1⟩]⟩

/-- Environment of a transaction of the examples: the escrow always succeeds, and the host
is in UTC. -/
def exampleEnv (sender transactionId : String) (timestampSec : Int) : Env :=
  ⟨sender, transactionId, timestampSec, exampleTokens, transferDone sender, DAY, DAY⟩

/-- Environment of a transaction of the examples on a host whose calendar day after the
block time lasts `dayAhead` seconds and the one before it `dayBehind` seconds. -/
def hostEnv (sender transactionId : String) (timestampSec : Int) (dayAhead dayBehind : Nat) :
    Env :=
  ⟨sender, transactionId, timestampSec, exampleTokens, transferDone sender, dayAhead,
    dayBehind⟩

/-- A signed limit-order payload on `ABC` without expiration. -/
def limitPayload (quantity price : Dec) : OrderPayload :=
  ⟨some "ABC", some quantity, some price, ExpirationField.undefined, true⟩

/-- Bob buys `0.5 ABC` at `0.00000015`: the escrow is `round8(0.000000075) = 0.00000008`. -/
def bobBuysHalf : Env × Action :=
  (exampleEnv "bob" "b1" 100, Action.buy (limitPayload ⟨5, 1⟩ ⟨15, 8⟩))

/-- Alice sells `0.1 ABC` at `0.00000015` in transaction `txId`. -/
def aliceSellsTenth (txId : String) : Env × Action :=
  (exampleEnv "alice" txId 101, Action.sell (limitPayload ⟨1, 1⟩ ⟨15, 8⟩))

/-- Bob's resting buy order filled four times by Alice, `0.1 ABC` each time. -/
def fourFills : List (Env × Action) :=
  [bobBuysHalf, aliceSellsTenth "s1", aliceSellsTenth "s2", aliceSellsTenth "s3",
   aliceSellsTenth "s4"]

/-- Five resting sell orders of Alice, then Bob's buy order as the taker. -/
def fiveSellsThenBuy : List (Env × Action) :=
  [aliceSellsTenth "s1", aliceSellsTenth "s2", aliceSellsTenth "s3", aliceSellsTenth "s4",
   aliceSellsTenth "s5", bobBuysHalf]

/-- Alice rests a sell order of `4 ABC` at `1.0`; Bob then buys `10 ABC` at `2.0`. -/
def buyAboveAsk : List (Env × Action) :=
  [(exampleEnv "alice" "s1" 100, Action.sell (limitPayload ⟨4, 0⟩ ⟨1, 0⟩)),
   (exampleEnv "bob" "b1" 101, Action.buy (limitPayload ⟨10, 0⟩ ⟨2, 0⟩))]

/-- Two trades of `4 ABC` at `1.0` on a host in the time zone Europe/Paris, where
daylight saving time ended on 2019-10-27 at 01:00:00Z.  The first is at
2019-10-26T00:30:00Z (`1572049800`, 02:30 local time), the second 25 hours later at
2019-10-27T01:30:00Z (`1572139800`, 02:30 local time again): `setDate(getDate() - 1)`
moves that date back to 02:30 local time of the day before, `90000` seconds earlier. -/
def parisAutumn : List (Env × Action) :=
  [(hostEnv "alice" "s1" 1572049800 86400 86400, Action.sell (limitPayload ⟨4, 0⟩ ⟨1, 0⟩)),
   (hostEnv "bob" "b1" 1572049800 86400 86400, Action.buy (limitPayload ⟨4, 0⟩ ⟨1, 0⟩)),
   (hostEnv "alice" "s2" 1572139800 86400 90000, Action.sell (limitPayload ⟨4, 0⟩ ⟨1, 0⟩)),
   (hostEnv "bob" "b2" 1572139800 86400 90000, Action.buy (limitPayload ⟨4, 0⟩ ⟨1, 0⟩))]

/-- Peg-token amounts of a list of transfers, summed. -/
def pegSum (ts : List Transfer) : Int :=
  ((ts.filter (fun t => t.symbol == STEEM_PEGGED_SYMBOL)).map (fun t => t.quantity)).sum

/-- Amounts of `symbol` of a list of transfers, summed. -/
def symbolSum (symbol : String) (ts : List Transfer) : Int :=
  ((ts.filter (fun t => t.symbol == symbol)).map (fun t => t.quantity)).sum

/-! ## Frames: what a function leaves unchanged -/

/-- The state `s'` differs from `s` at most in the table `metrics` and in `nextId`. -/
def SameButMetrics (s s' : State) : Prop :=
  s'.buyBook = s.buyBook ∧ s'.sellBook = s.sellBook ∧ s'.tradesHistory = s.tradesHistory ∧
  s'.transfers = s.transfers ∧ s'.escrows = s.escrows ∧ s'.asserts = s.asserts ∧
  s'.fills = s.fills

/-- The state `s'` differs from `s` at most in the tables `tradesHistory` and `metrics` and
in `nextId`. -/
def SameButHistory (s s' : State) : Prop :=
  s'.buyBook = s.buyBook ∧ s'.sellBook = s.sellBook ∧
  s'.transfers = s.transfers ∧ s'.escrows = s.escrows ∧ s'.asserts = s.asserts ∧
  s'.fills = s.fills

/-! ## Invariants of the matching passes -/

/-- Invariant of the pass of a limit sell, symbol leg: the taker keeps its identity, the
symbol transferred since `base` plus the quantity the taker still holds is `Q`, and the
row of the taker is untouched in `sellBook` for as long as the taker holds something, and
is gone afterwards. -/
def SellLeg (base : List Transfer) (book0 : List Order) (row : Order) (Q : Int)
    (m : Taker) : Prop :=
  m.order.id = row.id ∧ m.order.symbol = row.symbol ∧
  (∃ new, m.st.transfers = base ++ new ∧ symbolSum row.symbol new + m.order.quantity = Q) ∧
  ((0 < m.order.quantity ∧ m.st.sellBook = book0) ∨
   (m.order.quantity = 0 ∧ m.st.sellBook = book0.filter (fun r => r.id != row.id)))

/-! ## Measures used by the statements -/

/-- Quantity held in `book` by the rows with the given `_id` (`0` when there is none). -/
def residualQuantity (book : List Order) (id : Nat) : Int :=
  ((book.filter (fun r => r.id == id)).map (fun r => r.quantity)).sum

/-- Bob's buy order of `10 ABC` at `1.0` (escrow `10`), resting alone. -/
def restingBuyTen : State :=
  run [(exampleEnv "bob" "b1" 100, Action.buy (limitPayload ⟨10, 0⟩ ⟨1, 0⟩))] State.empty

/-- Alice sells `4 ABC` at `1.0`. -/
def aliceSellsFour : Env × Action :=
  (exampleEnv "alice" "s1" 101, Action.sell (limitPayload ⟨4, 0⟩ ⟨1, 0⟩))

/-- Invariant of a market sweep: the amount of `sym` transferred since `base` plus what
remains of the input is `X`. -/
def InputLeg (base : List Transfer) (sym : String) (X : Int) (m : Sweep) : Prop :=
  ∃ new, m.st.transfers = base ++ new ∧ symbolSum sym new + m.remaining = X

/-- Alice's sell order of `10 ABC` at `2.0`, resting alone. -/
def restingSellTen : State :=
  run [(exampleEnv "alice" "s1" 100, Action.sell (limitPayload ⟨10, 0⟩ ⟨2, 0⟩))] State.empty

/-- A signed market-order payload on `ABC`. -/
def marketPayload (quantity : Dec) : MarketPayload := ⟨some "ABC", some quantity, true⟩

/-- The rows left by the purge of `updateTradesHistory`, as a function of the rows of
`tradesHistory` alone (`purgeTrades` also updates the volume metric). -/
def purgeList (env : Env) (symbol : String) : Nat → List Trade → List Trade
  | 0, l => l
  | fuel + 1, l =>
    let tradesToDelete := (l.filter (oldTrade env symbol)).take PAGE
    if tradesToDelete.length > 0 then
      purgeList env symbol fuel
        (tradesToDelete.foldl (fun acc t => acc.filter (fun r => r.id != t.id)) l)
    else l

/-- The rows of `tradesHistory` once a trade was recorded, without the new row. -/
def keptTrades (env : Env) (symbol : String) (l : List Trade) : List Trade :=
  purgeList env symbol (l.length + 1) l

/-- Outcome of a loop body that settled nothing: no trade, no transfer, no fill, the same
`volumeTraded`. -/
def NoFill (before after : Taker) : Prop :=
  after.st.tradesHistory = before.st.tradesHistory ∧
  after.st.transfers = before.st.transfers ∧
  after.st.fills = before.st.fills ∧
  after.volumeTraded = before.volumeTraded

/-- What a row of `tradesHistory` records, its `_id` apart. -/
structure TradeContent where
  type : Side
  buyer : String
  seller : String
  symbol : String
  quantity : Int
  price : Int
  timestamp : Int
  volume : Int
deriving DecidableEq, Repr

/-- The content of a row of `tradesHistory`. -/
def Trade.content (t : Trade) : TradeContent :=
  ⟨t.type, t.buyer, t.seller, t.symbol, t.quantity, t.price, t.timestamp, t.volume⟩

/-- Outcome of a loop body that settled a match with the resting order `maker`: exactly
one row is appended to `tradesHistory` (after the purge of the rows older than a day),
with the given type, buyer and seller, the quantity transferred to the buyer, the price
of the resting order, the amount transferred to the seller and the block time; the fill
is logged and the amount is added to `volumeTraded`. -/
def FillRecorded (env : Env) (type : Side) (buyer seller symbol : String) (maker : Order)
    (before after : Taker) : Prop :=
  ∃ (quantity amount locked : Int) (rest : List Transfer),
    after.st.tradesHistory.dropLast = keptTrades env symbol before.st.tradesHistory ∧
    after.st.tradesHistory.getLast?.map Trade.content
      = some ⟨type, buyer, seller, symbol, quantity, maker.price, env.timestampSec, amount⟩ ∧
    after.st.transfers = before.st.transfers ++
      ⟨buyer, symbol, quantity⟩ :: ⟨seller, STEEM_PEGGED_SYMBOL, amount⟩ :: rest ∧
    after.st.fills = before.st.fills ++ [⟨maker, quantity, amount, locked⟩] ∧
    0 < amount ∧
    after.volumeTraded = before.volumeTraded + amount

/-- Invariant of a limit-order matching pass, trade leg: `tradesHistory` is a part of the
rows it had at entry followed by the rows appended by the pass, whose volumes add up to
`volumeTraded`; the appended rows are not older than a day, nor are the others once a
row was appended. -/
def TradeLeg (env : Env) (symbol : String) (trades0 : List Trade) (m : Taker) : Prop :=
  m.order.symbol = symbol ∧
  ∃ kept appended : List Trade,
    m.st.tradesHistory = kept ++ appended ∧ kept.Sublist trades0 ∧
    (appended.map (fun t => t.volume)).sum = m.volumeTraded ∧
    (∀ t ∈ appended, oldTrade env symbol t = false) ∧
    (appended ≠ [] → ∀ t ∈ kept, oldTrade env symbol t = false)

/-- The rows left in a book by the sweep of `removeExpiredOrders`, as a function of the
rows of the book alone. -/
def sweepList (env : Env) : Nat → List Order → List Order
  | 0, l => l
  | fuel + 1, l =>
    let ordersToDelete := (l.filter (expired env)).take PAGE
    if ordersToDelete.length > 0 then
      sweepList env fuel
        (ordersToDelete.foldl (fun acc o => acc.filter (fun r => r.id != o.id)) l)
    else l

/-- The book once `removeExpiredOrders` has run on it. -/
def sweptBook (env : Env) (l : List Order) : List Order := sweepList env (l.length + 1) l

/-- Invariant of the pass of a limit buy, escrow leg: the taker keeps its `_id` and its
price; while it has a quantity left, the quantity is `Q` less the quantities filled since
`fills0` and `tokensLocked` is `L` less the amounts paid; once it has none, no row of
`buyBook` carries its `_id`. -/
def TakerEscrow (fills0 : List Fill) (id : Nat) (P Q L : Int) (m : Taker) : Prop :=
  m.order.id = id ∧ m.order.price = P ∧
  ∃ new : List Fill, m.st.fills = fills0 ++ new ∧
    (0 < m.order.quantity →
      m.order.quantity = Q - (new.map (fun f => f.quantity)).sum ∧
      m.order.tokensLocked = L - (new.map (fun f => f.amount)).sum) ∧
    (m.order.quantity ≤ 0 → ∀ r ∈ m.st.buyBook, r.id ≠ id)

/-- Alice's resting sell order of `4 ABC` at `1.0`, the state before Bob's buy. -/
def restingSellFour : State := run (buyAboveAsk.take 1) State.empty

/-- Alice's sell order of `1 ABC` at `1.0` with the given `_id`. -/
def unitSell (id : Nat) : Order :=
  ⟨id, "s", 100, "alice", "ABC", 10, 100000000, 0, 2592100⟩

/-- A store whose sell book holds `1001` sell orders of `1 ABC` at `1.0`, in the order of
their insertion. -/
def thousandAndOneSells : State :=
  { State.empty with sellBook := (List.range 1001).map unitSell, nextId := 1001 }

/-- Token registry with two tokens: `ABC` has precision 1, `XYZ` has precision 0. -/
def twoTokens : String → Option Nat :=
  fun symbol => if symbol = "ABC" then some 1 else if symbol = "XYZ" then some 0 else none

/-- Environment of a transaction seeing `twoTokens` (the escrow always succeeds, the host
is in UTC). -/
def twoEnv (sender transactionId : String) (timestampSec : Int) : Env :=
  ⟨sender, transactionId, timestampSec, twoTokens, transferDone sender, DAY, DAY⟩

/-- A signed limit-order payload on `symbol`. -/
def orderPayload (symbol : String) (quantity price : Dec) (expiration : ExpirationField) :
    OrderPayload :=
  ⟨some symbol, some quantity, some price, expiration, true⟩

/-- Alice rests a sell order of `10 XYZ` at `2.0`; Bob then sends a market buy of
`15` peg tokens. -/
def marketBuyFifteen : List (Env × Action) :=
  [(twoEnv "alice" "s1" 100,
      Action.sell (orderPayload "XYZ" ⟨10, 0⟩ ⟨2, 0⟩ ExpirationField.undefined)),
   (twoEnv "bob" "m1" 101, Action.marketBuy ⟨some "XYZ", some ⟨15, 0⟩, true⟩)]

/-- Alice rests a sell order of `10 XYZ` at `2.0`; Bob then sends a market buy of
`1` peg token. -/
def marketBuyOne : List (Env × Action) :=
  [(twoEnv "alice" "s1" 100,
      Action.sell (orderPayload "XYZ" ⟨10, 0⟩ ⟨2, 0⟩ ExpirationField.undefined)),
   (twoEnv "bob" "m1" 101, Action.marketBuy ⟨some "XYZ", some ⟨1, 0⟩, true⟩)]

/-- Bob buys `1 ABC` at `2.0` with an expiration of 10 seconds at time 100; at time 200
Alice sells `1 XYZ` at `1.0`. -/
def expiredBuyThenOtherSell : List (Env × Action) :=
  [(twoEnv "bob" "b1" 100,
      Action.buy (orderPayload "ABC" ⟨1, 0⟩ ⟨2, 0⟩ (ExpirationField.int 10))),
   (twoEnv "alice" "s1" 200,
      Action.sell (orderPayload "XYZ" ⟨1, 0⟩ ⟨1, 0⟩ ExpirationField.undefined))]

/-- Alice sells `0.5 ABC` at `0.00000001`. -/
def halfUnitSell : List (Env × Action) :=
  [(exampleEnv "alice" "s1" 100, Action.sell (limitPayload ⟨5, 1⟩ ⟨1, 8⟩))]

/-- The two rows are the same order up to `quantity` and `tokensLocked`, the two fields
a fill changes. -/
def SameOrder (a b : Order) : Prop :=
  a.id = b.id ∧ a.txId = b.txId ∧ a.timestamp = b.timestamp ∧ a.account = b.account ∧
  a.symbol = b.symbol ∧ a.price = b.price ∧ a.expiration = b.expiration

/-- The other book. -/
def Table.opposite : Table → Table
  | Table.buyBook => Table.sellBook
  | Table.sellBook => Table.buyBook

/-- The refund `removeExpiredOrders(table)` issues for an order it removes: `tokensLocked`
of the peg token for a buy order, `quantity` of the order's symbol for a sell order. -/
def refundOf (table : Table) (o : Order) : Transfer :=
  match table with
  | Table.buyBook => ⟨o.account, STEEM_PEGGED_SYMBOL, o.tokensLocked⟩
  | Table.sellBook => ⟨o.account, o.symbol, o.quantity⟩

/-- Bob's buy order of `1 ABC` at `2.0`, which expires at time 110, rests alone. -/
def shortLivedBuy : State := run (expiredBuyThenOtherSell.take 1) State.empty

/-- The empty tables at time 100, seen by Bob's transaction `b1`: the entry of the
scenario of a limit buy with nothing to match. -/
def bobBuysTen : Env × OrderPayload :=
  (exampleEnv "bob" "b1" 100, limitPayload ⟨10, 0⟩ ⟨2, 0⟩)

/-- The value `updateBidMetric` stores in `highestBid`: the price of the first row of the
symbol's buy orders sorted by price, highest first, `0` when there is none. -/
def bestBid (book : List Order) (symbol : String) : Int :=
  match dbFind book (fun o => o.symbol == symbol) 1 0 priceDesc with
  | o :: _ => o.price
  | [] => 0

/-- The value `updateAskMetric` stores in `lowestAsk`: the price of the first row of the
symbol's sell orders sorted by price, lowest first, `0` when there is none. -/
def bestAsk (book : List Order) (symbol : String) : Int :=
  match dbFind book (fun o => o.symbol == symbol) 1 0 priceAsc with
  | o :: _ => o.price
  | [] => 0

/-- The book `cancel` looks in: `type === 'buy' ? 'buyBook' : 'sellBook'`. -/
def cancelTable (type : String) : Table :=
  if type == "buy" then Table.buyBook else Table.sellBook

/-- The value `v` is the best bid of `symbol` in `book`: the highest price among the
rows of the symbol, `0` when the book has no row of the symbol. -/
def IsBestBid (book : List Order) (symbol : String) (v : Int) : Prop :=
  (∃ b ∈ book, b.symbol = symbol ∧ v = b.price ∧
    ∀ r ∈ book, r.symbol = symbol → r.price ≤ b.price) ∨
  ((∀ r ∈ book, r.symbol ≠ symbol) ∧ v = 0)

/-- The value `v` is the best ask of `symbol` in `book`: the lowest price among the
rows of the symbol, `0` when the book has no row of the symbol. -/
def IsBestAsk (book : List Order) (symbol : String) (v : Int) : Prop :=
  (∃ b ∈ book, b.symbol = symbol ∧ v = b.price ∧
    ∀ r ∈ book, r.symbol = symbol → b.price ≤ r.price) ∨
  ((∀ r ∈ book, r.symbol ≠ symbol) ∧ v = 0)

/-- A cancel of the order of transaction `id` in the book of `type`, signed. -/
def cancelPayload (type id : String) : CancelPayload := ⟨type, IdField.str id, true⟩

/-- The metric row of `symbol` holds the best prices of the two books: `highestBid` is
the highest price of the symbol's buy orders and `lowestAsk` the lowest price of its sell
orders, each `0` when the symbol has no order on that side. -/
def BestPrices (s : State) (symbol : String) : Prop :=
  ∃ m, s.metrics.find? (fun m => m.symbol == symbol) = some m ∧
    IsBestBid s.buyBook symbol m.highestBid ∧ IsBestAsk s.sellBook symbol m.lowestAsk

/-- The conditions under which `buy` and `sell` request the escrow, as the specification
lists them: signed with the active key; `symbol` a non-empty string other than the peg
symbol; `price` and `quantity` numeric strings; `expiration` absent or a positive
integer; the symbol names a registered token; `price > 0` with at most 8 decimals;
`quantity` with at most the token's precision decimals; and
`round8(price * quantity) >= 0.00000001`. -/
def orderValid (env : Env) (payload : OrderPayload) : Bool :=
  payload.isSignedWithActiveKey &&
  match payload.symbol, payload.price, payload.quantity with
  | some symbol, some price, some quantity =>
    symbol != "" && symbol != STEEM_PEGGED_SYMBOL && payload.expiration.valid &&
    (match env.tokens symbol with
     | some precision =>
       decide (0 < price.mant) && decide (countDecimals price ≤ 8) &&
       decide (countDecimals quantity ≤ precision)
     | none => false) &&
    decide (DUST ≤ (price.mul quantity).toFixed 8)
  | _, _, _ => false

/-- The conditions of `orderValid` for a payload of any strings, `Infinity` and
`-Infinity` counting as numbers: signed with the active key; `symbol` a non-empty string
other than the peg symbol that names a registered token; `price` and `quantity` strings
that `BigNumber` does not read as `NaN`; `expiration` absent or a positive integer;
`price > 0`; a finite `price` has at most 8 decimals and a finite `quantity` at most the
token's precision decimals; and `price * quantity` is `Infinity`, or finite with
`round8(price * quantity) >= 0.00000001`. -/
def placementValid (env : Env) (payload : RawOrderPayload) : Bool :=
  payload.isSignedWithActiveKey &&
  match payload.symbol, payload.price, payload.quantity with
  | some symbol, some price, some quantity =>
    symbol != "" && symbol != STEEM_PEGGED_SYMBOL && payload.expiration.valid &&
    price != BigNum.nan && quantity != BigNum.nan &&
    (match env.tokens symbol with
     | some precision =>
       price.gt0 && price.decimalsAtMost 8 && quantity.decimalsAtMost precision
     | none => false) &&
    (price.mul quantity).atLeastDust
  | _, _, _ => false

/-- The state `s'` is `s` with messages added to the assertion log, and nothing else. -/
def OnlyAsserts (s s' : State) : Prop :=
  ∃ msgs, s' = { s with asserts := s.asserts ++ msgs }

/-- The volume left when the volumes of the purged trades are subtracted one after the
other from `v0`, each result clamped at zero. -/
def purgedVolume (v0 : Int) (ts : List Trade) : Int :=
  ts.foldl (fun v t => max 0 (v - t.volume)) v0

/-- The order is above the dust threshold as the contract measures it: its symbol is a
registered token and `price * quantity`, rounded to 8 decimals, is at least
`0.00000001`. -/
def AboveDust (tokens : String → Option Nat) (o : Order) : Prop :=
  ∃ p, tokens o.symbol = some p ∧ DUST ≤ roundHalfUp (o.price * o.quantity) p

/-- Every resting order of the two books is above the dust threshold. -/
def DustFree (tokens : String → Option Nat) (s : State) : Prop :=
  ∀ o ∈ s.buyBook ++ s.sellBook, AboveDust tokens o

/-- Invariant of a limit-order matching pass for the dust threshold: every resting order
of the two books is above it, and so is the taker for as long as it holds a positive
quantity. -/
def TakerAboveDust (tokens : String → Option Nat) (symbol : String) (prec : Nat)
    (m : Taker) : Prop :=
  (∀ r ∈ m.st.buyBook, AboveDust tokens r) ∧ (∀ r ∈ m.st.sellBook, AboveDust tokens r) ∧
  (m.order.quantity > 0 → DUST ≤ roundHalfUp (m.order.price * m.order.quantity) prec) ∧
  m.order.symbol = symbol

/-- Invariant of a market-order sweep for the dust threshold: every resting order of the
two books is above it. -/
def SweepAboveDust (tokens : String → Option Nat) (m : Sweep) : Prop :=
  (∀ r ∈ m.st.buyBook, AboveDust tokens r) ∧ (∀ r ∈ m.st.sellBook, AboveDust tokens r)

/-- The sweep of `marketBuy` for a validated payload: the state of its loop when it
ends, before the refund and the metric updates. -/
def marketBuySweep (env : Env) (v : ValidMarket) (s : State) : Sweep :=
  marketBuyLoop env v.symbol v.precision (v.quantity.toFixed STEEM_PEGGED_SYMBOL_PRESICION)
    (requestEscrow env s STEEM_PEGGED_SYMBOL
      (v.quantity.toFixed STEEM_PEGGED_SYMBOL_PRESICION))

/-- The sweep of `marketSell` for a validated payload. -/
def marketSellSweep (env : Env) (v : ValidMarket) (s : State) : Sweep :=
  marketSellLoop env v.symbol v.precision (v.quantity.toFixed v.precision)
    (requestEscrow env s v.symbol (v.quantity.toFixed v.precision))

/-- The body of the loop of `marketBuy`, reaching the sell order `o` with `X` peg tokens
left, settles nothing: either `X` buys no positive quantity at the order's price, or it
buys more than the order holds and the amount to pay for the whole order is not
positive. -/
def UnfilledBySpend (prec : Nat) (X : Int) (o : Order) : Prop :=
  match marketBuyQuantity X o.price prec with
  | some q => q ≤ 0 ∨ (o.quantity < q ∧ cappedAmount prec o.price o.quantity X ≤ 0)
  | none => cappedAmount prec o.price o.quantity X ≤ 0

/-- The body of the loop of `marketSell`, reaching the buy order `o` with `X` of the
symbol left, settles nothing: the amount the order would pay (for `X` when the order can
take it all, for its whole quantity otherwise) is not positive. -/
def UnfilledBySale (prec : Nat) (X : Int) (o : Order) : Prop :=
  (X ≤ o.quantity ∧ cappedAmount prec o.price X o.tokensLocked ≤ 0) ∨
  (o.quantity < X ∧ payForWholeBuyOrder prec o ≤ 0)

/-- Alice's sell order of `10 XYZ` at `2.0`, resting alone (`XYZ` has precision 0). -/
def restingSellXYZ : State := run (marketBuyOne.take 1) State.empty

/-! ## A resting buy order that holds more than its price times its quantity -/

/-- Alice rests a sell order of `0.5 ABC` at `1.0`; Bob buys `1 ABC` at `18.00000001`
(escrow `18.00000001`), takes Alice's order for `0.5` and rests with quantity `0.5` and
`tokensLocked = 17.50000001`. -/
def surplusBuy : List (Env × Action) :=
  [(exampleEnv "alice" "s1" 100, Action.sell (limitPayload ⟨5, 1⟩ ⟨1, 0⟩)),
   (exampleEnv "bob" "b1" 101, Action.buy (limitPayload ⟨1, 0⟩ ⟨1800000001, 8⟩))]

/-- Carol then sells `0.6 ABC` at `1.0`: Bob's order is consumed whole. -/
def surplusBuyThenSell : List (Env × Action) :=
  surplusBuy ++ [(exampleEnv "carol" "s2" 102, Action.sell (limitPayload ⟨6, 1⟩ ⟨1, 0⟩))]

/-- Carol sells `0.6 ABC` at market instead. -/
def surplusBuyThenMarketSell : List (Env × Action) :=
  surplusBuy ++ [(exampleEnv "carol" "s2" 102, Action.marketSell (marketPayload ⟨6, 1⟩))]

/-! ## The witnesses contract (`contracts/witnesses.js`)

Approval weights are decimal strings written by `toFixed(UTILITY_TOKEN_PRECISION)`; they
are counted here in units of `10^-UTILITY_TOKEN_PRECISION`, the stakes of the `tokens`
contract being multiples of that unit. -/

/-- Source constant `NB_VOTES_ALLOWED`. -/
def NB_VOTES_ALLOWED : Int := 30

/-- A row of `witnesses` (the network fields written by `register` are left out). -/
structure Witnesses.Witness where
  id : Nat
  account : String
  approvalWeight : Int
deriving DecidableEq, Repr

/-- A row of `votes`: `{ from, to }`. -/
structure Witnesses.Vote where
  id : Nat
  fromAccount : String
  toAccount : String
deriving DecidableEq, Repr

/-- A record of `accounts`.  `id` is the `_id` of the stored row; a record the contract
built itself and did not read back from the store has none. -/
structure Witnesses.Account where
  id : Option Nat
  account : String
  votes : Int
  approvalWeight : Int
deriving DecidableEq, Repr

/-- The one row of `params`, inserted by `createSSC`. -/
structure Witnesses.Params where
  totalApprovalWeight : Int
  numberOfApprovedWitnesses : Int
deriving DecidableEq, Repr

/-- The tables of the contract, the counter giving `_id` to inserted rows, the messages
of the failed assertions and the errors thrown by the action. -/
structure Witnesses.State where
  witnesses : List Witnesses.Witness
  votes : List Witnesses.Vote
  accounts : List Witnesses.Account
  params : Witnesses.Params
  nextId : Nat
  asserts : List String
  errors : List String
deriving DecidableEq, Repr

/-- What `vote` and `unvote` read from `api`: the sender and the fields `stake` and
`delegationsIn` of the sender's balance of the utility token (`none` when the balance
or the field is missing). -/
structure Witnesses.Env where
  sender : String
  stake : Option Int
  delegationsIn : Option Int

/-- The payload of `vote` and `unvote`; `none` when `witness` is missing or not a
string. -/
structure Witnesses.Payload where
  witness : Option String
deriving DecidableEq, Repr

/-- Source `api.assert(condition, message)` in the witnesses contract. -/
def Witnesses.apiAssert (s : Witnesses.State) (condition : Bool) (message : String) :
    Witnesses.State :=
  if condition then s else { s with asserts := s.asserts ++ [message] }

/-- Modelled from the spec: the repository collaborator `insert(table, row) -> storedRow`
of the contract API, whose code is not in the contract: the stored row gets a fresh
`_id`; the record handed in is left as it was. -/
def Witnesses.insertAccount (s : Witnesses.State) (acct : Witnesses.Account) :
    Witnesses.State × Witnesses.Account :=
  let row := { acct with id := some s.nextId }
  ({ s with accounts := s.accounts ++ [row], nextId := s.nextId + 1 }, row)

/-- Modelled from the spec: the repository collaborator `update(table, row)`: the stored
row that carries the `_id` of the record is replaced; a record without `_id` designates
no stored row. -/
def Witnesses.updateAccount (s : Witnesses.State) (acct : Witnesses.Account) :
    Witnesses.State :=
  match acct.id with
  | none => s
  | some i => { s with accounts := s.accounts.map (fun r => if r.id = some i then acct else r) }

/-- Modelled from the spec: `update(table, row)` on `witnesses`, by `_id`. -/
def Witnesses.updateWitness (s : Witnesses.State) (w : Witnesses.Witness) : Witnesses.State :=
  { s with witnesses := s.witnesses.map (fun r => if r.id = w.id then w else r) }

/-- Modelled from the spec: `insert(table, row)` on `votes`. -/
def Witnesses.insertVote (s : Witnesses.State) (fromAccount toAccount : String) :
    Witnesses.State :=
  { s with votes := s.votes ++ [⟨s.nextId, fromAccount, toAccount⟩], nextId := s.nextId + 1 }

/-- Modelled from the spec: `remove(table, row)` on `votes`, by `_id`. -/
def Witnesses.removeVote (s : Witnesses.State) (v : Witnesses.Vote) : Witnesses.State :=
  { s with votes := s.votes.filter (fun r => r.id != v.id) }

/-- Source `updateWitnessRank(witness, approvalWeight)`. -/
def Witnesses.updateWitnessRank (s : Witnesses.State) (witness : String)
    (approvalWeight : Int) : Witnesses.State :=
  match s.witnesses.find? (fun w => w.account = witness) with
  | none => s
  | some witnessRec =>
    let oldApprovalWeight := witnessRec.approvalWeight
    let newRec := { witnessRec with approvalWeight := oldApprovalWeight + approvalWeight }
    let s1 := Witnesses.updateWitness s newRec
    let total := s1.params.totalApprovalWeight + approvalWeight
    let number :=
      if oldApprovalWeight = 0 ∧ newRec.approvalWeight > 0 then
        s1.params.numberOfApprovedWitnesses + 1
      else if oldApprovalWeight > 0 ∧ newRec.approvalWeight = 0 then
        s1.params.numberOfApprovedWitnesses - 1
      else s1.params.numberOfApprovedWitnesses
    { s1 with params := ⟨total, number⟩ }

/-- JavaScript `s.length`: the number of UTF-16 code units of the string, two for a
character above `U+FFFF`. -/
def Witnesses.jsLength (s : String) : Nat :=
  (s.data.map (fun c => if c.toNat < 65536 then 1 else 2)).sum

/-- The test of the first assertion of `vote` and `unvote` on `payload.witness`. -/
def Witnesses.validWitness : Option String → Bool
  | none => false
  | some w => decide (3 ≤ Witnesses.jsLength w ∧ Witnesses.jsLength w ≤ 16)

/-- The approval weight of the sender: `stake`, plus `delegationsIn` when present. -/
def Witnesses.senderWeight (env : Witnesses.Env) : Int :=
  env.stake.getD 0 + env.delegationsIn.getD 0

/-- The account record of the sender as `vote` and `unvote` hold it after the lookup:
the stored row, or a new record that is inserted and kept as it was built (the record
returned by the insert is not used). -/
def Witnesses.senderAccount (env : Witnesses.Env) (s : Witnesses.State) :
    Witnesses.State × Witnesses.Account :=
  match s.accounts.find? (fun a => a.account = env.sender) with
  | some acct => (s, acct)
  | none =>
    let acct : Witnesses.Account := ⟨none, env.sender, 0, 0⟩
    ((Witnesses.insertAccount s acct).1, acct)

/-- Source `actions.vote`.  The last statement calls `actions.updateWitnessRank`, which
is not defined (`updateWitnessRank` is a constant of the module, not a member of
`actions`): the call throws a `TypeError` and the rank is not updated. -/
def Witnesses.vote (env : Witnesses.Env) (payload : Witnesses.Payload) (s : Witnesses.State) :
    Witnesses.State :=
  if ¬ Witnesses.validWitness payload.witness then
    Witnesses.apiAssert s false "invalid witness account"
  else
    let witness := payload.witness.getD ""
    match s.witnesses.find? (fun w => w.account = witness) with
    | none => Witnesses.apiAssert s false "witness does not exist"
    | some _ =>
      let (s1, acct) := Witnesses.senderAccount env s
      if ¬ acct.votes < NB_VOTES_ALLOWED then
        Witnesses.apiAssert s1 false "you can only vote for 30 witnesses"
      else
        match s1.votes.find? (fun v => v.fromAccount = env.sender ∧ v.toAccount = witness) with
        | some _ => Witnesses.apiAssert s1 false "you already voted for this witness"
        | none =>
          let s2 := Witnesses.insertVote s1 env.sender witness
          let approvalWeight := Witnesses.senderWeight env
          let acct1 := { acct with votes := acct.votes + 1, approvalWeight := approvalWeight }
          let s3 := Witnesses.updateAccount s2 acct1
          if approvalWeight > 0 then
            { s3 with errors := s3.errors ++ ["TypeError: actions.updateWitnessRank is not a function"] }
          else s3

/-- Source `actions.unvote`. -/
def Witnesses.unvote (env : Witnesses.Env) (payload : Witnesses.Payload)
    (s : Witnesses.State) : Witnesses.State :=
  if ¬ Witnesses.validWitness payload.witness then
    Witnesses.apiAssert s false "invalid witness account"
  else
    let witness := payload.witness.getD ""
    match s.witnesses.find? (fun w => w.account = witness) with
    | none => Witnesses.apiAssert s false "witness does not exist"
    | some _ =>
      let (s1, acct) := Witnesses.senderAccount env s
      if ¬ acct.votes > 0 then Witnesses.apiAssert s1 false "no votes found"
      else
        match s1.votes.find? (fun v => v.fromAccount = env.sender ∧ v.toAccount = witness) with
        | none => Witnesses.apiAssert s1 false "you have not voted for this witness"
        | some vote =>
          let s2 := Witnesses.removeVote s1 vote
          let approvalWeight := Witnesses.senderWeight env
          let acct1 := { acct with votes := acct.votes - 1, approvalWeight := approvalWeight }
          let s3 := Witnesses.updateAccount s2 acct1
          if approvalWeight > 0 then Witnesses.updateWitnessRank s3 witness (-approvalWeight)
          else s3

/-- Number of witnesses with `approvalWeight > 0`. -/
def Witnesses.approvedCount (s : Witnesses.State) : Int :=
  ((s.witnesses.filter (fun w => decide (w.approvalWeight > 0))).length : Int)

/-- Number of rows of `votes` with `from = account`. -/
def Witnesses.voteRows (s : Witnesses.State) (account : String) : Int :=
  ((s.votes.filter (fun v => v.fromAccount = account)).length : Int)

/-- The state after `createSSC` and the registration of the witness `wit1`. -/
def Witnesses.oneWitness : Witnesses.State :=
  ⟨[⟨0, "wit1", 0⟩], [], [], ⟨0, 0⟩, 1, [], []⟩

/-- Alice, with a stake of `10` units. -/
def Witnesses.aliceStaked : Witnesses.Env := ⟨"alice", some 10, none⟩

/-- Alice, without a balance of the utility token. -/
def Witnesses.aliceUnstaked : Witnesses.Env := ⟨"alice", none, none⟩

/-- One witness and Alice's account row, before any vote. -/
def Witnesses.aliceKnown : Witnesses.State :=
  ⟨[⟨0, "wit1", 0⟩], [], [⟨some 1, "alice", 0, 0⟩], ⟨0, 0⟩, 2, [], []⟩

/-- The witness `wit1` holds `5` units of approval from Alice's vote; Alice's stake has
since grown to `7`. -/
def Witnesses.aliceVoted : Witnesses.State :=
  ⟨[⟨0, "wit1", 5⟩], [⟨2, "alice", "wit1"⟩], [⟨some 1, "alice", 1, 5⟩], ⟨5, 1⟩, 3, [], []⟩

/-! ## The database plugin (`plugins/Database.js`) -/

/-- A JavaScript value of a payload field, as far as `find` tells values apart: `int` is
a number that is an integer, `nan` is `NaN`, `fraction` any other number. -/
inductive JsValue where
  | undefined
  | null
  | bool (b : Bool)
  | int (n : Int)
  | nan
  | fraction
  | str (s : String)
  | object
deriving DecidableEq, Repr

/-- JavaScript truthiness. -/
def JsValue.truthy : JsValue → Bool
  | JsValue.undefined => false
  | JsValue.null => false
  | JsValue.bool b => b
  | JsValue.int n => decide (n ≠ 0)
  | JsValue.nan => false
  | JsValue.fraction => true
  | JsValue.str s => decide (s ≠ "")
  | JsValue.object => true

/-- JavaScript `a || b`. -/
def JsValue.orElse (a b : JsValue) : JsValue := if a.truthy then a else b

/-- A row of the `contracts` collection: the name of a contract and its tables. -/
structure Database.Contract where
  name : String
  tables : List String
deriving DecidableEq, Repr

/-- A collection of the store: its name, its rows in insertion order and the fields that
have a binary index. -/
structure Database.Collection (α : Type) where
  name : String
  data : List α
  binaryIndices : List String

/-- The database: the `contracts` collection, the other collections, and the sort of the
store (`simplesort(index, descending)` of a result set, whose code is not in the plugin). -/
structure Database.Db (α : Type) where
  contracts : List Database.Contract
  collections : List (Database.Collection α)
  simplesort : String → Bool → List α → List α

/-- The payload of `find`.  `contract` and `table` are `none` when they are not strings;
`query` is `none` when it is not an object, and otherwise the selection it denotes. -/
structure Database.FindPayload (α : Type) where
  contract : Option String
  table : Option String
  query : Option (α → Bool)
  limit : JsValue
  offset : JsValue
  index : JsValue
  descending : JsValue

/-- What `find` gives back: an array, `null`, or a thrown `TypeError`. -/
inductive Database.Result (α : Type) where
  | rows (l : List α)
  | null
  | typeError

/-- Source `actions.findContract`. -/
def Database.findContract {α : Type} (db : Database.Db α) (name : String) :
    Option Database.Contract :=
  if name ≠ "" then db.contracts.find? (fun c => c.name = name) else none

/-- Source `database.getCollection(name)`. -/
def Database.getCollection {α : Type} (db : Database.Db α) (name : String) :
    Option (Database.Collection α) :=
  db.collections.find? (fun c => c.name = name)

/-- The string of a payload field that must be a non-empty string. -/
def Database.nonEmpty : Option String → Option String
  | some s => if s ≠ "" then some s else none
  | none => none

/-- The value when `typeof value === 'string'`. -/
def JsValue.asString : JsValue → Option String
  | JsValue.str s => some s
  | _ => none

/-- The value when `typeof value === 'boolean'`. -/
def JsValue.asBool : JsValue → Option Bool
  | JsValue.bool b => some b
  | _ => none

/-- The value when it passes `Number.isInteger`. -/
def JsValue.asInteger : JsValue → Option Int
  | JsValue.int n => some n
  | _ => none

/-- The fields of a payload that passed the test of `find`, with the defaults filled in. -/
structure Database.Checked (α : Type) where
  contract : String
  table : String
  query : α → Bool
  ind : String
  des : Bool
  lim : Int
  off : Int

/-- The defaults and the test at the head of `find` (`lim = limit || 1000`, ...,
`lim > 0 && lim <= 1000 && off >= 0`). -/
def Database.checked {α : Type} (payload : Database.FindPayload α) :
    Option (Database.Checked α) := do
  let contract ← Database.nonEmpty payload.contract
  let table ← Database.nonEmpty payload.table
  let query ← payload.query
  let ind ← (payload.index.orElse (JsValue.str "")).asString
  let des ← (payload.descending.orElse (JsValue.bool false)).asBool
  let lim ← (payload.limit.orElse (JsValue.int 1000)).asInteger
  let off ← (payload.offset.orElse (JsValue.int 0)).asInteger
  if 0 < lim ∧ lim ≤ 1000 ∧ 0 ≤ off then some ⟨contract, table, query, ind, des, lim, off⟩
  else none

/-- Source `actions.find`. -/
def Database.find {α : Type} (db : Database.Db α) (payload : Database.FindPayload α) :
    Database.Result α :=
  match Database.checked payload with
  | none => Database.Result.null
  | some v =>
    match Database.findContract db v.contract with
    | none => Database.Result.null
    | some contractInDb =>
      let finalTableName := v.contract ++ "_" ++ v.table
      if finalTableName ∈ contractInDb.tables then
        match Database.getCollection db finalTableName with
        | none => Database.Result.typeError
        | some tableData =>
          if v.ind ≠ "" ∧ v.ind ∈ tableData.binaryIndices then
            Database.Result.rows
              (((db.simplesort v.ind v.des (tableData.data.filter v.query)).drop
                v.off.toNat).take v.lim.toNat)
          else
            Database.Result.rows
              (((tableData.data.filter v.query).drop v.off.toNat).take v.lim.toNat)
      else Database.Result.null

/-- The payload passes the test of `find` on its fields: `contract` and `table` are
non-empty strings, `query` is an object, `index` is absent or a string, `descending` is
absent or a boolean, `limit` is absent (or zero) or an integer from 1 to 1000, `offset`
is absent or an integer that is not negative. -/
def Database.FindPayload.valid {α : Type} (payload : Database.FindPayload α) : Prop :=
  (∃ c, payload.contract = some c ∧ c ≠ "") ∧ (∃ t, payload.table = some t ∧ t ≠ "") ∧
  payload.query.isSome = true ∧
  (payload.index.truthy = false ∨ ∃ i, payload.index = JsValue.str i) ∧
  (payload.descending.truthy = false ∨ ∃ b, payload.descending = JsValue.bool b) ∧
  (payload.limit.truthy = false ∨ ∃ n, payload.limit = JsValue.int n ∧ 0 < n ∧ n ≤ 1000) ∧
  (payload.offset.truthy = false ∨ ∃ n, payload.offset = JsValue.int n ∧ 0 ≤ n)

/-- A database with the contract `market` and its table `buyBook`, holding three rows. -/
def Database.sample : Database.Db Nat :=
  ⟨[⟨"market", ["market_buyBook"]⟩], [⟨"market_buyBook", [5, 8, 13], []⟩], fun _ _ l => l⟩

/-- A query on all rows of `table` of `contract`, with no other field. -/
def Database.allRows (contract table : String) : Database.FindPayload Nat :=
  ⟨some contract, some table, some (fun _ => true), JsValue.undefined, JsValue.undefined,
    JsValue.undefined, JsValue.undefined⟩

/-- The state `s'` has the trade history, the metrics and the `_id` counter of `s`. -/
def SameLedger (s s' : State) : Prop :=
  s'.tradesHistory = s.tradesHistory ∧ s'.metrics = s.metrics ∧ s'.nextId = s.nextId

/-- What one run of a loop body does to the trade history and the metrics: nothing, or
one `updateTradesHistory` for the `symbol` at the `price` of the resting order with a
positive volume, which is added to `volumeTraded`. -/
def LedgerStep (env : Env) (symbol : String) (price : Int) (st st' : State)
    (v v' : Int) : Prop :=
  (SameLedger st st' ∧ v' = v) ∨
  ∃ (type : Side) (buyer seller : String) (quantity amount : Int) (base : State),
    SameLedger st base ∧ 0 < amount ∧
    SameLedger (updateTradesHistory env type buyer seller symbol quantity price amount base)
      st' ∧
    v' = v + amount

/-- What the rows of `metrics` must keep for the day-over-day price change: a family of
properties `Q` of a row that hold for the default row, survive the updates of the
volume and of the best prices, and survive the price update of `updatePriceMetrics` for
the prices and block times that `G` allows. -/
structure MetricRule (Q : Metric → Prop) (G : Env → Int → Prop) : Prop where
  dflt : ∀ id symbol, Q (defaultMetric id symbol)
  volume : ∀ (m : Metric) (v e : Int), Q m → Q { m with volume := v, volumeExpiration := e }
  bid : ∀ (m : Metric) (p : Int), Q m → Q { m with highestBid := p }
  ask : ∀ (m : Metric) (p : Int), Q m → Q { m with lowestAsk := p }
  reset : ∀ (env : Env) (m : Metric) (p : Int), G env p → Q m →
    Q { m with lastPrice := p, lastDayPrice := p,
               lastDayPriceExpiration := env.timestampSec + env.dayAhead,
               priceChangeSteem := 0, priceChangePercent := some 0 }
  keep : ∀ (env : Env) (m : Metric) (p : Int), G env p →
    ¬ m.lastDayPriceExpiration < env.timestampSec → Q m →
    Q { m with lastPrice := p, priceChangeSteem := p - m.lastDayPrice,
               priceChangePercent := percentChange (p - m.lastDayPrice) m.lastDayPrice }

/-- Every resting order has a positive price and every metric row satisfies `Q`. -/
def Sound (Q : Metric → Prop) (s : State) : Prop :=
  (∀ o ∈ s.buyBook, 0 < o.price) ∧ (∀ o ∈ s.sellBook, 0 < o.price) ∧ ∀ r ∈ s.metrics, Q r

/-- The price change of a metric row is the last price less the price of the day
before. -/
def ChangeIsDifference (m : Metric) : Prop :=
  m.priceChangeSteem = m.lastPrice - m.lastDayPrice

/-- The row never makes `updatePriceMetrics` divide by zero at a positive block time: a
row whose day window was ever set has a positive `lastDayPrice`, and its stored percent
is a number. -/
def DivisorPositive (m : Metric) : Prop :=
  (0 < m.lastDayPriceExpiration → 0 < m.lastDayPrice) ∧ m.priceChangePercent.isSome = true

/-- The body of the sweep of `marketBuy` with a record of its divisors: each run of the
body divides `steempRemaining` by `sellOrder.price` once, and the price is appended to
the record. -/
def marketBuyOrderTraced (env : Env) (symbol : String) (precision : Nat)
    (x : Sweep × List Int) (sellOrder : Order) : Sweep × List Int :=
  (marketBuyOrder env symbol precision x.1 sellOrder, x.2 ++ [sellOrder.price])

/-- The loop `marketBuyLoop` run with `marketBuyOrderTraced`: its second component lists
the divisors of all the runs of the body, in order. -/
def marketBuyLoopTraced (env : Env) (symbol : String) (precision : Nat) (quantity : Int)
    (s : State) : Sweep × List Int :=
  let s1 := removeExpiredOrders env Table.sellBook s
  let m0 : Sweep := { st := s1, remaining := quantity, volumeTraded := 0 }
  pagesLoop (marketBuyOrderTraced env symbol precision) (fun x => x.1.active)
    (fun x offset => fetchSells symbol x.1 offset)
    (s1.sellBook.length + 1) (m0, []) (fetchSells symbol m0 0) 0

/-- The `do ... while` loop of `pagesLoop` with a count of the `api.db.find` calls made
inside the loop (the read of the first page, before the loop, is not counted) and the
page last held in the loop variable: a page is read after the inner loop only when the
taker still has something to fill, and the loop goes on only when that page has rows. -/
def pagesLoopReads {σ : Type} (body : σ → Order → σ) (active : σ → Bool)
    (fetch : σ → Nat → List Order) : Nat → σ → List Order → Nat → σ × Nat × List Order
  | 0, m, page, _ => (m, 0, page)
  | fuel + 1, m, page, offset =>
    let m1 := pageWhile body active m page
    let offset1 := offset + PAGE
    if active m1 = true then
      let page1 := fetch m1 offset1
      if page1.length > 0 then
        let r := pagesLoopReads body active fetch fuel m1 page1 offset1
        (r.1, r.2.1 + 1, r.2.2)
      else (m1, 1, page1)
    else (m1, 0, page)

/-- The loop of `findMatchingSellOrders` with its reads counted, when `extra` more pages
are allowed than `findMatchingSellOrdersLoop` allows. -/
def findMatchingSellOrdersReads (env : Env) (order : Order) (tokenPrecision : Nat)
    (s : State) (extra : Nat) : Taker × Nat × List Order :=
  let s1 := removeExpiredOrders env Table.sellBook s
  let m0 : Taker := { st := s1, order := order, volumeTraded := 0 }
  pagesLoopReads (matchSellOrder env tokenPrecision) Taker.active
    (fetchCrossingSells order.symbol order.price) (s1.sellBook.length + 1 + extra) m0
    (fetchCrossingSells order.symbol order.price m0 0) 0

/-- The loop of `findMatchingBuyOrders` with its reads counted, when `extra` more pages
are allowed than `findMatchingBuyOrdersLoop` allows. -/
def findMatchingBuyOrdersReads (env : Env) (order : Order) (tokenPrecision : Nat)
    (s : State) (extra : Nat) : Taker × Nat × List Order :=
  let s1 := removeExpiredOrders env Table.buyBook s
  let m0 : Taker := { st := s1, order := order, volumeTraded := 0 }
  pagesLoopReads (matchBuyOrder env tokenPrecision) Taker.active
    (fetchCrossingBuys order.symbol order.price) (s1.buyBook.length + 1 + extra) m0
    (fetchCrossingBuys order.symbol order.price m0 0) 0

/-- The loop of `marketBuy` with its reads counted, when `extra` more pages are allowed
than `marketBuyLoop` allows. -/
def marketBuyReads (env : Env) (symbol : String) (precision : Nat) (quantity : Int)
    (s : State) (extra : Nat) : Sweep × Nat × List Order :=
  let s1 := removeExpiredOrders env Table.sellBook s
  let m0 : Sweep := { st := s1, remaining := quantity, volumeTraded := 0 }
  pagesLoopReads (marketBuyOrder env symbol precision) Sweep.active (fetchSells symbol)
    (s1.sellBook.length + 1 + extra) m0 (fetchSells symbol m0 0) 0

/-- The loop of `marketSell` with its reads counted, when `extra` more pages are allowed
than `marketSellLoop` allows. -/
def marketSellReads (env : Env) (symbol : String) (precision : Nat) (quantity : Int)
    (s : State) (extra : Nat) : Sweep × Nat × List Order :=
  let s1 := removeExpiredOrders env Table.buyBook s
  let m0 : Sweep := { st := s1, remaining := quantity, volumeTraded := 0 }
  pagesLoopReads (marketSellOrder env symbol precision) Sweep.active (fetchBuys symbol)
    (s1.buyBook.length + 1 + extra) m0 (fetchBuys symbol m0 0) 0

/-- The sum of the `volume` fields of the rows of `symbol` in a list of trades. -/
def symbolVolume (symbol : String) (ts : List Trade) : Int :=
  ((ts.filter (fun t => t.symbol == symbol)).map (fun t => t.volume)).sum

/-- Invariant of the trade ledger and of the volume metrics while an action on `symbol`
runs at block time `now`: `tradesHistory` is `kept` (rows recorded before the action)
followed by `appended` (rows recorded by the action, whose volume is not yet added to the
metric); the `_id`s of the trades and of the metric rows are distinct and below the
counter; there is one metric row per symbol and every traded symbol has one; and every
metric row holds the summed volume of the kept rows of its symbol, none of which is
younger than the row's `volumeExpiration` less a day. -/
structure LedgerCore (now : Int) (symbol : String) (kept appended : List Trade)
    (s : State) : Prop where
  hist : s.tradesHistory = kept ++ appended
  tids : (s.tradesHistory.map (fun t => t.id)).Nodup
  tlt : ∀ t ∈ s.tradesHistory, t.id < s.nextId
  mids : (s.metrics.map (fun m => m.id)).Nodup
  mlt : ∀ m ∈ s.metrics, m.id < s.nextId
  msyms : (s.metrics.map (fun m => m.symbol)).Nodup
  rows : ∀ t ∈ s.tradesHistory, ∃ m ∈ s.metrics, m.symbol = t.symbol
  keptOk : ∀ t ∈ kept, 0 ≤ t.volume ∧ t.timestamp ≤ now
  appendedOk : ∀ t ∈ appended, t.symbol = symbol ∧ t.timestamp = now ∧ 0 < t.volume
  vol : ∀ m ∈ s.metrics, m.volume = symbolVolume m.symbol kept
  exp : ∀ m ∈ s.metrics, ∀ t ∈ kept, t.symbol = m.symbol →
    t.timestamp + DAY ≤ m.volumeExpiration

/-- The invariant inside an action on `symbol` at block time `now` whose fills so far
add up to `volumeTraded`: the rows appended by the action have that summed volume, and
once a row was appended no kept row of the symbol is older than a day. -/
def LedgerPending (now : Int) (symbol : String) (volumeTraded : Int) (s : State) : Prop :=
  ∃ kept appended : List Trade, LedgerCore now symbol kept appended s ∧
    (appended.map (fun t => t.volume)).sum = volumeTraded ∧
    (appended ≠ [] → ∀ t ∈ kept, t.symbol = symbol → now - DAY ≤ t.timestamp)

/-- The invariant between two actions, the last one at block time `now` or before:
nothing is pending. -/
def LedgerSettled (now : Int) (s : State) : Prop :=
  LedgerCore now "" s.tradesHistory [] s

/-- The calendar days of the host before and after the block time last 24 hours, as on a
host in UTC. -/
def FullDays (env : Env) : Prop := env.dayAhead = DAY ∧ env.dayBehind = DAY

/-- The block times of the transactions never decrease. -/
def Chronological (txs : List (Env × Action)) : Prop :=
  txs.Pairwise (fun a b => a.1.timestampSec ≤ b.1.timestampSec)

/-- Trades of `0.1 ABC` at `100000000.00000001` and, two seconds later, at
`100005000.00000001`. -/
def largePriceTrades : List (Env × Action) :=
  [(exampleEnv "alice" "s1" 100,
      Action.sell (limitPayload ⟨1, 1⟩ ⟨10000000000000001, 8⟩)),
   (exampleEnv "bob" "b1" 101, Action.buy (limitPayload ⟨1, 1⟩ ⟨10000000000000001, 8⟩)),
   (exampleEnv "alice" "s2" 102,
      Action.sell (limitPayload ⟨1, 1⟩ ⟨10000500000000001, 8⟩)),
   (exampleEnv "bob" "b2" 103, Action.buy (limitPayload ⟨1, 1⟩ ⟨10000500000000001, 8⟩))]

/-- The resting buy order is of a registered token, its price is a whole multiple of
`10^precision` units of `10^-8` (so that `price * quantity` is a whole number of units of
`10^-8` for every quantity of the token), and its escrow covers what is left to buy:
`price * quantity <= tokensLocked`, both sides counted in units of
`10^-(8 + precision)`. -/
def Covered (tokens : String → Option Nat) (o : Order) : Prop :=
  ∃ p, tokens o.symbol = some p ∧ (10 : Int) ^ p ∣ o.price ∧
    o.price * o.quantity ≤ o.tokensLocked * 10 ^ p

/-- The resting sell order is of a registered token, its price is a whole multiple of
`10^precision` units of `10^-8`, and its quantity is positive. -/
def ExactAsk (tokens : String → Option Nat) (o : Order) : Prop :=
  ∃ p, tokens o.symbol = some p ∧ (10 : Int) ^ p ∣ o.price ∧ 0 < o.quantity

/-- Every resting buy order is covered by its escrow and every resting sell order has an
exact price. -/
def EscrowCovers (tokens : String → Option Nat) (s : State) : Prop :=
  (∀ o ∈ s.buyBook, Covered tokens o) ∧ (∀ o ∈ s.sellBook, ExactAsk tokens o)

/-- The limit price of a `buy` or a `sell`, in units of `10^-8`, is a whole multiple of
`10^precision` for the precision of its token: the price has at most `8 - precision`
decimals, and `price * quantity` needs no rounding for any quantity of the token.
Market orders and cancellations carry no price. -/
def ExactPrice (tokens : String → Option Nat) : Action → Prop
  | Action.buy payload => ∀ symbol price precision, payload.symbol = some symbol →
      payload.price = some price → tokens symbol = some precision →
      (10 : Int) ^ precision ∣ price.toFixed STEEM_PEGGED_SYMBOL_PRESICION
  | Action.sell payload => ∀ symbol price precision, payload.symbol = some symbol →
      payload.price = some price → tokens symbol = some precision →
      (10 : Int) ^ precision ∣ price.toFixed STEEM_PEGGED_SYMBOL_PRESICION
  | _ => True

/-- Invariant of the pass of a limit buy for the escrow: the books are covered, and so is
the taker for as long as it holds a positive quantity. -/
def TakerCovered (tokens : String → Option Nat) (symbol : String) (prec : Nat) (price : Int)
    (m : Taker) : Prop :=
  EscrowCovers tokens m.st ∧
  (m.order.quantity > 0 →
    m.order.price * m.order.quantity ≤ m.order.tokensLocked * 10 ^ prec) ∧
  m.order.symbol = symbol ∧ m.order.price = price

/-- Invariant of the pass of a limit sell for the escrow: the books are covered, and the
taker keeps its symbol and its price. -/
def TakerExact (tokens : String → Option Nat) (symbol : String) (price : Int)
    (m : Taker) : Prop :=
  EscrowCovers tokens m.st ∧ m.order.symbol = symbol ∧ m.order.price = price

/-! ## Theorems -/

/-! ### Frame lemmas

The metric functions only write `metrics`; `updateTradesHistory` only writes
`tradesHistory` and `metrics`. -/

theorem sameButMetrics_refl (s : State) : SameButMetrics s s :=
  ⟨rfl, rfl, rfl, rfl, rfl, rfl, rfl⟩

theorem sameButMetrics_trans {a b c : State} (h1 : SameButMetrics a b)
    (h2 : SameButMetrics b c) : SameButMetrics a c := by
  obtain ⟨h11, h12, h13, h14, h15, h16, h17⟩ := h1
  obtain ⟨h21, h22, h23, h24, h25, h26, h27⟩ := h2
  exact ⟨h21.trans h11, h22.trans h12, h23.trans h13, h24.trans h14, h25.trans h15,
    h26.trans h16, h27.trans h17⟩

theorem sameButMetrics_history {a b : State} (h : SameButMetrics a b) : SameButHistory a b :=
  ⟨h.1, h.2.1, h.2.2.2.1, h.2.2.2.2.1, h.2.2.2.2.2.1, h.2.2.2.2.2.2⟩

theorem sameButHistory_refl (s : State) : SameButHistory s s := ⟨rfl, rfl, rfl, rfl, rfl, rfl⟩

theorem sameButHistory_trans {a b c : State} (h1 : SameButHistory a b)
    (h2 : SameButHistory b c) : SameButHistory a c := by
  obtain ⟨h11, h12, h13, h14, h15, h16⟩ := h1
  obtain ⟨h21, h22, h23, h24, h25, h26⟩ := h2
  exact ⟨h21.trans h11, h22.trans h12, h23.trans h13, h24.trans h14, h25.trans h15,
    h26.trans h16⟩

theorem getMetric_same (s : State) (symbol : String) :
    SameButMetrics s (getMetric s symbol).1 := by
  unfold getMetric
  split <;> exact ⟨rfl, rfl, rfl, rfl, rfl, rfl, rfl⟩

theorem updateMetric_same (s : State) (m : Metric) : SameButMetrics s (updateMetric s m) :=
  ⟨rfl, rfl, rfl, rfl, rfl, rfl, rfl⟩

theorem updateVolumeMetric_same (env : Env) (symbol : String) (q : Int) (add : Bool)
    (s : State) : SameButMetrics s (updateVolumeMetric env symbol q add s) := by
  unfold updateVolumeMetric
  exact sameButMetrics_trans (getMetric_same s symbol) (updateMetric_same _ _)

theorem updatePriceMetrics_same (env : Env) (symbol : String) (p : Int) (s : State) :
    SameButMetrics s (updatePriceMetrics env symbol p s) := by
  unfold updatePriceMetrics
  exact sameButMetrics_trans (getMetric_same s symbol) (updateMetric_same _ _)

theorem updateBidMetric_same (symbol : String) (s : State) :
    SameButMetrics s (updateBidMetric symbol s) := by
  unfold updateBidMetric
  simp only
  split <;> exact sameButMetrics_trans (getMetric_same s symbol) (updateMetric_same _ _)

theorem updateAskMetric_same (symbol : String) (s : State) :
    SameButMetrics s (updateAskMetric symbol s) := by
  unfold updateAskMetric
  simp only
  split <;> exact sameButMetrics_trans (getMetric_same s symbol) (updateMetric_same _ _)

theorem finishMetrics_same (env : Env) (symbol : String) (v : Int) (s : State) :
    SameButMetrics s (finishMetrics env symbol v s) := by
  unfold finishMetrics
  simp only
  split
  · exact sameButMetrics_trans
      (sameButMetrics_trans (updateVolumeMetric_same env symbol v true s)
        (updateAskMetric_same _ _))
      (updateBidMetric_same _ _)
  · exact sameButMetrics_trans (updateAskMetric_same _ _) (updateBidMetric_same _ _)

theorem removeTrade_same (s : State) (t : Trade) : SameButHistory s (removeTrade s t) :=
  ⟨rfl, rfl, rfl, rfl, rfl, rfl⟩

theorem purgePass_same (env : Env) (ts : List Trade) :
    ∀ s : State, SameButHistory s (purgePass env s ts) := by
  induction ts with
  | nil => intro s; exact sameButHistory_refl s
  | cons t ts ih =>
    intro s
    unfold purgePass
    simp only [List.foldl_cons]
    exact sameButHistory_trans
      (sameButHistory_trans
        (sameButMetrics_history (updateVolumeMetric_same env t.symbol t.volume false s))
        (removeTrade_same _ t))
      (ih _)

theorem purgeTrades_same (env : Env) (symbol : String) :
    ∀ (fuel : Nat) (s : State), SameButHistory s (purgeTrades env symbol fuel s) := by
  intro fuel
  induction fuel with
  | zero => intro s; exact sameButHistory_refl s
  | succ n ih =>
    intro s
    unfold purgeTrades
    simp only
    split
    · exact sameButHistory_trans (purgePass_same env _ s) (ih _)
    · exact sameButHistory_refl s

theorem updateTradesHistory_same (env : Env) (type : Side) (buyer seller symbol : String)
    (quantity price volume : Int) (s : State) :
    SameButHistory s
      (updateTradesHistory env type buyer seller symbol quantity price volume s) := by
  unfold updateTradesHistory
  simp only
  have h1 := purgeTrades_same env symbol (s.tradesHistory.length + 1) s
  refine sameButHistory_trans (sameButHistory_trans h1 ?_)
    (sameButMetrics_history (updatePriceMetrics_same env symbol price _))
  exact ⟨rfl, rfl, rfl, rfl, rfl, rfl⟩

/-- Every transaction of a list of the examples sees the registry `exampleTokens`. -/
theorem fourFills_tokens : ∀ tx ∈ fourFills, tx.1.tokens = exampleTokens := by
  intro tx h
  simp only [fourFills, List.mem_cons, List.mem_singleton, List.not_mem_nil, or_false] at h
  rcases h with rfl | rfl | rfl | rfl | rfl <;> rfl

/-- C1 (evaluation at the failing input).  After Bob's buy of `0.5 ABC` at `0.00000015`
was filled four times for `0.1 ABC` (each fill paid `0.00000002`), the order rests with
quantity `0.1` and `tokensLocked = 0`; a fifth sell of `0.1 ABC` is then settled for
`0.00000001` peg token although the paying buy order holds nothing: the amount rounded
down still exceeds the escrow. -/
theorem escrow_overdrawn_by_fifth_fill :
    Reachable exampleTokens (run fourFills State.empty) ∧
    (run fourFills State.empty).buyBook.map (fun o => (o.quantity, o.price, o.tokensLocked))
      = [(1, 15, 0)] ∧
    ((step (aliceSellsTenth "s5").1 (aliceSellsTenth "s5").2
        (run fourFills State.empty)).fills.drop 4).map (fun f => (f.quantity, f.amount, f.locked))
      = [(1, 1, 0)] ∧
    (step (aliceSellsTenth "s5").1 (aliceSellsTenth "s5").2
        (run fourFills State.empty)).transfers.drop 8
      = [⟨"bob", "ABC", 1⟩, ⟨"alice", "STEEMP", 1⟩] := by
  refine ⟨⟨fourFills, fourFills_tokens, rfl⟩, ?_, ?_, ?_⟩ <;> decide!

/-- C2 (evaluation at the failing input).  In the state reached by Bob's buy of
`0.5 ABC` at `0.00000015` and four fills of `0.1 ABC`, the resting buy order has
`tokensLocked = 0` while `price * quantity = 0.000000015`: the escrow is more than one
unit of `10^-8` short, `tokensLocked < price * quantity - 0.00000001`. -/
theorem resting_buy_short_of_escrow :
    Reachable exampleTokens (run fourFills State.empty) ∧
    ∃ o ∈ (run fourFills State.empty).buyBook,
      o.tokensLocked * 10 ^ 1 < o.price * o.quantity - 1 * 10 ^ 1 := by
  refine ⟨⟨fourFills, fourFills_tokens, rfl⟩, ?_⟩
  decide!

/-- Every transaction of `fiveSellsThenBuy` sees the registry `exampleTokens`. -/
theorem fiveSells_tokens : ∀ tx ∈ fiveSellsThenBuy.take 5, tx.1.tokens = exampleTokens := by
  intro tx h
  simp only [fiveSellsThenBuy, List.take, List.mem_cons, List.mem_singleton,
    List.not_mem_nil, or_false] at h
  rcases h with rfl | rfl | rfl | rfl | rfl <;> rfl

/-- C4 (evaluation at the failing input).  With five sell orders of `0.1 ABC` at
`0.00000015` resting, Bob's buy of `0.5 ABC` at `0.00000015` locks
`L = 0.00000008`; the match sequence pays `2 + 2 + 2 + 2 + 1 = 9` units to the seller,
nothing is refunded and no buy order is left resting: paid + refunded + residual
is `9`, not `L = 8`. -/
theorem limit_buy_pays_more_than_locked :
    Reachable exampleTokens (run (fiveSellsThenBuy.take 5) State.empty) ∧
    (run fiveSellsThenBuy State.empty).escrows.drop 5 = [⟨"bob", "STEEMP", 8⟩] ∧
    pegSum ((run fiveSellsThenBuy State.empty).transfers.drop
      (run (fiveSellsThenBuy.take 5) State.empty).transfers.length) = 9 ∧
    (run fiveSellsThenBuy State.empty).buyBook = [] := by
  refine ⟨⟨fiveSellsThenBuy.take 5, fiveSells_tokens, rfl⟩, ?_, ?_, ?_⟩ <;> decide!

/-- Every transaction of `buyAboveAsk` sees the registry `exampleTokens`. -/
theorem buyAboveAsk_tokens : ∀ tx ∈ buyAboveAsk, tx.1.tokens = exampleTokens := by
  intro tx h
  simp only [buyAboveAsk, List.mem_cons, List.mem_singleton, List.not_mem_nil, or_false] at h
  rcases h with rfl | rfl <;> rfl

/-- C3 (counterexample).  Bob's buy of `10 ABC` at `2.0` takes Alice's resting
`4 ABC` at `1.0`: the buy order then rests with quantity `6`, `tokensLocked = 16` and
`price * quantity = 12`, four peg tokens away from each other. -/
theorem taker_fill_below_limit_keeps_surplus :
    Reachable exampleTokens (run buyAboveAsk State.empty) ∧
    ∃ o ∈ (run buyAboveAsk State.empty).buyBook,
      o.quantity = 60 ∧ o.price = 200000000 ∧ o.tokensLocked = 1600000000 ∧
      ¬ |o.tokensLocked * 10 ^ 1 - o.price * o.quantity| < 1 * 10 ^ 1 := by
  refine ⟨⟨buyAboveAsk, buyAboveAsk_tokens, rfl⟩, ?_⟩
  decide!

/-! ### Validation -/

theorem apiAssert_true (s : State) (msg : String) : apiAssert s true msg = s := rfl

theorem validateOrder_some {env : Env} {payload : OrderPayload} {s s1 : State} {v : ValidOrder}
    (h : validateOrder env payload s = (s1, some v)) :
    s1 = s ∧ payload.isSignedWithActiveKey = true ∧
    payload.symbol = some v.symbol ∧ payload.price = some v.price ∧
    payload.quantity = some v.quantity ∧
    v.symbol ≠ "" ∧ v.symbol ≠ STEEM_PEGGED_SYMBOL ∧ payload.expiration.valid = true ∧
    env.tokens v.symbol = some v.precision ∧ 0 < v.price.mant ∧
    countDecimals v.price ≤ STEEM_PEGGED_SYMBOL_PRESICION ∧
    countDecimals v.quantity ≤ v.precision ∧
    DUST ≤ (v.price.mul v.quantity).toFixed STEEM_PEGGED_SYMBOL_PRESICION := by
  unfold validateOrder at h
  cases hs : payload.isSignedWithActiveKey with
  | false => simp [hs] at h
  | true =>
    simp only [hs, apiAssert_true, Bool.not_true, Bool.false_eq_true, if_false] at h
    cases hp : payload.price with
    | none => simp [hp] at h
    | some price =>
      cases hsym : payload.symbol with
      | none => simp [hp, hsym] at h
      | some symbol =>
        cases hq : payload.quantity with
        | none => simp [hp, hsym, hq] at h
        | some quantity =>
          simp only [hp, hsym, hq] at h
          split at h
          · simp at h
          · rename_i hvalid
            cases ht : env.tokens symbol with
            | none => simp [ht] at h
            | some precision =>
              simp only [ht] at h
              split at h
              · simp at h
              · rename_i hvalid2
                split at h
                · simp at h
                · rename_i hfill
                  simp only [Bool.not_eq_true, Bool.not_eq_false, Bool.not_eq_eq_eq_not,
                    Bool.not_true, Bool.not_false] at hvalid hvalid2 hfill
                  simp only [Prod.mk.injEq, Option.some.injEq] at h
                  obtain ⟨h1, h2⟩ := h
                  subst h2
                  simp only [Bool.and_eq_true, bne_iff_ne, ne_eq, decide_eq_true_eq,
                    Dec.gt0] at hvalid hvalid2 hfill
                  subst h1
                  have hg : price.gt0 = true := by simp [Dec.gt0, hvalid2.1.1]
                  simp_all [apiAssert]

/-! ### Field-wise frame lemmas -/

@[simp] theorem updateTradesHistory_buyBook (env : Env) (type : Side) (b sl sym : String)
    (q p v : Int) (s : State) :
    (updateTradesHistory env type b sl sym q p v s).buyBook = s.buyBook :=
  (updateTradesHistory_same env type b sl sym q p v s).1

@[simp] theorem updateTradesHistory_sellBook (env : Env) (type : Side) (b sl sym : String)
    (q p v : Int) (s : State) :
    (updateTradesHistory env type b sl sym q p v s).sellBook = s.sellBook :=
  (updateTradesHistory_same env type b sl sym q p v s).2.1

@[simp] theorem updateTradesHistory_transfers (env : Env) (type : Side) (b sl sym : String)
    (q p v : Int) (s : State) :
    (updateTradesHistory env type b sl sym q p v s).transfers = s.transfers :=
  (updateTradesHistory_same env type b sl sym q p v s).2.2.1

@[simp] theorem updateTradesHistory_escrows (env : Env) (type : Side) (b sl sym : String)
    (q p v : Int) (s : State) :
    (updateTradesHistory env type b sl sym q p v s).escrows = s.escrows :=
  (updateTradesHistory_same env type b sl sym q p v s).2.2.2.1

@[simp] theorem updateTradesHistory_asserts (env : Env) (type : Side) (b sl sym : String)
    (q p v : Int) (s : State) :
    (updateTradesHistory env type b sl sym q p v s).asserts = s.asserts :=
  (updateTradesHistory_same env type b sl sym q p v s).2.2.2.2.1

@[simp] theorem updateTradesHistory_fills (env : Env) (type : Side) (b sl sym : String)
    (q p v : Int) (s : State) :
    (updateTradesHistory env type b sl sym q p v s).fills = s.fills :=
  (updateTradesHistory_same env type b sl sym q p v s).2.2.2.2.2

@[simp] theorem finishMetrics_buyBook (env : Env) (sym : String) (v : Int) (s : State) :
    (finishMetrics env sym v s).buyBook = s.buyBook := (finishMetrics_same env sym v s).1

@[simp] theorem finishMetrics_sellBook (env : Env) (sym : String) (v : Int) (s : State) :
    (finishMetrics env sym v s).sellBook = s.sellBook := (finishMetrics_same env sym v s).2.1

@[simp] theorem finishMetrics_tradesHistory (env : Env) (sym : String) (v : Int) (s : State) :
    (finishMetrics env sym v s).tradesHistory = s.tradesHistory :=
  (finishMetrics_same env sym v s).2.2.1

@[simp] theorem finishMetrics_transfers (env : Env) (sym : String) (v : Int) (s : State) :
    (finishMetrics env sym v s).transfers = s.transfers := (finishMetrics_same env sym v s).2.2.2.1

@[simp] theorem finishMetrics_escrows (env : Env) (sym : String) (v : Int) (s : State) :
    (finishMetrics env sym v s).escrows = s.escrows := (finishMetrics_same env sym v s).2.2.2.2.1

@[simp] theorem finishMetrics_asserts (env : Env) (sym : String) (v : Int) (s : State) :
    (finishMetrics env sym v s).asserts = s.asserts := (finishMetrics_same env sym v s).2.2.2.2.2.1

@[simp] theorem finishMetrics_fills (env : Env) (sym : String) (v : Int) (s : State) :
    (finishMetrics env sym v s).fills = s.fills := (finishMetrics_same env sym v s).2.2.2.2.2.2

/-! ### Invariants of the two loops -/

theorem pageWhile_inv {σ : Type} (body : σ → Order → σ) (active : σ → Bool) (Inv : σ → Prop)
    (h : ∀ m o, active m = true → Inv m → Inv (body m o)) :
    ∀ (page : List Order) (m : σ), Inv m → Inv (pageWhile body active m page) := by
  intro page
  induction page with
  | nil => intro m hm; exact hm
  | cons o rest ih =>
    intro m hm
    unfold pageWhile
    split
    · rename_i ha
      exact ih _ (h m o ha hm)
    · exact hm

theorem pagesLoop_inv {σ : Type} (body : σ → Order → σ) (active : σ → Bool)
    (fetch : σ → Nat → List Order) (Inv : σ → Prop)
    (h : ∀ m o, active m = true → Inv m → Inv (body m o)) :
    ∀ (fuel : Nat) (m : σ) (page : List Order) (offset : Nat),
      Inv m → Inv (pagesLoop body active fetch fuel m page offset) := by
  intro fuel
  induction fuel with
  | zero => intro m page offset hm; exact hm
  | succ n ih =>
    intro m page offset hm
    unfold pagesLoop
    simp only
    have h1 := pageWhile_inv body active Inv h page m hm
    split <;> (split <;> first | exact ih _ _ _ h1 | exact h1)

/-! ### Sums over transfers -/

theorem symbolSum_nil (sym : String) : symbolSum sym [] = 0 := rfl

theorem symbolSum_append (sym : String) (a b : List Transfer) :
    symbolSum sym (a ++ b) = symbolSum sym a + symbolSum sym b := by
  simp [symbolSum, List.filter_append, List.map_append, List.sum_append]

theorem symbolSum_cons (sym : String) (t : Transfer) (ts : List Transfer) :
    symbolSum sym (t :: ts) = (if t.symbol = sym then t.quantity else 0) + symbolSum sym ts := by
  unfold symbolSum
  by_cases h : t.symbol = sym
  · simp [List.filter_cons, h]
  · simp [List.filter_cons, h]

/-! ### Decimal arithmetic -/

theorem ten_pow_pos (d : Nat) : (0 : Int) < 10 ^ d := by positivity

theorem roundHalfUp_mul_pow (c : Int) (d : Nat) : roundHalfUp (c * 10 ^ d) d = c := by
  have hp := ten_pow_pos d
  unfold roundHalfUp
  split
  · have h : 2 * (c * 10 ^ d) + 10 ^ d = 10 ^ d + c * (2 * 10 ^ d) := by ring
    rw [h, Int.add_mul_ediv_right _ _ (by omega : (2 * 10 ^ d : Int) ≠ 0)]
    have : (10 ^ d : Int) / (2 * 10 ^ d) = 0 := Int.ediv_eq_zero_of_lt (by omega) (by omega)
    omega
  · have h : 2 * -(c * 10 ^ d) + 10 ^ d = 10 ^ d + (-c) * (2 * 10 ^ d) := by ring
    rw [h, Int.add_mul_ediv_right _ _ (by omega : (2 * 10 ^ d : Int) ≠ 0)]
    have : (10 ^ d : Int) / (2 * 10 ^ d) = 0 := Int.ediv_eq_zero_of_lt (by omega) (by omega)
    omega

theorem stripZeros_dvd : ∀ (s : Nat) (m : Int) (k : Nat),
    stripZeros s m ≤ k → k ≤ s → (10 : Int) ^ (s - k) ∣ m := by
  intro s
  induction s with
  | zero =>
    intro m k _ hk
    simp
  | succ n ih =>
    intro m k h hk
    unfold stripZeros at h
    split at h
    · rename_i hm
      by_cases hkn : k ≤ n
      · have h1 := ih (m / 10) k h hkn
        have h2 : n + 1 - k = (n - k) + 1 := by omega
        rw [h2, pow_succ]
        have h3 : m = (m / 10) * 10 := by omega
        rw [h3]
        exact mul_dvd_mul_right h1 10
      · have h2 : n + 1 - k = 0 := by omega
        rw [h2]
        simp
    · have h2 : n + 1 - k = 0 := by omega
      rw [h2]
      simp

theorem Dec.toFixed_exact (d : Dec) (k : Nat) (h : countDecimals d ≤ k) :
    d.toFixed k * 10 ^ d.scale = d.mant * 10 ^ k := by
  unfold Dec.toFixed
  split
  · rename_i hle
    have : k = (k - d.scale) + d.scale := by omega
    conv_rhs => rw [this, pow_add]
    ring
  · rename_i hlt
    have hlt : k ≤ d.scale := by omega
    obtain ⟨c, hc⟩ := stripZeros_dvd d.scale d.mant k h hlt
    have hc2 : d.mant = c * 10 ^ (d.scale - k) := by rw [hc]; ring
    rw [hc2, roundHalfUp_mul_pow]
    have : d.scale = (d.scale - k) + k := by omega
    conv_lhs => rw [this, pow_add]
    ring

theorem Dec.toFixed_pos (d : Dec) (k : Nat) (h : countDecimals d ≤ k) (hpos : 0 < d.mant) :
    0 < d.toFixed k := by
  have h1 := Dec.toFixed_exact d k h
  have h2 : 0 < d.mant * 10 ^ k := Int.mul_pos hpos (ten_pow_pos k)
  rw [← h1] at h2
  exact (pos_iff_pos_of_mul_pos h2).2 (ten_pow_pos _)

/-! ### The sweeper -/

theorem removeExpiredOrders_rel (R : State → State → Prop) (hrefl : ∀ s, R s s)
    (htrans : ∀ a b c, R a b → R b c → R a c) (env : Env) (table : Table)
    (hstep : ∀ s o, R s (removeExpiredOrder table s o)) (s : State) :
    R s (removeExpiredOrders env table s) := by
  have hfold : ∀ (l : List Order) (s : State), R s (l.foldl (removeExpiredOrder table) s) := by
    intro l
    induction l with
    | nil => intro s; exact hrefl s
    | cons o rest ih =>
      intro s
      simp only [List.foldl_cons]
      exact htrans _ _ _ (hstep s o) (ih _)
  have hloop : ∀ (fuel : Nat) (s : State), R s (removeExpiredLoop env table fuel s) := by
    intro fuel
    induction fuel with
    | zero => intro s; exact hrefl s
    | succ n ih =>
      intro s
      unfold removeExpiredLoop
      simp only
      split
      · exact htrans _ _ _ (hfold _ s) (ih _)
      · exact hrefl s
  exact hloop _ s

theorem removeExpiredOrders_buyBook_spec (env : Env) (s : State) :
    (removeExpiredOrders env Table.buyBook s).sellBook = s.sellBook ∧
    (removeExpiredOrders env Table.buyBook s).fills = s.fills ∧
    ∃ ts, (removeExpiredOrders env Table.buyBook s).transfers = s.transfers ++ ts ∧
      ∀ t ∈ ts, t.symbol = STEEM_PEGGED_SYMBOL := by
  refine removeExpiredOrders_rel
    (fun a b => b.sellBook = a.sellBook ∧ b.fills = a.fills ∧
      ∃ ts, b.transfers = a.transfers ++ ts ∧ ∀ t ∈ ts, t.symbol = STEEM_PEGGED_SYMBOL)
    ?_ ?_ env Table.buyBook ?_ s
  · intro a
    exact ⟨rfl, rfl, [], by simp, by simp⟩
  · rintro a b c ⟨h1, h2, ts1, h3, h4⟩ ⟨h5, h6, ts2, h7, h8⟩
    refine ⟨h5.trans h1, h6.trans h2, ts1 ++ ts2, by rw [h7, h3, List.append_assoc], ?_⟩
    intro t ht
    rcases List.mem_append.1 ht with h | h
    · exact h4 t h
    · exact h8 t h
  · intro a o
    have hf := updateAskMetric_same o.symbol
      (removeOrder (transferTokens a o.account STEEM_PEGGED_SYMBOL o.tokensLocked) Table.buyBook o)
    refine ⟨?_, ?_, [⟨o.account, STEEM_PEGGED_SYMBOL, o.tokensLocked⟩], ?_, ?_⟩
    · simp only [removeExpiredOrder]
      rw [hf.2.1]; rfl
    · simp only [removeExpiredOrder]
      rw [hf.2.2.2.2.2.2]; rfl
    · simp only [removeExpiredOrder]
      rw [hf.2.2.2.1]; rfl
    · intro t ht
      simp only [List.mem_singleton] at ht
      rw [ht]

/-! ### Symbol leg of a limit sell -/

theorem symbolSum_peg_only (sym : String) (hsym : sym ≠ STEEM_PEGGED_SYMBOL)
    (ts : List Transfer) (h : ∀ t ∈ ts, t.symbol = STEEM_PEGGED_SYMBOL) :
    symbolSum sym ts = 0 := by
  induction ts with
  | nil => rfl
  | cons t rest ih =>
    rw [symbolSum_cons]
    have h1 : t.symbol ≠ sym := by
      rw [h t (List.mem_cons_self _ _)]
      exact fun e => hsym e.symm
    rw [if_neg h1, ih (fun t ht => h t (List.mem_cons_of_mem _ ht))]
    rfl

theorem settleRestingBuy_spec (prec : Nat) (st : State) (b : Order) (filled amt : Int) :
    (settleRestingBuy prec st b filled amt).sellBook = st.sellBook ∧
    (settleRestingBuy prec st b filled amt).fills = st.fills ∧
    (settleRestingBuy prec st b filled amt).tradesHistory = st.tradesHistory ∧
    ∃ ts, (settleRestingBuy prec st b filled amt).transfers = st.transfers ++ ts ∧
      ∀ t ∈ ts, t.symbol = STEEM_PEGGED_SYMBOL := by
  unfold settleRestingBuy
  simp only
  split
  · exact ⟨rfl, rfl, rfl, [], by simp [updateOrder, State.setBook], by simp⟩
  · split
    · refine ⟨rfl, rfl, rfl, [⟨b.account, STEEM_PEGGED_SYMBOL, b.tokensLocked - amt⟩], ?_, ?_⟩
      · simp [removeOrder, State.setBook, transferTokens]
      · simp
    · exact ⟨rfl, rfl, rfl, [], by simp [removeOrder, State.setBook], by simp⟩

theorem consumeBuyOrder_spec (st : State) (seller sym : String) (b : Order) (amt : Int) :
    (consumeBuyOrder st seller sym b amt).sellBook = st.sellBook ∧
    (consumeBuyOrder st seller sym b amt).fills = st.fills ∧
    (consumeBuyOrder st seller sym b amt).tradesHistory = st.tradesHistory ∧
    ∃ ts, (consumeBuyOrder st seller sym b amt).transfers
        = st.transfers ++ ([⟨b.account, sym, b.quantity⟩, ⟨seller, STEEM_PEGGED_SYMBOL, amt⟩] ++ ts) ∧
      ∀ t ∈ ts, t.symbol = STEEM_PEGGED_SYMBOL := by
  unfold consumeBuyOrder
  simp only
  split
  · refine ⟨rfl, rfl, rfl, [⟨b.account, STEEM_PEGGED_SYMBOL, b.tokensLocked - amt⟩], ?_, ?_⟩
    · simp [removeOrder, State.setBook, transferTokens]
    · simp
  · exact ⟨rfl, rfl, rfl, [], by simp [removeOrder, State.setBook, transferTokens], by simp⟩

theorem matchBuyOrder_sellLeg (env : Env) (prec : Nat) (base : List Transfer)
    (book0 : List Order) (row : Order) (Q : Int) (hsym : row.symbol ≠ STEEM_PEGGED_SYMBOL)
    (m : Taker) (b : Order) (hact : m.active = true) (hinv : SellLeg base book0 row Q m) :
    SellLeg base book0 row Q (matchBuyOrder env prec m b) := by
  obtain ⟨hid, hs, ⟨new, hnew, hsum⟩, hbook⟩ := hinv
  have hpos : 0 < m.order.quantity := by simpa [Taker.active] using hact
  have hbook0 : m.st.sellBook = book0 := by
    rcases hbook with h | h
    · exact h.2
    · omega
  unfold matchBuyOrder
  split
  · -- the taker is filled whole
    unfold sellFilledWhole
    simp only
    split
    · rename_i hok
      simp only [hok, apiAssert_true]
      obtain ⟨h1, _, _, ts, h4, h5⟩ := settleRestingBuy_spec prec
        (transferTokens (transferTokens m.st
          b.account m.order.symbol m.order.quantity) m.order.account STEEM_PEGGED_SYMBOL
          (cappedAmount prec b.price m.order.quantity b.tokensLocked)) b m.order.quantity
        (cappedAmount prec b.price m.order.quantity b.tokensLocked)
      refine ⟨hid, hs, ⟨new ++ ([⟨b.account, m.order.symbol, m.order.quantity⟩,
        ⟨m.order.account, STEEM_PEGGED_SYMBOL,
          cappedAmount prec b.price m.order.quantity b.tokensLocked⟩] ++ ts), ?_, ?_⟩, Or.inr ⟨rfl, ?_⟩⟩
      · simp only [removeOrder, State.setBook, recordFill, updateTradesHistory_transfers, h4]
        simp [transferTokens, hnew]
      · rw [symbolSum_append, symbolSum_append, symbolSum_cons, symbolSum_cons, symbolSum_nil,
          symbolSum_peg_only _ hsym ts h5, if_pos hs, if_neg (fun e => hsym e.symm)]
        simp only
        omega
      · simp only [removeOrder, State.setBook, State.book, recordFill,
          updateTradesHistory_sellBook, h1]
        simp [transferTokens, hbook0, hid]
    · refine ⟨hid, hs, ⟨new, ?_, hsum⟩, Or.inl ⟨hpos, ?_⟩⟩
      · simp only [apiAssert]; split <;> simp [hnew]
      · simp only [apiAssert]; split <;> simp [hbook0]
  · -- the resting buy order is consumed whole
    rename_i hgt
    unfold buyOrderConsumed
    simp only
    split
    · rename_i hok
      obtain ⟨h1, _, _, ts, h4, h5⟩ := consumeBuyOrder_spec m.st m.order.account m.order.symbol b
        (payForWholeBuyOrder prec b)
      simp only [hok, apiAssert_true]
      split
      · -- what is left of the taker is dust: it is refunded
        refine ⟨hid, hs, ⟨new ++ ([⟨b.account, m.order.symbol, b.quantity⟩,
          ⟨m.order.account, STEEM_PEGGED_SYMBOL, payForWholeBuyOrder prec b⟩] ++ ts ++
          [⟨m.order.account, m.order.symbol, m.order.quantity - b.quantity⟩]), ?_, ?_⟩,
          Or.inr ⟨rfl, ?_⟩⟩
        · simp only [removeOrder, State.setBook, recordFill, updateTradesHistory_transfers,
            transferTokens, h4, hnew]
          simp
        · rw [symbolSum_append, symbolSum_append, symbolSum_append, symbolSum_cons,
            symbolSum_cons, symbolSum_cons, symbolSum_nil,
            symbolSum_peg_only _ hsym ts h5, if_pos hs, if_neg (fun e => hsym e.symm)]
          simp only [hs, eq_self_iff_true, if_true]
          omega
        · simp only [removeOrder, State.setBook, State.book, recordFill,
            updateTradesHistory_sellBook, transferTokens, h1]
          simp [hbook0, hid]
      · refine ⟨hid, hs, ⟨new ++ ([⟨b.account, m.order.symbol, b.quantity⟩,
          ⟨m.order.account, STEEM_PEGGED_SYMBOL, payForWholeBuyOrder prec b⟩] ++ ts), ?_, ?_⟩, Or.inl ⟨?_, ?_⟩⟩
        · simp only [recordFill, updateTradesHistory_transfers, h4, hnew]
          simp
        · rw [symbolSum_append, symbolSum_append, symbolSum_cons,
            symbolSum_cons, symbolSum_nil,
            symbolSum_peg_only _ hsym ts h5, if_pos hs, if_neg (fun e => hsym e.symm)]
          simp only
          omega
        · simp only
          omega
        · simp only [recordFill, updateTradesHistory_sellBook, h1, hbook0]
    · refine ⟨hid, hs, ⟨new, ?_, hsum⟩, Or.inl ⟨hpos, ?_⟩⟩
      · simp only [apiAssert]; split <;> simp [hnew]
      · simp only [apiAssert]; split <;> simp [hbook0]

theorem roundHalfUp_nonpos (n : Int) (d : Nat) (h : n ≤ 0) : roundHalfUp n d ≤ 0 := by
  have hp := ten_pow_pos d
  unfold roundHalfUp
  split
  · have h0 : n = 0 := by omega
    subst h0
    have : (2 * 0 + 10 ^ d : Int) / (2 * 10 ^ d) = 0 :=
      Int.ediv_eq_zero_of_lt (by omega) (by omega)
    omega
  · have : 0 ≤ (2 * -n + 10 ^ d) / (2 * 10 ^ d) := Int.ediv_nonneg (by omega) (by omega)
    omega

theorem Dec.toFixed_nonpos (d : Dec) (k : Nat) (h : d.mant ≤ 0) : d.toFixed k ≤ 0 := by
  unfold Dec.toFixed
  split
  · exact Int.mul_nonpos_of_nonpos_of_nonneg h (ten_pow_pos _).le
  · exact roundHalfUp_nonpos _ _ h

theorem validateOrder_quantity_pos {env : Env} {payload : OrderPayload} {s s1 : State}
    {v : ValidOrder} (h : validateOrder env payload s = (s1, some v)) :
    0 < v.quantity.toFixed v.precision := by
  obtain ⟨_, _, _, _, _, _, _, _, _, hp, _, hq, hd⟩ := validateOrder_some h
  apply Dec.toFixed_pos _ _ hq
  by_contra hneg
  have h1 : (v.price.mul v.quantity).mant ≤ 0 := by
    simp only [Dec.mul]
    exact Int.mul_nonpos_of_nonneg_of_nonpos hp.le (by omega)
  have h2 := Dec.toFixed_nonpos _ STEEM_PEGGED_SYMBOL_PRESICION h1
  simp only [DUST] at hd
  omega

theorem residualQuantity_append_fresh (book : List Order) (o : Order)
    (hfresh : ∀ r ∈ book, r.id < o.id) :
    residualQuantity (book ++ [o]) o.id = o.quantity := by
  unfold residualQuantity
  have h : book.filter (fun r => r.id == o.id) = [] := by
    rw [List.filter_eq_nil_iff]
    intro r hr
    have := hfresh r hr
    simp only [beq_iff_eq]
    omega
  simp [List.filter_append, h]

theorem residualQuantity_filter_ne (book : List Order) (id : Nat) :
    residualQuantity (book.filter (fun r => r.id != id)) id = 0 := by
  unfold residualQuantity
  have h : (book.filter (fun r => r.id != id)).filter (fun r => r.id == id) = [] := by
    rw [List.filter_eq_nil_iff]
    intro r hr
    have := (List.mem_filter.1 hr).2
    simpa using this
  simp [h]

@[simp] theorem apiAssert_buyBook (s : State) (c : Bool) (msg : String) :
    (apiAssert s c msg).buyBook = s.buyBook := by
  cases c <;> rfl

@[simp] theorem apiAssert_sellBook (s : State) (c : Bool) (msg : String) :
    (apiAssert s c msg).sellBook = s.sellBook := by
  cases c <;> rfl

@[simp] theorem apiAssert_tradesHistory (s : State) (c : Bool) (msg : String) :
    (apiAssert s c msg).tradesHistory = s.tradesHistory := by
  cases c <;> rfl

@[simp] theorem apiAssert_metrics (s : State) (c : Bool) (msg : String) :
    (apiAssert s c msg).metrics = s.metrics := by
  cases c <;> rfl

@[simp] theorem apiAssert_nextId (s : State) (c : Bool) (msg : String) :
    (apiAssert s c msg).nextId = s.nextId := by
  cases c <;> rfl

@[simp] theorem apiAssert_transfers (s : State) (c : Bool) (msg : String) :
    (apiAssert s c msg).transfers = s.transfers := by
  cases c <;> rfl

@[simp] theorem apiAssert_escrows (s : State) (c : Bool) (msg : String) :
    (apiAssert s c msg).escrows = s.escrows := by
  cases c <;> rfl

@[simp] theorem apiAssert_fills (s : State) (c : Bool) (msg : String) :
    (apiAssert s c msg).fills = s.fills := by
  cases c <;> rfl

theorem removeExpiredOrders_escrows (env : Env) (table : Table) (s : State) :
    (removeExpiredOrders env table s).escrows = s.escrows := by
  refine removeExpiredOrders_rel (fun a b => b.escrows = a.escrows) (fun _ => rfl)
    (fun a b c h1 h2 => h2.trans h1) env table ?_ s
  intro a o
  cases table with
  | buyBook =>
    simp only [removeExpiredOrder]
    rw [(updateAskMetric_same _ _).2.2.2.2.1]; rfl
  | sellBook =>
    simp only [removeExpiredOrder]
    rw [(updateBidMetric_same _ _).2.2.2.2.1]; rfl

theorem matchBuyOrder_escrows (env : Env) (prec : Nat) (m : Taker) (b : Order) :
    (matchBuyOrder env prec m b).st.escrows = m.st.escrows := by
  unfold matchBuyOrder sellFilledWhole buyOrderConsumed settleRestingBuy consumeBuyOrder
  simp only
  repeat' split
  all_goals simp [transferTokens, removeOrder, updateOrder, recordFill, State.setBook]

theorem findMatchingBuyOrdersLoop_inv (env : Env) (order : Order) (prec : Nat) (s : State)
    (Inv : Taker → Prop)
    (hstep : ∀ m o, m.active = true → Inv m → Inv (matchBuyOrder env prec m o))
    (h0 : Inv { st := removeExpiredOrders env Table.buyBook s, order := order,
                volumeTraded := 0 }) :
    Inv (findMatchingBuyOrdersLoop env order prec s) := by
  unfold findMatchingBuyOrdersLoop
  exact pagesLoop_inv _ _ _ Inv hstep _ _ _ _ h0

theorem findMatchingBuyOrders_escrows (env : Env) (order : Order) (prec : Nat) (s : State) :
    (findMatchingBuyOrders env order prec s).escrows = s.escrows := by
  have hinv := findMatchingBuyOrdersLoop_inv env order prec s
    (fun m => m.st.escrows = s.escrows)
    (fun m o _ hi => (matchBuyOrder_escrows env prec m o).trans hi)
    (removeExpiredOrders_escrows env Table.buyBook s)
  unfold findMatchingBuyOrders
  simp only [finishMetrics_escrows]
  generalize findMatchingBuyOrdersLoop env order prec s = m at hinv ⊢
  split
  · exact hinv
  · exact hinv

theorem findMatchingBuyOrders_symbol_leg (env : Env) (order : Order) (prec : Nat) (s : State)
    (hsym : order.symbol ≠ STEEM_PEGGED_SYMBOL) (hq : 0 < order.quantity) :
    ∃ (new : List Transfer) (last : Order),
      (findMatchingBuyOrders env order prec s).transfers = s.transfers ++ new ∧
      symbolSum order.symbol new + last.quantity = order.quantity ∧
      last.id = order.id ∧
      ((0 < last.quantity ∧ (findMatchingBuyOrders env order prec s).sellBook
          = s.sellBook.map (fun r => if r.id = last.id then last else r)) ∨
       (last.quantity = 0 ∧ (findMatchingBuyOrders env order prec s).sellBook
          = s.sellBook.filter (fun r => r.id != order.id))) := by
  obtain ⟨hsw1, hsw2, ts, hsw3, hsw4⟩ := removeExpiredOrders_buyBook_spec env s
  have hinv := findMatchingBuyOrdersLoop_inv env order prec s
    (SellLeg (removeExpiredOrders env Table.buyBook s).transfers s.sellBook order order.quantity)
    (fun m o ha hi => matchBuyOrder_sellLeg env prec _ _ order _ hsym m o ha hi)
    ⟨rfl, rfl, ⟨[], by simp, by simp [symbolSum_nil]⟩, Or.inl ⟨hq, hsw1⟩⟩
  unfold findMatchingBuyOrders
  simp only [finishMetrics_transfers, finishMetrics_sellBook]
  generalize findMatchingBuyOrdersLoop env order prec s = m at hinv ⊢
  obtain ⟨hid, hsy, ⟨new, hnew, hsum⟩, hbook⟩ := hinv
  refine ⟨ts ++ new, m.order, ?_, ?_, hid, ?_⟩
  · split
    · simp [updateOrder, State.setBook, hnew, hsw3]
    · simp [hnew, hsw3]
  · rw [symbolSum_append, symbolSum_peg_only _ hsym ts hsw4]
    omega
  · rcases hbook with ⟨hpos, hb⟩ | ⟨hz, hb⟩
    · left
      refine ⟨hpos, ?_⟩
      rw [if_pos hpos]
      simp [updateOrder, State.setBook, State.book, hb]
    · right
      refine ⟨hz, ?_⟩
      rw [if_neg (by omega)]
      exact hb

theorem residualQuantity_map_fresh (book : List Order) (row last : Order)
    (hfresh : ∀ r ∈ book, r.id < row.id) (hid : last.id = row.id) :
    residualQuantity ((book ++ [row]).map (fun r => if r.id = last.id then last else r)) row.id
      = last.quantity := by
  have h1 : book.map (fun r => if r.id = last.id then last else r) = book := by
    conv_rhs => rw [← List.map_id book]
    apply List.map_congr_left
    intro r hr
    have := hfresh r hr
    rw [if_neg (by omega)]
    rfl
  rw [List.map_append, h1]
  simp only [List.map_cons, List.map_nil, hid, if_true]
  have := residualQuantity_append_fresh book last (by rw [hid]; exact hfresh)
  rw [hid] at this
  exact this

/-- C5.  Symbol leg of a limit sell.  For every `sell` that passes the validation and the
escrow of `Q = quantity` (in a state whose sell orders have ids below the next id, as in
every state the contract builds), the action only appends transfers, and the symbol it
transfers (deliveries to the buyers and the refund of an unfillable remainder) plus the
quantity of the sell order left resting under the new id (zero when none) is `Q`. -/
theorem limit_sell_symbol_conserved (env : Env) (payload : OrderPayload) (s s1 : State)
    (v : ValidOrder) (hv : validateOrder env payload s = (s1, some v))
    (hok : env.escrowOk v.symbol (v.quantity.toFixed v.precision) = true)
    (hfresh : ∀ o ∈ s.sellBook, o.id < s.nextId) :
    (sell env payload s).escrows
      = s.escrows ++ [⟨env.sender, v.symbol, v.quantity.toFixed v.precision⟩] ∧
    (sell env payload s).transfers
      = s.transfers ++ (sell env payload s).transfers.drop s.transfers.length ∧
    symbolSum v.symbol ((sell env payload s).transfers.drop s.transfers.length)
        + residualQuantity (sell env payload s).sellBook s.nextId
      = v.quantity.toFixed v.precision := by
  have hQ := validateOrder_quantity_pos hv
  obtain ⟨hs1, _, _, _, _, _, hsym, _, _, _, _, _, _⟩ := validateOrder_some hv
  subst s1
  unfold sell
  rw [hv]
  simp only [hok, if_true]
  have hins : insertOrder (requestEscrow env s v.symbol (v.quantity.toFixed v.precision))
      Table.sellBook (newOrder env payload.expiration v 0)
      = ({ s with sellBook := s.sellBook ++ [{ newOrder env payload.expiration v 0 with id := s.nextId }],
                  nextId := s.nextId + 1,
                  escrows := s.escrows ++ [⟨env.sender, v.symbol, v.quantity.toFixed v.precision⟩] },
         { newOrder env payload.expiration v 0 with id := s.nextId }) := rfl
  rw [hins]
  simp only
  obtain ⟨new, last, h1, h2, h3, h4⟩ := findMatchingBuyOrders_symbol_leg env
    { newOrder env payload.expiration v 0 with id := s.nextId } v.precision
    { s with sellBook := s.sellBook ++ [{ newOrder env payload.expiration v 0 with id := s.nextId }],
                  nextId := s.nextId + 1,
                  escrows := s.escrows ++ [⟨env.sender, v.symbol, v.quantity.toFixed v.precision⟩] }
    hsym hQ
  simp only at h1
  rw [h1, List.drop_left]
  refine ⟨?_, rfl, ?_⟩
  · rw [findMatchingBuyOrders_escrows]
  · rcases h4 with ⟨hpos, hb⟩ | ⟨hz, hb⟩
    · rw [hb]
      have := residualQuantity_map_fresh s.sellBook
        { newOrder env payload.expiration v 0 with id := s.nextId } last hfresh h3
      simp only at this ⊢
      rw [this]
      exact h2
    · rw [hb]
      have := residualQuantity_filter_ne
        (s.sellBook ++ [{ newOrder env payload.expiration v 0 with id := s.nextId }]) s.nextId
      simp only [newOrder] at this h2 ⊢
      rw [this]
      omega

/-- Witness of C5: Alice sells `4 ABC` at `1.0` against Bob's resting buy of `10 ABC`. -/
theorem limit_sell_symbol_conserved_witness :
    (sell aliceSellsFour.1 (limitPayload ⟨4, 0⟩ ⟨1, 0⟩) restingBuyTen).escrows
      = restingBuyTen.escrows ++ [⟨"alice", "ABC", 40⟩] ∧
    (sell aliceSellsFour.1 (limitPayload ⟨4, 0⟩ ⟨1, 0⟩) restingBuyTen).transfers
      = restingBuyTen.transfers ++
        (sell aliceSellsFour.1 (limitPayload ⟨4, 0⟩ ⟨1, 0⟩) restingBuyTen).transfers.drop
          restingBuyTen.transfers.length ∧
    symbolSum "ABC"
        ((sell aliceSellsFour.1 (limitPayload ⟨4, 0⟩ ⟨1, 0⟩) restingBuyTen).transfers.drop
          restingBuyTen.transfers.length)
        + residualQuantity
          (sell aliceSellsFour.1 (limitPayload ⟨4, 0⟩ ⟨1, 0⟩) restingBuyTen).sellBook
          restingBuyTen.nextId
      = 40 :=
  limit_sell_symbol_conserved aliceSellsFour.1 (limitPayload ⟨4, 0⟩ ⟨1, 0⟩) restingBuyTen
    restingBuyTen ⟨"ABC", 1, ⟨1, 0⟩, ⟨4, 0⟩⟩ (by decide!) rfl (by decide!)

/-! ### Market orders: conservation of the input -/

theorem symbolSum_other (sym other : String) (hne : other ≠ sym)
    (ts : List Transfer) (h : ∀ t ∈ ts, t.symbol = other) :
    symbolSum sym ts = 0 := by
  induction ts with
  | nil => rfl
  | cons t rest ih =>
    rw [symbolSum_cons]
    have h1 : t.symbol ≠ sym := by
      rw [h t (List.mem_cons_self _ _)]
      exact hne
    rw [if_neg h1, ih (fun t ht => h t (List.mem_cons_of_mem _ ht))]
    rfl

theorem settleRestingSell_spec (prec : Nat) (st : State) (sym : String) (o : Order)
    (filled : Int) :
    (settleRestingSell prec st sym o filled).buyBook = st.buyBook ∧
    (settleRestingSell prec st sym o filled).fills = st.fills ∧
    (settleRestingSell prec st sym o filled).tradesHistory = st.tradesHistory ∧
    ∃ ts, (settleRestingSell prec st sym o filled).transfers = st.transfers ++ ts ∧
      ∀ t ∈ ts, t.symbol = sym := by
  unfold settleRestingSell
  simp only
  split
  · exact ⟨rfl, rfl, rfl, [], by simp [updateOrder, State.setBook], by simp⟩
  · split
    · refine ⟨rfl, rfl, rfl, [⟨o.account, sym, o.quantity - filled⟩], ?_, ?_⟩
      · simp [removeOrder, State.setBook, transferTokens]
      · simp
    · exact ⟨rfl, rfl, rfl, [], by simp [removeOrder, State.setBook], by simp⟩

theorem validateMarket_some {env : Env} {payload : MarketPayload} {f : Nat → Nat}
    {s s1 : State} {v : ValidMarket} (h : validateMarket env payload f s = (s1, some v)) :
    s1 = s ∧ payload.isSignedWithActiveKey = true ∧ payload.symbol = some v.symbol ∧
    payload.quantity = some v.quantity ∧ v.symbol ≠ "" ∧ v.symbol ≠ STEEM_PEGGED_SYMBOL ∧
    0 < v.quantity.mant ∧ env.tokens v.symbol = some v.precision ∧
    countDecimals v.quantity ≤ f v.precision := by
  unfold validateMarket at h
  cases hs : payload.isSignedWithActiveKey with
  | false => simp [hs] at h
  | true =>
    simp only [hs, apiAssert_true, Bool.not_true, Bool.false_eq_true, if_false] at h
    cases hsym : payload.symbol with
    | none => simp [hsym] at h
    | some symbol =>
      cases hq : payload.quantity with
      | none => simp [hsym, hq] at h
      | some quantity =>
        simp only [hsym, hq] at h
        split at h
        · rename_i hvalid
          cases ht : env.tokens symbol with
          | none => simp [ht] at h
          | some precision =>
            simp only [ht] at h
            split at h
            · rename_i hdec
              simp only [Prod.mk.injEq, Option.some.injEq] at h
              obtain ⟨h1, h2⟩ := h
              subst h2
              simp only [Bool.and_eq_true, bne_iff_ne, ne_eq, decide_eq_true_eq,
                Dec.gt0] at hvalid hdec
              have h3 : apiAssert s (decide (countDecimals quantity ≤ f precision))
                  "invalid params" = s := by
                simp [apiAssert, hdec]
              rw [h3] at h1
              exact ⟨h1.symm, rfl, rfl, rfl, hvalid.1.1, hvalid.1.2, hvalid.2, ht, hdec⟩
            · simp at h
        · simp at h



theorem marketBuyOrder_inputLeg (env : Env) (sym : String) (prec : Nat)
    (base : List Transfer) (X : Int) (hsym : sym ≠ STEEM_PEGGED_SYMBOL)
    (m : Sweep) (o : Order) (hinv : InputLeg base STEEM_PEGGED_SYMBOL X m) :
    InputLeg base STEEM_PEGGED_SYMBOL X (marketBuyOrder env sym prec m o) := by
  obtain ⟨new, hnew, hsum⟩ := hinv
  have hwhole : InputLeg base STEEM_PEGGED_SYMBOL X (marketBuyWhole env sym prec m o) := by
    unfold marketBuyWhole
    simp only
    split
    · rename_i hok
      simp only [hok, apiAssert_true]
      refine ⟨new ++ [⟨env.sender, sym, o.quantity⟩,
        ⟨o.account, STEEM_PEGGED_SYMBOL, cappedAmount prec o.price o.quantity m.remaining⟩],
        ?_, ?_⟩
      · simp [recordFill, removeOrder, State.setBook, transferTokens, hnew]
      · rw [symbolSum_append, symbolSum_cons, symbolSum_cons, symbolSum_nil, if_neg hsym]
        simp only [if_true]
        omega
    · exact ⟨new, by simp [hnew], hsum⟩
  unfold marketBuyOrder
  split
  · rename_i q hq
    split
    · unfold marketBuyAll
      simp only
      split
      · rename_i hok
        simp only [hok, apiAssert_true]
        obtain ⟨_, _, _, ts, h4, h5⟩ := settleRestingSell_spec prec
          (transferTokens (transferTokens m.st env.sender sym q) o.account
            STEEM_PEGGED_SYMBOL m.remaining) sym o q
        refine ⟨new ++ ([⟨env.sender, sym, q⟩, ⟨o.account, STEEM_PEGGED_SYMBOL, m.remaining⟩]
          ++ ts), ?_, ?_⟩
        · simp only [recordFill, updateTradesHistory_transfers, h4]
          simp [transferTokens, hnew]
        · rw [symbolSum_append, symbolSum_append, symbolSum_cons, symbolSum_cons, symbolSum_nil,
            symbolSum_other _ sym hsym ts h5, if_neg hsym]
          simp only [if_true]
          omega
      · exact ⟨new, by simp [hnew], hsum⟩
    · split
      · exact hwhole
      · exact ⟨new, hnew, hsum⟩
  · exact hwhole

theorem marketSellOrder_inputLeg (env : Env) (sym : String) (prec : Nat)
    (base : List Transfer) (X : Int) (hsym : sym ≠ STEEM_PEGGED_SYMBOL)
    (m : Sweep) (b : Order) (hinv : InputLeg base sym X m) :
    InputLeg base sym X (marketSellOrder env sym prec m b) := by
  obtain ⟨new, hnew, hsum⟩ := hinv
  unfold marketSellOrder
  split
  · unfold marketSellAll
    simp only
    split
    · rename_i hok
      simp only [hok, apiAssert_true]
      obtain ⟨_, _, _, ts, h4, h5⟩ := settleRestingBuy_spec prec
        (transferTokens (transferTokens m.st b.account sym m.remaining) env.sender
          STEEM_PEGGED_SYMBOL (cappedAmount prec b.price m.remaining b.tokensLocked)) b
          m.remaining (cappedAmount prec b.price m.remaining b.tokensLocked)
      refine ⟨new ++ ([⟨b.account, sym, m.remaining⟩, ⟨env.sender, STEEM_PEGGED_SYMBOL,
        cappedAmount prec b.price m.remaining b.tokensLocked⟩] ++ ts), ?_, ?_⟩
      · simp only [recordFill, updateTradesHistory_transfers, h4]
        simp [transferTokens, hnew]
      · have e2 : ¬ (STEEM_PEGGED_SYMBOL = sym) := fun e => hsym e.symm
        rw [symbolSum_append, symbolSum_append, symbolSum_cons, symbolSum_cons, symbolSum_nil,
          symbolSum_peg_only _ hsym ts h5]
        simp only [e2, if_false, if_true, eq_self_iff_true]
        omega
    · exact ⟨new, by simp [hnew], hsum⟩
  · unfold marketSellWhole
    simp only
    split
    · rename_i hok
      simp only [hok, apiAssert_true]
      obtain ⟨_, _, _, ts, h4, h5⟩ := consumeBuyOrder_spec m.st env.sender sym b
        (payForWholeBuyOrder prec b)
      refine ⟨new ++ ([⟨b.account, sym, b.quantity⟩, ⟨env.sender, STEEM_PEGGED_SYMBOL,
        payForWholeBuyOrder prec b⟩] ++ ts), ?_, ?_⟩
      · simp only [recordFill, updateTradesHistory_transfers, h4]
        simp [hnew]
      · have e2 : ¬ (STEEM_PEGGED_SYMBOL = sym) := fun e => hsym e.symm
        rw [symbolSum_append, symbolSum_append, symbolSum_cons, symbolSum_cons, symbolSum_nil,
          symbolSum_peg_only _ hsym ts h5]
        simp only [e2, if_false, if_true, eq_self_iff_true]
        omega
    · exact ⟨new, by simp [hnew], hsum⟩

theorem tdiv_nonpos_of_nonpos (a b : Int) (ha : a ≤ 0) (hb : 0 ≤ b) : Int.tdiv a b ≤ 0 := by
  have h1 : a = -(-a) := by omega
  rw [h1, Int.neg_tdiv]
  have := Int.tdiv_nonneg (a := -a) (b := b) (by omega) hb
  omega

theorem roundDown_le_of_le_mul (n r : Int) (d : Nat) (hr : 0 ≤ r) (h : n ≤ r * 10 ^ d) :
    roundDown n d ≤ r := by
  have hp := ten_pow_pos d
  unfold roundDown
  by_cases hn : 0 ≤ n
  · rw [Int.tdiv_eq_ediv hn hp.le]
    exact Int.ediv_le_of_le_mul hp h
  · have h1 := tdiv_nonpos_of_nonpos n (10 ^ d) (by omega) hp.le
    omega

theorem divRound_nonneg (a b : Int) (dp : Nat) (ha : 0 ≤ a) (hb : 0 < b) :
    0 ≤ divRound a b dp := by
  unfold divRound
  rw [if_pos ha]
  apply Int.ediv_nonneg
  · have := ten_pow_pos dp
    have : 0 ≤ 2 * a * 10 ^ dp := by positivity
    omega
  · omega

theorem divRound_nonpos (a b : Int) (dp : Nat) (ha : a ≤ 0) (hb : 0 < b) :
    divRound a b dp ≤ 0 := by
  unfold divRound
  split
  · have h0 : a = 0 := by omega
    subst h0
    have : (2 * 0 * 10 ^ dp + b) / (2 * b) = 0 := by
      apply Int.ediv_eq_zero_of_lt <;> omega
    omega
  · have : 0 ≤ (2 * -a * 10 ^ dp + b) / (2 * b) := by
      apply Int.ediv_nonneg
      · have := ten_pow_pos dp
        have : 0 ≤ 2 * -a * 10 ^ dp := by
          apply Int.mul_nonneg <;> omega
        omega
      · omega
    omega

/-- What `marketBuy` can afford of a sell order is more than the order holds only when the
order's value is within what remains. -/
theorem value_le_of_marketBuyQuantity_gt (rem p sq q : Int) (prec : Nat) (hprec : prec ≤ 20)
    (hrem : 0 ≤ rem) (hp : 0 < p)
    (hq : q = roundDown (divRound rem p 20) (20 - prec)) (hgt : sq < q) :
    p * sq ≤ rem * 10 ^ prec := by
  have hE := ten_pow_pos (20 - prec)
  have hD := ten_pow_pos prec
  have h20 : (10 : Int) ^ 20 = 10 ^ prec * 10 ^ (20 - prec) := by
    rw [← pow_add]
    congr 1
    omega
  have hq20 := divRound_nonneg rem p 20 hrem hp
  have h1 : (sq + 1) * 10 ^ (20 - prec) ≤ divRound rem p 20 := by
    have : sq + 1 ≤ divRound rem p 20 / 10 ^ (20 - prec) := by
      rw [hq, roundDown, Int.tdiv_eq_ediv hq20 hE.le] at hgt
      omega
    exact (Int.le_ediv_iff_mul_le hE).1 this
  have h2 : divRound rem p 20 * (2 * p) ≤ 2 * rem * 10 ^ 20 + p := by
    unfold divRound
    rw [if_pos hrem]
    exact Int.ediv_mul_le _ (by omega)
  have h3 : (sq + 1) * 10 ^ (20 - prec) * (2 * p) ≤ 2 * rem * 10 ^ 20 + p :=
    le_trans (Int.mul_le_mul_of_nonneg_right h1 (by omega)) h2
  rw [h20] at h3
  by_contra hcon
  have h4 : rem * 10 ^ prec + 1 ≤ p * sq := by omega
  have h5 : (rem * 10 ^ prec + 1) * (2 * 10 ^ (20 - prec)) ≤ p * sq * (2 * 10 ^ (20 - prec)) :=
    Int.mul_le_mul_of_nonneg_right h4 (by omega)
  have h6 : p ≤ p * 10 ^ (20 - prec) := by
    have : p * 1 ≤ p * 10 ^ (20 - prec) := Int.mul_le_mul_of_nonneg_left (by omega) hp.le
    omega
  nlinarith

theorem marketBuyOrder_remaining_nonneg (env : Env) (sym : String) (prec : Nat)
    (hprec : prec ≤ 20) (m : Sweep) (o : Order) (h : 0 ≤ m.remaining) :
    0 ≤ (marketBuyOrder env sym prec m o).remaining := by
  have hall : ∀ q, 0 ≤ (marketBuyAll env sym prec m o q).remaining := by
    intro q
    unfold marketBuyAll
    simp only
    split
    · exact le_refl _
    · exact h
  have hwhole : cappedAmount prec o.price o.quantity m.remaining ≤ m.remaining →
      0 ≤ (marketBuyWhole env sym prec m o).remaining := by
    intro hle
    unfold marketBuyWhole
    simp only
    split
    · simp only
      omega
    · exact h
  have hcap : o.price * o.quantity ≤ m.remaining * 10 ^ prec →
      cappedAmount prec o.price o.quantity m.remaining ≤ m.remaining := by
    intro hv
    unfold cappedAmount
    simp only
    split
    · exact roundDown_le_of_le_mul _ _ _ h hv
    · omega
  unfold marketBuyOrder
  split
  · rename_i q hq
    split
    · exact hall q
    · rename_i hnot
      split
      · rename_i hpos
        have hgt : o.quantity < q := by
          by_contra hc
          exact hnot ⟨by omega, hpos⟩
        apply hwhole
        apply hcap
        unfold marketBuyQuantity at hq
        split at hq
        · simp at hq
        · rename_i hp0
          simp only [if_pos hprec, Option.some.injEq] at hq
          by_cases hp : 0 < o.price
          · rw [if_pos hp] at hq
            exact value_le_of_marketBuyQuantity_gt _ _ _ q prec hprec h hp hq.symm hgt
          · exfalso
            rw [if_neg hp] at hq
            have h1 := divRound_nonpos (-m.remaining) (-o.price) 20 (by omega) (by omega)
            have h2 : roundDown (divRound (-m.remaining) (-o.price) 20) (20 - prec) ≤ 0 := by
              unfold roundDown
              exact tdiv_nonpos_of_nonpos _ _ h1 (ten_pow_pos _).le
            omega
      · exact h
  · rename_i hq
    apply hwhole
    unfold marketBuyQuantity at hq
    split at hq
    · rename_i hp0
      apply hcap
      rw [hp0]
      have := ten_pow_pos prec
      have : 0 ≤ m.remaining * 10 ^ prec := Int.mul_nonneg h (by omega)
      omega
    · split at hq <;> simp at hq

theorem marketSellOrder_remaining_nonneg (env : Env) (sym : String) (prec : Nat)
    (m : Sweep) (b : Order) (h : 0 ≤ m.remaining) :
    0 ≤ (marketSellOrder env sym prec m b).remaining := by
  unfold marketSellOrder
  split
  · unfold marketSellAll
    simp only
    split
    · exact le_refl _
    · exact h
  · unfold marketSellWhole
    simp only
    split
    · simp only
      omega
    · exact h

theorem marketBuyLoop_inv (env : Env) (sym : String) (prec : Nat) (X : Int) (s : State)
    (Inv : Sweep → Prop)
    (hstep : ∀ m o, m.active = true → Inv m → Inv (marketBuyOrder env sym prec m o))
    (h0 : Inv { st := removeExpiredOrders env Table.sellBook s, remaining := X,
                volumeTraded := 0 }) :
    Inv (marketBuyLoop env sym prec X s) := by
  unfold marketBuyLoop
  exact pagesLoop_inv _ _ _ Inv hstep _ _ _ _ h0

theorem marketSellLoop_inv (env : Env) (sym : String) (prec : Nat) (X : Int) (s : State)
    (Inv : Sweep → Prop)
    (hstep : ∀ m o, m.active = true → Inv m → Inv (marketSellOrder env sym prec m o))
    (h0 : Inv { st := removeExpiredOrders env Table.buyBook s, remaining := X,
                volumeTraded := 0 }) :
    Inv (marketSellLoop env sym prec X s) := by
  unfold marketSellLoop
  exact pagesLoop_inv _ _ _ Inv hstep _ _ _ _ h0

/-- What a market order transfers after the sweep of expired orders, refund included:
the amount of `sym` is the input `X`, provided the remainder never went negative. -/
theorem sweep_refund_conserved (env : Env) (sym refundSym : String) (v : Int)
    (base : List Transfer) (X : Int) (m : Sweep)
    (hinv : InputLeg base refundSym X m) (hnn : 0 ≤ m.remaining) :
    (finishMetrics env sym v
      (if m.remaining > 0 then transferTokens m.st env.sender refundSym m.remaining
       else m.st)).transfers
      = base ++ (finishMetrics env sym v
          (if m.remaining > 0 then transferTokens m.st env.sender refundSym m.remaining
           else m.st)).transfers.drop base.length ∧
    symbolSum refundSym ((finishMetrics env sym v
          (if m.remaining > 0 then transferTokens m.st env.sender refundSym m.remaining
           else m.st)).transfers.drop base.length) = X := by
  obtain ⟨new, hnew, hsum⟩ := hinv
  simp only [finishMetrics_transfers]
  split
  · simp only [transferTokens, hnew, List.append_assoc, List.drop_left, true_and]
    rw [symbolSum_append, symbolSum_cons, symbolSum_nil]
    simp only [if_true]
    omega
  · simp only [hnew, List.drop_left, true_and]
    omega

/-- C6.  A market order's escrowed input is conserved.  For a `marketBuy` that passes the
validation and the escrow of `X` peg tokens, the peg token transferred after the sweep of
expired orders (the payments to the sellers and the refund to the sender) is `X`; for a
`marketSell` with `X` of the symbol, the symbol transferred after the sweep (deliveries
to the buyers and the refund) is `X`.  The running remainder never becomes negative: no
loop body makes a non-negative `steempRemaining` or `tokensRemaining` negative, and it
is non-negative when the loop ends.  For `marketBuy` the precision of the token is at
most 20, the number of decimals bignumber.js keeps in the division
`steempRemaining / price` (registered tokens have at most 8). -/
theorem market_input_conserved :
    (∀ (env : Env) (payload : MarketPayload) (s s1 : State) (v : ValidMarket),
      validateMarket env payload (fun _ => STEEM_PEGGED_SYMBOL_PRESICION) s = (s1, some v) →
      env.escrowOk STEEM_PEGGED_SYMBOL
        (v.quantity.toFixed STEEM_PEGGED_SYMBOL_PRESICION) = true → v.precision ≤ 20 →
      (marketBuy env payload s).transfers
        = (removeExpiredOrders env Table.sellBook (requestEscrow env s STEEM_PEGGED_SYMBOL
            (v.quantity.toFixed STEEM_PEGGED_SYMBOL_PRESICION))).transfers
          ++ (marketBuy env payload s).transfers.drop
              (removeExpiredOrders env Table.sellBook (requestEscrow env s STEEM_PEGGED_SYMBOL
                (v.quantity.toFixed STEEM_PEGGED_SYMBOL_PRESICION))).transfers.length ∧
      pegSum ((marketBuy env payload s).transfers.drop
          (removeExpiredOrders env Table.sellBook (requestEscrow env s STEEM_PEGGED_SYMBOL
            (v.quantity.toFixed STEEM_PEGGED_SYMBOL_PRESICION))).transfers.length)
        = v.quantity.toFixed STEEM_PEGGED_SYMBOL_PRESICION ∧
      0 ≤ (marketBuyLoop env v.symbol v.precision
            (v.quantity.toFixed STEEM_PEGGED_SYMBOL_PRESICION)
            (requestEscrow env s STEEM_PEGGED_SYMBOL
              (v.quantity.toFixed STEEM_PEGGED_SYMBOL_PRESICION))).remaining) ∧
    (∀ (env : Env) (payload : MarketPayload) (s s1 : State) (v : ValidMarket),
      validateMarket env payload (fun precision => precision) s = (s1, some v) →
      env.escrowOk v.symbol (v.quantity.toFixed v.precision) = true →
      (marketSell env payload s).transfers
        = (removeExpiredOrders env Table.buyBook (requestEscrow env s v.symbol
            (v.quantity.toFixed v.precision))).transfers
          ++ (marketSell env payload s).transfers.drop
              (removeExpiredOrders env Table.buyBook (requestEscrow env s v.symbol
                (v.quantity.toFixed v.precision))).transfers.length ∧
      symbolSum v.symbol ((marketSell env payload s).transfers.drop
          (removeExpiredOrders env Table.buyBook (requestEscrow env s v.symbol
            (v.quantity.toFixed v.precision))).transfers.length)
        = v.quantity.toFixed v.precision ∧
      0 ≤ (marketSellLoop env v.symbol v.precision (v.quantity.toFixed v.precision)
            (requestEscrow env s v.symbol (v.quantity.toFixed v.precision))).remaining) ∧
    (∀ (env : Env) (symbol : String) (precision : Nat) (m : Sweep) (sellOrder : Order),
      precision ≤ 20 → 0 ≤ m.remaining →
      0 ≤ (marketBuyOrder env symbol precision m sellOrder).remaining) ∧
    (∀ (env : Env) (symbol : String) (precision : Nat) (m : Sweep) (buyOrder : Order),
      0 ≤ m.remaining → 0 ≤ (marketSellOrder env symbol precision m buyOrder).remaining) := by
  refine ⟨?_, ?_, ?_, ?_⟩
  · intro env payload s s1 v hv hok hprec
    obtain ⟨hs1, _, _, _, _, hsym, hpos, _, hdec⟩ := validateMarket_some hv
    subst s1
    have hX : 0 < v.quantity.toFixed STEEM_PEGGED_SYMBOL_PRESICION :=
      Dec.toFixed_pos _ _ hdec hpos
    have hinv := marketBuyLoop_inv env v.symbol v.precision
      (v.quantity.toFixed STEEM_PEGGED_SYMBOL_PRESICION)
      (requestEscrow env s STEEM_PEGGED_SYMBOL (v.quantity.toFixed STEEM_PEGGED_SYMBOL_PRESICION))
      (fun m => InputLeg (removeExpiredOrders env Table.sellBook (requestEscrow env s
          STEEM_PEGGED_SYMBOL (v.quantity.toFixed STEEM_PEGGED_SYMBOL_PRESICION))).transfers
          STEEM_PEGGED_SYMBOL (v.quantity.toFixed STEEM_PEGGED_SYMBOL_PRESICION) m
        ∧ 0 ≤ m.remaining)
      (fun m o _ hi => ⟨marketBuyOrder_inputLeg env v.symbol v.precision _ _ hsym m o hi.1,
        marketBuyOrder_remaining_nonneg env v.symbol v.precision hprec m o hi.2⟩)
      ⟨⟨[], by simp, by simp [symbolSum_nil]⟩, hX.le⟩
    unfold marketBuy
    rw [hv]
    simp only [hok, if_true]
    generalize marketBuyLoop env v.symbol v.precision
      (v.quantity.toFixed STEEM_PEGGED_SYMBOL_PRESICION)
      (requestEscrow env s STEEM_PEGGED_SYMBOL
        (v.quantity.toFixed STEEM_PEGGED_SYMBOL_PRESICION)) = m at hinv ⊢
    obtain ⟨h1, h2⟩ := sweep_refund_conserved env v.symbol STEEM_PEGGED_SYMBOL m.volumeTraded
      _ _ m hinv.1 hinv.2
    exact ⟨h1, h2, hinv.2⟩
  · intro env payload s s1 v hv hok
    obtain ⟨hs1, _, _, _, _, hsym, hpos, _, hdec⟩ := validateMarket_some hv
    subst s1
    have hX : 0 < v.quantity.toFixed v.precision := Dec.toFixed_pos _ _ hdec hpos
    have hinv := marketSellLoop_inv env v.symbol v.precision
      (v.quantity.toFixed v.precision)
      (requestEscrow env s v.symbol (v.quantity.toFixed v.precision))
      (fun m => InputLeg (removeExpiredOrders env Table.buyBook (requestEscrow env s
          v.symbol (v.quantity.toFixed v.precision))).transfers
          v.symbol (v.quantity.toFixed v.precision) m
        ∧ 0 ≤ m.remaining)
      (fun m o _ hi => ⟨marketSellOrder_inputLeg env v.symbol v.precision _ _ hsym m o hi.1,
        marketSellOrder_remaining_nonneg env v.symbol v.precision m o hi.2⟩)
      ⟨⟨[], by simp, by simp [symbolSum_nil]⟩, hX.le⟩
    unfold marketSell
    rw [hv]
    simp only [hok, if_true]
    generalize marketSellLoop env v.symbol v.precision
      (v.quantity.toFixed v.precision)
      (requestEscrow env s v.symbol (v.quantity.toFixed v.precision)) = m at hinv ⊢
    obtain ⟨h1, h2⟩ := sweep_refund_conserved env v.symbol v.symbol m.volumeTraded
      _ _ m hinv.1 hinv.2
    exact ⟨h1, h2, hinv.2⟩
  · intro env symbol precision m sellOrder hprec h
    exact marketBuyOrder_remaining_nonneg env symbol precision hprec m sellOrder h
  · intro env symbol precision m buyOrder h
    exact marketSellOrder_remaining_nonneg env symbol precision m buyOrder h

/-- Witness of C6: Bob's market buy of `15` peg tokens against Alice's resting sell of
`10 ABC` at `2.0`, and Alice's market sell of `4 ABC` against Bob's resting buy of
`10 ABC` at `1.0`. -/
theorem market_input_conserved_witness :
    pegSum ((marketBuy (exampleEnv "bob" "m1" 101) (marketPayload ⟨15, 0⟩)
        restingSellTen).transfers.drop
        (removeExpiredOrders (exampleEnv "bob" "m1" 101) Table.sellBook
          (requestEscrow (exampleEnv "bob" "m1" 101) restingSellTen STEEM_PEGGED_SYMBOL
            1500000000)).transfers.length) = 1500000000 ∧
    symbolSum "ABC" ((marketSell (exampleEnv "alice" "m2" 101) (marketPayload ⟨4, 0⟩)
        restingBuyTen).transfers.drop
        (removeExpiredOrders (exampleEnv "alice" "m2" 101) Table.buyBook
          (requestEscrow (exampleEnv "alice" "m2" 101) restingBuyTen "ABC"
            40)).transfers.length) = 40 :=
  ⟨(market_input_conserved.1 (exampleEnv "bob" "m1" 101) (marketPayload ⟨15, 0⟩)
      restingSellTen restingSellTen ⟨"ABC", 1, ⟨15, 0⟩⟩ (by decide!) rfl (by decide)).2.1,
   (market_input_conserved.2.1 (exampleEnv "alice" "m2" 101) (marketPayload ⟨4, 0⟩)
      restingBuyTen restingBuyTen ⟨"ABC", 1, ⟨4, 0⟩⟩ (by decide!) rfl).2.1⟩

/-! ### The purge of the trade history -/

theorem sortBy_noSort {α : Type} (l : List α) : sortBy noSort l = l := by
  induction l with
  | nil => rfl
  | cons x xs ih =>
    simp only [sortBy, ih]
    cases xs with
    | nil => rfl
    | cons y ys => simp [insertBy, noSort]

theorem dbFind_noSort {α : Type} (rows : List α) (q : α → Bool) (limit : Nat) :
    dbFind rows q limit 0 noSort = (rows.filter q).take limit := by
  simp [dbFind, sortBy_noSort]

theorem updateVolumeMetric_tradesHistory (env : Env) (sym : String) (q : Int) (add : Bool)
    (s : State) : (updateVolumeMetric env sym q add s).tradesHistory = s.tradesHistory :=
  (updateVolumeMetric_same env sym q add s).2.2.1

theorem updatePriceMetrics_tradesHistory (env : Env) (sym : String) (p : Int) (s : State) :
    (updatePriceMetrics env sym p s).tradesHistory = s.tradesHistory :=
  (updatePriceMetrics_same env sym p s).2.2.1

theorem purgePass_tradesHistory (env : Env) (ts : List Trade) :
    ∀ s : State, (purgePass env s ts).tradesHistory
      = ts.foldl (fun acc t => acc.filter (fun r => r.id != t.id)) s.tradesHistory := by
  induction ts with
  | nil => intro s; rfl
  | cons t rest ih =>
    intro s
    have h := ih (removeTrade (updateVolumeMetric env t.symbol t.volume false s) t)
    unfold purgePass at h ⊢
    simp only [List.foldl_cons]
    rw [h]
    simp only [removeTrade, updateVolumeMetric_tradesHistory]

theorem purgeTrades_tradesHistory (env : Env) (sym : String) :
    ∀ (fuel : Nat) (s : State),
      (purgeTrades env sym fuel s).tradesHistory = purgeList env sym fuel s.tradesHistory := by
  intro fuel
  induction fuel with
  | zero => intro s; rfl
  | succ n ih =>
    intro s
    unfold purgeTrades purgeList
    simp only [dbFind_noSort]
    split
    · rw [ih, purgePass_tradesHistory]
    · rfl

theorem foldl_filter_sublist (ts : List Trade) :
    ∀ l : List Trade,
      (ts.foldl (fun acc t => acc.filter (fun r => r.id != t.id)) l).Sublist l := by
  induction ts with
  | nil => intro l; exact List.Sublist.refl _
  | cons t rest ih =>
    intro l
    simp only [List.foldl_cons]
    exact List.Sublist.trans (ih _) (List.filter_sublist _)

theorem purgeList_sublist (env : Env) (sym : String) :
    ∀ (fuel : Nat) (l : List Trade), (purgeList env sym fuel l).Sublist l := by
  intro fuel
  induction fuel with
  | zero => intro l; exact List.Sublist.refl _
  | succ n ih =>
    intro l
    unfold purgeList
    simp only
    split
    · exact List.Sublist.trans (ih _) (foldl_filter_sublist _ l)
    · exact List.Sublist.refl _

theorem purgeList_noop (env : Env) (sym : String) (fuel : Nat) (l : List Trade)
    (h : ∀ t ∈ l, oldTrade env sym t = false) : purgeList env sym fuel l = l := by
  cases fuel with
  | zero => rfl
  | succ n =>
    unfold purgeList
    simp only
    have h1 : l.filter (oldTrade env sym) = [] := by
      rw [List.filter_eq_nil_iff]
      intro t ht
      simp [h t ht]
    rw [h1]
    simp

theorem purgeList_complete (env : Env) (sym : String) :
    ∀ (fuel : Nat) (l : List Trade), l.length < fuel →
      ∀ t ∈ purgeList env sym fuel l, oldTrade env sym t = false := by
  intro fuel
  induction fuel with
  | zero => intro l h; omega
  | succ n ih =>
    intro l hlen
    unfold purgeList
    simp only
    split
    · rename_i hfound
      cases hl : (l.filter (oldTrade env sym)).take PAGE with
      | nil => simp [hl] at hfound
      | cons t rest =>
        have ht : t ∈ l := by
          have : t ∈ (l.filter (oldTrade env sym)).take PAGE := by
            rw [hl]; exact List.mem_cons_self _ _
          exact (List.mem_filter.1 (List.mem_of_mem_take this)).1
        have h1 : ((t :: rest).foldl (fun acc t => acc.filter (fun r => r.id != t.id)) l).length
            < l.length := by
          simp only [List.foldl_cons]
          have h2 := (foldl_filter_sublist rest (l.filter (fun r => r.id != t.id))).length_le
          have h3 : (l.filter (fun r => r.id != t.id)).length < l.length := by
            apply List.length_filter_lt_length_iff_exists.2
            exact ⟨t, ht, by simp⟩
          omega
        exact ih _ (by omega)
    · rename_i hfound
      intro t ht
      have h1 : (l.filter (oldTrade env sym)).take PAGE = [] := by
        cases hl : (l.filter (oldTrade env sym)).take PAGE with
        | nil => rfl
        | cons a b => simp [hl] at hfound
      have h2 : l.filter (oldTrade env sym) = [] := by
        cases hf : l.filter (oldTrade env sym) with
        | nil => rfl
        | cons a b => simp [hf, PAGE] at h1
      have := List.filter_eq_nil_iff.1 h2 t ht
      simpa using this

/-- What `updateTradesHistory` does to the table: the rows kept by the purge, then the
new row. -/
theorem updateTradesHistory_tradesHistory (env : Env) (type : Side) (buyer seller sym : String)
    (q p v : Int) (s : State) :
    (updateTradesHistory env type buyer seller sym q p v s).tradesHistory
      = keptTrades env sym s.tradesHistory ++
        [⟨(purgeTrades env sym (s.tradesHistory.length + 1) s).nextId, type, buyer, seller, sym,
          q, p, env.timestampSec, v⟩] := by
  unfold updateTradesHistory keptTrades
  simp only [updatePriceMetrics_tradesHistory, purgeTrades_tradesHistory]

theorem keptTrades_sublist (env : Env) (sym : String) (l : List Trade) :
    (keptTrades env sym l).Sublist l := purgeList_sublist env sym _ l

theorem keptTrades_fresh (env : Env) (sym : String) (l : List Trade) :
    ∀ t ∈ keptTrades env sym l, oldTrade env sym t = false :=
  purgeList_complete env sym _ l (by omega)

theorem keptTrades_noop (env : Env) (sym : String) (l : List Trade)
    (h : ∀ t ∈ l, oldTrade env sym t = false) : keptTrades env sym l = l :=
  purgeList_noop env sym _ l h

/-! ### Trade records of a fill -/

theorem settleRestingSell_tradesHistory (prec : Nat) (st : State) (sym : String) (o : Order)
    (filled : Int) : (settleRestingSell prec st sym o filled).tradesHistory = st.tradesHistory :=
  (settleRestingSell_spec prec st sym o filled).2.2.1

theorem settleRestingSell_fills (prec : Nat) (st : State) (sym : String) (o : Order)
    (filled : Int) : (settleRestingSell prec st sym o filled).fills = st.fills :=
  (settleRestingSell_spec prec st sym o filled).2.1

theorem settleRestingBuy_tradesHistory (prec : Nat) (st : State) (b : Order)
    (filled amt : Int) : (settleRestingBuy prec st b filled amt).tradesHistory = st.tradesHistory :=
  (settleRestingBuy_spec prec st b filled amt).2.2.1

theorem settleRestingBuy_fills (prec : Nat) (st : State) (b : Order)
    (filled amt : Int) : (settleRestingBuy prec st b filled amt).fills = st.fills :=
  (settleRestingBuy_spec prec st b filled amt).2.1

theorem consumeBuyOrder_tradesHistory (st : State) (seller sym : String) (b : Order)
    (amt : Int) : (consumeBuyOrder st seller sym b amt).tradesHistory = st.tradesHistory :=
  (consumeBuyOrder_spec st seller sym b amt).2.2.1

theorem consumeBuyOrder_fills (st : State) (seller sym : String) (b : Order)
    (amt : Int) : (consumeBuyOrder st seller sym b amt).fills = st.fills :=
  (consumeBuyOrder_spec st seller sym b amt).2.1

theorem transferTokens_transfers (s : State) (a b : String) (q : Int) :
    (transferTokens s a b q).transfers = s.transfers ++ [⟨a, b, q⟩] := rfl

theorem matchSellOrder_records (env : Env) (prec : Nat) (m : Taker) (o : Order) :
    ((matchSellOrder env prec m o).order.symbol = m.order.symbol ∧
     (matchSellOrder env prec m o).order.account = m.order.account) ∧
    (NoFill m (matchSellOrder env prec m o) ∨
     FillRecorded env Side.buy m.order.account o.account m.order.symbol o m
       (matchSellOrder env prec m o)) := by
  unfold matchSellOrder
  split
  · unfold buyFilledWhole
    simp only
    split
    · rename_i hok
      simp only [hok, apiAssert_true]
      refine ⟨by simp, Or.inr ?_⟩
      obtain ⟨_, _, _, ts, h4, _⟩ := settleRestingSell_spec prec
        (transferTokens (transferTokens m.st m.order.account m.order.symbol m.order.quantity)
          o.account STEEM_PEGGED_SYMBOL
          (cappedAmount prec o.price m.order.quantity m.order.tokensLocked))
        m.order.symbol o m.order.quantity
      simp only [Bool.and_eq_true, decide_eq_true_eq] at hok
      split
      · refine ⟨m.order.quantity, cappedAmount prec o.price m.order.quantity m.order.tokensLocked,
          m.order.tokensLocked, ts ++ [⟨m.order.account, STEEM_PEGGED_SYMBOL,
            m.order.tokensLocked - cappedAmount prec o.price m.order.quantity
              m.order.tokensLocked⟩], ?_, ?_, ?_, ?_, hok.1, rfl⟩
        · simp only [removeOrder, State.setBook, recordFill, updateTradesHistory_tradesHistory,
            transferTokens, settleRestingSell_tradesHistory, List.dropLast_concat]
        · simp only [removeOrder, State.setBook, recordFill, updateTradesHistory_tradesHistory,
            transferTokens, settleRestingSell_tradesHistory, List.getLast?_concat]
          rfl
        · simp only [removeOrder, State.setBook, recordFill, updateTradesHistory_transfers,
            transferTokens_transfers, h4]
          simp
        · simp only [removeOrder, State.setBook, recordFill, updateTradesHistory_fills,
            transferTokens, settleRestingSell_fills]
      · refine ⟨m.order.quantity, cappedAmount prec o.price m.order.quantity m.order.tokensLocked,
          m.order.tokensLocked, ts, ?_, ?_, ?_, ?_, hok.1, rfl⟩
        · simp only [removeOrder, State.setBook, recordFill, updateTradesHistory_tradesHistory,
            transferTokens, settleRestingSell_tradesHistory, List.dropLast_concat]
        · simp only [removeOrder, State.setBook, recordFill, updateTradesHistory_tradesHistory,
            transferTokens, settleRestingSell_tradesHistory, List.getLast?_concat]
          rfl
        · simp only [removeOrder, State.setBook, recordFill, updateTradesHistory_transfers,
            transferTokens_transfers, h4]
          simp
        · simp only [removeOrder, State.setBook, recordFill, updateTradesHistory_fills,
            transferTokens, settleRestingSell_fills]
    · exact ⟨by simp, Or.inl ⟨by simp, by simp, by simp, rfl⟩⟩
  · unfold sellOrderConsumed
    simp only
    split
    · rename_i hok
      simp only [hok, apiAssert_true]
      simp only [Bool.and_eq_true, decide_eq_true_eq] at hok
      split
      · refine ⟨by simp, Or.inr ⟨o.quantity,
          cappedAmount prec o.price o.quantity m.order.tokensLocked, m.order.tokensLocked,
          [⟨m.order.account, STEEM_PEGGED_SYMBOL, m.order.tokensLocked -
            cappedAmount prec o.price o.quantity m.order.tokensLocked⟩], ?_, ?_, ?_, ?_, hok.1, rfl⟩⟩
        · simp only [removeOrder, State.setBook, recordFill, updateTradesHistory_tradesHistory,
            transferTokens, List.dropLast_concat]
        · simp only [removeOrder, State.setBook, recordFill, updateTradesHistory_tradesHistory,
            transferTokens, List.getLast?_concat]
          rfl
        · simp only [removeOrder, State.setBook, recordFill, updateTradesHistory_transfers,
            transferTokens]
          simp
        · simp only [removeOrder, State.setBook, recordFill, updateTradesHistory_fills,
            transferTokens]
      · refine ⟨by simp, Or.inr ⟨o.quantity,
          cappedAmount prec o.price o.quantity m.order.tokensLocked, m.order.tokensLocked,
          [], ?_, ?_, ?_, ?_, hok.1, rfl⟩⟩
        · simp only [removeOrder, State.setBook, recordFill, updateTradesHistory_tradesHistory,
            transferTokens, List.dropLast_concat]
        · simp only [removeOrder, State.setBook, recordFill, updateTradesHistory_tradesHistory,
            transferTokens, List.getLast?_concat]
          rfl
        · simp only [removeOrder, State.setBook, recordFill, updateTradesHistory_transfers,
            transferTokens]
          simp
        · simp only [removeOrder, State.setBook, recordFill, updateTradesHistory_fills,
            transferTokens]
    · exact ⟨by simp, Or.inl ⟨by simp, by simp, by simp, rfl⟩⟩

theorem matchBuyOrder_records (env : Env) (prec : Nat) (m : Taker) (b : Order) :
    ((matchBuyOrder env prec m b).order.symbol = m.order.symbol ∧
     (matchBuyOrder env prec m b).order.account = m.order.account) ∧
    (NoFill m (matchBuyOrder env prec m b) ∨
     FillRecorded env Side.sell b.account m.order.account m.order.symbol b m
       (matchBuyOrder env prec m b)) := by
  unfold matchBuyOrder
  split
  · unfold sellFilledWhole
    simp only
    split
    · rename_i hok
      simp only [hok, apiAssert_true]
      refine ⟨by simp, Or.inr ?_⟩
      obtain ⟨_, _, _, ts, h4, _⟩ := settleRestingBuy_spec prec
        (transferTokens (transferTokens m.st b.account m.order.symbol m.order.quantity)
          m.order.account STEEM_PEGGED_SYMBOL
          (cappedAmount prec b.price m.order.quantity b.tokensLocked))
        b m.order.quantity (cappedAmount prec b.price m.order.quantity b.tokensLocked)
      simp only [Bool.and_eq_true, decide_eq_true_eq] at hok
      refine ⟨m.order.quantity, cappedAmount prec b.price m.order.quantity b.tokensLocked,
        b.tokensLocked, ts, ?_, ?_, ?_, ?_, hok.1, rfl⟩
      · simp only [removeOrder, State.setBook, recordFill, updateTradesHistory_tradesHistory,
          settleRestingBuy_tradesHistory, transferTokens, List.dropLast_concat]
      · simp only [removeOrder, State.setBook, recordFill, updateTradesHistory_tradesHistory,
          settleRestingBuy_tradesHistory, transferTokens, List.getLast?_concat]
        rfl
      · simp only [removeOrder, State.setBook, recordFill, updateTradesHistory_transfers,
          transferTokens_transfers, h4]
        simp
      · simp only [removeOrder, State.setBook, recordFill, updateTradesHistory_fills,
          transferTokens, settleRestingBuy_fills]
    · exact ⟨by simp, Or.inl ⟨by simp, by simp, by simp, rfl⟩⟩
  · unfold buyOrderConsumed
    simp only
    split
    · rename_i hok
      simp only [hok, apiAssert_true]
      obtain ⟨_, _, _, ts, h4, _⟩ := consumeBuyOrder_spec m.st m.order.account m.order.symbol b
        (payForWholeBuyOrder prec b)
      simp only [Bool.and_eq_true, decide_eq_true_eq] at hok
      split
      · refine ⟨by simp, Or.inr ⟨b.quantity, payForWholeBuyOrder prec b, b.tokensLocked,
          ts ++ [⟨m.order.account, m.order.symbol, m.order.quantity - b.quantity⟩],
          ?_, ?_, ?_, ?_, hok.1, rfl⟩⟩
        · simp only [removeOrder, State.setBook, recordFill, updateTradesHistory_tradesHistory,
            consumeBuyOrder_tradesHistory, transferTokens, List.dropLast_concat]
        · simp only [removeOrder, State.setBook, recordFill, updateTradesHistory_tradesHistory,
            consumeBuyOrder_tradesHistory, transferTokens, List.getLast?_concat]
          rfl
        · simp only [removeOrder, State.setBook, recordFill, updateTradesHistory_transfers,
            transferTokens_transfers, h4]
          simp
        · simp only [removeOrder, State.setBook, recordFill, updateTradesHistory_fills,
            transferTokens, consumeBuyOrder_fills]
      · refine ⟨by simp, Or.inr ⟨b.quantity, payForWholeBuyOrder prec b, b.tokensLocked,
          ts, ?_, ?_, ?_, ?_, hok.1, rfl⟩⟩
        · simp only [recordFill, updateTradesHistory_tradesHistory,
            consumeBuyOrder_tradesHistory, List.dropLast_concat]
        · simp only [recordFill, updateTradesHistory_tradesHistory,
            consumeBuyOrder_tradesHistory, List.getLast?_concat]
          rfl
        · simp only [recordFill, updateTradesHistory_transfers, h4]
          simp
        · simp only [recordFill, updateTradesHistory_fills, consumeBuyOrder_fills]
    · exact ⟨by simp, Or.inl ⟨by simp, by simp, by simp, rfl⟩⟩

/-! ### Volume traded and the rows appended by a pass -/

theorem oldTrade_now (env : Env) (sym : String) (t : Trade)
    (h : t.timestamp = env.timestampSec) : oldTrade env sym t = false := by
  simp only [oldTrade, Bool.and_eq_false_iff, decide_eq_false_iff_not]
  right
  omega

theorem tradeLeg_step (env : Env) (sym : String) (trades0 : List Trade) (type : Side)
    (buyer seller : String) (maker : Order) (m r : Taker)
    (hsym : r.order.symbol = m.order.symbol)
    (hrec : NoFill m r ∨ FillRecorded env type buyer seller m.order.symbol maker m r)
    (hinv : TradeLeg env sym trades0 m) : TradeLeg env sym trades0 r := by
  obtain ⟨hs, kept, appended, h1, h2, h3, h4, h5⟩ := hinv
  rcases hrec with ⟨e1, _, _, e4⟩ | ⟨q, amt, locked, rest, e1, e2, _, _, _, e6⟩
  · exact ⟨hsym.trans hs, kept, appended, by rw [e1, h1], h2, by rw [e4, h3], h4, h5⟩
  · rw [hs] at e1 e2
    cases hl : r.st.tradesHistory.getLast? with
    | none => simp [hl] at e2
    | some t =>
      rw [hl] at e2
      simp only [Option.map_some', Option.some.injEq, Trade.content, TradeContent.mk.injEq] at e2
      obtain ⟨_, _, _, _, _, _, et, ev⟩ := e2
      have hr : r.st.tradesHistory = r.st.tradesHistory.dropLast ++ [t] :=
        (List.dropLast_append_getLast? t hl).symm
      rw [e1] at hr
      have htnew := oldTrade_now env sym t et
      by_cases happ : appended = []
      · subst happ
        simp only [List.append_nil] at h1
        refine ⟨hsym.trans hs, keptTrades env sym m.st.tradesHistory, [t], hr, ?_, ?_, ?_, ?_⟩
        · rw [h1]
          exact List.Sublist.trans (keptTrades_sublist env sym kept) h2
        · simp only [List.map_nil, List.sum_nil] at h3
          simp only [List.map_cons, List.map_nil, List.sum_cons, List.sum_nil, ev, e6]
          omega
        · intro x hx
          simp only [List.mem_singleton] at hx
          rw [hx]; exact htnew
        · intro _
          exact keptTrades_fresh env sym _
      · have hfresh : ∀ x ∈ m.st.tradesHistory, oldTrade env sym x = false := by
          intro x hx
          rw [h1] at hx
          rcases List.mem_append.1 hx with hx | hx
          · exact h5 happ x hx
          · exact h4 x hx
        rw [keptTrades_noop env sym _ hfresh, h1, List.append_assoc] at hr
        refine ⟨hsym.trans hs, kept, appended ++ [t], hr, h2, ?_, ?_, ?_⟩
        · simp only [List.map_append, List.sum_append, List.map_cons, List.map_nil,
            List.sum_cons, List.sum_nil, ev, e6]
          omega
        · intro x hx
          rcases List.mem_append.1 hx with hx | hx
          · exact h4 x hx
          · simp only [List.mem_singleton] at hx
            rw [hx]; exact htnew
        · intro _
          exact h5 happ

theorem removeExpiredOrders_tradesHistory (env : Env) (table : Table) (s : State) :
    (removeExpiredOrders env table s).tradesHistory = s.tradesHistory := by
  refine removeExpiredOrders_rel (fun a b => b.tradesHistory = a.tradesHistory) (fun _ => rfl)
    (fun a b c h1 h2 => h2.trans h1) env table ?_ s
  intro a o
  cases table with
  | buyBook =>
    simp only [removeExpiredOrder]
    rw [(updateAskMetric_same _ _).2.2.1]; rfl
  | sellBook =>
    simp only [removeExpiredOrder]
    rw [(updateBidMetric_same _ _).2.2.1]; rfl

theorem findMatchingSellOrdersLoop_inv (env : Env) (order : Order) (prec : Nat) (s : State)
    (Inv : Taker → Prop)
    (hstep : ∀ m o, m.active = true → Inv m → Inv (matchSellOrder env prec m o))
    (h0 : Inv { st := removeExpiredOrders env Table.sellBook s, order := order,
                volumeTraded := 0 }) :
    Inv (findMatchingSellOrdersLoop env order prec s) := by
  unfold findMatchingSellOrdersLoop
  exact pagesLoop_inv _ _ _ Inv hstep _ _ _ _ h0

theorem tradeLeg_final (env : Env) (sym : String) (s : State) (m : Taker) (t : Table)
    (hinv : TradeLeg env sym s.tradesHistory m) :
    ∃ kept appended : List Trade,
      (finishMetrics env sym m.volumeTraded
        (if m.order.quantity > 0 then updateOrder m.st t m.order else m.st)).tradesHistory
        = kept ++ appended ∧
      kept.Sublist s.tradesHistory ∧
      (appended.map (fun t => t.volume)).sum = m.volumeTraded := by
  obtain ⟨_, kept, appended, h1, h2, h3, _, _⟩ := hinv
  refine ⟨kept, appended, ?_, h2, h3⟩
  simp only [finishMetrics_tradesHistory]
  split
  · cases t <;> exact h1
  · exact h1

/-- C9.  Every fill of a limit order appends exactly one trade record.  The body of the
loop of `findMatchingSellOrders` (of `findMatchingBuyOrders`) either settles nothing, or
appends to `tradesHistory` one row of type `buy` (`sell`) whose buyer and seller are the
two accounts of the two settlement transfers, whose quantity is the quantity transferred
to the buyer, whose price is the price of the resting order, whose volume is the amount
transferred to the seller and whose timestamp is the block time.  The action ends with
`finishMetrics` called on `volumeTraded`, which is the sum of the volumes of the rows the
action appended. -/
theorem fill_appends_one_trade :
    (∀ (env : Env) (tokenPrecision : Nat) (m : Taker) (sellOrder : Order),
      NoFill m (matchSellOrder env tokenPrecision m sellOrder) ∨
      FillRecorded env Side.buy m.order.account sellOrder.account m.order.symbol sellOrder m
        (matchSellOrder env tokenPrecision m sellOrder)) ∧
    (∀ (env : Env) (tokenPrecision : Nat) (m : Taker) (buyOrder : Order),
      NoFill m (matchBuyOrder env tokenPrecision m buyOrder) ∨
      FillRecorded env Side.sell buyOrder.account m.order.account m.order.symbol buyOrder m
        (matchBuyOrder env tokenPrecision m buyOrder)) ∧
    (∀ (env : Env) (order : Order) (tokenPrecision : Nat) (s : State),
      findMatchingSellOrders env order tokenPrecision s
        = finishMetrics env order.symbol
            (findMatchingSellOrdersLoop env order tokenPrecision s).volumeTraded
            (if (findMatchingSellOrdersLoop env order tokenPrecision s).order.quantity > 0 then
              updateOrder (findMatchingSellOrdersLoop env order tokenPrecision s).st
                Table.buyBook (findMatchingSellOrdersLoop env order tokenPrecision s).order
             else (findMatchingSellOrdersLoop env order tokenPrecision s).st) ∧
      ∃ kept appended : List Trade,
        (findMatchingSellOrders env order tokenPrecision s).tradesHistory = kept ++ appended ∧
        kept.Sublist s.tradesHistory ∧
        (appended.map (fun t => t.volume)).sum
          = (findMatchingSellOrdersLoop env order tokenPrecision s).volumeTraded) ∧
    (∀ (env : Env) (order : Order) (tokenPrecision : Nat) (s : State),
      findMatchingBuyOrders env order tokenPrecision s
        = finishMetrics env order.symbol
            (findMatchingBuyOrdersLoop env order tokenPrecision s).volumeTraded
            (if (findMatchingBuyOrdersLoop env order tokenPrecision s).order.quantity > 0 then
              updateOrder (findMatchingBuyOrdersLoop env order tokenPrecision s).st
                Table.sellBook (findMatchingBuyOrdersLoop env order tokenPrecision s).order
             else (findMatchingBuyOrdersLoop env order tokenPrecision s).st) ∧
      ∃ kept appended : List Trade,
        (findMatchingBuyOrders env order tokenPrecision s).tradesHistory = kept ++ appended ∧
        kept.Sublist s.tradesHistory ∧
        (appended.map (fun t => t.volume)).sum
          = (findMatchingBuyOrdersLoop env order tokenPrecision s).volumeTraded) := by
  refine ⟨fun env p m o => (matchSellOrder_records env p m o).2,
    fun env p m o => (matchBuyOrder_records env p m o).2, ?_, ?_⟩
  · intro env order prec s
    refine ⟨rfl, ?_⟩
    have hinv := findMatchingSellOrdersLoop_inv env order prec s
      (TradeLeg env order.symbol s.tradesHistory)
      (fun m o _ hi => tradeLeg_step env order.symbol s.tradesHistory Side.buy
        m.order.account o.account o m _ (matchSellOrder_records env prec m o).1.1
        (matchSellOrder_records env prec m o).2 hi)
      ⟨rfl, (removeExpiredOrders env Table.sellBook s).tradesHistory, [], by simp,
        by rw [removeExpiredOrders_tradesHistory], rfl, by simp, by simp⟩
    unfold findMatchingSellOrders
    generalize findMatchingSellOrdersLoop env order prec s = m at hinv ⊢
    exact tradeLeg_final env order.symbol s m Table.buyBook hinv
  · intro env order prec s
    refine ⟨rfl, ?_⟩
    have hinv := findMatchingBuyOrdersLoop_inv env order prec s
      (TradeLeg env order.symbol s.tradesHistory)
      (fun m o _ hi => tradeLeg_step env order.symbol s.tradesHistory Side.sell
        o.account m.order.account o m _ (matchBuyOrder_records env prec m o).1.1
        (matchBuyOrder_records env prec m o).2 hi)
      ⟨rfl, (removeExpiredOrders env Table.buyBook s).tradesHistory, [], by simp,
        by rw [removeExpiredOrders_tradesHistory], rfl, by simp, by simp⟩
    unfold findMatchingBuyOrders
    generalize findMatchingBuyOrdersLoop env order prec s = m at hinv ⊢
    exact tradeLeg_final env order.symbol s m Table.sellBook hinv

/-! ### The sweeper, on the rows of the book -/

theorem removeExpiredOrder_book (table : Table) (s : State) (o : Order) :
    (removeExpiredOrder table s o).book table = (s.book table).filter (fun r => r.id != o.id) := by
  cases table with
  | buyBook =>
    simp only [removeExpiredOrder, State.book]
    rw [(updateAskMetric_same _ _).1]; rfl
  | sellBook =>
    simp only [removeExpiredOrder, State.book]
    rw [(updateBidMetric_same _ _).2.1]; rfl

theorem foldl_removeExpiredOrder_book (table : Table) (os : List Order) :
    ∀ s : State, (os.foldl (removeExpiredOrder table) s).book table
      = os.foldl (fun acc o => acc.filter (fun r => r.id != o.id)) (s.book table) := by
  induction os with
  | nil => intro s; rfl
  | cons o rest ih =>
    intro s
    simp only [List.foldl_cons]
    rw [ih, removeExpiredOrder_book]

theorem removeExpiredLoop_book (env : Env) (table : Table) :
    ∀ (fuel : Nat) (s : State),
      (removeExpiredLoop env table fuel s).book table = sweepList env fuel (s.book table) := by
  intro fuel
  induction fuel with
  | zero => intro s; rfl
  | succ n ih =>
    intro s
    unfold removeExpiredLoop sweepList
    simp only [dbFind_noSort]
    split
    · rw [ih, foldl_removeExpiredOrder_book]
    · rfl

theorem removeExpiredOrders_book (env : Env) (table : Table) (s : State) :
    (removeExpiredOrders env table s).book table = sweptBook env (s.book table) :=
  removeExpiredLoop_book env table _ s

/-! ### Rows returned by `find` -/

theorem mem_insertBy {α : Type} (le : α → α → Bool) (x y : α) (l : List α) :
    y ∈ insertBy le x l ↔ y = x ∨ y ∈ l := by
  induction l with
  | nil => simp [insertBy]
  | cons a rest ih =>
    unfold insertBy
    split
    · simp
    · simp only [List.mem_cons, ih]
      tauto

theorem mem_sortBy {α : Type} (le : α → α → Bool) (y : α) (l : List α) :
    y ∈ sortBy le l ↔ y ∈ l := by
  induction l with
  | nil => simp [sortBy]
  | cons a rest ih =>
    simp only [sortBy, mem_insertBy, ih, List.mem_cons]

theorem mem_dbFind {α : Type} (rows : List α) (q : α → Bool) (limit offset : Nat)
    (le : α → α → Bool) (y : α) (h : y ∈ dbFind rows q limit offset le) :
    y ∈ rows ∧ q y = true := by
  unfold dbFind at h
  have h1 := List.mem_of_mem_drop (List.mem_of_mem_take h)
  rw [mem_sortBy] at h1
  exact List.mem_filter.1 h1

/-! ### Rounding of a product -/

theorem roundHalfUp_scale (n : Int) (d k : Nat) :
    roundHalfUp (n * 10 ^ k) (d + k) = roundHalfUp n d := by
  have hk := ten_pow_pos k
  have hd := ten_pow_pos d
  unfold roundHalfUp
  have hsign : (0 ≤ n * 10 ^ k) ↔ (0 ≤ n) := by
    constructor
    · intro h
      by_contra hn
      have : n * 10 ^ k < 0 := Int.mul_neg_of_neg_of_pos (by omega) hk
      omega
    · intro h
      exact Int.mul_nonneg h hk.le
  by_cases hn : 0 ≤ n
  · rw [if_pos (hsign.2 hn), if_pos hn]
    have e1 : 2 * (n * 10 ^ k) + 10 ^ (d + k) = (2 * n + 10 ^ d) * 10 ^ k := by
      rw [pow_add]; ring
    have e2 : (2 : Int) * 10 ^ (d + k) = (2 * 10 ^ d) * 10 ^ k := by
      rw [pow_add]; ring
    rw [e1, e2, Int.mul_ediv_mul_of_pos_left _ _ hk]
  · rw [if_neg (fun h => hn (hsign.1 h)), if_neg hn]
    have e1 : 2 * -(n * 10 ^ k) + 10 ^ (d + k) = (2 * -n + 10 ^ d) * 10 ^ k := by
      rw [pow_add]; ring
    have e2 : (2 : Int) * 10 ^ (d + k) = (2 * 10 ^ d) * 10 ^ k := by
      rw [pow_add]; ring
    rw [e1, e2, Int.mul_ediv_mul_of_pos_left _ _ hk]

theorem roundHalfUp_mono (n n' : Int) (d : Nat) (h : n ≤ n') :
    roundHalfUp n d ≤ roundHalfUp n' d := by
  have hd := ten_pow_pos d
  unfold roundHalfUp
  by_cases h1 : 0 ≤ n
  · rw [if_pos h1, if_pos (by omega : 0 ≤ n')]
    exact Int.ediv_le_ediv (by omega) (by omega)
  · rw [if_neg h1]
    have hneg : 0 ≤ (2 * -n + 10 ^ d) / (2 * 10 ^ d) := Int.ediv_nonneg (by omega) (by omega)
    by_cases h2 : 0 ≤ n'
    · rw [if_pos h2]
      have : 0 ≤ (2 * n' + 10 ^ d) / (2 * 10 ^ d) := Int.ediv_nonneg (by omega) (by omega)
      omega
    · rw [if_neg h2]
      have : (2 * -n' + 10 ^ d) / (2 * 10 ^ d) ≤ (2 * -n + 10 ^ d) / (2 * 10 ^ d) :=
        Int.ediv_le_ediv (by omega) (by omega)
      omega

/-- The escrow of a limit order, computed by the source on the two payload strings, is
the product of the stored price and quantity rounded to the nearest unit. -/
theorem toFixed_mul_eq (p q : Dec) (prec : Nat)
    (hp : countDecimals p ≤ STEEM_PEGGED_SYMBOL_PRESICION) (hq : countDecimals q ≤ prec) :
    (p.mul q).toFixed STEEM_PEGGED_SYMBOL_PRESICION
      = roundHalfUp (p.toFixed STEEM_PEGGED_SYMBOL_PRESICION * q.toFixed prec) prec := by
  have eP := Dec.toFixed_exact p _ hp
  have eQ := Dec.toFixed_exact q _ hq
  simp only [STEEM_PEGGED_SYMBOL_PRESICION] at *
  have key : roundHalfUp (p.toFixed 8 * q.toFixed prec) prec
      = roundHalfUp (p.mant * q.mant * 10 ^ (8 + prec)) (prec + (p.scale + q.scale)) := by
    rw [← roundHalfUp_scale (p.toFixed 8 * q.toFixed prec) prec (p.scale + q.scale)]
    congr 1
    calc p.toFixed 8 * q.toFixed prec * 10 ^ (p.scale + q.scale)
        = (p.toFixed 8 * 10 ^ p.scale) * (q.toFixed prec * 10 ^ q.scale) := by
          rw [pow_add]; ring
      _ = (p.mant * 10 ^ 8) * (q.mant * 10 ^ prec) := by rw [eP, eQ]
      _ = p.mant * q.mant * 10 ^ (8 + prec) := by rw [pow_add]; ring
  rw [key]
  unfold Dec.toFixed Dec.mul
  simp only
  split
  · rename_i hle
    have e : p.mant * q.mant * 10 ^ (8 + prec)
        = (p.mant * q.mant * 10 ^ (8 - (p.scale + q.scale))) * 10 ^ (prec + (p.scale + q.scale)) := by
      have : 8 + prec = (8 - (p.scale + q.scale)) + (prec + (p.scale + q.scale)) := by omega
      rw [this, pow_add]; ring
    rw [e, roundHalfUp_mul_pow]
  · rename_i hgt
    have e : prec + (p.scale + q.scale) = (p.scale + q.scale - 8) + (8 + prec) := by omega
    rw [e, roundHalfUp_scale]

/-! ### A limit sell filled whole by the best resting buy order -/

theorem pageWhile_inactive {σ : Type} (body : σ → Order → σ) (active : σ → Bool) (m : σ)
    (page : List Order) (h : active m = false) : pageWhile body active m page = m := by
  cases page with
  | nil => rfl
  | cons o rest => simp [pageWhile, h]

theorem pagesLoop_first_fills {σ : Type} (body : σ → Order → σ) (active : σ → Bool)
    (fetch : σ → Nat → List Order) (fuel : Nat) (m : σ) (o : Order) (rest : List Order)
    (offset : Nat) (h0 : active m = true) (h1 : active (body m o) = false) :
    pagesLoop body active fetch (fuel + 1) m (o :: rest) offset = body m o := by
  unfold pagesLoop
  simp only [pageWhile, h0, if_true, pageWhile_inactive body active _ rest h1, h1]
  simp

theorem cappedAmount_of_le (prec : Nat) (price quantity available : Int)
    (h : roundHalfUp (price * quantity) prec ≤ available) :
    cappedAmount prec price quantity available = roundHalfUp (price * quantity) prec := by
  unfold cappedAmount
  simp only
  rw [if_neg (by omega)]

theorem findMatchingBuyOrders_filled_by_best (env : Env) (order : Order) (prec : Nat)
    (s : State) (b : Order) (rest : List Order)
    (hpage : dbFind (sweptBook env s.buyBook) (crossingBuy order.symbol order.price) PAGE 0
      priceDesc = b :: rest)
    (hq : 0 < order.quantity) (hle : order.quantity ≤ b.quantity)
    (hamt : 0 < roundHalfUp (b.price * order.quantity) prec)
    (hlock : roundHalfUp (b.price * order.quantity) prec ≤ b.tokensLocked)
    (hleft : 0 < b.quantity - order.quantity)
    (hdust : DUST ≤ roundHalfUp (b.price * (b.quantity - order.quantity)) prec) :
    (findMatchingBuyOrders env order prec s).fills
      = s.fills ++ [⟨b, order.quantity, roundHalfUp (b.price * order.quantity) prec,
          b.tokensLocked⟩] ∧
    (findMatchingBuyOrders env order prec s).tradesHistory.dropLast
      = keptTrades env order.symbol s.tradesHistory ∧
    (findMatchingBuyOrders env order prec s).tradesHistory.getLast?.map Trade.content
      = some ⟨Side.sell, b.account, order.account, order.symbol, order.quantity, b.price,
          env.timestampSec, roundHalfUp (b.price * order.quantity) prec⟩ ∧
    (findMatchingBuyOrders env order prec s).buyBook
      = (sweptBook env s.buyBook).map (fun r => if r.id = b.id then
          { b with quantity := b.quantity - order.quantity,
                   tokensLocked := b.tokensLocked
                     - roundHalfUp (b.price * order.quantity) prec } else r) ∧
    (findMatchingBuyOrders env order prec s).sellBook
      = s.sellBook.filter (fun r => r.id != order.id) ∧
    (findMatchingBuyOrders env order prec s).transfers
      = (removeExpiredOrders env Table.buyBook s).transfers ++
        [⟨b.account, order.symbol, order.quantity⟩,
         ⟨order.account, STEEM_PEGGED_SYMBOL, roundHalfUp (b.price * order.quantity) prec⟩] := by
  have hbook : (removeExpiredOrders env Table.buyBook s).buyBook = sweptBook env s.buyBook :=
    removeExpiredOrders_book env Table.buyBook s
  obtain ⟨hsw1, hsw2, _⟩ := removeExpiredOrders_buyBook_spec env s
  have hsw3 := removeExpiredOrders_tradesHistory env Table.buyBook s
  have hcap := cappedAmount_of_le prec b.price order.quantity b.tokensLocked hlock
  have hloop : findMatchingBuyOrdersLoop env order prec s
      = sellFilledWhole env prec
          { st := removeExpiredOrders env Table.buyBook s, order := order, volumeTraded := 0 }
          b := by
    unfold findMatchingBuyOrdersLoop
    simp only [fetchCrossingBuys, hbook, hpage]
    rw [pagesLoop_first_fills]
    · simp only [matchBuyOrder, if_pos hle]
    · simp [Taker.active, hq]
    · simp only [matchBuyOrder, if_pos hle, sellFilledWhole, hcap, Taker.active]
      simp [hamt, hq]
  unfold findMatchingBuyOrders
  rw [hloop]
  unfold sellFilledWhole
  simp only [hcap]
  have hok : (decide (roundHalfUp (b.price * order.quantity) prec > 0)
      && decide (order.quantity > 0)) = true := by simp [hamt, hq]
  simp only [hok, apiAssert_true, if_true, lt_self_iff_false, gt_iff_lt, if_false,
    finishMetrics_fills, finishMetrics_tradesHistory, finishMetrics_buyBook,
    finishMetrics_sellBook, finishMetrics_transfers]
  have hsettle : ∀ st : State, settleRestingBuy prec st b order.quantity
      (roundHalfUp (b.price * order.quantity) prec)
      = updateOrder st Table.buyBook
          { b with quantity := b.quantity - order.quantity,
                   tokensLocked := b.tokensLocked
                     - roundHalfUp (b.price * order.quantity) prec } := by
    intro st
    unfold settleRestingBuy
    simp only
    rw [if_pos ⟨by omega, by omega⟩]
  simp only [hsettle]
  refine ⟨?_, ?_, ?_, ?_, ?_, ?_⟩
  · simp [removeOrder, State.setBook, recordFill, updateOrder, transferTokens, hsw2]
  · simp only [removeOrder, State.setBook, recordFill, updateOrder, transferTokens,
      updateTradesHistory_tradesHistory, List.dropLast_concat, hsw3]
  · simp only [removeOrder, State.setBook, recordFill, updateOrder, transferTokens,
      updateTradesHistory_tradesHistory, List.getLast?_concat]
    rfl
  · simp [removeOrder, State.setBook, State.book, recordFill, updateOrder, transferTokens,
      hbook]
  · simp [removeOrder, State.setBook, State.book, recordFill, updateOrder, transferTokens,
      hsw1]
  · simp [removeOrder, State.setBook, recordFill, updateOrder, transferTokens]

/-- C10.  Limit sell fully filled by a larger resting buy.  Let `b` (quantity `Q`, price
`p`, escrow `L`) be the first row of the first page read by the pass, that is the best
crossing buy order left by the sweep, and let a valid `sell` of quantity `q <= Q` pass
the escrow, with `round8(p*q) <= L`, `Q - q > 0` and `round8(p*(Q-q)) >= 0.00000001`.
Then the action settles exactly one fill and appends exactly one trade, of `q` units at
the price `p` of the resting order for `round8(p*q)`; `b` is replaced in `buyBook` by the
same order with quantity `Q - q` and `tokensLocked = L - round8(p*q)` and stays there;
and no row of `sellBook` carries the id given to the sell order. -/
theorem limit_sell_filled_by_larger_buy (env : Env) (payload : OrderPayload) (s s1 : State)
    (v : ValidOrder) (b : Order) (rest : List Order)
    (hv : validateOrder env payload s = (s1, some v))
    (hok : env.escrowOk v.symbol (v.quantity.toFixed v.precision) = true)
    (hbest : dbFind (sweptBook env s.buyBook)
      (crossingBuy v.symbol (v.price.toFixed STEEM_PEGGED_SYMBOL_PRESICION)) PAGE 0 priceDesc
      = b :: rest)
    (hle : v.quantity.toFixed v.precision ≤ b.quantity)
    (hlock : roundHalfUp (b.price * v.quantity.toFixed v.precision) v.precision
      ≤ b.tokensLocked)
    (hleft : 0 < b.quantity - v.quantity.toFixed v.precision)
    (hdust : DUST ≤ roundHalfUp (b.price * (b.quantity - v.quantity.toFixed v.precision))
      v.precision) :
    (sell env payload s).fills
      = s.fills ++ [⟨b, v.quantity.toFixed v.precision,
          roundHalfUp (b.price * v.quantity.toFixed v.precision) v.precision,
          b.tokensLocked⟩] ∧
    (sell env payload s).tradesHistory.dropLast = keptTrades env v.symbol s.tradesHistory ∧
    (sell env payload s).tradesHistory.getLast?.map Trade.content
      = some ⟨Side.sell, b.account, env.sender, v.symbol, v.quantity.toFixed v.precision,
          b.price, env.timestampSec,
          roundHalfUp (b.price * v.quantity.toFixed v.precision) v.precision⟩ ∧
    (sell env payload s).buyBook
      = (sweptBook env s.buyBook).map (fun r => if r.id = b.id then
          { b with quantity := b.quantity - v.quantity.toFixed v.precision,
                   tokensLocked := b.tokensLocked
                     - roundHalfUp (b.price * v.quantity.toFixed v.precision) v.precision }
          else r) ∧
    ({ b with quantity := b.quantity - v.quantity.toFixed v.precision,
              tokensLocked := b.tokensLocked
                - roundHalfUp (b.price * v.quantity.toFixed v.precision) v.precision } : Order)
      ∈ (sell env payload s).buyBook ∧
    ∀ o ∈ (sell env payload s).sellBook, o.id ≠ s.nextId := by
  have hQ := validateOrder_quantity_pos hv
  obtain ⟨hs1, _, _, _, _, _, hsym, _, _, _, hdp, hdq, hfill⟩ := validateOrder_some hv
  subst s1
  have hb := mem_dbFind _ _ _ _ _ b (by rw [hbest]; exact List.mem_cons_self _ _)
  have hcross : v.price.toFixed STEEM_PEGGED_SYMBOL_PRESICION ≤ b.price := by
    have := hb.2
    simp only [crossingBuy, Bool.and_eq_true, decide_eq_true_eq] at this
    exact this.2
  have hamt : 0 < roundHalfUp (b.price * v.quantity.toFixed v.precision) v.precision := by
    rw [toFixed_mul_eq _ _ _ hdp hdq] at hfill
    have hmono := roundHalfUp_mono
      (v.price.toFixed STEEM_PEGGED_SYMBOL_PRESICION * v.quantity.toFixed v.precision)
      (b.price * v.quantity.toFixed v.precision) v.precision
      (Int.mul_le_mul_of_nonneg_right hcross hQ.le)
    simp only [DUST] at hfill
    omega
  unfold sell
  rw [hv]
  simp only [hok, if_true]
  have hins : insertOrder (requestEscrow env s v.symbol (v.quantity.toFixed v.precision))
      Table.sellBook (newOrder env payload.expiration v 0)
      = ({ s with sellBook := s.sellBook ++ [{ newOrder env payload.expiration v 0 with id := s.nextId }],
                  nextId := s.nextId + 1,
                  escrows := s.escrows ++ [⟨env.sender, v.symbol, v.quantity.toFixed v.precision⟩] },
         { newOrder env payload.expiration v 0 with id := s.nextId }) := rfl
  rw [hins]
  simp only
  obtain ⟨h1, h2, h3, h4, h5, _⟩ := findMatchingBuyOrders_filled_by_best env
    { newOrder env payload.expiration v 0 with id := s.nextId } v.precision
    { s with sellBook := s.sellBook ++ [{ newOrder env payload.expiration v 0 with id := s.nextId }],
                  nextId := s.nextId + 1,
                  escrows := s.escrows ++ [⟨env.sender, v.symbol, v.quantity.toFixed v.precision⟩] }
    b rest hbest hQ hle hamt hlock hleft hdust
  refine ⟨h1, h2, h3, h4, ?_, ?_⟩
  · rw [h4]
    apply List.mem_map.2
    exact ⟨b, hb.1, by simp [newOrder]⟩
  · intro o ho
    rw [h5] at ho
    have := (List.mem_filter.1 ho).2
    simpa [newOrder] using this

/-- Witness of C10, the scenario of the specification: Bob's buy of `10 ABC` at `1.0`
(escrow `10`) rests; Alice sells `4 ABC` at `1.0`.  One trade of `4` at `1.0`; the buy
order is left with quantity `6` and `tokensLocked = 6`; `sellBook` stays empty. -/
theorem limit_sell_filled_by_larger_buy_witness :
    (sell aliceSellsFour.1 (limitPayload ⟨4, 0⟩ ⟨1, 0⟩) restingBuyTen).fills.map
        (fun f => (f.quantity, f.amount)) = [(40, 400000000)] ∧
    (sell aliceSellsFour.1 (limitPayload ⟨4, 0⟩ ⟨1, 0⟩) restingBuyTen).tradesHistory.map
        Trade.content
      = [⟨Side.sell, "bob", "alice", "ABC", 40, 100000000, 101, 400000000⟩] ∧
    (sell aliceSellsFour.1 (limitPayload ⟨4, 0⟩ ⟨1, 0⟩) restingBuyTen).buyBook.map
        (fun o => (o.account, o.quantity, o.price, o.tokensLocked))
      = [("bob", 60, 100000000, 600000000)] ∧
    (sell aliceSellsFour.1 (limitPayload ⟨4, 0⟩ ⟨1, 0⟩) restingBuyTen).sellBook = [] := by
  have h := limit_sell_filled_by_larger_buy aliceSellsFour.1 (limitPayload ⟨4, 0⟩ ⟨1, 0⟩)
    restingBuyTen restingBuyTen ⟨"ABC", 1, ⟨1, 0⟩, ⟨4, 0⟩⟩
    ⟨0, "b1", 100, "bob", "ABC", 100, 100000000, 1000000000, 2592100⟩ []
    (by decide!) rfl (by decide!) (by decide!) (by decide!) (by decide!) (by decide!)
  refine ⟨?_, ?_, ?_, ?_⟩
  · rw [h.1]; decide!
  · decide!
  · rw [h.2.2.2.1]; decide!
  · decide!

/-! ### Sorting: the order of the rows returned by `find` -/

theorem insertBy_of_le_all {α : Type} (le : α → α → Bool) (x : α) (l : List α)
    (h : ∀ z ∈ l, le x z = true) : insertBy le x l = x :: l := by
  cases l with
  | nil => rfl
  | cons y ys => simp [insertBy, h y (List.mem_cons_self _ _)]

theorem pairwise_insertBy {α : Type} (le : α → α → Bool)
    (htotal : ∀ a b, le a b = true ∨ le b a = true)
    (htrans : ∀ a b c, le a b = true → le b c = true → le a c = true)
    (x : α) (l : List α) (h : l.Pairwise (fun a b => le a b = true)) :
    (insertBy le x l).Pairwise (fun a b => le a b = true) := by
  induction l with
  | nil => simp [insertBy]
  | cons y ys ih =>
    unfold insertBy
    have hy := List.pairwise_cons.1 h
    split
    · rename_i hxy
      refine List.pairwise_cons.2 ⟨?_, h⟩
      intro z hz
      rcases List.mem_cons.1 hz with rfl | hz
      · exact hxy
      · exact htrans _ _ _ hxy (hy.1 z hz)
    · rename_i hxy
      have hyx : le y x = true := by
        rcases htotal x y with h1 | h1
        · exact absurd h1 hxy
        · exact h1
      refine List.pairwise_cons.2 ⟨?_, ih hy.2⟩
      intro z hz
      rcases (mem_insertBy le x z ys).1 hz with rfl | hz
      · exact hyx
      · exact hy.1 z hz

theorem pairwise_sortBy {α : Type} (le : α → α → Bool)
    (htotal : ∀ a b, le a b = true ∨ le b a = true)
    (htrans : ∀ a b c, le a b = true → le b c = true → le a c = true)
    (l : List α) : (sortBy le l).Pairwise (fun a b => le a b = true) := by
  induction l with
  | nil => simp [sortBy]
  | cons x xs ih => exact pairwise_insertBy le htotal htrans x _ ih

theorem insertBy_cons {α : Type} (le : α → α → Bool) (x y : α) (ys : List α) :
    insertBy le x (y :: ys) = if le x y then x :: y :: ys else y :: insertBy le x ys := rfl

theorem filter_insertBy_neg {α : Type} (le : α → α → Bool) (p : α → Bool) (x : α)
    (l : List α) (hx : p x = false) : (insertBy le x l).filter p = l.filter p := by
  induction l with
  | nil => simp [insertBy, hx]
  | cons y ys ih =>
    rw [insertBy_cons]
    split
    · simp [List.filter_cons, hx]
    · simp only [List.filter_cons, ih]

theorem filter_insertBy_pos {α : Type} (le : α → α → Bool)
    (htrans : ∀ a b c, le a b = true → le b c = true → le a c = true)
    (p : α → Bool) (x : α) (l : List α) (hx : p x = true)
    (h : l.Pairwise (fun a b => le a b = true)) :
    (insertBy le x l).filter p = insertBy le x (l.filter p) := by
  induction l with
  | nil => simp [insertBy, hx]
  | cons y ys ih =>
    have hy := List.pairwise_cons.1 h
    rw [insertBy_cons]
    by_cases hxy : le x y = true
    · rw [if_pos hxy]
      by_cases hpy : p y = true
      · rw [List.filter_cons_of_pos hx, List.filter_cons_of_pos hpy,
          insertBy_cons, if_pos hxy]
      · have hall : ∀ z ∈ ys.filter p, le x z = true := by
          intro z hz
          exact htrans _ _ _ hxy (hy.1 z (List.mem_filter.1 hz).1)
        rw [List.filter_cons_of_pos hx, List.filter_cons_of_neg hpy,
          insertBy_of_le_all le x _ hall]
    · rw [if_neg hxy]
      by_cases hpy : p y = true
      · rw [List.filter_cons_of_pos hpy, List.filter_cons_of_pos hpy, insertBy_cons,
          if_neg hxy, ih hy.2]
      · rw [List.filter_cons_of_neg hpy, List.filter_cons_of_neg hpy, ih hy.2]

theorem sortBy_filter {α : Type} (le : α → α → Bool)
    (htotal : ∀ a b, le a b = true ∨ le b a = true)
    (htrans : ∀ a b c, le a b = true → le b c = true → le a c = true)
    (p : α → Bool) (l : List α) : sortBy le (l.filter p) = (sortBy le l).filter p := by
  induction l with
  | nil => rfl
  | cons x xs ih =>
    by_cases hx : p x = true
    · rw [List.filter_cons_of_pos hx]
      simp only [sortBy]
      rw [ih]
      exact (filter_insertBy_pos le htrans p x _ hx (pairwise_sortBy le htotal htrans xs)).symm
    · rw [List.filter_cons_of_neg hx]
      simp only [sortBy]
      have hx' : p x = false := by simpa using hx
      rw [filter_insertBy_neg le p x _ hx', ih]

theorem drop_filter_sublist {α : Type} (p : α → Bool) :
    ∀ (l : List α) (n : Nat), ((l.filter p).drop n).Sublist (l.drop n) := by
  intro l
  induction l with
  | nil => intro n; simp
  | cons x xs ih =>
    intro n
    cases n with
    | zero => simp
    | succ k =>
      by_cases hx : p x = true
      · rw [List.filter_cons_of_pos hx]
        simp only [List.drop_succ_cons]
        exact ih k
      · rw [List.filter_cons_of_neg hx]
        simp only [List.drop_succ_cons]
        exact List.Sublist.trans (ih (k + 1)) (List.drop_sublist_drop_left xs (Nat.le_succ k))

theorem priceAsc_total (a b : Order) : priceAsc a b = true ∨ priceAsc b a = true := by
  simp only [priceAsc, Bool.or_eq_true, Bool.and_eq_true, decide_eq_true_eq]
  omega

theorem priceAsc_trans (a b c : Order) (h1 : priceAsc a b = true) (h2 : priceAsc b c = true) :
    priceAsc a c = true := by
  simp only [priceAsc, Bool.or_eq_true, Bool.and_eq_true, decide_eq_true_eq] at *
  omega

theorem priceDesc_total (a b : Order) : priceDesc a b = true ∨ priceDesc b a = true := by
  simp only [priceDesc, Bool.or_eq_true, Bool.and_eq_true, decide_eq_true_eq]
  omega

theorem priceDesc_trans (a b c : Order) (h1 : priceDesc a b = true)
    (h2 : priceDesc b c = true) : priceDesc a c = true := by
  simp only [priceDesc, Bool.or_eq_true, Bool.and_eq_true, decide_eq_true_eq] at *
  omega


/-! ### Price-time priority of the fills of one pass -/

theorem le_take_drop {α : Type} (le : α → α → Bool) (l : List α)
    (h : l.Pairwise (fun a b => le a b = true)) (n : Nat) :
    ∀ a ∈ l.take n, ∀ b ∈ l.drop n, le a b = true := by
  have h1 : (l.take n ++ l.drop n).Pairwise (fun a b => le a b = true) := by
    rw [List.take_append_drop]
    exact h
  exact (List.pairwise_append.1 h1).2.2

theorem pageWhile_sorted {σ : Type} (body : σ → Order → σ) (active : σ → Bool)
    (fills : σ → List Fill) (book : σ → List Order) (le : Order → Order → Bool)
    (F0 : List Fill)
    (hstep : ∀ m o, active m = true →
      (fills (body m o) = fills m ∨ ∃ f, f.maker = o ∧ fills (body m o) = fills m ++ [f]) ∧
      (active (body m o) = true → ∃ p, book (body m o) = (book m).filter p)) :
    ∀ (page : List Order) (m : σ) (new : List Fill),
      fills m = F0 ++ new →
      (new.map Fill.maker).Pairwise (fun a b => le a b = true) →
      page.Pairwise (fun a b => le a b = true) →
      (∀ f ∈ new, ∀ b ∈ page, le f.maker b = true) →
      ∃ new1, fills (pageWhile body active m page) = F0 ++ new1 ∧
        (new1.map Fill.maker).Pairwise (fun a b => le a b = true) ∧
        (∀ f ∈ new1, f ∈ new ∨ f.maker ∈ page) ∧
        (active (pageWhile body active m page) = true →
          ∃ p, book (pageWhile body active m page) = (book m).filter p) := by
  intro page
  induction page with
  | nil =>
    intro m new h1 h2 _ _
    exact ⟨new, h1, h2, fun f hf => Or.inl hf, fun _ => ⟨fun _ => true, by simp [pageWhile]⟩⟩
  | cons o rest ih =>
    intro m new h1 h2 h3 h4
    have hp := List.pairwise_cons.1 h3
    unfold pageWhile
    by_cases ha : active m = true
    · rw [if_pos ha]
      obtain ⟨hf, hb⟩ := hstep m o ha
      have hbook : active (pageWhile body active (body m o) rest) = true →
          ∀ p, book (pageWhile body active (body m o) rest) = (book (body m o)).filter p →
          ∃ p', book (pageWhile body active (body m o) rest) = (book m).filter p' := by
        intro hact p hp'
        by_cases ha' : active (body m o) = true
        · obtain ⟨p0, hp0⟩ := hb ha'
          refine ⟨fun x => p0 x && p x, ?_⟩
          rw [hp', hp0, List.filter_filter]
          congr 1
          funext x
          exact Bool.and_comm _ _
        · have hfalse : active (body m o) = false := by simpa using ha'
          rw [pageWhile_inactive body active _ rest hfalse] at hact
          exact absurd hact ha'
      rcases hf with hf | ⟨f, hfm, hf⟩
      · obtain ⟨new1, g1, g2, g3, g4⟩ := ih (body m o) new (hf.trans h1) h2 hp.2
          (fun f hf b hb => h4 f hf b (List.mem_cons_of_mem _ hb))
        refine ⟨new1, g1, g2, ?_, ?_⟩
        · intro f hf
          rcases g3 f hf with h | h
          · exact Or.inl h
          · exact Or.inr (List.mem_cons_of_mem _ h)
        · intro hact
          obtain ⟨p, hp'⟩ := g4 hact
          exact hbook hact p hp'
      · have k1 : fills (body m o) = F0 ++ (new ++ [f]) := by
          rw [hf, h1, List.append_assoc]
        have k2 : ((new ++ [f]).map Fill.maker).Pairwise (fun a b => le a b = true) := by
          rw [List.map_append, List.pairwise_append]
          refine ⟨h2, by simp, ?_⟩
          intro a ha' b hb'
          simp only [List.map_cons, List.map_nil, List.mem_singleton] at hb'
          obtain ⟨fa, hfa, rfl⟩ := List.mem_map.1 ha'
          rw [hb', hfm]
          exact h4 fa hfa o (List.mem_cons_self _ _)
        have k3 : ∀ g ∈ new ++ [f], ∀ b ∈ rest, le g.maker b = true := by
          intro g hg b hb'
          rcases List.mem_append.1 hg with hg | hg
          · exact h4 g hg b (List.mem_cons_of_mem _ hb')
          · simp only [List.mem_singleton] at hg
            rw [hg, hfm]
            exact hp.1 b hb'
        obtain ⟨new1, g1, g2, g3, g4⟩ := ih (body m o) (new ++ [f]) k1 k2 hp.2 k3
        refine ⟨new1, g1, g2, ?_, ?_⟩
        · intro g hg
          rcases g3 g hg with h | h
          · rcases List.mem_append.1 h with h | h
            · exact Or.inl h
            · simp only [List.mem_singleton] at h
              right
              rw [h, hfm]
              exact List.mem_cons_self _ _
          · exact Or.inr (List.mem_cons_of_mem _ h)
        · intro hact
          obtain ⟨p, hp'⟩ := g4 hact
          exact hbook hact p hp'
    · rw [if_neg ha]
      exact ⟨new, h1, h2, fun f hf => Or.inl hf, fun h => absurd h ha⟩

theorem pagesLoop_sorted {σ : Type} (body : σ → Order → σ) (active : σ → Bool)
    (fills : σ → List Fill) (book : σ → List Order) (le : Order → Order → Bool)
    (htotal : ∀ a b, le a b = true ∨ le b a = true)
    (htrans : ∀ a b c, le a b = true → le b c = true → le a c = true)
    (q : Order → Bool) (fetch : σ → Nat → List Order)
    (hfetch : ∀ m off, fetch m off = dbFind (book m) q PAGE off le)
    (F0 : List Fill)
    (hstep : ∀ m o, active m = true →
      (fills (body m o) = fills m ∨ ∃ f, f.maker = o ∧ fills (body m o) = fills m ++ [f]) ∧
      (active (body m o) = true → ∃ p, book (body m o) = (book m).filter p)) :
    ∀ (fuel : Nat) (m : σ) (off : Nat) (new : List Fill),
      fills m = F0 ++ new →
      (new.map Fill.maker).Pairwise (fun a b => le a b = true) →
      (∀ f ∈ new, ∀ b ∈ (sortBy le ((book m).filter q)).drop off, le f.maker b = true) →
      ∃ new1, fills (pagesLoop body active fetch fuel m (fetch m off) off) = F0 ++ new1 ∧
        (new1.map Fill.maker).Pairwise (fun a b => le a b = true) := by
  intro fuel
  induction fuel with
  | zero =>
    intro m off new h1 h2 _
    exact ⟨new, h1, h2⟩
  | succ n ih =>
    intro m off new h1 h2 h3
    have hsorted := pairwise_sortBy le htotal htrans ((book m).filter q)
    have hdrop : ((sortBy le ((book m).filter q)).drop off).Pairwise
        (fun a b => le a b = true) :=
      List.Pairwise.sublist (List.drop_sublist _ _) hsorted
    have hpage : (fetch m off).Pairwise (fun a b => le a b = true) := by
      rw [hfetch]
      exact List.Pairwise.sublist (List.take_sublist _ _) hdrop
    have hnew : ∀ f ∈ new, ∀ b ∈ fetch m off, le f.maker b = true := by
      intro f hf b hb
      rw [hfetch] at hb
      exact h3 f hf b (List.mem_of_mem_take hb)
    obtain ⟨new1, g1, g2, g3, g4⟩ :=
      pageWhile_sorted body active fills book le F0 hstep (fetch m off) m new h1 h2 hpage hnew
    unfold pagesLoop
    simp only
    by_cases hact : active (pageWhile body active m (fetch m off)) = true
    · simp only [hact, if_true, and_true]
      split
      · obtain ⟨p, hp⟩ := g4 hact
        refine ih _ (off + PAGE) new1 g1 g2 ?_
        intro f hf b hb
        rw [hp, List.filter_filter] at hb
        have e : (book m).filter (fun a => q a && p a)
            = ((book m).filter q).filter p := by
          rw [List.filter_filter]
          congr 1
          funext x
          exact Bool.and_comm _ _
        rw [e, sortBy_filter le htotal htrans] at hb
        have hb1 : b ∈ (sortBy le ((book m).filter q)).drop (off + PAGE) :=
          (drop_filter_sublist p _ _).subset hb
        rcases g3 f hf with h | h
        · refine h3 f h b ?_
          exact (List.drop_sublist_drop_left _ (Nat.le_add_right off PAGE)).subset hb1
        · rw [hfetch] at h
          unfold dbFind at h
          rw [← List.drop_drop] at hb1
          exact le_take_drop le _ hdrop PAGE _ h b hb1
      · exact ⟨new1, g1, g2⟩
    · simp only [hact, Bool.false_eq_true, and_false, if_false]
      exact ⟨new1, g1, g2⟩
theorem settleRestingBuy_sellBook (prec : Nat) (st : State) (b : Order)
    (filled amt : Int) : (settleRestingBuy prec st b filled amt).sellBook = st.sellBook :=
  (settleRestingBuy_spec prec st b filled amt).1

theorem consumeBuyOrder_buyBook (st : State) (seller sym : String) (b : Order) (amt : Int) :
    (consumeBuyOrder st seller sym b amt).buyBook
      = st.buyBook.filter (fun r => r.id != b.id) := by
  unfold consumeBuyOrder
  simp only
  split <;> rfl

theorem transferTokens_fills (s : State) (a b : String) (q : Int) :
    (transferTokens s a b q).fills = s.fills := rfl

theorem transferTokens_buyBook (s : State) (a b : String) (q : Int) :
    (transferTokens s a b q).buyBook = s.buyBook := rfl

theorem transferTokens_sellBook (s : State) (a b : String) (q : Int) :
    (transferTokens s a b q).sellBook = s.sellBook := rfl

theorem removeOrder_fills (s : State) (t : Table) (o : Order) :
    (removeOrder s t o).fills = s.fills := by
  cases t <;> rfl

theorem removeOrder_sellBook_sell (s : State) (o : Order) :
    (removeOrder s Table.sellBook o).sellBook = s.sellBook.filter (fun r => r.id != o.id) := rfl

theorem removeOrder_buyBook_buy (s : State) (o : Order) :
    (removeOrder s Table.buyBook o).buyBook = s.buyBook.filter (fun r => r.id != o.id) := rfl

theorem removeOrder_sellBook_buy (s : State) (o : Order) :
    (removeOrder s Table.buyBook o).sellBook = s.sellBook := rfl

theorem removeOrder_buyBook_sell (s : State) (o : Order) :
    (removeOrder s Table.sellBook o).buyBook = s.buyBook := rfl

theorem recordFill_fills (s : State) (o : Order) (q a l : Int) :
    (recordFill s o q a l).fills = s.fills ++ [⟨o, q, a, l⟩] := rfl

theorem recordFill_buyBook (s : State) (o : Order) (q a l : Int) :
    (recordFill s o q a l).buyBook = s.buyBook := rfl

theorem recordFill_sellBook (s : State) (o : Order) (q a l : Int) :
    (recordFill s o q a l).sellBook = s.sellBook := rfl

theorem matchSellOrder_step (env : Env) (prec : Nat) (m : Taker) (o : Order) :
    ((matchSellOrder env prec m o).st.fills = m.st.fills ∨
      ∃ f, f.maker = o ∧ (matchSellOrder env prec m o).st.fills = m.st.fills ++ [f]) ∧
    ((matchSellOrder env prec m o).active = true →
      ∃ p, (matchSellOrder env prec m o).st.sellBook = m.st.sellBook.filter p) := by
  unfold matchSellOrder
  split
  · unfold buyFilledWhole
    simp only
    split
    · refine ⟨Or.inr ⟨⟨o, m.order.quantity,
        cappedAmount prec o.price m.order.quantity m.order.tokensLocked,
        m.order.tokensLocked⟩, rfl, ?_⟩, ?_⟩
      · simp only [removeOrder_fills, recordFill_fills, updateTradesHistory_fills]
        split <;> simp only [transferTokens_fills, settleRestingSell_fills, apiAssert_fills]
      · intro h
        simp [Taker.active] at h
    · refine ⟨Or.inl (by simp), fun _ => ⟨fun _ => true, by simp⟩⟩
  · unfold sellOrderConsumed
    simp only
    split
    · refine ⟨Or.inr ⟨⟨o, o.quantity,
        cappedAmount prec o.price o.quantity m.order.tokensLocked,
        m.order.tokensLocked⟩, rfl, ?_⟩, fun _ => ⟨fun r => r.id != o.id, ?_⟩⟩
      · simp only [recordFill_fills, updateTradesHistory_fills]
        split <;> simp only [removeOrder_fills, transferTokens_fills, apiAssert_fills]
      · simp only [recordFill_sellBook, updateTradesHistory_sellBook]
        split <;> simp only [removeOrder_sellBook_buy, removeOrder_sellBook_sell,
          transferTokens_sellBook, apiAssert_sellBook]
    · refine ⟨Or.inl (by simp), fun _ => ⟨fun _ => true, by simp⟩⟩

theorem matchBuyOrder_step (env : Env) (prec : Nat) (m : Taker) (o : Order) :
    ((matchBuyOrder env prec m o).st.fills = m.st.fills ∨
      ∃ f, f.maker = o ∧ (matchBuyOrder env prec m o).st.fills = m.st.fills ++ [f]) ∧
    ((matchBuyOrder env prec m o).active = true →
      ∃ p, (matchBuyOrder env prec m o).st.buyBook = m.st.buyBook.filter p) := by
  unfold matchBuyOrder
  split
  · unfold sellFilledWhole
    simp only
    split
    · refine ⟨Or.inr ⟨⟨o, m.order.quantity,
        cappedAmount prec o.price m.order.quantity o.tokensLocked,
        o.tokensLocked⟩, rfl, ?_⟩, ?_⟩
      · simp only [removeOrder_fills, recordFill_fills, updateTradesHistory_fills,
          transferTokens_fills, settleRestingBuy_fills, apiAssert_fills]
      · intro h
        simp [Taker.active] at h
    · refine ⟨Or.inl (by simp), fun _ => ⟨fun _ => true, by simp⟩⟩
  · unfold buyOrderConsumed
    simp only
    split
    · refine ⟨Or.inr ⟨⟨o, o.quantity, payForWholeBuyOrder prec o, o.tokensLocked⟩, rfl, ?_⟩,
        fun _ => ⟨fun r => r.id != o.id, ?_⟩⟩
      · simp only [recordFill_fills, updateTradesHistory_fills]
        split <;> simp only [removeOrder_fills, transferTokens_fills, apiAssert_fills,
          consumeBuyOrder_fills]
      · simp only [recordFill_buyBook, updateTradesHistory_buyBook]
        split <;> simp only [removeOrder_buyBook_sell, consumeBuyOrder_buyBook,
          transferTokens_buyBook, apiAssert_buyBook]
    · refine ⟨Or.inl (by simp), fun _ => ⟨fun _ => true, by simp⟩⟩

theorem marketBuyOrder_step (env : Env) (sym : String) (prec : Nat) (m : Sweep) (o : Order) :
    ((marketBuyOrder env sym prec m o).st.fills = m.st.fills ∨
      ∃ f, f.maker = o ∧ (marketBuyOrder env sym prec m o).st.fills = m.st.fills ++ [f]) ∧
    ((marketBuyOrder env sym prec m o).active = true →
      ∃ p, (marketBuyOrder env sym prec m o).st.sellBook = m.st.sellBook.filter p) := by
  have hwhole : ((marketBuyWhole env sym prec m o).st.fills = m.st.fills ∨
      ∃ f, f.maker = o ∧ (marketBuyWhole env sym prec m o).st.fills = m.st.fills ++ [f]) ∧
    ((marketBuyWhole env sym prec m o).active = true →
      ∃ p, (marketBuyWhole env sym prec m o).st.sellBook = m.st.sellBook.filter p) := by
    unfold marketBuyWhole
    simp only
    split
    · refine ⟨Or.inr ⟨⟨o, o.quantity, cappedAmount prec o.price o.quantity m.remaining,
        m.remaining⟩, rfl, ?_⟩, fun _ => ⟨fun r => r.id != o.id, ?_⟩⟩
      · simp only [recordFill_fills, updateTradesHistory_fills, removeOrder_fills,
          transferTokens_fills, apiAssert_fills]
      · simp only [recordFill_sellBook, updateTradesHistory_sellBook,
          removeOrder_sellBook_sell, transferTokens_sellBook, apiAssert_sellBook]
    · refine ⟨Or.inl (by simp), fun _ => ⟨fun _ => true, by simp⟩⟩
  unfold marketBuyOrder
  split
  · rename_i qty _
    split
    · unfold marketBuyAll
      simp only
      split
      · refine ⟨Or.inr ⟨⟨o, qty, m.remaining, m.remaining⟩, rfl, ?_⟩, ?_⟩
        · simp only [recordFill_fills, updateTradesHistory_fills, settleRestingSell_fills,
            transferTokens_fills, apiAssert_fills]
        · intro h
          simp [Sweep.active] at h
      · refine ⟨Or.inl (by simp), fun _ => ⟨fun _ => true, by simp⟩⟩
    · split
      · exact hwhole
      · exact ⟨Or.inl rfl, fun _ => ⟨fun _ => true, by simp⟩⟩
  · exact hwhole

theorem marketSellOrder_step (env : Env) (sym : String) (prec : Nat) (m : Sweep) (o : Order) :
    ((marketSellOrder env sym prec m o).st.fills = m.st.fills ∨
      ∃ f, f.maker = o ∧ (marketSellOrder env sym prec m o).st.fills = m.st.fills ++ [f]) ∧
    ((marketSellOrder env sym prec m o).active = true →
      ∃ p, (marketSellOrder env sym prec m o).st.buyBook = m.st.buyBook.filter p) := by
  unfold marketSellOrder
  split
  · unfold marketSellAll
    simp only
    split
    · refine ⟨Or.inr ⟨⟨o, m.remaining,
        cappedAmount prec o.price m.remaining o.tokensLocked, o.tokensLocked⟩, rfl, ?_⟩, ?_⟩
      · simp only [recordFill_fills, updateTradesHistory_fills, settleRestingBuy_fills,
          transferTokens_fills, apiAssert_fills]
      · intro h
        simp [Sweep.active] at h
    · refine ⟨Or.inl (by simp), fun _ => ⟨fun _ => true, by simp⟩⟩
  · unfold marketSellWhole
    simp only
    split
    · refine ⟨Or.inr ⟨⟨o, o.quantity, payForWholeBuyOrder prec o, o.tokensLocked⟩, rfl, ?_⟩,
        fun _ => ⟨fun r => r.id != o.id, ?_⟩⟩
      · simp only [recordFill_fills, updateTradesHistory_fills, consumeBuyOrder_fills,
          apiAssert_fills]
      · simp only [recordFill_buyBook, updateTradesHistory_buyBook, consumeBuyOrder_buyBook,
          apiAssert_buyBook]
    · refine ⟨Or.inl (by simp), fun _ => ⟨fun _ => true, by simp⟩⟩


theorem removeExpiredOrders_fills (env : Env) (table : Table) (s : State) :
    (removeExpiredOrders env table s).fills = s.fills := by
  refine removeExpiredOrders_rel (fun a b => b.fills = a.fills) (fun _ => rfl)
    (fun a b c h1 h2 => h2.trans h1) env table ?_ s
  intro a o
  cases table with
  | buyBook =>
    simp only [removeExpiredOrder]
    rw [(updateAskMetric_same _ _).2.2.2.2.2.2]; rfl
  | sellBook =>
    simp only [removeExpiredOrder]
    rw [(updateBidMetric_same _ _).2.2.2.2.2.2]; rfl

theorem validateOrder_fills (env : Env) (payload : OrderPayload) (s : State) :
    (validateOrder env payload s).1.fills = s.fills := by
  unfold validateOrder
  simp only
  repeat' split
  all_goals simp

theorem validateMarket_fills (env : Env) (payload : MarketPayload) (f : Nat → Nat)
    (s : State) : (validateMarket env payload f s).1.fills = s.fills := by
  unfold validateMarket
  simp only
  repeat' split
  all_goals simp

theorem findMatchingSellOrdersLoop_sorted (env : Env) (order : Order) (prec : Nat)
    (s : State) :
    ∃ new, (findMatchingSellOrdersLoop env order prec s).st.fills = s.fills ++ new ∧
      (new.map Fill.maker).Pairwise (fun a b => priceAsc a b = true) := by
  unfold findMatchingSellOrdersLoop
  simp only
  exact pagesLoop_sorted (matchSellOrder env prec) Taker.active (fun m => m.st.fills)
    (fun m => m.st.sellBook) priceAsc priceAsc_total priceAsc_trans
    (crossingSell order.symbol order.price) (fetchCrossingSells order.symbol order.price)
    (fun _ _ => rfl) s.fills (fun m o _ => matchSellOrder_step env prec m o) _ _ 0 []
    (by simp [removeExpiredOrders_fills]) (by simp) (by simp)

theorem findMatchingBuyOrdersLoop_sorted (env : Env) (order : Order) (prec : Nat)
    (s : State) :
    ∃ new, (findMatchingBuyOrdersLoop env order prec s).st.fills = s.fills ++ new ∧
      (new.map Fill.maker).Pairwise (fun a b => priceDesc a b = true) := by
  unfold findMatchingBuyOrdersLoop
  simp only
  exact pagesLoop_sorted (matchBuyOrder env prec) Taker.active (fun m => m.st.fills)
    (fun m => m.st.buyBook) priceDesc priceDesc_total priceDesc_trans
    (crossingBuy order.symbol order.price) (fetchCrossingBuys order.symbol order.price)
    (fun _ _ => rfl) s.fills (fun m o _ => matchBuyOrder_step env prec m o) _ _ 0 []
    (by simp [removeExpiredOrders_fills]) (by simp) (by simp)

theorem marketBuyLoop_sorted (env : Env) (sym : String) (prec : Nat) (quantity : Int)
    (s : State) :
    ∃ new, (marketBuyLoop env sym prec quantity s).st.fills = s.fills ++ new ∧
      (new.map Fill.maker).Pairwise (fun a b => priceAsc a b = true) := by
  unfold marketBuyLoop
  simp only
  exact pagesLoop_sorted (marketBuyOrder env sym prec) Sweep.active (fun m => m.st.fills)
    (fun m => m.st.sellBook) priceAsc priceAsc_total priceAsc_trans
    (ofSymbol sym) (fetchSells sym)
    (fun _ _ => rfl) s.fills (fun m o _ => marketBuyOrder_step env sym prec m o) _ _ 0 []
    (by simp [removeExpiredOrders_fills]) (by simp) (by simp)

theorem marketSellLoop_sorted (env : Env) (sym : String) (prec : Nat) (quantity : Int)
    (s : State) :
    ∃ new, (marketSellLoop env sym prec quantity s).st.fills = s.fills ++ new ∧
      (new.map Fill.maker).Pairwise (fun a b => priceDesc a b = true) := by
  unfold marketSellLoop
  simp only
  exact pagesLoop_sorted (marketSellOrder env sym prec) Sweep.active (fun m => m.st.fills)
    (fun m => m.st.buyBook) priceDesc priceDesc_total priceDesc_trans
    (ofSymbol sym) (fetchBuys sym)
    (fun _ _ => rfl) s.fills (fun m o _ => marketSellOrder_step env sym prec m o) _ _ 0 []
    (by simp [removeExpiredOrders_fills]) (by simp) (by simp)

theorem priceAsc_iff (a b : Order) :
    priceAsc a b = true ↔ a.price < b.price ∨ (a.price = b.price ∧ a.id ≤ b.id) := by
  simp [priceAsc]

theorem priceDesc_iff (a b : Order) :
    priceDesc a b = true ↔ b.price < a.price ∨ (a.price = b.price ∧ a.id ≤ b.id) := by
  simp [priceDesc]

/-- C7 (price-time priority): with `find` returning the rows in the order of its sort
specification, the resting orders filled by one `buy` or one `marketBuy`, in the order of
the fills, have non-decreasing prices, and those filled by one `sell` or one `marketSell`
have non-increasing prices; in both cases orders of equal price are filled by increasing
`_id`, that is in insertion order. No fill of an earlier action is touched. -/
theorem fills_follow_price_time_priority (env : Env) (s : State) :
    (∀ payload : OrderPayload, ∃ new, (buy env payload s).fills = s.fills ++ new ∧
      (new.map Fill.maker).Pairwise
        (fun a b => a.price < b.price ∨ (a.price = b.price ∧ a.id ≤ b.id))) ∧
    (∀ payload : MarketPayload, ∃ new, (marketBuy env payload s).fills = s.fills ++ new ∧
      (new.map Fill.maker).Pairwise
        (fun a b => a.price < b.price ∨ (a.price = b.price ∧ a.id ≤ b.id))) ∧
    (∀ payload : OrderPayload, ∃ new, (sell env payload s).fills = s.fills ++ new ∧
      (new.map Fill.maker).Pairwise
        (fun a b => b.price < a.price ∨ (a.price = b.price ∧ a.id ≤ b.id))) ∧
    (∀ payload : MarketPayload, ∃ new, (marketSell env payload s).fills = s.fills ++ new ∧
      (new.map Fill.maker).Pairwise
        (fun a b => b.price < a.price ∨ (a.price = b.price ∧ a.id ≤ b.id))) := by
  refine ⟨?_, ?_, ?_, ?_⟩
  · intro payload
    have hv := validateOrder_fills env payload s
    unfold buy
    split
    · rename_i s1 heq
      rw [heq] at hv
      exact ⟨[], by simpa using hv, by simp⟩
    · rename_i s1 v heq
      rw [heq] at hv
      simp only at hv ⊢
      split
      · obtain ⟨new, h1, h2⟩ := findMatchingSellOrdersLoop_sorted env
          (insertOrder (requestEscrow env s1 STEEM_PEGGED_SYMBOL
            ((v.price.mul v.quantity).toFixed STEEM_PEGGED_SYMBOL_PRESICION)) Table.buyBook
            (newOrder env payload.expiration v
              ((v.price.mul v.quantity).toFixed STEEM_PEGGED_SYMBOL_PRESICION))).2 v.precision
          (insertOrder (requestEscrow env s1 STEEM_PEGGED_SYMBOL
            ((v.price.mul v.quantity).toFixed STEEM_PEGGED_SYMBOL_PRESICION)) Table.buyBook
            (newOrder env payload.expiration v
              ((v.price.mul v.quantity).toFixed STEEM_PEGGED_SYMBOL_PRESICION))).1
        refine ⟨new, ?_, h2.imp (fun h => (priceAsc_iff _ _).1 h)⟩
        unfold findMatchingSellOrders
        simp only [finishMetrics_fills]
        generalize findMatchingSellOrdersLoop env _ _ _ = m at h1 ⊢
        have e : (if m.order.quantity > 0 then updateOrder m.st Table.buyBook m.order
            else m.st).fills = m.st.fills := by
          split <;> rfl
        rw [e, h1, ← hv]
        rfl
      · exact ⟨[], by simpa [requestEscrow] using hv, by simp⟩
  · intro payload
    have hv := validateMarket_fills env payload (fun _ => STEEM_PEGGED_SYMBOL_PRESICION) s
    unfold marketBuy
    split
    · rename_i s1 heq
      rw [heq] at hv
      exact ⟨[], by simpa using hv, by simp⟩
    · rename_i s1 v heq
      rw [heq] at hv
      simp only at hv ⊢
      split
      · obtain ⟨new, h1, h2⟩ := marketBuyLoop_sorted env v.symbol v.precision
          (v.quantity.toFixed STEEM_PEGGED_SYMBOL_PRESICION)
          (requestEscrow env s1 STEEM_PEGGED_SYMBOL
            (v.quantity.toFixed STEEM_PEGGED_SYMBOL_PRESICION))
        refine ⟨new, ?_, h2.imp (fun h => (priceAsc_iff _ _).1 h)⟩
        simp only [finishMetrics_fills]
        generalize marketBuyLoop env _ _ _ _ = m at h1 ⊢
        have e : (if m.remaining > 0 then
            transferTokens m.st env.sender STEEM_PEGGED_SYMBOL m.remaining
            else m.st).fills = m.st.fills := by
          split <;> rfl
        rw [e, h1, ← hv]
        rfl
      · exact ⟨[], by simpa [requestEscrow] using hv, by simp⟩
  · intro payload
    have hv := validateOrder_fills env payload s
    unfold sell
    split
    · rename_i s1 heq
      rw [heq] at hv
      exact ⟨[], by simpa using hv, by simp⟩
    · rename_i s1 v heq
      rw [heq] at hv
      simp only at hv ⊢
      split
      · obtain ⟨new, h1, h2⟩ := findMatchingBuyOrdersLoop_sorted env
          (insertOrder (requestEscrow env s1 v.symbol (v.quantity.toFixed v.precision))
            Table.sellBook (newOrder env payload.expiration v 0)).2 v.precision
          (insertOrder (requestEscrow env s1 v.symbol (v.quantity.toFixed v.precision))
            Table.sellBook (newOrder env payload.expiration v 0)).1
        refine ⟨new, ?_, h2.imp (fun h => (priceDesc_iff _ _).1 h)⟩
        unfold findMatchingBuyOrders
        simp only [finishMetrics_fills]
        generalize findMatchingBuyOrdersLoop env _ _ _ = m at h1 ⊢
        have e : (if m.order.quantity > 0 then updateOrder m.st Table.sellBook m.order
            else m.st).fills = m.st.fills := by
          split <;> rfl
        rw [e, h1, ← hv]
        rfl
      · exact ⟨[], by simpa [requestEscrow] using hv, by simp⟩
  · intro payload
    have hv := validateMarket_fills env payload (fun precision => precision) s
    unfold marketSell
    split
    · rename_i s1 heq
      rw [heq] at hv
      exact ⟨[], by simpa using hv, by simp⟩
    · rename_i s1 v heq
      rw [heq] at hv
      simp only at hv ⊢
      split
      · obtain ⟨new, h1, h2⟩ := marketSellLoop_sorted env v.symbol v.precision
          (v.quantity.toFixed v.precision)
          (requestEscrow env s1 v.symbol (v.quantity.toFixed v.precision))
        refine ⟨new, ?_, h2.imp (fun h => (priceDesc_iff _ _).1 h)⟩
        simp only [finishMetrics_fills]
        generalize marketSellLoop env _ _ _ _ = m at h1 ⊢
        have e : (if m.remaining > 0 then
            transferTokens m.st env.sender v.symbol m.remaining
            else m.st).fills = m.st.fills := by
          split <;> rfl
        rw [e, h1, ← hv]
        rfl
      · exact ⟨[], by simpa [requestEscrow] using hv, by simp⟩

/-! ### Escrow of a limit buy as a taker -/

theorem roundHalfUp_near (n : Int) (d : Nat) :
    |2 * (roundHalfUp n d * 10 ^ d - n)| ≤ 10 ^ d := by
  have hp := ten_pow_pos d
  have key : ∀ k : Int, 0 ≤ k →
      -(10 ^ d : Int) ≤ 2 * ((2 * k + 10 ^ d) / (2 * 10 ^ d) * 10 ^ d - k) ∧
      2 * ((2 * k + 10 ^ d) / (2 * 10 ^ d) * 10 ^ d - k) ≤ 10 ^ d := by
    intro k _
    have h1 := Int.ediv_add_emod (2 * k + 10 ^ d) (2 * 10 ^ d)
    have h2 := Int.emod_nonneg (2 * k + 10 ^ d) (by omega : (2 * 10 ^ d : Int) ≠ 0)
    have h3 := Int.emod_lt_of_pos (2 * k + 10 ^ d) (by omega : (0 : Int) < 2 * 10 ^ d)
    have e : 2 * 10 ^ d * ((2 * k + 10 ^ d) / (2 * 10 ^ d))
        = 2 * ((2 * k + 10 ^ d) / (2 * 10 ^ d) * 10 ^ d) := by ring
    rw [e] at h1
    generalize (2 * k + 10 ^ d) / (2 * 10 ^ d) * 10 ^ d = y at h1 ⊢
    generalize (2 * k + 10 ^ d) % (2 * 10 ^ d) = r at h1 h2 h3
    generalize (10 ^ d : Int) = p at *
    constructor <;> omega
  unfold roundHalfUp
  split
  · rename_i h
    exact abs_le.2 (key n h)
  · rename_i h
    have hk := key (-n) (by omega)
    rw [abs_le]
    have e : 2 * (-((2 * -n + 10 ^ d) / (2 * 10 ^ d)) * 10 ^ d - n)
        = -(2 * ((2 * -n + 10 ^ d) / (2 * 10 ^ d) * 10 ^ d - -n)) := by ring
    rw [e]
    constructor <;> omega

theorem matchSellOrder_takerEscrow (env : Env) (prec : Nat) (fills0 : List Fill) (id : Nat)
    (P Q L : Int) (m : Taker) (o : Order) (hact : m.active = true)
    (hinv : TakerEscrow fills0 id P Q L m) :
    TakerEscrow fills0 id P Q L (matchSellOrder env prec m o) := by
  obtain ⟨hid, hprice, new, hf, hpos, hzero⟩ := hinv
  have hq : 0 < m.order.quantity := by simpa [Taker.active] using hact
  obtain ⟨hquant, hlock⟩ := hpos hq
  unfold matchSellOrder
  split
  · unfold buyFilledWhole
    simp only
    split
    · refine ⟨hid, hprice, new ++ [⟨o, m.order.quantity,
        cappedAmount prec o.price m.order.quantity m.order.tokensLocked,
        m.order.tokensLocked⟩], ?_, ?_, ?_⟩
      · simp only [removeOrder_fills, recordFill_fills, updateTradesHistory_fills]
        rw [← List.append_assoc, ← hf]
        split <;> simp only [transferTokens_fills, settleRestingSell_fills, apiAssert_fills]
      · intro h
        exact absurd h (lt_irrefl _)
      · intro _ r hr
        rw [removeOrder_buyBook_buy] at hr
        have := (List.mem_filter.1 hr).2
        simp only [bne_iff_ne, ne_eq] at this
        rw [← hid]
        exact this
    · refine ⟨hid, hprice, new, by simpa using hf, fun _ => ⟨hquant, hlock⟩, ?_⟩
      intro h
      exact absurd hq (not_lt.2 h)
  · rename_i hgt
    unfold sellOrderConsumed
    simp only
    split
    · by_cases hd : roundHalfUp (m.order.price * (m.order.quantity - o.quantity)) prec < DUST
      · simp only [hd, decide_True, if_true]
        refine ⟨hid, hprice, new ++ [⟨o, o.quantity,
          cappedAmount prec o.price o.quantity m.order.tokensLocked,
          m.order.tokensLocked⟩], ?_, ?_, ?_⟩
        · simp only [recordFill_fills, updateTradesHistory_fills, removeOrder_fills,
            transferTokens_fills, apiAssert_fills]
          rw [← List.append_assoc, ← hf]
        · intro h
          exact absurd h (lt_irrefl _)
        · intro _ r hr
          simp only [recordFill_buyBook, updateTradesHistory_buyBook,
            removeOrder_buyBook_buy] at hr
          have := (List.mem_filter.1 hr).2
          simp only [bne_iff_ne, ne_eq] at this
          rw [← hid]
          exact this
      · simp only [hd, decide_False, if_false, Bool.false_eq_true]
        refine ⟨hid, hprice, new ++ [⟨o, o.quantity,
          cappedAmount prec o.price o.quantity m.order.tokensLocked,
          m.order.tokensLocked⟩], ?_, ?_, ?_⟩
        · simp only [recordFill_fills, updateTradesHistory_fills, removeOrder_fills,
            transferTokens_fills, apiAssert_fills]
          rw [← List.append_assoc, ← hf]
        · intro _
          simp only [List.map_append, List.sum_append, List.map_cons, List.map_nil,
            List.sum_cons, List.sum_nil, add_zero]
          constructor <;> omega
        · intro h
          simp only at h
          omega
    · refine ⟨hid, hprice, new, by simpa using hf, fun _ => ⟨hquant, hlock⟩, ?_⟩
      intro h
      exact absurd hq (not_lt.2 h)

theorem sum_price_improvement (P : Int) (prec : Nat) (l : List Fill) :
    (l.map (fun f => P * f.quantity - f.amount * 10 ^ prec)).sum
      = P * (l.map (fun f => f.quantity)).sum - (l.map (fun f => f.amount)).sum * 10 ^ prec := by
  induction l with
  | nil => simp
  | cons f rest ih =>
    simp only [List.map_cons, List.sum_cons, ih]
    ring

/-- The escrow of the order placed by a valid `buy`, with `P` its price, `Q` its
quantity and `L = round8(P * Q)` the amount escrowed: as long as the order rests in
`buyBook` at the end of the action, its quantity is `Q` less the quantities of the fills
of the action and its `tokensLocked` is `L` less the amounts paid by these fills.  So
`tokensLocked - price * quantity` is the rounding difference `L - P * Q`, at most half a
unit of `10^-8`, plus the price improvement `P * filled - paid` of every fill, which
stays locked in the order: the two agree within the tolerance when nothing was filled,
not after fills against sell orders priced below the limit. -/
theorem placed_buy_locks_escrow_less_paid (env : Env) (payload : OrderPayload)
    (s s1 : State) (v : ValidOrder)
    (hv : validateOrder env payload s = (s1, some v)) 
    (hok : env.escrowOk STEEM_PEGGED_SYMBOL
      ((v.price.mul v.quantity).toFixed STEEM_PEGGED_SYMBOL_PRESICION) = true) :
    ∃ new : List Fill, (buy env payload s).fills = s.fills ++ new ∧
      |2 * (roundHalfUp (v.price.toFixed STEEM_PEGGED_SYMBOL_PRESICION
              * v.quantity.toFixed v.precision) v.precision * 10 ^ v.precision
            - v.price.toFixed STEEM_PEGGED_SYMBOL_PRESICION * v.quantity.toFixed v.precision)|
        ≤ 10 ^ v.precision ∧
      ∀ o ∈ (buy env payload s).buyBook, o.id = s.nextId →
        o.price = v.price.toFixed STEEM_PEGGED_SYMBOL_PRESICION ∧
        o.quantity = v.quantity.toFixed v.precision - (new.map (fun f => f.quantity)).sum ∧
        o.tokensLocked
          = roundHalfUp (v.price.toFixed STEEM_PEGGED_SYMBOL_PRESICION
              * v.quantity.toFixed v.precision) v.precision
            - (new.map (fun f => f.amount)).sum ∧
        o.tokensLocked * 10 ^ v.precision - o.price * o.quantity
          = (roundHalfUp (v.price.toFixed STEEM_PEGGED_SYMBOL_PRESICION
                * v.quantity.toFixed v.precision) v.precision * 10 ^ v.precision
              - v.price.toFixed STEEM_PEGGED_SYMBOL_PRESICION
                * v.quantity.toFixed v.precision)
            + (new.map (fun f => v.price.toFixed STEEM_PEGGED_SYMBOL_PRESICION * f.quantity
                - f.amount * 10 ^ v.precision)).sum := by
  have hQ := validateOrder_quantity_pos hv
  obtain ⟨hs1, _, _, _, _, _, _, _, _, _, hdp, hdq, _⟩ := validateOrder_some hv
  subst s1
  have hL := toFixed_mul_eq v.price v.quantity v.precision hdp hdq
  unfold buy
  rw [hv]
  simp only [hok, if_true]
  rw [hL]
  generalize hP : v.price.toFixed STEEM_PEGGED_SYMBOL_PRESICION = P at *
  generalize hQ' : v.quantity.toFixed v.precision = Q at *
  have hinv := findMatchingSellOrdersLoop_inv env
    (insertOrder (requestEscrow env s STEEM_PEGGED_SYMBOL (roundHalfUp (P * Q) v.precision))
      Table.buyBook (newOrder env payload.expiration v (roundHalfUp (P * Q) v.precision))).2
    v.precision
    (insertOrder (requestEscrow env s STEEM_PEGGED_SYMBOL (roundHalfUp (P * Q) v.precision))
      Table.buyBook (newOrder env payload.expiration v (roundHalfUp (P * Q) v.precision))).1
    (TakerEscrow s.fills s.nextId P Q (roundHalfUp (P * Q) v.precision))
    (fun m o => matchSellOrder_takerEscrow env v.precision _ _ _ _ _ m o)
    (by
      refine ⟨rfl, ?_, [], ?_, ?_, ?_⟩
      · simp only [insertOrder, newOrder]
        exact hP
      · simp only [removeExpiredOrders_fills, List.append_nil]
        rfl
      · intro _
        simp only [insertOrder, newOrder, List.map_nil, List.sum_nil, sub_zero]
        exact ⟨hQ', trivial⟩
      · intro h
        simp only [insertOrder, newOrder] at h
        omega)
  unfold findMatchingSellOrders
  simp only [finishMetrics_fills, finishMetrics_buyBook]
  generalize findMatchingSellOrdersLoop env _ _ _ = m at hinv ⊢
  obtain ⟨hid, hprice, new, hf, hpos, hzero⟩ := hinv
  refine ⟨new, ?_, roundHalfUp_near _ _, ?_⟩
  · rw [← hf]
    split <;> rfl
  · intro o ho hoid
    by_cases hq : 0 < m.order.quantity
    · have hq' : m.order.quantity > 0 := hq
      rw [if_pos hq'] at ho
      simp only [updateOrder, State.setBook, State.book, List.mem_map] at ho
      obtain ⟨r, _, hr⟩ := ho
      have ho' : o = m.order := by
        by_cases e : r.id = m.order.id
        · rw [if_pos e] at hr
          exact hr.symm
        · rw [if_neg e] at hr
          rw [hr, hid] at e
          exact absurd hoid e
      obtain ⟨h1, h2⟩ := hpos hq
      rw [ho']
      refine ⟨hprice, h1, h2, ?_⟩
      rw [sum_price_improvement, h1, h2, hprice]
      ring
    · have hq' : ¬ m.order.quantity > 0 := hq
      rw [if_neg hq'] at ho
      exact absurd hoid (hzero (not_lt.1 hq) o ho)

/-- The escrow of a placed buy order, at Bob's buy of `10 ABC` at `2.0` against Alice's
resting `4 ABC` at
`1.0`: one fill of `4 ABC` paid `4`, and the order rests with `tokensLocked = 20 - 4`. -/
theorem placed_buy_locks_escrow_less_paid_witness :
    (∃ new : List Fill,
      (buy (exampleEnv "bob" "b1" 101) (limitPayload ⟨10, 0⟩ ⟨2, 0⟩) restingSellFour).fills
        = restingSellFour.fills ++ new ∧
      |2 * (roundHalfUp (200000000 * 100) 1 * 10 ^ 1 - 200000000 * 100)| ≤ (10 : Int) ^ 1 ∧
      ∀ o ∈ (buy (exampleEnv "bob" "b1" 101) (limitPayload ⟨10, 0⟩ ⟨2, 0⟩)
          restingSellFour).buyBook, o.id = restingSellFour.nextId →
        o.price = 200000000 ∧
        o.quantity = 100 - (new.map (fun f => f.quantity)).sum ∧
        o.tokensLocked = roundHalfUp (200000000 * 100) 1 - (new.map (fun f => f.amount)).sum ∧
        o.tokensLocked * 10 ^ 1 - o.price * o.quantity
          = (roundHalfUp (200000000 * 100) 1 * 10 ^ 1 - 200000000 * 100)
            + (new.map (fun f => 200000000 * f.quantity - f.amount * 10 ^ 1)).sum) ∧
    (buy (exampleEnv "bob" "b1" 101) (limitPayload ⟨10, 0⟩ ⟨2, 0⟩) restingSellFour).buyBook.map
        (fun o => (o.id, o.quantity, o.price, o.tokensLocked))
      = [(2, 60, 200000000, 1600000000)] ∧
    (buy (exampleEnv "bob" "b1" 101) (limitPayload ⟨10, 0⟩ ⟨2, 0⟩) restingSellFour).fills.map
        (fun f => (f.quantity, f.amount)) = [(40, 400000000)] ∧
    restingSellFour.nextId = 2 :=
  ⟨placed_buy_locks_escrow_less_paid (exampleEnv "bob" "b1" 101)
      (limitPayload ⟨10, 0⟩ ⟨2, 0⟩) restingSellFour restingSellFour
      ⟨"ABC", 1, ⟨2, 0⟩, ⟨10, 0⟩⟩ (by decide!) rfl,
    by decide!, by decide!, by decide!⟩

/-! ### Pagination of the matching loop -/

theorem roundDown_le_roundHalfUp (n : Int) (d : Nat) (h : 0 ≤ n) :
    roundDown n d ≤ roundHalfUp n d := by
  have hp := ten_pow_pos d
  unfold roundDown roundHalfUp
  rw [if_pos h, Int.tdiv_eq_ediv h (le_of_lt hp)]
  have e : n / 10 ^ d = (2 * n) / (2 * 10 ^ d) :=
    (Int.mul_ediv_mul_of_pos n (10 ^ d) (by decide : (0 : Int) < 2)).symm
  rw [e]
  exact Int.ediv_le_ediv (by omega) (by omega)

theorem cappedAmount_pos (prec : Nat) (price quantity available : Int)
    (h : 0 < roundDown (price * quantity) prec) :
    0 < cappedAmount prec price quantity available := by
  have hn : 0 ≤ price * quantity := by
    by_contra hneg
    have := tdiv_nonpos_of_nonpos (price * quantity) (10 ^ prec) (by omega)
      (le_of_lt (ten_pow_pos prec))
    unfold roundDown at h
    omega
  have := roundDown_le_roundHalfUp _ prec hn
  unfold cappedAmount
  simp only
  split <;> omega

theorem matchSellOrder_consumes (env : Env) (prec : Nat) (m : Taker) (o : Order)
    (hgt : o.quantity < m.order.quantity) (hq : 0 < m.order.quantity)
    (hamt : 0 < roundDown (o.price * o.quantity) prec)
    (hnd : DUST ≤ roundHalfUp (m.order.price * (m.order.quantity - o.quantity)) prec) :
    (matchSellOrder env prec m o).order.quantity = m.order.quantity - o.quantity ∧
    (matchSellOrder env prec m o).order.price = m.order.price ∧
    (matchSellOrder env prec m o).order.id = m.order.id ∧
    (matchSellOrder env prec m o).st.sellBook
      = m.st.sellBook.filter (fun r => r.id != o.id) ∧
    (matchSellOrder env prec m o).st.buyBook = m.st.buyBook ∧
    ∃ f : Fill, f.maker = o ∧ (matchSellOrder env prec m o).st.fills = m.st.fills ++ [f] := by
  have hc := cappedAmount_pos prec o.price o.quantity m.order.tokensLocked hamt
  have hok : (decide (cappedAmount prec o.price o.quantity m.order.tokensLocked > 0)
      && decide (m.order.quantity > 0)) = true := by
    simp [hc, hq]
  have hd : ¬ roundHalfUp (m.order.price * (m.order.quantity - o.quantity)) prec < DUST :=
    not_lt.2 hnd
  unfold matchSellOrder
  rw [if_neg (not_le.2 hgt)]
  unfold sellOrderConsumed
  simp only [hok, if_true, hd, decide_False, if_false, Bool.false_eq_true]
  refine ⟨trivial, trivial, trivial, ?_, ?_, ⟨o, o.quantity,
    cappedAmount prec o.price o.quantity m.order.tokensLocked, m.order.tokensLocked⟩, rfl, ?_⟩
  · simp only [recordFill_sellBook, updateTradesHistory_sellBook, removeOrder_sellBook_sell,
      transferTokens_sellBook, apiAssert_sellBook]
  · simp only [recordFill_buyBook, updateTradesHistory_buyBook, removeOrder_buyBook_sell,
      transferTokens_buyBook, apiAssert_buyBook]
  · simp only [recordFill_fills, updateTradesHistory_fills, removeOrder_fills,
      transferTokens_fills, apiAssert_fills]

theorem pageWhile_consumes (env : Env) (prec : Nat) :
    ∀ (page : List Order) (m : Taker),
      (page.map (fun o => o.quantity)).sum < m.order.quantity →
      (∀ o ∈ page, 0 ≤ o.quantity ∧ 0 < roundDown (o.price * o.quantity) prec) →
      0 ≤ m.order.price →
      DUST ≤ roundHalfUp
        (m.order.price * (m.order.quantity - (page.map (fun o => o.quantity)).sum)) prec →
      (pageWhile (matchSellOrder env prec) Taker.active m page).order.quantity
        = m.order.quantity - (page.map (fun o => o.quantity)).sum ∧
      (pageWhile (matchSellOrder env prec) Taker.active m page).order.price = m.order.price ∧
      (pageWhile (matchSellOrder env prec) Taker.active m page).order.id = m.order.id ∧
      (pageWhile (matchSellOrder env prec) Taker.active m page).st.sellBook
        = m.st.sellBook.filter (fun r => !(page.any (fun o => o.id == r.id))) ∧
      (pageWhile (matchSellOrder env prec) Taker.active m page).st.buyBook = m.st.buyBook ∧
      ∃ new : List Fill, new.map (fun f => f.maker) = page ∧
        (pageWhile (matchSellOrder env prec) Taker.active m page).st.fills
          = m.st.fills ++ new := by
  intro page
  induction page with
  | nil =>
    intro m _ _ _ _
    simp only [pageWhile, List.map_nil, List.sum_nil, sub_zero, List.any_nil, Bool.not_false,
      List.filter_true, true_and]
    exact ⟨[], rfl, by simp⟩
  | cons o rest ih =>
    intro m hsum hrows hP hdust
    simp only [List.map_cons, List.sum_cons] at hsum hdust
    have hrest : 0 ≤ (rest.map (fun o => o.quantity)).sum := by
      apply List.sum_nonneg
      intro x hx
      obtain ⟨r, hr, rfl⟩ := List.mem_map.1 hx
      exact (hrows r (List.mem_cons_of_mem _ hr)).1
    have ho := hrows o (List.mem_cons_self _ _)
    have hq : 0 < m.order.quantity := by omega
    have hact : m.active = true := by simp [Taker.active, hq]
    have hmono : m.order.price
          * (m.order.quantity - (o.quantity + (rest.map (fun o => o.quantity)).sum))
        ≤ m.order.price * (m.order.quantity - o.quantity) :=
      mul_le_mul_of_nonneg_left (by omega) hP
    obtain ⟨s1, s2, s3, s4, s5, f, s6, s7⟩ := matchSellOrder_consumes env prec m o
      (by omega) hq ho.2 (le_trans hdust (roundHalfUp_mono _ _ prec hmono))
    have hdust' : DUST ≤ roundHalfUp ((matchSellOrder env prec m o).order.price
        * ((matchSellOrder env prec m o).order.quantity
          - (rest.map (fun o => o.quantity)).sum)) prec := by
      rw [s1, s2]
      have e : m.order.quantity - o.quantity - (rest.map (fun o => o.quantity)).sum
          = m.order.quantity - (o.quantity + (rest.map (fun o => o.quantity)).sum) := by ring
      rw [e]
      exact hdust
    obtain ⟨t1, t2, t3, t4, t5, new, t6, t7⟩ := ih (matchSellOrder env prec m o)
      (by rw [s1]; omega) (fun r hr => hrows r (List.mem_cons_of_mem _ hr))
      (by rw [s2]; exact hP) hdust'
    unfold pageWhile
    rw [if_pos hact]
    refine ⟨?_, ?_, ?_, ?_, ?_, f :: new, ?_, ?_⟩
    · rw [t1, s1, List.map_cons, List.sum_cons]; ring
    · rw [t2, s2]
    · rw [t3, s3]
    · rw [t4, s4, List.filter_filter]
      apply List.filter_congr
      intro r _
      have e : (r.id != o.id) = !(o.id == r.id) := by
        rw [bne, BEq.comm]
      simp only [List.any_cons, Bool.not_or, e]
      exact Bool.and_comm _ _
    · rw [t5, s5]
    · rw [List.map_cons, s6, t6]
    · rw [t7, s7, List.append_assoc]
      rfl

theorem removeExpiredOrders_sellBook_buyBook (env : Env) (s : State) :
    (removeExpiredOrders env Table.sellBook s).buyBook = s.buyBook := by
  refine removeExpiredOrders_rel (fun a b => b.buyBook = a.buyBook) (fun _ => rfl)
    (fun a b c h1 h2 => h2.trans h1) env Table.sellBook ?_ s
  intro a o
  simp only [removeExpiredOrder]
  rw [(updateBidMetric_same _ _).1]
  rfl

theorem length_insertBy {α : Type} (le : α → α → Bool) (x : α) (l : List α) :
    (insertBy le x l).length = l.length + 1 := by
  induction l with
  | nil => rfl
  | cons y ys ih =>
    rw [insertBy_cons]
    split
    · rfl
    · simp only [List.length_cons, ih]

theorem length_sortBy {α : Type} (le : α → α → Bool) (l : List α) :
    (sortBy le l).length = l.length := by
  induction l with
  | nil => rfl
  | cons x xs ih => simp only [sortBy, length_insertBy, ih, List.length_cons]

theorem filter_not_any_take (S : List Order) (n : Nat) :
    ((S.filter (fun r => !((S.take n).any (fun o => o.id == r.id)))).length ≤ S.length - n) := by
  have h1 : S.filter (fun r => !((S.take n).any (fun o => o.id == r.id)))
      = (S.take n).filter (fun r => !((S.take n).any (fun o => o.id == r.id)))
        ++ (S.drop n).filter (fun r => !((S.take n).any (fun o => o.id == r.id))) := by
    rw [← List.filter_append, List.take_append_drop]
  have h2 : (S.take n).filter (fun r => !((S.take n).any (fun o => o.id == r.id))) = [] := by
    rw [List.filter_eq_nil_iff]
    intro a ha
    simp only [Bool.not_eq_true, Bool.not_eq_false_eq_eq_true, List.any_eq_true, beq_iff_eq]
    exact ⟨a, ha, rfl⟩
  rw [h1, h2, List.nil_append]
  exact le_trans (List.length_filter_le _ _) (by rw [List.length_drop])

theorem findMatchingSellOrdersLoop_one_page (env : Env) (order : Order) (prec : Nat)
    (s : State)
    (hlen : (sortBy priceAsc ((sweptBook env s.sellBook).filter
        (crossingSell order.symbol order.price))).length ≤ 2 * PAGE)
    (hsum : (((sortBy priceAsc ((sweptBook env s.sellBook).filter
        (crossingSell order.symbol order.price))).take PAGE).map (fun o => o.quantity)).sum
        < order.quantity)
    (hrows : ∀ o ∈ (sortBy priceAsc ((sweptBook env s.sellBook).filter
        (crossingSell order.symbol order.price))).take PAGE,
        0 ≤ o.quantity ∧ 0 < roundDown (o.price * o.quantity) prec)
    (hP : 0 ≤ order.price)
    (hdust : DUST ≤ roundHalfUp (order.price * (order.quantity
        - (((sortBy priceAsc ((sweptBook env s.sellBook).filter
            (crossingSell order.symbol order.price))).take PAGE).map
              (fun o => o.quantity)).sum)) prec) :
    (findMatchingSellOrdersLoop env order prec s).order.quantity
      = order.quantity - (((sortBy priceAsc ((sweptBook env s.sellBook).filter
          (crossingSell order.symbol order.price))).take PAGE).map (fun o => o.quantity)).sum ∧
    (findMatchingSellOrdersLoop env order prec s).order.price = order.price ∧
    (findMatchingSellOrdersLoop env order prec s).order.id = order.id ∧
    (findMatchingSellOrdersLoop env order prec s).st.sellBook
      = (sweptBook env s.sellBook).filter (fun r =>
          !(((sortBy priceAsc ((sweptBook env s.sellBook).filter
            (crossingSell order.symbol order.price))).take PAGE).any (fun o => o.id == r.id))) ∧
    (findMatchingSellOrdersLoop env order prec s).st.buyBook = s.buyBook ∧
    ∃ new : List Fill,
      new.map (fun f => f.maker) = (sortBy priceAsc ((sweptBook env s.sellBook).filter
        (crossingSell order.symbol order.price))).take PAGE ∧
      (findMatchingSellOrdersLoop env order prec s).st.fills = s.fills ++ new := by
  have hbook : (removeExpiredOrders env Table.sellBook s).sellBook
      = sweptBook env s.sellBook := removeExpiredOrders_book env Table.sellBook s
  generalize hS : sortBy priceAsc ((sweptBook env s.sellBook).filter
    (crossingSell order.symbol order.price)) = S at *
  have hpage : fetchCrossingSells order.symbol order.price
      { st := removeExpiredOrders env Table.sellBook s, order := order, volumeTraded := 0 } 0
      = S.take PAGE := by
    unfold fetchCrossingSells dbFind
    simp only [hbook, hS, List.drop_zero]
  obtain ⟨t1, t2, t3, t4, t5, new, t6, t7⟩ := pageWhile_consumes env prec (S.take PAGE)
    { st := removeExpiredOrders env Table.sellBook s, order := order, volumeTraded := 0 }
    hsum hrows hP hdust
  simp only [hbook, removeExpiredOrders_sellBook_buyBook, removeExpiredOrders_fills] at t4 t5 t7
  have hnext : fetchCrossingSells order.symbol order.price
      (pageWhile (matchSellOrder env prec) Taker.active
        { st := removeExpiredOrders env Table.sellBook s, order := order, volumeTraded := 0 }
        (S.take PAGE)) (0 + PAGE) = [] := by
    unfold fetchCrossingSells dbFind
    rw [t4]
    have e : ((sweptBook env s.sellBook).filter (fun r =>
          !((S.take PAGE).any (fun o => o.id == r.id)))).filter
          (crossingSell order.symbol order.price)
        = ((sweptBook env s.sellBook).filter (crossingSell order.symbol order.price)).filter
          (fun r => !((S.take PAGE).any (fun o => o.id == r.id))) := by
      rw [List.filter_filter, List.filter_filter]
      apply List.filter_congr
      intro r _
      exact Bool.and_comm _ _
    rw [e, sortBy_filter priceAsc priceAsc_total priceAsc_trans, hS]
    have hl := filter_not_any_take S PAGE
    rw [List.drop_eq_nil_of_le (by omega)]
    rfl
  have hact : (pageWhile (matchSellOrder env prec) Taker.active
        { st := removeExpiredOrders env Table.sellBook s, order := order, volumeTraded := 0 }
        (S.take PAGE)).active = true := by
    simp only [Taker.active, t1, decide_eq_true_eq]
    omega
  unfold findMatchingSellOrdersLoop
  simp only [hpage]
  unfold pagesLoop
  simp only [hnext, hact, if_true, List.length_nil, gt_iff_lt, lt_self_iff_false, false_and,
    if_false]
  exact ⟨t1, t2, t3, t4, t5, new, t6, t7⟩

/-- C8 (the defect, in general).  A valid `buy` finds the crossing sell orders `S`
(sorted, at most two pages of them) and its quantity exceeds what the first page of 1000
offers.  The orders of the first page are filled and removed; the second page is then
read at offset 1000 of the book that is left, which has at most 1000 crossing rows, so
it is empty and the loop ends: the fills of the action are exactly the first page, every
crossing order that `S` has after its first page is still in `sellBook`, never visited,
and the buy order rests with the unfilled quantity. -/
theorem limit_buy_skips_second_page (env : Env) (payload : OrderPayload) (s s1 : State)
    (v : ValidOrder)
    (hv : validateOrder env payload s = (s1, some v)) 
    (hok : env.escrowOk STEEM_PEGGED_SYMBOL
      ((v.price.mul v.quantity).toFixed STEEM_PEGGED_SYMBOL_PRESICION) = true)
    (hlen : (sortBy priceAsc ((sweptBook env s.sellBook).filter
        (crossingSell v.symbol (v.price.toFixed STEEM_PEGGED_SYMBOL_PRESICION)))).length
        ≤ 2 * PAGE)
    (hsum : (((sortBy priceAsc ((sweptBook env s.sellBook).filter
        (crossingSell v.symbol (v.price.toFixed STEEM_PEGGED_SYMBOL_PRESICION)))).take
          PAGE).map (fun o => o.quantity)).sum < v.quantity.toFixed v.precision)
    (hrows : ∀ o ∈ (sortBy priceAsc ((sweptBook env s.sellBook).filter
        (crossingSell v.symbol (v.price.toFixed STEEM_PEGGED_SYMBOL_PRESICION)))).take PAGE,
        0 ≤ o.quantity ∧ 0 < roundDown (o.price * o.quantity) v.precision)
    (hdust : DUST ≤ roundHalfUp (v.price.toFixed STEEM_PEGGED_SYMBOL_PRESICION
        * (v.quantity.toFixed v.precision
          - (((sortBy priceAsc ((sweptBook env s.sellBook).filter
              (crossingSell v.symbol (v.price.toFixed STEEM_PEGGED_SYMBOL_PRESICION)))).take
                PAGE).map (fun o => o.quantity)).sum)) v.precision)
    (hids : ∀ a ∈ (sortBy priceAsc ((sweptBook env s.sellBook).filter
        (crossingSell v.symbol (v.price.toFixed STEEM_PEGGED_SYMBOL_PRESICION)))).take PAGE,
      ∀ b ∈ (sortBy priceAsc ((sweptBook env s.sellBook).filter
        (crossingSell v.symbol (v.price.toFixed STEEM_PEGGED_SYMBOL_PRESICION)))).drop PAGE,
        a.id ≠ b.id) :
    (∃ new : List Fill, (buy env payload s).fills = s.fills ++ new ∧
      new.map (fun f => f.maker) = (sortBy priceAsc ((sweptBook env s.sellBook).filter
        (crossingSell v.symbol (v.price.toFixed STEEM_PEGGED_SYMBOL_PRESICION)))).take PAGE) ∧
    (∀ b ∈ (sortBy priceAsc ((sweptBook env s.sellBook).filter
        (crossingSell v.symbol (v.price.toFixed STEEM_PEGGED_SYMBOL_PRESICION)))).drop PAGE,
      b ∈ (buy env payload s).sellBook ∧
      crossingSell v.symbol (v.price.toFixed STEEM_PEGGED_SYMBOL_PRESICION) b = true) ∧
    ∃ o ∈ (buy env payload s).buyBook, o.id = s.nextId ∧
      o.price = v.price.toFixed STEEM_PEGGED_SYMBOL_PRESICION ∧
      o.quantity = v.quantity.toFixed v.precision
        - (((sortBy priceAsc ((sweptBook env s.sellBook).filter
            (crossingSell v.symbol (v.price.toFixed STEEM_PEGGED_SYMBOL_PRESICION)))).take
              PAGE).map (fun o => o.quantity)).sum ∧
      0 < o.quantity := by
  obtain ⟨hs1, _, _, _, _, _, _, _, _, hmant, hdp, hdq, _⟩ := validateOrder_some hv
  subst s1
  have hP := le_of_lt (Dec.toFixed_pos v.price STEEM_PEGGED_SYMBOL_PRESICION hdp hmant)
  unfold buy
  rw [hv]
  simp only [hok, if_true]
  generalize hL : (v.price.mul v.quantity).toFixed STEEM_PEGGED_SYMBOL_PRESICION = L
  generalize hPe : v.price.toFixed STEEM_PEGGED_SYMBOL_PRESICION = P at *
  generalize hQe : v.quantity.toFixed v.precision = Q at *
  generalize hS : sortBy priceAsc ((sweptBook env s.sellBook).filter
    (crossingSell v.symbol P)) = S at *
  generalize hr : insertOrder (requestEscrow env s STEEM_PEGGED_SYMBOL L) Table.buyBook
    (newOrder env payload.expiration v L) = r
  have r_sell : r.1.sellBook = s.sellBook := by rw [← hr]; rfl
  have r_buy : r.1.buyBook = s.buyBook ++ [r.2] := by rw [← hr]; rfl
  have r_fills : r.1.fills = s.fills := by rw [← hr]; rfl
  have r_id : r.2.id = s.nextId := by rw [← hr]; rfl
  have r_sym : r.2.symbol = v.symbol := by rw [← hr]; rfl
  have r_price : r.2.price = P := by rw [← hr]; exact hPe
  have r_quant : r.2.quantity = Q := by rw [← hr]; exact hQe
  have hloop := findMatchingSellOrdersLoop_one_page env r.2 v.precision r.1
  rw [r_sell, r_sym, r_price, r_quant, hS, r_buy, r_fills, r_id] at hloop
  obtain ⟨t1, t2, t3, t4, t5, new, t6, t7⟩ := hloop hlen hsum hrows hP hdust
  unfold findMatchingSellOrders
  simp only [finishMetrics_fills, finishMetrics_buyBook, finishMetrics_sellBook]
  generalize findMatchingSellOrdersLoop env r.2 v.precision r.1 = m at t1 t2 t3 t4 t5 t6 t7 ⊢
  have hq : m.order.quantity > 0 := by
    rw [t1]
    omega
  rw [if_pos hq]
  refine ⟨⟨new, t7, t6⟩, ?_, m.order, ?_, t3, t2, t1, hq⟩
  · intro b hb
    have hbS : b ∈ S := List.mem_of_mem_drop hb
    rw [← hS, mem_sortBy, List.mem_filter] at hbS
    refine ⟨?_, hbS.2⟩
    show b ∈ m.st.sellBook
    rw [t4, List.mem_filter]
    refine ⟨hbS.1, ?_⟩
    simp only [Bool.not_eq_true', List.any_eq_false, beq_iff_eq]
    intro a ha
    exact hids a ha b hb
  · show m.order ∈ (m.st.buyBook).map (fun r => if r.id = m.order.id then m.order else r)
    rw [t5, List.mem_map]
    refine ⟨r.2, by simp, ?_⟩
    rw [t3, r_id]
    simp

/-- C8 (the defect, at an input).  With `1001` sell orders of `1 ABC` at `1.0` resting,
Bob buys `2000 ABC` at `1.0`: the action makes `1000` fills and stops; the sell order
with `_id` `1000` is still in the book, at the buyer's price, and the buy order rests
with `1000 ABC` unfilled. -/
theorem limit_buy_skips_second_page_witness :
    (∃ new : List Fill,
      (buy (exampleEnv "bob" "b1" 101) (limitPayload ⟨2000, 0⟩ ⟨1, 0⟩)
        thousandAndOneSells).fills = thousandAndOneSells.fills ++ new ∧
      new.length = 1000) ∧
    (unitSell 1000 ∈ (buy (exampleEnv "bob" "b1" 101) (limitPayload ⟨2000, 0⟩ ⟨1, 0⟩)
        thousandAndOneSells).sellBook ∧
      crossingSell "ABC" 100000000 (unitSell 1000) = true) ∧
    ∃ o ∈ (buy (exampleEnv "bob" "b1" 101) (limitPayload ⟨2000, 0⟩ ⟨1, 0⟩)
        thousandAndOneSells).buyBook,
      o.id = 1001 ∧ o.price = 100000000 ∧ o.quantity = 10000 := by
  have h := limit_buy_skips_second_page (exampleEnv "bob" "b1" 101)
    (limitPayload ⟨2000, 0⟩ ⟨1, 0⟩) thousandAndOneSells thousandAndOneSells
    ⟨"ABC", 1, ⟨1, 0⟩, ⟨2000, 0⟩⟩ rfl rfl (by decide!) (by decide!) (by decide!)
    (by decide!) (by decide!)
  obtain ⟨⟨new, h1, h2⟩, h3, o, h4, h5, h6, h7, _⟩ := h
  refine ⟨⟨new, h1, ?_⟩, ?_, o, h4, h5, ?_, ?_⟩
  · have := congrArg List.length h2
    rw [List.length_map] at this
    rw [this]
    decide!
  · exact h3 (unitSell 1000) (by decide!)
  · rw [h6]
    decide!
  · rw [h7]
    decide!

/-! ### The bounds on the number of pages are never reached -/

theorem foldl_filter_orders_sublist (ds : List Order) :
    ∀ l : List Order,
      (ds.foldl (fun acc o => acc.filter (fun r => r.id != o.id)) l).Sublist l := by
  induction ds with
  | nil => intro l; exact List.Sublist.refl _
  | cons d rest ih =>
    intro l
    simp only [List.foldl_cons]
    exact List.Sublist.trans (ih _) (List.filter_sublist _)

theorem sweepList_complete (env : Env) :
    ∀ (fuel : Nat) (l : List Order), l.length < fuel →
      ∀ o ∈ sweepList env fuel l, expired env o = false := by
  intro fuel
  induction fuel with
  | zero => intro l h; omega
  | succ n ih =>
    intro l hlen
    unfold sweepList
    simp only
    split
    · rename_i hfound
      cases hl : (l.filter (expired env)).take PAGE with
      | nil => simp [hl] at hfound
      | cons d rest =>
        have hd : d ∈ l := by
          have : d ∈ (l.filter (expired env)).take PAGE := by
            rw [hl]; exact List.mem_cons_self _ _
          exact (List.mem_filter.1 (List.mem_of_mem_take this)).1
        have h1 : ((d :: rest).foldl (fun acc o => acc.filter (fun r => r.id != o.id)) l).length
            < l.length := by
          simp only [List.foldl_cons]
          have h2 := (foldl_filter_orders_sublist rest
            (l.filter (fun r => r.id != d.id))).length_le
          have h3 : (l.filter (fun r => r.id != d.id)).length < l.length := by
            apply List.length_filter_lt_length_iff_exists.2
            exact ⟨d, hd, by simp⟩
          omega
        exact ih _ (by omega)
    · rename_i hfound
      intro o ho
      have h1 : (l.filter (expired env)).take PAGE = [] := by
        cases hl : (l.filter (expired env)).take PAGE with
        | nil => rfl
        | cons a b => simp [hl] at hfound
      have h2 : l.filter (expired env) = [] := by
        cases hf : l.filter (expired env) with
        | nil => rfl
        | cons a b => simp [hf, PAGE] at h1
      have := List.filter_eq_nil_iff.1 h2 o ho
      simpa using this

/-- The sweep of `removeExpiredOrders` ends because no expired order is left, not
because the bound on its passes is reached. -/
theorem sweptBook_no_expired (env : Env) (l : List Order) :
    ∀ o ∈ sweptBook env l, expired env o = false :=
  sweepList_complete env (l.length + 1) l (Nat.lt_succ_self _)

theorem pageWhile_book {σ : Type} (body : σ → Order → σ) (active : σ → Bool)
    (book : σ → List Order)
    (hstep : ∀ m o, active m = true → active (body m o) = true →
      ∃ p, book (body m o) = (book m).filter p)
    (page : List Order) (m : σ) (h : active (pageWhile body active m page) = true) :
    ∃ p, book (pageWhile body active m page) = (book m).filter p := by
  have hp : ∀ l : List Order,
      l.Pairwise (fun a b => (fun (_ _ : Order) => true) a b = true) := by
    intro l
    induction l with
    | nil => exact List.Pairwise.nil
    | cons a l ih => exact List.Pairwise.cons (fun _ _ => rfl) ih
  obtain ⟨_, _, _, _, h4⟩ := pageWhile_sorted body active (fun _ => ([] : List Fill)) book
    (fun _ _ => true) [] (fun m o ha => ⟨Or.inl rfl, hstep m o ha⟩) page m [] rfl
    (by simp) (hp page) (by simp)
  exact h4 h

theorem pagesLoop_succ {σ : Type} (body : σ → Order → σ) (active : σ → Bool)
    (fetch : σ → Nat → List Order) (fuel : Nat) (m : σ) (page : List Order) (off : Nat) :
    pagesLoop body active fetch (fuel + 1) m page off
      = if (if active (pageWhile body active m page)
              then fetch (pageWhile body active m page) (off + PAGE) else page).length > 0
            ∧ active (pageWhile body active m page) = true
        then pagesLoop body active fetch fuel (pageWhile body active m page)
          (if active (pageWhile body active m page)
            then fetch (pageWhile body active m page) (off + PAGE) else page) (off + PAGE)
        else pageWhile body active m page := rfl

/-- The page loop stops by itself: once `fuel` pages are enough to reach the end of the
crossing rows, one more page allowed changes nothing. -/
theorem pagesLoop_fuel_succ {σ : Type} (body : σ → Order → σ) (active : σ → Bool)
    (book : σ → List Order) (q : Order → Bool) (cmp : Order → Order → Bool)
    (fetch : σ → Nat → List Order)
    (hfetch : ∀ m off, fetch m off = dbFind (book m) q PAGE off cmp)
    (hstep : ∀ m o, active m = true → active (body m o) = true →
      ∃ p, book (body m o) = (book m).filter p) :
    ∀ (fuel : Nat) (m : σ) (page : List Order) (off : Nat),
      ((book m).filter q).length ≤ off + (fuel + 1) * PAGE →
      pagesLoop body active fetch (fuel + 1) m page off
        = pagesLoop body active fetch (fuel + 1 + 1) m page off := by
  have hempty : ∀ (m : σ) (page : List Order) (off n : Nat),
      ((book m).filter q).length ≤ off + n →
      active (pageWhile body active m page) = true →
      ((book (pageWhile body active m page)).filter q).length ≤ off + n := by
    intro m page off n hlen hact
    obtain ⟨p, hp⟩ := pageWhile_book body active book hstep page m hact
    rw [hp, List.filter_filter]
    have e : (book m).filter (fun a => q a && p a) = ((book m).filter q).filter p := by
      rw [List.filter_filter]
      apply List.filter_congr
      intro r _
      exact Bool.and_comm _ _
    rw [e]
    exact le_trans (List.length_filter_le _ _) hlen
  intro fuel
  induction fuel with
  | zero =>
    intro m page off hlen
    have hnil : active (pageWhile body active m page) = true →
        fetch (pageWhile body active m page) (off + PAGE) = [] := by
      intro hact
      have h1 := hempty m page off ((0 + 1) * PAGE) hlen hact
      rw [hfetch]
      unfold dbFind
      rw [List.drop_eq_nil_of_le (by rw [length_sortBy]; omega)]
      rfl
    rw [pagesLoop_succ body active fetch (0 + 1), pagesLoop_succ body active fetch 0]
    by_cases hact : active (pageWhile body active m page) = true
    · simp only [hact, if_true, hnil hact, List.length_nil, gt_iff_lt, lt_self_iff_false,
        false_and, if_false]
    · simp only [hact, Bool.false_eq_true, and_false, if_false]
  | succ n ih =>
    intro m page off hlen
    rw [pagesLoop_succ body active fetch (n + 1 + 1), pagesLoop_succ body active fetch (n + 1)]
    by_cases hact : active (pageWhile body active m page) = true
    · simp only [hact, if_true, and_true]
      split
      · refine ih _ _ _ ?_
        have h1 := hempty m page off ((n + 1 + 1) * PAGE) hlen hact
        have e : off + (n + 1 + 1) * PAGE = off + PAGE + (n + 1) * PAGE := by ring
        omega
      · rfl
    · simp only [hact, Bool.false_eq_true, and_false, if_false]

theorem pagesLoop_fuel_add {σ : Type} (body : σ → Order → σ) (active : σ → Bool)
    (book : σ → List Order) (q : Order → Bool) (cmp : Order → Order → Bool)
    (fetch : σ → Nat → List Order)
    (hfetch : ∀ m off, fetch m off = dbFind (book m) q PAGE off cmp)
    (hstep : ∀ m o, active m = true → active (body m o) = true →
      ∃ p, book (body m o) = (book m).filter p)
    (m : σ) (page : List Order) (fuel : Nat)
    (hlen : ((book m).filter q).length ≤ (fuel + 1) * PAGE) :
    ∀ extra : Nat, pagesLoop body active fetch (fuel + 1 + extra) m page 0
      = pagesLoop body active fetch (fuel + 1) m page 0 := by
  intro extra
  induction extra with
  | zero => rfl
  | succ k ih =>
    rw [← ih]
    have h := pagesLoop_fuel_succ body active book q cmp fetch hfetch hstep (fuel + k) m page 0
      (by
        have : (fuel + 1) * PAGE ≤ (fuel + k + 1) * PAGE :=
          Nat.mul_le_mul_right _ (by omega)
        omega)
    have e1 : fuel + 1 + (k + 1) = fuel + k + 1 + 1 := by omega
    have e2 : fuel + 1 + k = fuel + k + 1 := by omega
    rw [e1, e2]
    exact h.symm

theorem filter_length_le_pages (q : Order → Bool) (l : List Order) :
    (l.filter q).length ≤ (l.length + 1) * PAGE := by
  have h1 := List.length_filter_le q l
  have h2 : l.length + 1 ≤ (l.length + 1) * PAGE := by
    unfold PAGE
    omega
  omega

/-- More pages allowed to `findMatchingSellOrders` than the model gives it change
nothing: its loop ends on an empty page or a filled taker. -/
theorem findMatchingSellOrdersLoop_fuel (env : Env) (order : Order) (prec : Nat)
    (s : State) (extra : Nat) :
    pagesLoop (matchSellOrder env prec) Taker.active
        (fetchCrossingSells order.symbol order.price)
        ((removeExpiredOrders env Table.sellBook s).sellBook.length + 1 + extra)
        { st := removeExpiredOrders env Table.sellBook s, order := order, volumeTraded := 0 }
        (fetchCrossingSells order.symbol order.price
          { st := removeExpiredOrders env Table.sellBook s, order := order,
            volumeTraded := 0 } 0) 0
      = findMatchingSellOrdersLoop env order prec s := by
  unfold findMatchingSellOrdersLoop
  exact pagesLoop_fuel_add (matchSellOrder env prec) Taker.active (fun m => m.st.sellBook)
    (crossingSell order.symbol order.price) priceAsc (fetchCrossingSells order.symbol order.price)
      (fun _ _ => rfl)
    (fun m o _ h => (matchSellOrder_step env prec m o).2 h)
    { st := removeExpiredOrders env Table.sellBook s, order := order, volumeTraded := 0 }
    (fetchCrossingSells order.symbol order.price
      { st := removeExpiredOrders env Table.sellBook s, order := order, volumeTraded := 0 } 0)
    (removeExpiredOrders env Table.sellBook s).sellBook.length
    (filter_length_le_pages _ _) extra

/-- More pages allowed to `findMatchingBuyOrders` change nothing. -/
theorem findMatchingBuyOrdersLoop_fuel (env : Env) (order : Order) (prec : Nat)
    (s : State) (extra : Nat) :
    pagesLoop (matchBuyOrder env prec) Taker.active
        (fetchCrossingBuys order.symbol order.price)
        ((removeExpiredOrders env Table.buyBook s).buyBook.length + 1 + extra)
        { st := removeExpiredOrders env Table.buyBook s, order := order, volumeTraded := 0 }
        (fetchCrossingBuys order.symbol order.price
          { st := removeExpiredOrders env Table.buyBook s, order := order,
            volumeTraded := 0 } 0) 0
      = findMatchingBuyOrdersLoop env order prec s := by
  unfold findMatchingBuyOrdersLoop
  exact pagesLoop_fuel_add (matchBuyOrder env prec) Taker.active (fun m => m.st.buyBook)
    (crossingBuy order.symbol order.price) priceDesc (fetchCrossingBuys order.symbol order.price)
      (fun _ _ => rfl)
    (fun m o _ h => (matchBuyOrder_step env prec m o).2 h)
    { st := removeExpiredOrders env Table.buyBook s, order := order, volumeTraded := 0 }
    (fetchCrossingBuys order.symbol order.price
      { st := removeExpiredOrders env Table.buyBook s, order := order, volumeTraded := 0 } 0)
    (removeExpiredOrders env Table.buyBook s).buyBook.length
    (filter_length_le_pages _ _) extra

/-- More pages allowed to the loop of `marketBuy` change nothing. -/
theorem marketBuyLoop_fuel (env : Env) (sym : String) (prec : Nat) (quantity : Int)
    (s : State) (extra : Nat) :
    pagesLoop (marketBuyOrder env sym prec) Sweep.active (fetchSells sym)
        ((removeExpiredOrders env Table.sellBook s).sellBook.length + 1 + extra)
        { st := removeExpiredOrders env Table.sellBook s, remaining := quantity,
          volumeTraded := 0 }
        (fetchSells sym
          { st := removeExpiredOrders env Table.sellBook s, remaining := quantity,
            volumeTraded := 0 } 0) 0
      = marketBuyLoop env sym prec quantity s := by
  unfold marketBuyLoop
  exact pagesLoop_fuel_add (marketBuyOrder env sym prec) Sweep.active (fun m => m.st.sellBook)
    (ofSymbol sym) priceAsc (fetchSells sym) (fun _ _ => rfl)
    (fun m o _ h => (marketBuyOrder_step env sym prec m o).2 h)
    { st := removeExpiredOrders env Table.sellBook s, remaining := quantity, volumeTraded := 0 }
    (fetchSells sym
      { st := removeExpiredOrders env Table.sellBook s, remaining := quantity, volumeTraded := 0 } 0)
    (removeExpiredOrders env Table.sellBook s).sellBook.length
    (filter_length_le_pages _ _) extra

/-- More pages allowed to the loop of `marketSell` change nothing. -/
theorem marketSellLoop_fuel (env : Env) (sym : String) (prec : Nat) (quantity : Int)
    (s : State) (extra : Nat) :
    pagesLoop (marketSellOrder env sym prec) Sweep.active (fetchBuys sym)
        ((removeExpiredOrders env Table.buyBook s).buyBook.length + 1 + extra)
        { st := removeExpiredOrders env Table.buyBook s, remaining := quantity,
          volumeTraded := 0 }
        (fetchBuys sym
          { st := removeExpiredOrders env Table.buyBook s, remaining := quantity,
            volumeTraded := 0 } 0) 0
      = marketSellLoop env sym prec quantity s := by
  unfold marketSellLoop
  exact pagesLoop_fuel_add (marketSellOrder env sym prec) Sweep.active (fun m => m.st.buyBook)
    (ofSymbol sym) priceDesc (fetchBuys sym) (fun _ _ => rfl)
    (fun m o _ h => (marketSellOrder_step env sym prec m o).2 h)
    { st := removeExpiredOrders env Table.buyBook s, remaining := quantity, volumeTraded := 0 }
    (fetchBuys sym
      { st := removeExpiredOrders env Table.buyBook s, remaining := quantity, volumeTraded := 0 } 0)
    (removeExpiredOrders env Table.buyBook s).buyBook.length
    (filter_length_le_pages _ _) extra

theorem marketBuyFifteen_tokens : ∀ tx ∈ marketBuyFifteen, tx.1.tokens = twoTokens := by
  intro tx h
  simp only [marketBuyFifteen, List.mem_cons, List.mem_singleton, List.not_mem_nil,
    or_false] at h
  rcases h with rfl | rfl <;> rfl

theorem marketBuyOne_tokens : ∀ tx ∈ marketBuyOne, tx.1.tokens = twoTokens := by
  intro tx h
  simp only [marketBuyOne, List.mem_cons, List.mem_singleton, List.not_mem_nil,
    or_false] at h
  rcases h with rfl | rfl <;> rfl

theorem expiredBuyThenOtherSell_tokens :
    ∀ tx ∈ expiredBuyThenOtherSell, tx.1.tokens = twoTokens := by
  intro tx h
  simp only [expiredBuyThenOtherSell, List.mem_cons, List.mem_singleton, List.not_mem_nil,
    or_false] at h
  rcases h with rfl | rfl <;> rfl

theorem halfUnitSell_tokens : ∀ tx ∈ halfUnitSell, tx.1.tokens = exampleTokens := by
  intro tx h
  simp only [halfUnitSell, List.mem_singleton] at h
  rw [h]
  rfl

/-- C14 (evaluation at the failing input).  `XYZ` has precision 0 and Alice's sell order
of `10 XYZ` at `2.0` rests; Bob's market buy of `15` peg tokens is settled in one fill:
`15 / 2 = 7.5` is rounded down to `7 XYZ` delivered, and the whole `15` is paid to the
seller, one peg token more than `2.0 * 7 = 14`; nothing is refunded. -/
theorem market_buy_pays_all_for_rounded_quantity :
    Reachable twoTokens (run marketBuyFifteen State.empty) ∧
    (run marketBuyFifteen State.empty).fills.map
        (fun f => (f.maker.price, f.quantity, f.amount)) = [(200000000, 7, 1500000000)] ∧
    (run marketBuyFifteen State.empty).transfers
      = [⟨"bob", "XYZ", 7⟩, ⟨"alice", "STEEMP", 1500000000⟩] ∧
    (∃ f ∈ (run marketBuyFifteen State.empty).fills,
      f.amount ≠ roundHalfUp (f.maker.price * f.quantity) 0 ∧
      f.maker.price * f.quantity + 100000000 ≤ f.amount) := by
  refine ⟨⟨marketBuyFifteen, marketBuyFifteen_tokens, rfl⟩, ?_, ?_, ?_⟩ <;> decide!

/-- C19 (evaluation at the failing input).  Bob's buy order of `1 ABC` at `2.0` expires
at time 110; Alice's sell of `1 XYZ` at time 200 sweeps it out of `buyBook` and refunds
it, but `highestBid` of `ABC` still reads `2.0` although no buy order of `ABC` is left:
the sweep of `buyBook` recomputed `lowestAsk`. -/
theorem swept_buy_leaves_stale_highest_bid :
    Reachable twoTokens (run expiredBuyThenOtherSell State.empty) ∧
    (run (expiredBuyThenOtherSell.take 1) State.empty).buyBook.map
        (fun o => (o.symbol, o.price, o.expiration)) = [("ABC", 200000000, 110)] ∧
    (run expiredBuyThenOtherSell State.empty).buyBook = [] ∧
    (run expiredBuyThenOtherSell State.empty).transfers = [⟨"bob", "STEEMP", 200000000⟩] ∧
    (run expiredBuyThenOtherSell State.empty).metrics.map
        (fun m => (m.symbol, m.highestBid, m.lowestAsk))
      = [("ABC", 200000000, 0), ("XYZ", 0, 100000000)] := by
  refine ⟨⟨expiredBuyThenOtherSell, expiredBuyThenOtherSell_tokens, rfl⟩, ?_, ?_, ?_, ?_⟩
    <;> decide!

/-- C13 (counterexample).  Alice's sell order of `10 ABC` at `2.0` rests alone; after
Bob's market buy of `15` peg tokens, which takes `7.5 ABC`, the order is still in
`sellBook`, with the quantity `2.5`. -/
theorem market_buy_leaves_partly_filled_sell :
    Reachable exampleTokens restingSellTen ∧
    restingSellTen.sellBook.map (fun o => (o.id, o.quantity, o.price))
      = [(0, 100, 200000000)] ∧
    (marketBuy (exampleEnv "bob" "m1" 101) (marketPayload ⟨15, 0⟩) restingSellTen).sellBook.map
        (fun o => (o.id, o.quantity, o.price)) = [(0, 25, 200000000)] := by
  refine ⟨⟨[(exampleEnv "alice" "s1" 100, Action.sell (limitPayload ⟨10, 0⟩ ⟨2, 0⟩))], ?_,
    rfl⟩, ?_, ?_⟩
  · intro tx h
    simp only [List.mem_singleton] at h
    rw [h]
    rfl
  · decide!
  · decide!

/-- C20 (counterexample).  A sell of `0.5 ABC` at `0.00000001` passes the validation,
since `0.000000005` rounds to `0.00000001`, and rests although its exact value is below
`0.00000001`. -/
theorem resting_order_below_dust_exactly :
    Reachable exampleTokens (run halfUnitSell State.empty) ∧
    (run halfUnitSell State.empty).asserts = [] ∧
    ∃ o ∈ (run halfUnitSell State.empty).sellBook,
      o.quantity = 5 ∧ o.price = 1 ∧ o.price * o.quantity < 1 * 10 ^ 1 := by
  refine ⟨⟨halfUnitSell, halfUnitSell_tokens, rfl⟩, ?_, ?_⟩ <;> decide!

/-- C15 (counterexample).  `XYZ` has precision 0 and Alice's sell order of `10 XYZ` at
`2.0` rests; Bob's market buy of `1` peg token buys nothing (`1 / 2` rounds down to
`0 XYZ`), the whole input is refunded and the sell order is still in the book. -/
theorem market_buy_refunds_with_orders_left :
    Reachable twoTokens (run marketBuyOne State.empty) ∧
    (run marketBuyOne State.empty).fills = [] ∧
    (run marketBuyOne State.empty).transfers = [⟨"bob", "STEEMP", 100000000⟩] ∧
    (run marketBuyOne State.empty).sellBook.map (fun o => (o.symbol, o.quantity, o.price))
      = [("XYZ", 10, 200000000)] := by
  refine ⟨⟨marketBuyOne, marketBuyOne_tokens, rfl⟩, ?_, ?_, ?_⟩ <;> decide!

/-! ### Where the rows of a book come from -/

theorem sameOrder_refl (a : Order) : SameOrder a a := ⟨rfl, rfl, rfl, rfl, rfl, rfl, rfl⟩

theorem sameOrder_trans {a b c : Order} (h1 : SameOrder a b) (h2 : SameOrder b c) :
    SameOrder a c :=
  ⟨h1.1.trans h2.1, h1.2.1.trans h2.2.1, h1.2.2.1.trans h2.2.2.1,
    h1.2.2.2.1.trans h2.2.2.2.1, h1.2.2.2.2.1.trans h2.2.2.2.2.1,
    h1.2.2.2.2.2.1.trans h2.2.2.2.2.2.1, h1.2.2.2.2.2.2.trans h2.2.2.2.2.2.2⟩

theorem pageWhile_inv_rows {σ : Type} (body : σ → Order → σ) (active : σ → Bool)
    (Inv : σ → Prop) (P : Order → Prop)
    (hstep : ∀ m o, active m = true → P o → Inv m → Inv (body m o)) :
    ∀ (page : List Order) (m : σ), (∀ o ∈ page, P o) → Inv m →
      Inv (pageWhile body active m page) := by
  intro page
  induction page with
  | nil => intro m _ hm; exact hm
  | cons o rest ih =>
    intro m hp hm
    unfold pageWhile
    split
    · rename_i ha
      exact ih _ (fun r hr => hp r (List.mem_cons_of_mem _ hr))
        (hstep m o ha (hp o (List.mem_cons_self _ _)) hm)
    · exact hm

theorem pagesLoop_inv_rows {σ : Type} (body : σ → Order → σ) (active : σ → Bool)
    (fetch : σ → Nat → List Order) (Inv : σ → Prop) (P : Order → Prop)
    (hstep : ∀ m o, active m = true → P o → Inv m → Inv (body m o))
    (hfetch : ∀ m off, Inv m → ∀ o ∈ fetch m off, P o) :
    ∀ (fuel : Nat) (m : σ) (page : List Order) (offset : Nat),
      (∀ o ∈ page, P o) → Inv m → Inv (pagesLoop body active fetch fuel m page offset) := by
  intro fuel
  induction fuel with
  | zero => intro m page offset _ hm; exact hm
  | succ n ih =>
    intro m page offset hp hm
    have h1 := pageWhile_inv_rows body active Inv P hstep page m hp hm
    rw [pagesLoop_succ]
    by_cases hact : active (pageWhile body active m page) = true
    · simp only [hact, if_true, and_true]
      split
      · exact ih _ _ _ (hfetch _ _ h1) h1
      · exact h1
    · simp only [hact, Bool.false_eq_true, and_false, if_false]
      exact h1

theorem settleRestingSell_rows (prec : Nat) (st : State) (sym : String) (o : Order)
    (filled : Int) :
    ∀ r ∈ (settleRestingSell prec st sym o filled).sellBook,
      r ∈ st.sellBook ∨
      (SameOrder r o ∧ 0 < r.quantity ∧ DUST ≤ roundHalfUp (r.price * r.quantity) prec) := by
  intro r hr
  unfold settleRestingSell at hr
  simp only at hr
  split at hr
  · rename_i h
    simp only [updateOrder, State.setBook, State.book, List.mem_map] at hr
    obtain ⟨a, ha, rfl⟩ := hr
    split
    · exact Or.inr ⟨sameOrder_refl _, h.1, h.2⟩
    · exact Or.inl ha
  · left
    rw [removeOrder_sellBook_sell] at hr
    have := (List.mem_filter.1 hr).1
    split at this <;> exact this

theorem settleRestingBuy_rows (prec : Nat) (st : State) (b : Order) (filled amt : Int) :
    ∀ r ∈ (settleRestingBuy prec st b filled amt).buyBook,
      r ∈ st.buyBook ∨
      (SameOrder r b ∧ 0 < r.quantity ∧ DUST ≤ roundHalfUp (r.price * r.quantity) prec) := by
  intro r hr
  unfold settleRestingBuy at hr
  simp only at hr
  split at hr
  · rename_i h
    simp only [updateOrder, State.setBook, State.book, List.mem_map] at hr
    obtain ⟨a, ha, rfl⟩ := hr
    split
    · exact Or.inr ⟨sameOrder_refl _, h.1, h.2⟩
    · exact Or.inl ha
  · left
    rw [removeOrder_buyBook_buy] at hr
    have := (List.mem_filter.1 hr).1
    split at this <;> exact this

theorem settleRestingSell_buyBook (prec : Nat) (st : State) (sym : String) (o : Order)
    (filled : Int) : (settleRestingSell prec st sym o filled).buyBook = st.buyBook :=
  (settleRestingSell_spec prec st sym o filled).1

theorem consumeBuyOrder_sellBook (st : State) (seller sym : String) (b : Order) (amt : Int) :
    (consumeBuyOrder st seller sym b amt).sellBook = st.sellBook :=
  (consumeBuyOrder_spec st seller sym b amt).1

theorem buyFilledWhole_rows (env : Env) (prec : Nat) (m : Taker) (o : Order) :
    (∀ r ∈ (buyFilledWhole env prec m o).st.sellBook,
      r ∈ m.st.sellBook ∨
      (SameOrder r o ∧ 0 < r.quantity ∧ DUST ≤ roundHalfUp (r.price * r.quantity) prec)) ∧
    ∀ r ∈ (buyFilledWhole env prec m o).st.buyBook, r ∈ m.st.buyBook := by
  unfold buyFilledWhole
  simp only
  split
  · have e1 : ∀ st : State, (if m.order.tokensLocked
          - cappedAmount prec o.price m.order.quantity m.order.tokensLocked > 0
        then transferTokens st m.order.account STEEM_PEGGED_SYMBOL
          (m.order.tokensLocked
            - cappedAmount prec o.price m.order.quantity m.order.tokensLocked)
        else st).sellBook = st.sellBook := by
      intro st
      split <;> rfl
    have e2 : ∀ st : State, (if m.order.tokensLocked
          - cappedAmount prec o.price m.order.quantity m.order.tokensLocked > 0
        then transferTokens st m.order.account STEEM_PEGGED_SYMBOL
          (m.order.tokensLocked
            - cappedAmount prec o.price m.order.quantity m.order.tokensLocked)
        else st).buyBook = st.buyBook := by
      intro st
      split <;> rfl
    constructor
    · intro r hr
      rw [removeOrder_sellBook_buy, recordFill_sellBook, updateTradesHistory_sellBook,
        e1] at hr
      rcases settleRestingSell_rows prec _ _ o _ r hr with h | h
      · exact Or.inl (by
        simpa only [transferTokens_sellBook, removeOrder_sellBook_buy, apiAssert_sellBook]
          using h)
      · exact Or.inr h
    · intro r hr
      rw [removeOrder_buyBook_buy, recordFill_buyBook, updateTradesHistory_buyBook, e2,
        settleRestingSell_buyBook] at hr
      exact (by
        simpa only [transferTokens_buyBook, removeOrder_buyBook_sell, apiAssert_buyBook]
          using (List.mem_filter.1 hr).1)
  · exact ⟨fun r hr => Or.inl (by rwa [apiAssert_sellBook] at hr),
      fun r hr => by rwa [apiAssert_buyBook] at hr⟩

theorem sellOrderConsumed_rows (env : Env) (prec : Nat) (m : Taker) (o : Order) :
    (∀ r ∈ (sellOrderConsumed env prec m o).st.sellBook, r ∈ m.st.sellBook) ∧
    ∀ r ∈ (sellOrderConsumed env prec m o).st.buyBook, r ∈ m.st.buyBook := by
  unfold sellOrderConsumed
  simp only
  split
  · by_cases hd : roundHalfUp (m.order.price * (m.order.quantity - o.quantity)) prec < DUST
    · simp only [hd, decide_True, if_true]
      constructor
      · intro r hr
        rw [recordFill_sellBook, updateTradesHistory_sellBook, removeOrder_sellBook_buy,
          transferTokens_sellBook, removeOrder_sellBook_sell] at hr
        exact (by
          simpa only [transferTokens_sellBook, removeOrder_sellBook_buy, apiAssert_sellBook]
            using (List.mem_filter.1 hr).1)
      · intro r hr
        rw [recordFill_buyBook, updateTradesHistory_buyBook, removeOrder_buyBook_buy] at hr
        exact (by
          simpa only [transferTokens_buyBook, removeOrder_buyBook_sell, apiAssert_buyBook]
            using (List.mem_filter.1 hr).1)
    · simp only [hd, decide_False, if_false, Bool.false_eq_true]
      constructor
      · intro r hr
        rw [recordFill_sellBook, updateTradesHistory_sellBook, removeOrder_sellBook_sell] at hr
        exact (by
          simpa only [transferTokens_sellBook, removeOrder_sellBook_buy, apiAssert_sellBook]
            using (List.mem_filter.1 hr).1)
      · intro r hr
        rw [recordFill_buyBook, updateTradesHistory_buyBook] at hr
        exact (by
          simpa only [transferTokens_buyBook, removeOrder_buyBook_sell, apiAssert_buyBook]
            using hr)
  · exact ⟨fun r hr => by rwa [apiAssert_sellBook] at hr,
      fun r hr => by rwa [apiAssert_buyBook] at hr⟩

theorem matchSellOrder_rows (env : Env) (prec : Nat) (m : Taker) (o : Order) :
    (∀ r ∈ (matchSellOrder env prec m o).st.sellBook,
      r ∈ m.st.sellBook ∨
      (SameOrder r o ∧ 0 < r.quantity ∧ DUST ≤ roundHalfUp (r.price * r.quantity) prec)) ∧
    ∀ r ∈ (matchSellOrder env prec m o).st.buyBook, r ∈ m.st.buyBook := by
  unfold matchSellOrder
  split
  · exact buyFilledWhole_rows env prec m o
  · exact ⟨fun r hr => Or.inl ((sellOrderConsumed_rows env prec m o).1 r hr),
      (sellOrderConsumed_rows env prec m o).2⟩

theorem sellFilledWhole_rows (env : Env) (prec : Nat) (m : Taker) (o : Order) :
    (∀ r ∈ (sellFilledWhole env prec m o).st.buyBook,
      r ∈ m.st.buyBook ∨
      (SameOrder r o ∧ 0 < r.quantity ∧ DUST ≤ roundHalfUp (r.price * r.quantity) prec)) ∧
    ∀ r ∈ (sellFilledWhole env prec m o).st.sellBook, r ∈ m.st.sellBook := by
  unfold sellFilledWhole
  simp only
  split
  · constructor
    · intro r hr
      rw [removeOrder_buyBook_sell, recordFill_buyBook, updateTradesHistory_buyBook] at hr
      rcases settleRestingBuy_rows prec _ o _ _ r hr with h | h
      · exact Or.inl (by
        simpa only [transferTokens_buyBook, removeOrder_buyBook_sell, apiAssert_buyBook]
          using h)
      · exact Or.inr h
    · intro r hr
      rw [removeOrder_sellBook_sell, recordFill_sellBook, updateTradesHistory_sellBook,
        settleRestingBuy_sellBook] at hr
      exact (by
        simpa only [transferTokens_sellBook, removeOrder_sellBook_buy, apiAssert_sellBook]
          using (List.mem_filter.1 hr).1)
  · exact ⟨fun r hr => Or.inl (by rwa [apiAssert_buyBook] at hr),
      fun r hr => by rwa [apiAssert_sellBook] at hr⟩

theorem buyOrderConsumed_rows (env : Env) (prec : Nat) (m : Taker) (o : Order) :
    (∀ r ∈ (buyOrderConsumed env prec m o).st.buyBook, r ∈ m.st.buyBook) ∧
    ∀ r ∈ (buyOrderConsumed env prec m o).st.sellBook, r ∈ m.st.sellBook := by
  unfold buyOrderConsumed
  simp only
  split
  · by_cases hd : roundHalfUp (m.order.price * (m.order.quantity - o.quantity)) prec < DUST
    · simp only [hd, decide_True, if_true]
      constructor
      · intro r hr
        rw [recordFill_buyBook, updateTradesHistory_buyBook, removeOrder_buyBook_sell,
          transferTokens_buyBook, consumeBuyOrder_buyBook] at hr
        exact (by
          simpa only [transferTokens_buyBook, removeOrder_buyBook_sell, apiAssert_buyBook]
            using (List.mem_filter.1 hr).1)
      · intro r hr
        rw [recordFill_sellBook, updateTradesHistory_sellBook, removeOrder_sellBook_sell,
          transferTokens_sellBook, consumeBuyOrder_sellBook] at hr
        exact (by
          simpa only [transferTokens_sellBook, removeOrder_sellBook_buy, apiAssert_sellBook]
            using (List.mem_filter.1 hr).1)
    · simp only [hd, decide_False, if_false, Bool.false_eq_true]
      constructor
      · intro r hr
        rw [recordFill_buyBook, updateTradesHistory_buyBook, consumeBuyOrder_buyBook] at hr
        exact (by
          simpa only [transferTokens_buyBook, removeOrder_buyBook_sell, apiAssert_buyBook]
            using (List.mem_filter.1 hr).1)
      · intro r hr
        rw [recordFill_sellBook, updateTradesHistory_sellBook, consumeBuyOrder_sellBook] at hr
        exact (by
          simpa only [transferTokens_sellBook, removeOrder_sellBook_buy, apiAssert_sellBook]
            using hr)
  · exact ⟨fun r hr => by rwa [apiAssert_buyBook] at hr,
      fun r hr => by rwa [apiAssert_sellBook] at hr⟩

theorem matchBuyOrder_rows (env : Env) (prec : Nat) (m : Taker) (o : Order) :
    (∀ r ∈ (matchBuyOrder env prec m o).st.buyBook,
      r ∈ m.st.buyBook ∨
      (SameOrder r o ∧ 0 < r.quantity ∧ DUST ≤ roundHalfUp (r.price * r.quantity) prec)) ∧
    ∀ r ∈ (matchBuyOrder env prec m o).st.sellBook, r ∈ m.st.sellBook := by
  unfold matchBuyOrder
  split
  · exact sellFilledWhole_rows env prec m o
  · exact ⟨fun r hr => Or.inl ((buyOrderConsumed_rows env prec m o).1 r hr),
      (buyOrderConsumed_rows env prec m o).2⟩

theorem marketBuyOrder_rows (env : Env) (sym : String) (prec : Nat) (m : Sweep) (o : Order) :
    (∀ r ∈ (marketBuyOrder env sym prec m o).st.sellBook,
      r ∈ m.st.sellBook ∨
      (SameOrder r o ∧ 0 < r.quantity ∧ DUST ≤ roundHalfUp (r.price * r.quantity) prec)) ∧
    (marketBuyOrder env sym prec m o).st.buyBook = m.st.buyBook := by
  have hwhole : (∀ r ∈ (marketBuyWhole env sym prec m o).st.sellBook,
      r ∈ m.st.sellBook ∨
      (SameOrder r o ∧ 0 < r.quantity ∧ DUST ≤ roundHalfUp (r.price * r.quantity) prec)) ∧
    (marketBuyWhole env sym prec m o).st.buyBook = m.st.buyBook := by
    unfold marketBuyWhole
    simp only
    split
    · constructor
      · intro r hr
        left
        simp only [recordFill_sellBook, updateTradesHistory_sellBook,
          removeOrder_sellBook_sell, transferTokens_sellBook, apiAssert_sellBook] at hr
        exact (List.mem_filter.1 hr).1
      · simp only [recordFill_buyBook, updateTradesHistory_buyBook, removeOrder_buyBook_sell,
          transferTokens_buyBook, apiAssert_buyBook]
    · exact ⟨fun r hr => Or.inl (by simpa using hr), by simp⟩
  unfold marketBuyOrder
  split
  · split
    · unfold marketBuyAll
      simp only
      split
      · constructor
        · intro r hr
          simp only [recordFill_sellBook, updateTradesHistory_sellBook] at hr
          rcases settleRestingSell_rows prec _ _ o _ r hr with h | h
          · left
            simpa [transferTokens] using h
          · exact Or.inr h
        · simp only [recordFill_buyBook, updateTradesHistory_buyBook,
            settleRestingSell_buyBook, transferTokens_buyBook, apiAssert_buyBook]
      · exact ⟨fun r hr => Or.inl (by simpa using hr), by simp⟩
    · split
      · exact hwhole
      · exact ⟨fun r hr => Or.inl hr, rfl⟩
  · exact hwhole

theorem marketSellOrder_rows (env : Env) (sym : String) (prec : Nat) (m : Sweep) (o : Order) :
    (∀ r ∈ (marketSellOrder env sym prec m o).st.buyBook,
      r ∈ m.st.buyBook ∨
      (SameOrder r o ∧ 0 < r.quantity ∧ DUST ≤ roundHalfUp (r.price * r.quantity) prec)) ∧
    (marketSellOrder env sym prec m o).st.sellBook = m.st.sellBook := by
  unfold marketSellOrder
  split
  · unfold marketSellAll
    simp only
    split
    · constructor
      · intro r hr
        simp only [recordFill_buyBook, updateTradesHistory_buyBook] at hr
        rcases settleRestingBuy_rows prec _ o _ _ r hr with h | h
        · left
          simpa [transferTokens] using h
        · exact Or.inr h
      · simp only [recordFill_sellBook, updateTradesHistory_sellBook,
          settleRestingBuy_sellBook, transferTokens_sellBook, apiAssert_sellBook]
    · exact ⟨fun r hr => Or.inl (by simpa using hr), by simp⟩
  · unfold marketSellWhole
    simp only
    split
    · constructor
      · intro r hr
        left
        simp only [recordFill_buyBook, updateTradesHistory_buyBook, consumeBuyOrder_buyBook,
          apiAssert_buyBook] at hr
        exact (List.mem_filter.1 hr).1
      · simp only [recordFill_sellBook, updateTradesHistory_sellBook,
          consumeBuyOrder_sellBook, apiAssert_sellBook]
    · exact ⟨fun r hr => Or.inl (by simpa using hr), by simp⟩

/-! ### A property of the rows carries over to the makers of the fills -/

theorem pagesLoop_makers {σ : Type} (body : σ → Order → σ) (active : σ → Bool)
    (fetch : σ → Nat → List Order) (fills : σ → List Fill) (book : σ → List Order)
    (P : Order → Prop) (hP : ∀ a b, SameOrder a b → P b → P a) (F0 : List Fill)
    (hfills : ∀ m o, fills (body m o) = fills m ∨
      ∃ f, f.maker = o ∧ fills (body m o) = fills m ++ [f])
    (hrows : ∀ m o, ∀ r ∈ book (body m o), r ∈ book m ∨ SameOrder r o)
    (hfetch : ∀ m off, ∀ o ∈ fetch m off, o ∈ book m)
    (fuel : Nat) (m : σ) (page : List Order) (off : Nat)
    (hpage : ∀ o ∈ page, P o) (hbook : ∀ r ∈ book m, P r)
    (hf : ∃ new, fills m = F0 ++ new ∧ ∀ f ∈ new, P f.maker) :
    (∀ r ∈ book (pagesLoop body active fetch fuel m page off), P r) ∧
    ∃ new, fills (pagesLoop body active fetch fuel m page off) = F0 ++ new ∧
      ∀ f ∈ new, P f.maker := by
  refine pagesLoop_inv_rows body active fetch
    (fun m => (∀ r ∈ book m, P r) ∧ ∃ new, fills m = F0 ++ new ∧ ∀ f ∈ new, P f.maker) P
    ?_ ?_ fuel m page off hpage ⟨hbook, hf⟩
  · rintro m o _ ho ⟨h1, new, h2, h3⟩
    constructor
    · intro r hr
      rcases hrows m o r hr with h | h
      · exact h1 r h
      · exact hP _ _ h ho
    · rcases hfills m o with h | ⟨f, hfm, h⟩
      · exact ⟨new, h.trans h2, h3⟩
      · refine ⟨new ++ [f], by rw [h, h2, List.append_assoc], ?_⟩
        intro g hg
        rcases List.mem_append.1 hg with hg | hg
        · exact h3 g hg
        · simp only [List.mem_singleton] at hg
          rw [hg, hfm]
          exact ho
  · rintro m off ⟨h1, _⟩ o ho
    exact h1 o (hfetch m off o ho)

theorem unexpired_of_sameOrder (env : Env) (a b : Order) (h : SameOrder a b)
    (hb : expired env b = false) : expired env a = false := by
  unfold expired at hb ⊢
  rw [h.2.2.2.2.2.2]
  exact hb

theorem findMatchingSellOrdersLoop_unexpired (env : Env) (order : Order) (prec : Nat)
    (s : State) :
    ∃ new, (findMatchingSellOrdersLoop env order prec s).st.fills = s.fills ++ new ∧
      ∀ f ∈ new, expired env f.maker = false := by
  have hbook : ∀ r ∈ (removeExpiredOrders env Table.sellBook s).sellBook,
      expired env r = false := by
    intro r hr
    have e : (removeExpiredOrders env Table.sellBook s).sellBook
        = sweptBook env s.sellBook := removeExpiredOrders_book env Table.sellBook s
    rw [e] at hr
    exact sweptBook_no_expired env _ r hr
  unfold findMatchingSellOrdersLoop
  exact (pagesLoop_makers (matchSellOrder env prec) Taker.active
    (fetchCrossingSells order.symbol order.price) (fun m => m.st.fills)
    (fun m => m.st.sellBook) (fun o => expired env o = false)
    (unexpired_of_sameOrder env) s.fills
    (fun m o => (matchSellOrder_step env prec m o).1)
    (fun m o r hr => ((matchSellOrder_rows env prec m o).1 r hr).imp id (fun h => h.1))
    (fun m off o ho => (mem_dbFind _ _ _ _ _ o ho).1) _ _ _ _
    (fun o ho => hbook o (mem_dbFind _ _ _ _ _ o ho).1) hbook
    ⟨[], by simp [removeExpiredOrders_fills], by simp⟩).2

theorem findMatchingBuyOrdersLoop_unexpired (env : Env) (order : Order) (prec : Nat)
    (s : State) :
    ∃ new, (findMatchingBuyOrdersLoop env order prec s).st.fills = s.fills ++ new ∧
      ∀ f ∈ new, expired env f.maker = false := by
  have hbook : ∀ r ∈ (removeExpiredOrders env Table.buyBook s).buyBook,
      expired env r = false := by
    intro r hr
    have e : (removeExpiredOrders env Table.buyBook s).buyBook
        = sweptBook env s.buyBook := removeExpiredOrders_book env Table.buyBook s
    rw [e] at hr
    exact sweptBook_no_expired env _ r hr
  unfold findMatchingBuyOrdersLoop
  exact (pagesLoop_makers (matchBuyOrder env prec) Taker.active
    (fetchCrossingBuys order.symbol order.price) (fun m => m.st.fills)
    (fun m => m.st.buyBook) (fun o => expired env o = false)
    (unexpired_of_sameOrder env) s.fills
    (fun m o => (matchBuyOrder_step env prec m o).1)
    (fun m o r hr => ((matchBuyOrder_rows env prec m o).1 r hr).imp id (fun h => h.1))
    (fun m off o ho => (mem_dbFind _ _ _ _ _ o ho).1) _ _ _ _
    (fun o ho => hbook o (mem_dbFind _ _ _ _ _ o ho).1) hbook
    ⟨[], by simp [removeExpiredOrders_fills], by simp⟩).2

theorem marketBuyLoop_unexpired (env : Env) (sym : String) (prec : Nat) (quantity : Int)
    (s : State) :
    ∃ new, (marketBuyLoop env sym prec quantity s).st.fills = s.fills ++ new ∧
      ∀ f ∈ new, expired env f.maker = false := by
  have hbook : ∀ r ∈ (removeExpiredOrders env Table.sellBook s).sellBook,
      expired env r = false := by
    intro r hr
    have e : (removeExpiredOrders env Table.sellBook s).sellBook
        = sweptBook env s.sellBook := removeExpiredOrders_book env Table.sellBook s
    rw [e] at hr
    exact sweptBook_no_expired env _ r hr
  unfold marketBuyLoop
  exact (pagesLoop_makers (marketBuyOrder env sym prec) Sweep.active
    (fetchSells sym) (fun m => m.st.fills)
    (fun m => m.st.sellBook) (fun o => expired env o = false)
    (unexpired_of_sameOrder env) s.fills
    (fun m o => (marketBuyOrder_step env sym prec m o).1)
    (fun m o r hr => ((marketBuyOrder_rows env sym prec m o).1 r hr).imp id (fun h => h.1))
    (fun m off o ho => (mem_dbFind _ _ _ _ _ o ho).1) _ _ _ _
    (fun o ho => hbook o (mem_dbFind _ _ _ _ _ o ho).1) hbook
    ⟨[], by simp [removeExpiredOrders_fills], by simp⟩).2

theorem marketSellLoop_unexpired (env : Env) (sym : String) (prec : Nat) (quantity : Int)
    (s : State) :
    ∃ new, (marketSellLoop env sym prec quantity s).st.fills = s.fills ++ new ∧
      ∀ f ∈ new, expired env f.maker = false := by
  have hbook : ∀ r ∈ (removeExpiredOrders env Table.buyBook s).buyBook,
      expired env r = false := by
    intro r hr
    have e : (removeExpiredOrders env Table.buyBook s).buyBook
        = sweptBook env s.buyBook := removeExpiredOrders_book env Table.buyBook s
    rw [e] at hr
    exact sweptBook_no_expired env _ r hr
  unfold marketSellLoop
  exact (pagesLoop_makers (marketSellOrder env sym prec) Sweep.active
    (fetchBuys sym) (fun m => m.st.fills)
    (fun m => m.st.buyBook) (fun o => expired env o = false)
    (unexpired_of_sameOrder env) s.fills
    (fun m o => (marketSellOrder_step env sym prec m o).1)
    (fun m o r hr => ((marketSellOrder_rows env sym prec m o).1 r hr).imp id (fun h => h.1))
    (fun m off o ho => (mem_dbFind _ _ _ _ _ o ho).1) _ _ _ _
    (fun o ho => hbook o (mem_dbFind _ _ _ _ _ o ho).1) hbook
    ⟨[], by simp [removeExpiredOrders_fills], by simp⟩).2

theorem expired_false_iff (env : Env) (o : Order) :
    expired env o = false ↔ env.timestampSec < o.expiration := by
  simp [expired]

/-- C17 (an expired order is never matched): every fill made by a `buy`, a `sell`, a
`marketBuy` or a `marketSell` is against a resting order whose expiration is after the
block time; the orders of the opposite book whose expiration is not were removed by the
sweep that runs before the first page is read.  No fill of an earlier action is
touched. -/
theorem fills_are_against_unexpired_orders (env : Env) (s : State) :
    (∀ payload : OrderPayload, ∃ new, (buy env payload s).fills = s.fills ++ new ∧
      ∀ f ∈ new, env.timestampSec < f.maker.expiration) ∧
    (∀ payload : OrderPayload, ∃ new, (sell env payload s).fills = s.fills ++ new ∧
      ∀ f ∈ new, env.timestampSec < f.maker.expiration) ∧
    (∀ payload : MarketPayload, ∃ new, (marketBuy env payload s).fills = s.fills ++ new ∧
      ∀ f ∈ new, env.timestampSec < f.maker.expiration) ∧
    (∀ payload : MarketPayload, ∃ new, (marketSell env payload s).fills = s.fills ++ new ∧
      ∀ f ∈ new, env.timestampSec < f.maker.expiration) := by
  refine ⟨?_, ?_, ?_, ?_⟩
  · intro payload
    have hv := validateOrder_fills env payload s
    unfold buy
    split
    · rename_i s1 heq
      rw [heq] at hv
      exact ⟨[], by simpa using hv, by simp⟩
    · rename_i s1 v heq
      rw [heq] at hv
      simp only at hv ⊢
      split
      · obtain ⟨new, h1, h2⟩ := findMatchingSellOrdersLoop_unexpired env
          (insertOrder (requestEscrow env s1 STEEM_PEGGED_SYMBOL
            ((v.price.mul v.quantity).toFixed STEEM_PEGGED_SYMBOL_PRESICION)) Table.buyBook
            (newOrder env payload.expiration v
              ((v.price.mul v.quantity).toFixed STEEM_PEGGED_SYMBOL_PRESICION))).2 v.precision
          (insertOrder (requestEscrow env s1 STEEM_PEGGED_SYMBOL
            ((v.price.mul v.quantity).toFixed STEEM_PEGGED_SYMBOL_PRESICION)) Table.buyBook
            (newOrder env payload.expiration v
              ((v.price.mul v.quantity).toFixed STEEM_PEGGED_SYMBOL_PRESICION))).1
        refine ⟨new, ?_, fun f hf => (expired_false_iff env _).1 (h2 f hf)⟩
        unfold findMatchingSellOrders
        simp only [finishMetrics_fills]
        generalize findMatchingSellOrdersLoop env _ _ _ = m at h1 ⊢
        have e : (if m.order.quantity > 0 then updateOrder m.st Table.buyBook m.order
            else m.st).fills = m.st.fills := by
          split <;> rfl
        rw [e, h1, ← hv]
        rfl
      · exact ⟨[], by simpa [requestEscrow] using hv, by simp⟩
  · intro payload
    have hv := validateOrder_fills env payload s
    unfold sell
    split
    · rename_i s1 heq
      rw [heq] at hv
      exact ⟨[], by simpa using hv, by simp⟩
    · rename_i s1 v heq
      rw [heq] at hv
      simp only at hv ⊢
      split
      · obtain ⟨new, h1, h2⟩ := findMatchingBuyOrdersLoop_unexpired env
          (insertOrder (requestEscrow env s1 v.symbol (v.quantity.toFixed v.precision))
            Table.sellBook (newOrder env payload.expiration v 0)).2 v.precision
          (insertOrder (requestEscrow env s1 v.symbol (v.quantity.toFixed v.precision))
            Table.sellBook (newOrder env payload.expiration v 0)).1
        refine ⟨new, ?_, fun f hf => (expired_false_iff env _).1 (h2 f hf)⟩
        unfold findMatchingBuyOrders
        simp only [finishMetrics_fills]
        generalize findMatchingBuyOrdersLoop env _ _ _ = m at h1 ⊢
        have e : (if m.order.quantity > 0 then updateOrder m.st Table.sellBook m.order
            else m.st).fills = m.st.fills := by
          split <;> rfl
        rw [e, h1, ← hv]
        rfl
      · exact ⟨[], by simpa [requestEscrow] using hv, by simp⟩
  · intro payload
    have hv := validateMarket_fills env payload (fun _ => STEEM_PEGGED_SYMBOL_PRESICION) s
    unfold marketBuy
    split
    · rename_i s1 heq
      rw [heq] at hv
      exact ⟨[], by simpa using hv, by simp⟩
    · rename_i s1 v heq
      rw [heq] at hv
      simp only at hv ⊢
      split
      · obtain ⟨new, h1, h2⟩ := marketBuyLoop_unexpired env v.symbol v.precision
          (v.quantity.toFixed STEEM_PEGGED_SYMBOL_PRESICION)
          (requestEscrow env s1 STEEM_PEGGED_SYMBOL
            (v.quantity.toFixed STEEM_PEGGED_SYMBOL_PRESICION))
        refine ⟨new, ?_, fun f hf => (expired_false_iff env _).1 (h2 f hf)⟩
        simp only [finishMetrics_fills]
        generalize marketBuyLoop env _ _ _ _ = m at h1 ⊢
        have e : (if m.remaining > 0 then
            transferTokens m.st env.sender STEEM_PEGGED_SYMBOL m.remaining
            else m.st).fills = m.st.fills := by
          split <;> rfl
        rw [e, h1, ← hv]
        rfl
      · exact ⟨[], by simpa [requestEscrow] using hv, by simp⟩
  · intro payload
    have hv := validateMarket_fills env payload (fun precision => precision) s
    unfold marketSell
    split
    · rename_i s1 heq
      rw [heq] at hv
      exact ⟨[], by simpa using hv, by simp⟩
    · rename_i s1 v heq
      rw [heq] at hv
      simp only at hv ⊢
      split
      · obtain ⟨new, h1, h2⟩ := marketSellLoop_unexpired env v.symbol v.precision
          (v.quantity.toFixed v.precision)
          (requestEscrow env s1 v.symbol (v.quantity.toFixed v.precision))
        refine ⟨new, ?_, fun f hf => (expired_false_iff env _).1 (h2 f hf)⟩
        simp only [finishMetrics_fills]
        generalize marketSellLoop env _ _ _ _ = m at h1 ⊢
        have e : (if m.remaining > 0 then
            transferTokens m.st env.sender v.symbol m.remaining
            else m.st).fills = m.st.fills := by
          split <;> rfl
        rw [e, h1, ← hv]
        rfl
      · exact ⟨[], by simpa [requestEscrow] using hv, by simp⟩

/-! ### Market orders never rest -/

theorem validateMarket_books (env : Env) (payload : MarketPayload) (f : Nat → Nat)
    (s : State) :
    (validateMarket env payload f s).1.buyBook = s.buyBook ∧
    (validateMarket env payload f s).1.sellBook = s.sellBook := by
  unfold validateMarket
  simp only
  repeat' split
  all_goals simp

theorem sweepList_sublist (env : Env) :
    ∀ (fuel : Nat) (l : List Order), (sweepList env fuel l).Sublist l := by
  intro fuel
  induction fuel with
  | zero => intro l; exact List.Sublist.refl _
  | succ n ih =>
    intro l
    unfold sweepList
    simp only
    split
    · exact List.Sublist.trans (ih _) (foldl_filter_orders_sublist _ l)
    · exact List.Sublist.refl _

theorem sweptBook_sublist (env : Env) (l : List Order) : (sweptBook env l).Sublist l :=
  sweepList_sublist env _ l

theorem removeExpiredOrders_buyBook_sellBook (env : Env) (s : State) :
    (removeExpiredOrders env Table.buyBook s).sellBook = s.sellBook :=
  (removeExpiredOrders_buyBook_spec env s).1

theorem marketBuyLoop_books (env : Env) (sym : String) (prec : Nat) (quantity : Int)
    (s : State) :
    (marketBuyLoop env sym prec quantity s).st.buyBook = s.buyBook ∧
    ∀ r ∈ (marketBuyLoop env sym prec quantity s).st.sellBook,
      ∃ r0 ∈ s.sellBook, SameOrder r r0 := by
  have hbook : ∀ r ∈ (removeExpiredOrders env Table.sellBook s).sellBook,
      ∃ r0 ∈ s.sellBook, SameOrder r r0 := by
    intro r hr
    have e : (removeExpiredOrders env Table.sellBook s).sellBook
        = sweptBook env s.sellBook := removeExpiredOrders_book env Table.sellBook s
    rw [e] at hr
    exact ⟨r, (sweptBook_sublist env _).subset hr, sameOrder_refl r⟩
  constructor
  · have h := marketBuyLoop_inv env sym prec quantity s
      (fun m => m.st.buyBook = s.buyBook)
      (fun m o _ hm => ((marketBuyOrder_rows env sym prec m o).2).trans hm)
      (removeExpiredOrders_sellBook_buyBook env s)
    exact h
  · unfold marketBuyLoop
    exact (pagesLoop_makers (marketBuyOrder env sym prec) Sweep.active
      (fetchSells sym) (fun m => m.st.fills)
      (fun m => m.st.sellBook) (fun o => ∃ r0 ∈ s.sellBook, SameOrder o r0)
      (fun a b hab hb => hb.imp (fun r0 h => ⟨h.1, sameOrder_trans hab h.2⟩)) s.fills
      (fun m o => (marketBuyOrder_step env sym prec m o).1)
      (fun m o r hr => ((marketBuyOrder_rows env sym prec m o).1 r hr).imp id (fun h => h.1))
      (fun m off o ho => (mem_dbFind _ _ _ _ _ o ho).1) _ _ _ _
      (fun o ho => hbook o (mem_dbFind _ _ _ _ _ o ho).1) hbook
      ⟨[], by simp [removeExpiredOrders_fills], by simp⟩).1

theorem marketSellLoop_books (env : Env) (sym : String) (prec : Nat) (quantity : Int)
    (s : State) :
    (marketSellLoop env sym prec quantity s).st.sellBook = s.sellBook ∧
    ∀ r ∈ (marketSellLoop env sym prec quantity s).st.buyBook,
      ∃ r0 ∈ s.buyBook, SameOrder r r0 := by
  have hbook : ∀ r ∈ (removeExpiredOrders env Table.buyBook s).buyBook,
      ∃ r0 ∈ s.buyBook, SameOrder r r0 := by
    intro r hr
    have e : (removeExpiredOrders env Table.buyBook s).buyBook
        = sweptBook env s.buyBook := removeExpiredOrders_book env Table.buyBook s
    rw [e] at hr
    exact ⟨r, (sweptBook_sublist env _).subset hr, sameOrder_refl r⟩
  constructor
  · have h := marketSellLoop_inv env sym prec quantity s
      (fun m => m.st.sellBook = s.sellBook)
      (fun m o _ hm => ((marketSellOrder_rows env sym prec m o).2).trans hm)
      (removeExpiredOrders_buyBook_sellBook env s)
    exact h
  · unfold marketSellLoop
    exact (pagesLoop_makers (marketSellOrder env sym prec) Sweep.active
      (fetchBuys sym) (fun m => m.st.fills)
      (fun m => m.st.buyBook) (fun o => ∃ r0 ∈ s.buyBook, SameOrder o r0)
      (fun a b hab hb => hb.imp (fun r0 h => ⟨h.1, sameOrder_trans hab h.2⟩)) s.fills
      (fun m o => (marketSellOrder_step env sym prec m o).1)
      (fun m o r hr => ((marketSellOrder_rows env sym prec m o).1 r hr).imp id (fun h => h.1))
      (fun m off o ho => (mem_dbFind _ _ _ _ _ o ho).1) _ _ _ _
      (fun o ho => hbook o (mem_dbFind _ _ _ _ _ o ho).1) hbook
      ⟨[], by simp [removeExpiredOrders_fills], by simp⟩).1

theorem marketBuy_books (env : Env) (payload : MarketPayload) (s : State) :
    (marketBuy env payload s).buyBook = s.buyBook ∧
    ∀ r ∈ (marketBuy env payload s).sellBook, ∃ r0 ∈ s.sellBook, SameOrder r r0 := by
  have hv := validateMarket_books env payload (fun _ => STEEM_PEGGED_SYMBOL_PRESICION) s
  unfold marketBuy
  split
  · rename_i s1 heq
    rw [heq] at hv
    exact ⟨hv.1, fun r hr => ⟨r, by rwa [hv.2] at hr, sameOrder_refl r⟩⟩
  · rename_i s1 v heq
    rw [heq] at hv
    simp only at hv ⊢
    split
    · obtain ⟨h1, h2⟩ := marketBuyLoop_books env v.symbol v.precision
        (v.quantity.toFixed STEEM_PEGGED_SYMBOL_PRESICION)
        (requestEscrow env s1 STEEM_PEGGED_SYMBOL
          (v.quantity.toFixed STEEM_PEGGED_SYMBOL_PRESICION))
      simp only [finishMetrics_buyBook, finishMetrics_sellBook]
      generalize marketBuyLoop env _ _ _ _ = m at h1 h2 ⊢
      have e1 : (if m.remaining > 0 then
          transferTokens m.st env.sender STEEM_PEGGED_SYMBOL m.remaining
          else m.st).buyBook = m.st.buyBook := by
        split <;> rfl
      have e2 : (if m.remaining > 0 then
          transferTokens m.st env.sender STEEM_PEGGED_SYMBOL m.remaining
          else m.st).sellBook = m.st.sellBook := by
        split <;> rfl
      rw [e1, e2]
      refine ⟨h1.trans hv.1, fun r hr => ?_⟩
      obtain ⟨r0, hr0, hs⟩ := h2 r hr
      exact ⟨r0, by rw [← hv.2]; exact hr0, hs⟩
    · exact ⟨hv.1, fun r hr => ⟨r, by rw [← hv.2]; exact hr, sameOrder_refl r⟩⟩

theorem marketSell_books (env : Env) (payload : MarketPayload) (s : State) :
    (marketSell env payload s).sellBook = s.sellBook ∧
    ∀ r ∈ (marketSell env payload s).buyBook, ∃ r0 ∈ s.buyBook, SameOrder r r0 := by
  have hv := validateMarket_books env payload (fun precision => precision) s
  unfold marketSell
  split
  · rename_i s1 heq
    rw [heq] at hv
    exact ⟨hv.2, fun r hr => ⟨r, by rwa [hv.1] at hr, sameOrder_refl r⟩⟩
  · rename_i s1 v heq
    rw [heq] at hv
    simp only at hv ⊢
    split
    · obtain ⟨h1, h2⟩ := marketSellLoop_books env v.symbol v.precision
        (v.quantity.toFixed v.precision)
        (requestEscrow env s1 v.symbol (v.quantity.toFixed v.precision))
      simp only [finishMetrics_buyBook, finishMetrics_sellBook]
      generalize marketSellLoop env _ _ _ _ = m at h1 h2 ⊢
      have e1 : (if m.remaining > 0 then
          transferTokens m.st env.sender v.symbol m.remaining
          else m.st).buyBook = m.st.buyBook := by
        split <;> rfl
      have e2 : (if m.remaining > 0 then
          transferTokens m.st env.sender v.symbol m.remaining
          else m.st).sellBook = m.st.sellBook := by
        split <;> rfl
      rw [e1, e2]
      refine ⟨h1.trans hv.2, fun r hr => ?_⟩
      obtain ⟨r0, hr0, hs⟩ := h2 r hr
      exact ⟨r0, by rw [← hv.1]; exact hr0, hs⟩
    · exact ⟨hv.2, fun r hr => ⟨r, by rw [← hv.1]; exact hr, sameOrder_refl r⟩⟩

/-- C16 (market orders never rest): a `marketBuy` leaves `buyBook` as it was and every
row of `sellBook` afterwards is a row that was there before, with the same `_id` and the
same `txId` (only `quantity` may differ); symmetrically for a `marketSell`.  No row is
inserted, so when no order carried the id of the transaction before the action, none
does after it. -/
theorem market_orders_never_rest (env : Env) (payload : MarketPayload) (s : State) :
    ((marketBuy env payload s).buyBook = s.buyBook ∧
      ∀ r ∈ (marketBuy env payload s).sellBook,
        ∃ r0 ∈ s.sellBook, r.id = r0.id ∧ r.txId = r0.txId) ∧
    ((marketSell env payload s).sellBook = s.sellBook ∧
      ∀ r ∈ (marketSell env payload s).buyBook,
        ∃ r0 ∈ s.buyBook, r.id = r0.id ∧ r.txId = r0.txId) ∧
    ((∀ r ∈ s.buyBook ++ s.sellBook, r.txId ≠ env.transactionId) →
      (∀ r ∈ (marketBuy env payload s).buyBook ++ (marketBuy env payload s).sellBook,
        r.txId ≠ env.transactionId) ∧
      ∀ r ∈ (marketSell env payload s).buyBook ++ (marketSell env payload s).sellBook,
        r.txId ≠ env.transactionId) := by
  obtain ⟨b1, b2⟩ := marketBuy_books env payload s
  obtain ⟨s1, s2⟩ := marketSell_books env payload s
  refine ⟨⟨b1, fun r hr => ?_⟩, ⟨s1, fun r hr => ?_⟩, fun hfresh => ⟨?_, ?_⟩⟩
  · obtain ⟨r0, h0, hs⟩ := b2 r hr
    exact ⟨r0, h0, hs.1, hs.2.1⟩
  · obtain ⟨r0, h0, hs⟩ := s2 r hr
    exact ⟨r0, h0, hs.1, hs.2.1⟩
  · intro r hr
    rcases List.mem_append.1 hr with h | h
    · rw [b1] at h
      exact hfresh r (List.mem_append_left _ h)
    · obtain ⟨r0, h0, hs⟩ := b2 r h
      rw [hs.2.1]
      exact hfresh r0 (List.mem_append_right _ h0)
  · intro r hr
    rcases List.mem_append.1 hr with h | h
    · obtain ⟨r0, h0, hs⟩ := s2 r h
      rw [hs.2.1]
      exact hfresh r0 (List.mem_append_left _ h0)
    · rw [s1] at h
      exact hfresh r (List.mem_append_right _ h)

/-- C16 at Bob's market buy of `15` peg tokens (transaction `m1`) against Alice's resting
sell order: no row of either book carries `m1` afterwards. -/
theorem market_orders_never_rest_witness :
    (∀ r ∈ (marketBuy (exampleEnv "bob" "m1" 101) (marketPayload ⟨15, 0⟩)
          restingSellTen).buyBook
        ++ (marketBuy (exampleEnv "bob" "m1" 101) (marketPayload ⟨15, 0⟩)
          restingSellTen).sellBook, r.txId ≠ "m1") ∧
    (marketBuy (exampleEnv "bob" "m1" 101) (marketPayload ⟨15, 0⟩) restingSellTen).sellBook.map
      (fun o => (o.id, o.txId)) = [(0, "s1")] :=
  ⟨((market_orders_never_rest (exampleEnv "bob" "m1" 101) (marketPayload ⟨15, 0⟩)
      restingSellTen).2.2 (by decide!)).1, by decide!⟩

/-! ### The sweeper: what it removes and what it refunds -/

theorem foldl_filter_ids (ds : List Order) :
    ∀ l : List Order,
      ds.foldl (fun acc o => acc.filter (fun r => r.id != o.id)) l
        = l.filter (fun r => !(ds.any (fun o => o.id == r.id))) := by
  induction ds with
  | nil => intro l; simp
  | cons d rest ih =>
    intro l
    simp only [List.foldl_cons]
    rw [ih, List.filter_filter]
    apply List.filter_congr
    intro r _
    have e : (r.id != d.id) = !(d.id == r.id) := by
      rw [bne, BEq.comm]
    simp only [List.any_cons, Bool.not_or, e]
    exact Bool.and_comm _ _

theorem any_id_iff_mem (l ds : List Order) (hids : (l.map (fun o => o.id)).Nodup)
    (hsub : ∀ o ∈ ds, o ∈ l) (r : Order) (hr : r ∈ l) :
    ds.any (fun o => o.id == r.id) = true ↔ r ∈ ds := by
  rw [List.any_eq_true]
  constructor
  · rintro ⟨o, ho, he⟩
    have : o = r := List.inj_on_of_nodup_map hids (hsub o ho) hr (beq_iff_eq.1 he)
    rw [← this]
    exact ho
  · intro h
    exact ⟨r, h, by simp⟩

theorem removeExpiredOrder_transfers (table : Table) (s : State) (o : Order) :
    (removeExpiredOrder table s o).transfers = s.transfers ++ [refundOf table o] := by
  cases table with
  | buyBook =>
    simp only [removeExpiredOrder]
    rw [(updateAskMetric_same _ _).2.2.2.1]
    rfl
  | sellBook =>
    simp only [removeExpiredOrder]
    rw [(updateBidMetric_same _ _).2.2.2.1]
    rfl

theorem foldl_removeExpiredOrder_transfers (table : Table) (os : List Order) :
    ∀ s : State, (os.foldl (removeExpiredOrder table) s).transfers
      = s.transfers ++ os.map (refundOf table) := by
  induction os with
  | nil => intro s; simp
  | cons o rest ih =>
    intro s
    simp only [List.foldl_cons, List.map_cons]
    rw [ih, removeExpiredOrder_transfers, List.append_assoc]
    rfl

theorem sweep_page_expired (env : Env) (l : List Order)
    (hids : (l.map (fun o => o.id)).Nodup) (n : Nat) :
    (l.filter (fun r =>
        !(((l.filter (expired env)).take n).any (fun o => o.id == r.id)))).filter (expired env)
      = (l.filter (expired env)).drop n := by
  have hsub : ∀ o ∈ (l.filter (expired env)).take n, o ∈ l :=
    fun o ho => (List.mem_filter.1 (List.mem_of_mem_take ho)).1
  have hnd : (l.filter (expired env)).Nodup :=
    List.Nodup.sublist (List.filter_sublist _) (List.Nodup.of_map _ hids)
  have e1 : (l.filter (fun r =>
        !(((l.filter (expired env)).take n).any (fun o => o.id == r.id)))).filter (expired env)
      = (l.filter (expired env)).filter (fun r =>
        !(((l.filter (expired env)).take n).any (fun o => o.id == r.id))) := by
    rw [List.filter_filter, List.filter_filter]
    apply List.filter_congr
    intro r _
    exact Bool.and_comm _ _
  rw [e1]
  generalize hE : l.filter (expired env) = E at *
  have hEl : ∀ r ∈ E, r ∈ l := by
    intro r hr
    rw [← hE] at hr
    exact (List.mem_filter.1 hr).1
  conv_lhs => rw [← List.take_append_drop n E]
  rw [List.filter_append]
  have h1 : (E.take n).filter (fun r => !((E.take n).any (fun o => o.id == r.id))) = [] := by
    rw [List.filter_eq_nil_iff]
    intro r hr
    have := (any_id_iff_mem l (E.take n) hids hsub r (hEl r (List.mem_of_mem_take hr))).2 hr
    simp [this]
  have h2 : (E.drop n).filter (fun r => !((E.take n).any (fun o => o.id == r.id)))
      = E.drop n := by
    rw [List.filter_eq_self]
    intro r hr
    have hdis := List.disjoint_take_drop hnd (le_refl n)
    have hnot : ¬ ((E.take n).any (fun o => o.id == r.id) = true) := by
      intro h
      have := (any_id_iff_mem l (E.take n) hids hsub r (hEl r (List.mem_of_mem_drop hr))).1 h
      exact hdis this hr
    simpa using hnot
  rw [List.take_append_drop, h1, h2, List.nil_append]

theorem sweep_page_unexpired (env : Env) (l : List Order)
    (hids : (l.map (fun o => o.id)).Nodup) (n : Nat) :
    (l.filter (fun r =>
        !(((l.filter (expired env)).take n).any (fun o => o.id == r.id)))).filter
        (fun o => !expired env o)
      = l.filter (fun o => !expired env o) := by
  have hsub : ∀ o ∈ (l.filter (expired env)).take n, o ∈ l :=
    fun o ho => (List.mem_filter.1 (List.mem_of_mem_take ho)).1
  rw [List.filter_filter]
  apply List.filter_congr
  intro r hr
  cases he : expired env r with
  | true => simp
  | false =>
    have hnot : ¬ (((l.filter (expired env)).take n).any (fun o => o.id == r.id) = true) := by
      intro h
      have := (any_id_iff_mem l _ hids hsub r hr).1 h
      have := (List.mem_filter.1 (List.mem_of_mem_take this)).2
      rw [he] at this
      exact Bool.false_ne_true this
    simpa using hnot

theorem removeExpiredLoop_spec (env : Env) (table : Table) :
    ∀ (fuel : Nat) (s : State),
      ((s.book table).map (fun o => o.id)).Nodup →
      ((s.book table).filter (expired env)).length < fuel →
      (removeExpiredLoop env table fuel s).book table
        = (s.book table).filter (fun o => !expired env o) ∧
      (removeExpiredLoop env table fuel s).transfers
        = s.transfers ++ ((s.book table).filter (expired env)).map (refundOf table) := by
  intro fuel
  induction fuel with
  | zero => intro s _ h; omega
  | succ n ih =>
    intro s hids hlen
    unfold removeExpiredLoop
    simp only [dbFind_noSort]
    split
    · rename_i hpage
      have hbook : ((List.take PAGE (List.filter (expired env) (s.book table))).foldl
            (removeExpiredOrder table) s).book table
          = (s.book table).filter (fun r =>
            !((((s.book table).filter (expired env)).take PAGE).any
              (fun o => o.id == r.id))) := by
        rw [foldl_removeExpiredOrder_book, foldl_filter_ids]
      have hids' : ((((List.take PAGE (List.filter (expired env) (s.book table))).foldl
            (removeExpiredOrder table) s).book table).map (fun o => o.id)).Nodup := by
        rw [hbook]
        exact List.Nodup.sublist (List.Sublist.map _ (List.filter_sublist _)) hids
      have hexp : (((List.take PAGE (List.filter (expired env) (s.book table))).foldl
            (removeExpiredOrder table) s).book table).filter (expired env)
          = ((s.book table).filter (expired env)).drop PAGE := by
        rw [hbook]
        exact sweep_page_expired env _ hids PAGE
      have hlen' : ((((List.take PAGE (List.filter (expired env) (s.book table))).foldl
            (removeExpiredOrder table) s).book table).filter (expired env)).length < n := by
        rw [hexp, List.length_drop]
        have : 0 < ((s.book table).filter (expired env)).length := by
          cases hE : (s.book table).filter (expired env) with
          | nil => simp [hE] at hpage
          | cons a b => simp
        unfold PAGE
        omega
      obtain ⟨h1, h2⟩ := ih _ hids' hlen'
      constructor
      · rw [h1, hbook]
        exact sweep_page_unexpired env _ hids PAGE
      · rw [h2, hexp, foldl_removeExpiredOrder_transfers, List.append_assoc,
          ← List.map_append, List.take_append_drop]
    · rename_i hpage
      have hE : (s.book table).filter (expired env) = [] := by
        cases hE : (s.book table).filter (expired env) with
        | nil => rfl
        | cons a b => simp [hE, PAGE] at hpage
      constructor
      · symm
        rw [List.filter_eq_self]
        intro r hr
        have := List.filter_eq_nil_iff.1 hE r hr
        simpa using this
      · rw [hE]
        simp

theorem removeExpiredOrders_opposite (env : Env) (table : Table) (s : State) :
    (removeExpiredOrders env table s).book table.opposite = s.book table.opposite := by
  cases table with
  | buyBook => exact removeExpiredOrders_buyBook_sellBook env s
  | sellBook => exact removeExpiredOrders_sellBook_buyBook env s

/-- C18 (sweeper postcondition and frame), for a table whose rows have distinct `_id`s:
after `removeExpiredOrders(table)` the table holds exactly its rows with
`expiration > ` block time, unchanged and in the same order; the transfers issued are
one refund per removed row, in the order of the rows, to the row's account, of
`tokensLocked` peg tokens for `buyBook` and of `quantity` of the order's symbol for
`sellBook`; the other book, the trades and the escrow requests are untouched. -/
theorem sweeper_removes_and_refunds_the_expired (env : Env) (table : Table) (s : State)
    (hids : ((s.book table).map (fun o => o.id)).Nodup) :
    (removeExpiredOrders env table s).book table
      = (s.book table).filter (fun o => decide (env.timestampSec < o.expiration)) ∧
    (∀ o ∈ (removeExpiredOrders env table s).book table, env.timestampSec < o.expiration) ∧
    (removeExpiredOrders env table s).transfers
      = s.transfers ++ ((s.book table).filter
          (fun o => decide (o.expiration ≤ env.timestampSec))).map (refundOf table) ∧
    (removeExpiredOrders env table s).book table.opposite = s.book table.opposite ∧
    (removeExpiredOrders env table s).tradesHistory = s.tradesHistory ∧
    (removeExpiredOrders env table s).escrows = s.escrows := by
  obtain ⟨h1, h2⟩ := removeExpiredLoop_spec env table ((s.book table).length + 1) s hids
    (Nat.lt_succ_of_le (List.length_filter_le _ _))
  have e : (fun o : Order => !expired env o)
      = fun o => decide (env.timestampSec < o.expiration) := by
    funext o
    unfold expired
    by_cases h : o.expiration ≤ env.timestampSec
    · simp [h, not_lt.2 h]
    · simp [h, not_le.1 h]
  have h1' : (removeExpiredOrders env table s).book table
      = (s.book table).filter (fun o => decide (env.timestampSec < o.expiration)) := by
    rw [← e]
    exact h1
  refine ⟨h1', ?_, h2, removeExpiredOrders_opposite env table s,
    removeExpiredOrders_tradesHistory env table s, removeExpiredOrders_escrows env table s⟩
  intro o ho
  rw [h1'] at ho
  simpa using (List.mem_filter.1 ho).2

/-- C18 at Bob's buy order that expired at time 110, swept at time 200: the book is
empty and the `2.0` locked go back to Bob. -/
theorem sweeper_removes_and_refunds_the_expired_witness :
    shortLivedBuy.buyBook.map (fun o => (o.account, o.tokensLocked, o.expiration))
      = [("bob", 200000000, 110)] ∧
    (removeExpiredOrders (twoEnv "alice" "s1" 200) Table.buyBook shortLivedBuy).buyBook = [] ∧
    (removeExpiredOrders (twoEnv "alice" "s1" 200) Table.buyBook shortLivedBuy).transfers
      = [⟨"bob", "STEEMP", 200000000⟩] := by
  have h := sweeper_removes_and_refunds_the_expired (twoEnv "alice" "s1" 200) Table.buyBook
    shortLivedBuy (by decide!)
  refine ⟨by decide!, ?_, ?_⟩
  · exact h.1.trans (by decide!)
  · exact h.2.2.1.trans (by decide!)

/-! ### The best-price metrics -/

theorem find_map_update (p : Metric → Bool) (m1 : Metric) (hp : p m1 = true) :
    ∀ (l : List Metric) (m0 : Metric), l.find? p = some m0 → m0.id = m1.id →
      (l.map (fun r => if r.id = m1.id then m1 else r)).find? p = some m1 := by
  intro l
  induction l with
  | nil => intro m0 h; simp at h
  | cons x xs ih =>
    intro m0 h hid
    simp only [List.map_cons]
    by_cases hx : x.id = m1.id
    · rw [if_pos hx, List.find?_cons_of_pos _ hp]
    · rw [if_neg hx]
      by_cases hpx : p x = true
      · rw [List.find?_cons_of_pos _ hpx] at h
        simp only [Option.some.injEq] at h
        rw [h] at hx
        exact absurd hid hx
      · rw [List.find?_cons_of_neg _ hpx] at h ⊢
        exact ih m0 h hid

theorem getMetric_found (s : State) (symbol : String) :
    (getMetric s symbol).1.metrics.find? (fun m => m.symbol == symbol)
      = some (getMetric s symbol).2 ∧
    (getMetric s symbol).2.symbol = symbol := by
  unfold getMetric
  split
  · rename_i m h
    refine ⟨h, ?_⟩
    have := List.find?_some h
    simpa using this
  · rename_i h
    simp only
    refine ⟨?_, rfl⟩
    rw [List.find?_append, h]
    simp [defaultMetric]

theorem updateMetric_found (s : State) (symbol : String) (m0 m1 : Metric)
    (h0 : s.metrics.find? (fun m => m.symbol == symbol) = some m0)
    (hid : m0.id = m1.id) (hsym : m1.symbol = symbol) :
    (updateMetric s m1).metrics.find? (fun m => m.symbol == symbol) = some m1 := by
  unfold updateMetric
  simp only
  exact find_map_update _ m1 (by simp [hsym]) _ m0 h0 hid

theorem head_sorted_desc (l : List Order) (q : Order → Bool) :
    match dbFind l q 1 0 priceDesc with
    | o :: _ => o ∈ l ∧ q o = true ∧ ∀ r ∈ l, q r = true → r.price ≤ o.price
    | [] => ∀ r ∈ l, q r = false := by
  unfold dbFind
  simp only [List.drop_zero]
  have hs := pairwise_sortBy priceDesc priceDesc_total priceDesc_trans (l.filter q)
  cases hS : sortBy priceDesc (l.filter q) with
  | nil =>
    simp only [List.take_nil]
    intro r hr
    by_contra hq
    have hq' : q r = true := by simpa using hq
    have : r ∈ sortBy priceDesc (l.filter q) :=
      (mem_sortBy _ _ _).2 (List.mem_filter.2 ⟨hr, hq'⟩)
    rw [hS] at this
    exact List.not_mem_nil _ this
  | cons o rest =>
    simp only [List.take_succ_cons, List.take_zero]
    rw [hS] at hs
    have ho : o ∈ l.filter q := (mem_sortBy priceDesc o _).1 (by rw [hS]; exact List.mem_cons_self _ _)
    refine ⟨(List.mem_filter.1 ho).1, (List.mem_filter.1 ho).2, ?_⟩
    intro r hr hq
    have hmem : r ∈ sortBy priceDesc (l.filter q) :=
      (mem_sortBy _ _ _).2 (List.mem_filter.2 ⟨hr, hq⟩)
    rw [hS] at hmem
    rcases List.mem_cons.1 hmem with h | h
    · rw [h]
    · have := (List.pairwise_cons.1 hs).1 r h
      rw [priceDesc_iff] at this
      rcases this with h1 | h1
      · exact le_of_lt h1
      · exact le_of_eq h1.1.symm

/-- What `updateBidMetric` leaves: the row of the symbol that `findOne` returns has the
highest price of the symbol's buy orders as `highestBid`, or `0` when there is none. -/
theorem updateBidMetric_spec (symbol : String) (s : State) :
    (updateBidMetric symbol s).buyBook = s.buyBook ∧
    ∃ m, (updateBidMetric symbol s).metrics.find? (fun m => m.symbol == symbol) = some m ∧
      ((∃ b ∈ s.buyBook, b.symbol = symbol ∧ m.highestBid = b.price ∧
          ∀ r ∈ s.buyBook, r.symbol = symbol → r.price ≤ b.price) ∨
       ((∀ r ∈ s.buyBook, r.symbol ≠ symbol) ∧ m.highestBid = 0)) := by
  refine ⟨(updateBidMetric_same symbol s).1, ?_⟩
  obtain ⟨hfound, hsym⟩ := getMetric_found s symbol
  have hbook : (getMetric s symbol).1.buyBook = s.buyBook := (getMetric_same s symbol).1
  have hhead := head_sorted_desc s.buyBook (fun o => o.symbol == symbol)
  unfold updateBidMetric
  simp only [hbook]
  split
  · rename_i o rest heq
    rw [heq] at hhead
    simp only at hhead
    refine ⟨_, updateMetric_found _ symbol _ _ hfound rfl hsym, Or.inl ⟨o, hhead.1, ?_, rfl, ?_⟩⟩
    · simpa using hhead.2.1
    · intro r hr hrs
      exact hhead.2.2 r hr (by simp [hrs])
  · rename_i heq
    rw [heq] at hhead
    simp only at hhead
    refine ⟨_, updateMetric_found _ symbol _ _ hfound rfl hsym, Or.inr ⟨?_, rfl⟩⟩
    intro r hr
    simpa using hhead r hr

/-! ### A limit buy that crosses nothing -/

theorem removeExpiredLoop_agree (env : Env) (table : Table) :
    ∀ (fuel : Nat) (a b : State), a.book table = b.book table → a.transfers = b.transfers →
      (removeExpiredLoop env table fuel a).book table
        = (removeExpiredLoop env table fuel b).book table ∧
      (removeExpiredLoop env table fuel a).transfers
        = (removeExpiredLoop env table fuel b).transfers := by
  intro fuel
  induction fuel with
  | zero => intro a b h1 h2; exact ⟨h1, h2⟩
  | succ n ih =>
    intro a b h1 h2
    unfold removeExpiredLoop
    simp only [h1]
    split
    · refine ih _ _ ?_ ?_
      · rw [foldl_removeExpiredOrder_book, foldl_removeExpiredOrder_book, h1]
      · rw [foldl_removeExpiredOrder_transfers, foldl_removeExpiredOrder_transfers, h2]
    · exact ⟨h1, h2⟩

theorem removeExpiredOrders_agree (env : Env) (table : Table) (a b : State)
    (h1 : a.book table = b.book table) (h2 : a.transfers = b.transfers) :
    (removeExpiredOrders env table a).transfers
      = (removeExpiredOrders env table b).transfers := by
  unfold removeExpiredOrders
  rw [h1]
  exact (removeExpiredLoop_agree env table _ a b h1 h2).2

theorem removeExpiredOrders_noop (env : Env) (table : Table) (s : State)
    (h : ∀ o ∈ s.book table, expired env o = false) : removeExpiredOrders env table s = s := by
  unfold removeExpiredOrders removeExpiredLoop
  simp only [dbFind_noSort]
  have e : (s.book table).filter (expired env) = [] := by
    rw [List.filter_eq_nil_iff]
    intro o ho
    simp [h o ho]
  rw [e]
  simp

theorem pagesLoop_nothing {σ : Type} (body : σ → Order → σ) (active : σ → Bool)
    (fetch : σ → Nat → List Order) (fuel : Nat) (m : σ) (off : Nat)
    (h : ∀ k, fetch m k = []) : pagesLoop body active fetch fuel m [] off = m := by
  cases fuel with
  | zero => rfl
  | succ n =>
    rw [pagesLoop_succ]
    simp [pageWhile, h]

theorem findMatchingSellOrdersLoop_nothing (env : Env) (order : Order) (prec : Nat)
    (s : State)
    (h : ∀ o ∈ s.sellBook, o.symbol = order.symbol → order.price < o.price) :
    findMatchingSellOrdersLoop env order prec s
      = { st := removeExpiredOrders env Table.sellBook s, order := order,
          volumeTraded := 0 } := by
  have hnone : ∀ k, fetchCrossingSells order.symbol order.price
      { st := removeExpiredOrders env Table.sellBook s, order := order, volumeTraded := 0 } k
      = [] := by
    intro k
    unfold fetchCrossingSells dbFind
    have hbook : (removeExpiredOrders env Table.sellBook s).sellBook
        = sweptBook env s.sellBook := removeExpiredOrders_book env Table.sellBook s
    have e : (sweptBook env s.sellBook).filter (crossingSell order.symbol order.price)
        = [] := by
      rw [List.filter_eq_nil_iff]
      intro o ho
      have ho' := (sweptBook_sublist env _).subset ho
      simp only [crossingSell, Bool.and_eq_true, beq_iff_eq, decide_eq_true_eq, not_and,
        not_le]
      exact h o ho'
    simp only [hbook, e, sortBy, List.drop_nil, List.take_nil]
  unfold findMatchingSellOrdersLoop
  simp only [hnone 0]
  exact pagesLoop_nothing _ _ _ _ _ _ hnone

/-- C11 (limit buy with nothing to match).  A valid `buy` of `Q` at `P` whose escrow
succeeded, when no sell order of the symbol is priced at `P` or below: no trade is
recorded and no fill is made; the only transfers are those of the sweep of the expired
sell orders, so none at all when no sell order is expired; `buyBook` gains exactly one
row, owned by the sender, with quantity `Q`, price `P` and `tokensLocked = round8(P * Q)`;
and `highestBid` of the symbol's metric is the highest price of the symbol's orders in
`buyBook`.  The `_id` given to the new row is assumed not to be in `buyBook` yet. -/
theorem limit_buy_with_nothing_to_match (env : Env) (payload : OrderPayload) (s s1 : State)
    (v : ValidOrder)
    (hv : validateOrder env payload s = (s1, some v)) 
    (hok : env.escrowOk STEEM_PEGGED_SYMBOL
      ((v.price.mul v.quantity).toFixed STEEM_PEGGED_SYMBOL_PRESICION) = true)
    (hnone : ∀ o ∈ s.sellBook, o.symbol = v.symbol →
      v.price.toFixed STEEM_PEGGED_SYMBOL_PRESICION < o.price)
    (hfresh : ∀ o ∈ s.buyBook, o.id ≠ s.nextId) :
    (buy env payload s).tradesHistory = s.tradesHistory ∧
    (buy env payload s).fills = s.fills ∧
    (buy env payload s).transfers = (removeExpiredOrders env Table.sellBook s).transfers ∧
    ((∀ o ∈ s.sellBook, env.timestampSec < o.expiration) →
      (buy env payload s).transfers = s.transfers) ∧
    (buy env payload s).buyBook = s.buyBook ++
      [⟨s.nextId, env.transactionId, env.timestampSec, env.sender, v.symbol,
        v.quantity.toFixed v.precision, v.price.toFixed STEEM_PEGGED_SYMBOL_PRESICION,
        (v.price.mul v.quantity).toFixed STEEM_PEGGED_SYMBOL_PRESICION,
        orderExpiration env.timestampSec payload.expiration⟩] ∧
    ∃ m, (buy env payload s).metrics.find? (fun m => m.symbol == v.symbol) = some m ∧
      ∃ b ∈ (buy env payload s).buyBook, b.symbol = v.symbol ∧ m.highestBid = b.price ∧
        ∀ r ∈ (buy env payload s).buyBook, r.symbol = v.symbol → r.price ≤ b.price := by
  have hQ := validateOrder_quantity_pos hv
  obtain ⟨hs1, _⟩ := validateOrder_some hv
  subst s1
  unfold buy
  rw [hv]
  simp only [hok, if_true]
  generalize hL : (v.price.mul v.quantity).toFixed STEEM_PEGGED_SYMBOL_PRESICION = L
  generalize hr : insertOrder (requestEscrow env s STEEM_PEGGED_SYMBOL L) Table.buyBook
    (newOrder env payload.expiration v L) = r
  have r_sell : r.1.sellBook = s.sellBook := by rw [← hr]; rfl
  have r_buy : r.1.buyBook = s.buyBook ++ [r.2] := by rw [← hr]; rfl
  have r_fills : r.1.fills = s.fills := by rw [← hr]; rfl
  have r_trades : r.1.tradesHistory = s.tradesHistory := by rw [← hr]; rfl
  have r_transfers : r.1.transfers = s.transfers := by rw [← hr]; rfl
  have r_id : r.2.id = s.nextId := by rw [← hr]; rfl
  have r_sym : r.2.symbol = v.symbol := by rw [← hr]; rfl
  have r_row : r.2 = ⟨s.nextId, env.transactionId, env.timestampSec, env.sender, v.symbol,
      v.quantity.toFixed v.precision, v.price.toFixed STEEM_PEGGED_SYMBOL_PRESICION, L,
      orderExpiration env.timestampSec payload.expiration⟩ := by rw [← hr]; rfl
  have r_quant : r.2.quantity > 0 := by rw [r_row]; exact hQ
  have hloop := findMatchingSellOrdersLoop_nothing env r.2 v.precision r.1 (by
    intro o ho hsym
    rw [r_sell] at ho
    rw [r_sym] at hsym
    rw [r_row]
    exact hnone o ho hsym)
  unfold findMatchingSellOrders
  rw [hloop]
  simp only [if_pos r_quant, r_sym]
  have hsweep_buy : (removeExpiredOrders env Table.sellBook r.1).buyBook = s.buyBook ++ [r.2] :=
    (removeExpiredOrders_sellBook_buyBook env r.1).trans r_buy
  have hfinal : (updateOrder (removeExpiredOrders env Table.sellBook r.1) Table.buyBook
      r.2).buyBook = s.buyBook ++ [r.2] := by
    simp only [updateOrder, State.setBook, State.book, hsweep_buy, List.map_append,
      List.map_cons, List.map_nil, if_true]
    congr 1
    conv_rhs => rw [← List.map_id s.buyBook]
    apply List.map_congr_left
    intro o ho
    rw [if_neg (by rw [r_id]; exact hfresh o ho)]
    rfl
  have htransfers : (removeExpiredOrders env Table.sellBook r.1).transfers
      = (removeExpiredOrders env Table.sellBook s).transfers :=
    removeExpiredOrders_agree env Table.sellBook r.1 s r_sell r_transfers
  refine ⟨?_, ?_, ?_, ?_, ?_, ?_⟩
  · rw [finishMetrics_tradesHistory]
    exact (removeExpiredOrders_tradesHistory env Table.sellBook r.1).trans r_trades
  · rw [finishMetrics_fills]
    exact (removeExpiredOrders_fills env Table.sellBook r.1).trans r_fills
  · rw [finishMetrics_transfers]
    exact htransfers
  · intro hexp
    rw [finishMetrics_transfers]
    refine htransfers.trans ?_
    rw [removeExpiredOrders_noop env Table.sellBook s
      (fun o ho => (expired_false_iff env o).2 (hexp o ho))]
  · rw [finishMetrics_buyBook, hfinal, r_row]
  · unfold finishMetrics
    simp only [gt_iff_lt, lt_self_iff_false, if_false]
    obtain ⟨hb, m, hm, hcase⟩ := updateBidMetric_spec v.symbol
      (updateAskMetric v.symbol
        (updateOrder (removeExpiredOrders env Table.sellBook r.1) Table.buyBook r.2))
    rw [(updateAskMetric_same _ _).1, hfinal] at hb hcase
    refine ⟨m, hm, ?_⟩
    rw [hb]
    rcases hcase with h | h
    · exact h
    · exact absurd r_sym (h.1 r.2 (List.mem_append_right _ (List.mem_singleton_self _)))

/-- C11 at the scenario: Bob buys `10 ABC` at `2.0` into empty books; the order rests
with quantity `10`, `tokensLocked = 20` and `highestBid` is `2.0`. -/
theorem limit_buy_with_nothing_to_match_witness :
    (buy bobBuysTen.1 bobBuysTen.2 State.empty).tradesHistory = [] ∧
    (buy bobBuysTen.1 bobBuysTen.2 State.empty).transfers = [] ∧
    (buy bobBuysTen.1 bobBuysTen.2 State.empty).buyBook
      = [⟨0, "b1", 100, "bob", "ABC", 100, 200000000, 2000000000, 2592100⟩] ∧
    (buy bobBuysTen.1 bobBuysTen.2 State.empty).metrics.map
      (fun m => (m.symbol, m.highestBid)) = [("ABC", 200000000)] := by
  have h := limit_buy_with_nothing_to_match bobBuysTen.1 bobBuysTen.2 State.empty
    State.empty ⟨"ABC", 1, ⟨2, 0⟩, ⟨10, 0⟩⟩ (by decide!) rfl (by decide!) (by decide!)
  refine ⟨h.1, h.2.2.2.1 (by decide!), ?_, by decide!⟩
  exact h.2.2.2.2.1.trans (by decide!)

/-! ### The market-buy scenario: `15` peg tokens against `10 ABC` at `2.0` -/

theorem marketBuyQuantity_fifteen (p : Nat) (hp : 1 ≤ p) :
    marketBuyQuantity 1500000000 200000000 p = some (75 * 10 ^ (p - 1)) := by
  have hq : divRound 1500000000 200000000 20 = 75 * 10 ^ 19 := by decide
  unfold marketBuyQuantity
  simp only [show (200000000 : Int) ≠ 0 by decide, if_false, show (0 : Int) < 200000000 by decide,
    if_true, hq]
  split
  · rename_i h
    congr 1
    unfold roundDown
    have e : (75 * 10 ^ 19 : Int) = 75 * 10 ^ (p - 1) * 10 ^ (20 - p) := by
      rw [mul_assoc, ← pow_add]
      congr 2
      omega
    rw [e]
    exact Int.mul_tdiv_cancel _ (ne_of_gt (ten_pow_pos _))
  · rename_i h
    congr 1
    rw [mul_assoc, ← pow_add]
    congr 2
    omega

theorem marketBuyLoop_first_absorbs (env : Env) (sym : String) (prec : Nat) (X : Int)
    (s : State) (o : Order) (rest : List Order) (q : Int)
    (hpage : dbFind (sweptBook env s.sellBook) (ofSymbol sym) PAGE 0 priceAsc = o :: rest)
    (hq : marketBuyQuantity X o.price prec = some q) (hle : q ≤ o.quantity) (hpos : 0 < q)
    (hX : 0 < X) :
    marketBuyLoop env sym prec X s
      = marketBuyAll env sym prec
          { st := removeExpiredOrders env Table.sellBook s, remaining := X, volumeTraded := 0 }
          o q := by
  have hbook : (removeExpiredOrders env Table.sellBook s).sellBook
      = sweptBook env s.sellBook := removeExpiredOrders_book env Table.sellBook s
  have hfetch : fetchSells sym
      { st := removeExpiredOrders env Table.sellBook s, remaining := X, volumeTraded := 0 } 0
      = o :: rest := by
    unfold fetchSells
    simp only [hbook]
    exact hpage
  have hbody : marketBuyOrder env sym prec
      { st := removeExpiredOrders env Table.sellBook s, remaining := X, volumeTraded := 0 } o
      = marketBuyAll env sym prec
          { st := removeExpiredOrders env Table.sellBook s, remaining := X, volumeTraded := 0 }
          o q := by
    unfold marketBuyOrder
    simp only [hq]
    rw [if_pos ⟨hle, hpos⟩]
  have hinactive : (marketBuyAll env sym prec
      { st := removeExpiredOrders env Table.sellBook s, remaining := X, volumeTraded := 0 }
      o q).active = false := by
    unfold marketBuyAll
    simp [hpos, hX, Sweep.active]
  unfold marketBuyLoop
  simp only [hfetch]
  rw [pagesLoop_first_fills _ _ _ _ _ _ _ _ (by simp [Sweep.active, hX])
    (by rw [hbody]; exact hinactive)]
  exact hbody

theorem sweptBook_noop (env : Env) (l : List Order)
    (h : ∀ o ∈ l, expired env o = false) : sweptBook env l = l := by
  unfold sweptBook sweepList
  have e : l.filter (expired env) = [] := by
    rw [List.filter_eq_nil_iff]
    intro o ho
    simp [h o ho]
  simp only [e]
  simp

theorem marketBuy_fifteen (env : Env) (s : State) (o : Order) (p : Nat)
    (htok : env.tokens "ABC" = some p) (hp : 1 ≤ p)
    (hok : env.escrowOk STEEM_PEGGED_SYMBOL 1500000000 = true)
    (hbook : s.sellBook = [o]) (hsym : o.symbol = "ABC") (hqty : o.quantity = 10 * 10 ^ p)
    (hprice : o.price = 200000000) (hexp : env.timestampSec < o.expiration) :
    marketBuy env (marketPayload ⟨15, 0⟩) s
      = finishMetrics env "ABC" 1500000000
          (recordFill
            (updateTradesHistory env Side.buy env.sender o.account "ABC" (75 * 10 ^ (p - 1))
              200000000 1500000000
              (updateOrder
                (transferTokens
                  (transferTokens (requestEscrow env s STEEM_PEGGED_SYMBOL 1500000000)
                    env.sender "ABC" (75 * 10 ^ (p - 1)))
                  o.account STEEM_PEGGED_SYMBOL 1500000000)
                Table.sellBook { o with quantity := 25 * 10 ^ (p - 1) }))
            o (75 * 10 ^ (p - 1)) 1500000000 1500000000) := by
  have hvalid : validateMarket env (marketPayload ⟨15, 0⟩)
      (fun _ => STEEM_PEGGED_SYMBOL_PRESICION) s = (s, some ⟨"ABC", p, ⟨15, 0⟩⟩) := by
    unfold validateMarket marketPayload
    have h1 : ("ABC" != "" && "ABC" != STEEM_PEGGED_SYMBOL && (⟨15, 0⟩ : Dec).gt0) = true := by
      decide
    have h2 : decide (countDecimals (⟨15, 0⟩ : Dec) ≤ STEEM_PEGGED_SYMBOL_PRESICION) = true := by
      decide
    simp only [apiAssert_true, Bool.not_true, Bool.false_eq_true, if_false, h1, if_true, htok,
      h2]
  have hX : (⟨15, 0⟩ : Dec).toFixed STEEM_PEGGED_SYMBOL_PRESICION = 1500000000 := by decide
  have hunexp : ∀ r ∈ (requestEscrow env s STEEM_PEGGED_SYMBOL 1500000000).sellBook,
      expired env r = false := by
    intro r hr
    have hr' : r ∈ [o] := by rw [← hbook]; exact hr
    rw [List.mem_singleton.1 hr']
    exact (expired_false_iff env o).2 hexp
  have hswept : sweptBook env (requestEscrow env s STEEM_PEGGED_SYMBOL 1500000000).sellBook
      = [o] := by
    rw [sweptBook_noop env _ hunexp]
    exact hbook
  have hpage : dbFind (sweptBook env
      (requestEscrow env s STEEM_PEGGED_SYMBOL 1500000000).sellBook) (ofSymbol "ABC") PAGE 0
      priceAsc = o :: [] := by
    rw [hswept]
    simp [dbFind, ofSymbol, hsym, sortBy, insertBy, PAGE]
  have hpow : (10 : Int) ^ p = 10 * 10 ^ (p - 1) := by
    rw [← pow_succ']
    congr 1
    omega
  have hpos := ten_pow_pos (p - 1)
  have hloop := marketBuyLoop_first_absorbs env "ABC" p 1500000000
    (requestEscrow env s STEEM_PEGGED_SYMBOL 1500000000) o [] (75 * 10 ^ (p - 1)) hpage
    (by rw [hprice]; exact marketBuyQuantity_fifteen p hp)
    (by rw [hqty, hpow]; omega) (by omega) (by decide)
  rw [removeExpiredOrders_noop env Table.sellBook _ hunexp] at hloop
  have hleft : o.quantity - 75 * 10 ^ (p - 1) = 25 * 10 ^ (p - 1) := by
    rw [hqty, hpow]
    ring
  have hvalue : roundHalfUp (o.price * (25 * 10 ^ (p - 1))) p = 500000000 := by
    have e : o.price * (25 * 10 ^ (p - 1)) = 500000000 * 10 ^ p := by
      rw [hprice, hpow]
      ring
    rw [e]
    exact roundHalfUp_mul_pow _ _
  have hsettle : ∀ st : State, settleRestingSell p st "ABC" o (75 * 10 ^ (p - 1))
      = updateOrder st Table.sellBook { o with quantity := 25 * 10 ^ (p - 1) } := by
    intro st
    unfold settleRestingSell
    simp only [hleft, hvalue]
    rw [if_pos ⟨by omega, by decide⟩]
  have hall : marketBuyAll env "ABC" p
      { st := requestEscrow env s STEEM_PEGGED_SYMBOL 1500000000, remaining := 1500000000,
        volumeTraded := 0 } o (75 * 10 ^ (p - 1))
      = { st := recordFill
            (updateTradesHistory env Side.buy env.sender o.account "ABC" (75 * 10 ^ (p - 1))
              o.price 1500000000
              (updateOrder
                (transferTokens
                  (transferTokens (requestEscrow env s STEEM_PEGGED_SYMBOL 1500000000)
                    env.sender "ABC" (75 * 10 ^ (p - 1)))
                  o.account STEEM_PEGGED_SYMBOL 1500000000)
                Table.sellBook { o with quantity := 25 * 10 ^ (p - 1) }))
            o (75 * 10 ^ (p - 1)) 1500000000 1500000000,
          remaining := 0, volumeTraded := 0 + 1500000000 } := by
    unfold marketBuyAll
    have hok' : (decide (75 * 10 ^ (p - 1) > (0 : Int)) && decide ((1500000000 : Int) > 0))
        = true := by
      simp only [gt_iff_lt, Bool.and_eq_true, decide_eq_true_eq]
      exact ⟨by omega, by decide⟩
    simp only [hok', if_true, apiAssert_true, hsettle]
  unfold marketBuy
  rw [hvalid]
  simp only [hok, if_true, hX, hloop, hall]
  rw [if_neg (by decide), hprice]
  rfl

/-- C12 (market buy scenario, amounts).  `sellBook` holds one unexpired sell order of
`10 ABC` at `2.0` and `ABC` has a precision of at least 1: a `marketBuy` of `15` peg
tokens whose escrow succeeded makes exactly two transfers, `7.5 ABC` to the buyer and
`15` peg tokens to the seller, with no refund; it makes one fill and appends one trade
record (after the purge of the records older than a day), of `7.5 ABC` at `2.0` with
volume `15.00000000`. -/
theorem market_buy_fifteen_pays_fifteen (env : Env) (s : State) (o : Order) (p : Nat)
    (htok : env.tokens "ABC" = some p) (hp : 1 ≤ p)
    (hok : env.escrowOk STEEM_PEGGED_SYMBOL 1500000000 = true)
    (hbook : s.sellBook = [o]) (hsym : o.symbol = "ABC") (hqty : o.quantity = 10 * 10 ^ p)
    (hprice : o.price = 200000000) (hexp : env.timestampSec < o.expiration) :
    (marketBuy env (marketPayload ⟨15, 0⟩) s).transfers
      = s.transfers ++ [⟨env.sender, "ABC", 75 * 10 ^ (p - 1)⟩,
          ⟨o.account, STEEM_PEGGED_SYMBOL, 1500000000⟩] ∧
    (marketBuy env (marketPayload ⟨15, 0⟩) s).fills
      = s.fills ++ [⟨o, 75 * 10 ^ (p - 1), 1500000000, 1500000000⟩] ∧
    (marketBuy env (marketPayload ⟨15, 0⟩) s).tradesHistory.dropLast
      = keptTrades env "ABC" s.tradesHistory ∧
    (marketBuy env (marketPayload ⟨15, 0⟩) s).tradesHistory.getLast?.map Trade.content
      = some ⟨Side.buy, env.sender, o.account, "ABC", 75 * 10 ^ (p - 1), 200000000,
          env.timestampSec, 1500000000⟩ ∧
    (marketBuy env (marketPayload ⟨15, 0⟩) s).escrows
      = s.escrows ++ [⟨env.sender, STEEM_PEGGED_SYMBOL, 1500000000⟩] := by
  rw [marketBuy_fifteen env s o p htok hp hok hbook hsym hqty hprice hexp]
  refine ⟨?_, ?_, ?_, ?_, ?_⟩
  · rw [finishMetrics_transfers]
    simp only [recordFill, updateTradesHistory_transfers]
    simp [updateOrder, State.setBook, transferTokens, requestEscrow]
  · rw [finishMetrics_fills]
    simp only [recordFill_fills, updateTradesHistory_fills]
    rfl
  · rw [finishMetrics_tradesHistory]
    simp only [recordFill]
    rw [updateTradesHistory_tradesHistory, List.dropLast_concat]
    rfl
  · rw [finishMetrics_tradesHistory]
    simp only [recordFill]
    rw [updateTradesHistory_tradesHistory, List.getLast?_concat]
    rfl
  · rw [finishMetrics_escrows]
    simp only [recordFill, updateTradesHistory_escrows]
    rfl

/-- C12 at precision 1: Bob's market buy of `15` against Alice's resting `10 ABC` at
`2.0`. -/
theorem market_buy_fifteen_pays_fifteen_witness :
    (marketBuy (exampleEnv "bob" "m1" 101) (marketPayload ⟨15, 0⟩) restingSellTen).transfers
      = [⟨"bob", "ABC", 75⟩, ⟨"alice", "STEEMP", 1500000000⟩] ∧
    (marketBuy (exampleEnv "bob" "m1" 101) (marketPayload ⟨15, 0⟩)
        restingSellTen).tradesHistory.map Trade.content
      = [⟨Side.buy, "bob", "alice", "ABC", 75, 200000000, 101, 1500000000⟩] := by
  have h := market_buy_fifteen_pays_fifteen (exampleEnv "bob" "m1" 101) restingSellTen
    ⟨0, "s1", 100, "alice", "ABC", 100, 200000000, 0, 2592100⟩ 1 rfl (by decide) rfl
    (by decide!) rfl (by decide) rfl (by decide)
  refine ⟨h.1.trans (by decide!), by decide!⟩

/-- C13 (amended).  In the same scenario the sell order is not removed: it is the only
row of `sellBook` afterwards, unchanged but for its quantity, which is `2.5 ABC`
(`10 - 7.5`); `buyBook` is as before. -/
theorem market_buy_fifteen_leaves_the_rest (env : Env) (s : State) (o : Order) (p : Nat)
    (htok : env.tokens "ABC" = some p) (hp : 1 ≤ p)
    (hok : env.escrowOk STEEM_PEGGED_SYMBOL 1500000000 = true)
    (hbook : s.sellBook = [o]) (hsym : o.symbol = "ABC") (hqty : o.quantity = 10 * 10 ^ p)
    (hprice : o.price = 200000000) (hexp : env.timestampSec < o.expiration) :
    (marketBuy env (marketPayload ⟨15, 0⟩) s).sellBook
      = [{ o with quantity := 25 * 10 ^ (p - 1) }] ∧
    (marketBuy env (marketPayload ⟨15, 0⟩) s).buyBook = s.buyBook := by
  rw [marketBuy_fifteen env s o p htok hp hok hbook hsym hqty hprice hexp]
  constructor
  · rw [finishMetrics_sellBook]
    simp only [recordFill_sellBook, updateTradesHistory_sellBook]
    simp [updateOrder, State.setBook, State.book, transferTokens, requestEscrow, hbook]
  · rw [finishMetrics_buyBook]
    simp only [recordFill_buyBook, updateTradesHistory_buyBook]
    rfl

/-- C13 (amended) at precision 1: Alice's order is left with `2.5 ABC`. -/
theorem market_buy_fifteen_leaves_the_rest_witness :
    (marketBuy (exampleEnv "bob" "m1" 101) (marketPayload ⟨15, 0⟩) restingSellTen).sellBook
      = [⟨0, "s1", 100, "alice", "ABC", 25, 200000000, 0, 2592100⟩] :=
  (market_buy_fifteen_leaves_the_rest (exampleEnv "bob" "m1" 101) restingSellTen
    ⟨0, "s1", 100, "alice", "ABC", 100, 200000000, 0, 2592100⟩ 1 rfl (by decide) rfl
    (by decide!) rfl (by decide) rfl (by decide)).1

/-! ### The two best-price metrics -/

theorem head_sorted_asc (l : List Order) (q : Order → Bool) :
    match dbFind l q 1 0 priceAsc with
    | o :: _ => o ∈ l ∧ q o = true ∧ ∀ r ∈ l, q r = true → o.price ≤ r.price
    | [] => ∀ r ∈ l, q r = false := by
  unfold dbFind
  simp only [List.drop_zero]
  have hs := pairwise_sortBy priceAsc priceAsc_total priceAsc_trans (l.filter q)
  cases hS : sortBy priceAsc (l.filter q) with
  | nil =>
    simp only [List.take_nil]
    intro r hr
    by_contra hq
    have hq' : q r = true := by simpa using hq
    have : r ∈ sortBy priceAsc (l.filter q) :=
      (mem_sortBy _ _ _).2 (List.mem_filter.2 ⟨hr, hq'⟩)
    rw [hS] at this
    exact List.not_mem_nil _ this
  | cons o rest =>
    simp only [List.take_succ_cons, List.take_zero]
    rw [hS] at hs
    have ho : o ∈ l.filter q :=
      (mem_sortBy priceAsc o _).1 (by rw [hS]; exact List.mem_cons_self _ _)
    refine ⟨(List.mem_filter.1 ho).1, (List.mem_filter.1 ho).2, ?_⟩
    intro r hr hq
    have hmem : r ∈ sortBy priceAsc (l.filter q) :=
      (mem_sortBy _ _ _).2 (List.mem_filter.2 ⟨hr, hq⟩)
    rw [hS] at hmem
    rcases List.mem_cons.1 hmem with h | h
    · rw [h]
    · have := (List.pairwise_cons.1 hs).1 r h
      rw [priceAsc_iff] at this
      rcases this with h1 | h1
      · exact le_of_lt h1
      · exact le_of_eq h1.1

/-- The value `bestBid` is the highest price of the symbol's orders, `0` without any. -/
theorem bestBid_spec (book : List Order) (symbol : String) :
    (∃ b ∈ book, b.symbol = symbol ∧ bestBid book symbol = b.price ∧
        ∀ r ∈ book, r.symbol = symbol → r.price ≤ b.price) ∨
    ((∀ r ∈ book, r.symbol ≠ symbol) ∧ bestBid book symbol = 0) := by
  have hhead := head_sorted_desc book (fun o => o.symbol == symbol)
  unfold bestBid
  split
  · rename_i o rest heq
    rw [heq] at hhead
    simp only at hhead
    refine Or.inl ⟨o, hhead.1, by simpa using hhead.2.1, rfl, ?_⟩
    intro r hr hrs
    exact hhead.2.2 r hr (by simp [hrs])
  · rename_i heq
    rw [heq] at hhead
    simp only at hhead
    refine Or.inr ⟨?_, rfl⟩
    intro r hr
    simpa using hhead r hr

/-- The value `bestAsk` is the lowest price of the symbol's orders, `0` without any. -/
theorem bestAsk_spec (book : List Order) (symbol : String) :
    (∃ b ∈ book, b.symbol = symbol ∧ bestAsk book symbol = b.price ∧
        ∀ r ∈ book, r.symbol = symbol → b.price ≤ r.price) ∨
    ((∀ r ∈ book, r.symbol ≠ symbol) ∧ bestAsk book symbol = 0) := by
  have hhead := head_sorted_asc book (fun o => o.symbol == symbol)
  unfold bestAsk
  split
  · rename_i o rest heq
    rw [heq] at hhead
    simp only at hhead
    refine Or.inl ⟨o, hhead.1, by simpa using hhead.2.1, rfl, ?_⟩
    intro r hr hrs
    exact hhead.2.2 r hr (by simp [hrs])
  · rename_i heq
    rw [heq] at hhead
    simp only at hhead
    refine Or.inr ⟨?_, rfl⟩
    intro r hr
    simpa using hhead r hr

theorem updateBidMetric_eq (symbol : String) (s : State) :
    updateBidMetric symbol s
      = updateMetric (getMetric s symbol).1
          { (getMetric s symbol).2 with highestBid := bestBid s.buyBook symbol } := by
  have hbook : (getMetric s symbol).1.buyBook = s.buyBook := (getMetric_same s symbol).1
  unfold updateBidMetric bestBid
  simp only [hbook]
  generalize dbFind s.buyBook (fun o => o.symbol == symbol) 1 0 priceDesc = l
  cases l <;> rfl

theorem updateAskMetric_eq (symbol : String) (s : State) :
    updateAskMetric symbol s
      = updateMetric (getMetric s symbol).1
          { (getMetric s symbol).2 with lowestAsk := bestAsk s.sellBook symbol } := by
  have hbook : (getMetric s symbol).1.sellBook = s.sellBook := (getMetric_same s symbol).2.1
  unfold updateAskMetric bestAsk
  simp only [hbook]
  generalize dbFind s.sellBook (fun o => o.symbol == symbol) 1 0 priceAsc = l
  cases l <;> rfl

theorem updateBidMetric_found (symbol : String) (s : State) :
    (updateBidMetric symbol s).metrics.find? (fun m => m.symbol == symbol)
      = some { (getMetric s symbol).2 with highestBid := bestBid s.buyBook symbol } := by
  rw [updateBidMetric_eq]
  obtain ⟨hfound, hsym⟩ := getMetric_found s symbol
  exact updateMetric_found _ symbol _ _ hfound rfl hsym

theorem updateAskMetric_found (symbol : String) (s : State) :
    (updateAskMetric symbol s).metrics.find? (fun m => m.symbol == symbol)
      = some { (getMetric s symbol).2 with lowestAsk := bestAsk s.sellBook symbol } := by
  rw [updateAskMetric_eq]
  obtain ⟨hfound, hsym⟩ := getMetric_found s symbol
  exact updateMetric_found _ symbol _ _ hfound rfl hsym

theorem getMetric_of_found (s : State) (symbol : String) (m : Metric)
    (h : s.metrics.find? (fun m => m.symbol == symbol) = some m) :
    getMetric s symbol = (s, m) := by
  unfold getMetric
  rw [h]

theorem updateMetric_again (s : State) (m : Metric) :
    updateMetric (updateMetric s m) m = updateMetric s m := by
  unfold updateMetric
  simp only [List.map_map]
  congr 1
  apply List.map_congr_left
  intro r _
  simp only [Function.comp]
  by_cases h : r.id = m.id
  · simp [h]
  · simp [h]

theorem updateBidMetric_twice (symbol : String) (s : State) :
    updateBidMetric symbol (updateBidMetric symbol s) = updateBidMetric symbol s := by
  have hfound := updateBidMetric_found symbol s
  have hbook : (updateBidMetric symbol s).buyBook = s.buyBook :=
    (updateBidMetric_same symbol s).1
  rw [updateBidMetric_eq symbol (updateBidMetric symbol s),
    getMetric_of_found _ _ _ hfound, hbook]
  simp only
  rw [updateBidMetric_eq symbol s]
  exact updateMetric_again _ _

theorem updateAskMetric_twice (symbol : String) (s : State) :
    updateAskMetric symbol (updateAskMetric symbol s) = updateAskMetric symbol s := by
  have hfound := updateAskMetric_found symbol s
  have hbook : (updateAskMetric symbol s).sellBook = s.sellBook :=
    (updateAskMetric_same symbol s).2.1
  rw [updateAskMetric_eq symbol (updateAskMetric symbol s),
    getMetric_of_found _ _ _ hfound, hbook]
  simp only
  rw [updateAskMetric_eq symbol s]
  exact updateMetric_again _ _

/-- C28 (idempotent metrics): for every state and symbol, `updateBidMetric` run twice
gives the state it gives when run once, and so does `updateAskMetric`.  One run writes
no table but `metrics` (a missing row of the symbol is inserted first, with the next
`_id`); in `metrics` only the rows with the `_id` of the symbol's row are written, and
the symbol's row afterwards is the row `getMetric` returned with `highestBid`
(respectively `lowestAsk`) replaced by the best price of the book. -/
theorem metric_updates_are_idempotent (symbol : String) (s : State) :
    updateBidMetric symbol (updateBidMetric symbol s) = updateBidMetric symbol s ∧
    updateAskMetric symbol (updateAskMetric symbol s) = updateAskMetric symbol s ∧
    SameButMetrics s (updateBidMetric symbol s) ∧
    SameButMetrics s (updateAskMetric symbol s) ∧
    (updateBidMetric symbol s).metrics
      = (getMetric s symbol).1.metrics.map (fun r =>
          if r.id = (getMetric s symbol).2.id then
            { (getMetric s symbol).2 with highestBid := bestBid s.buyBook symbol }
          else r) ∧
    (updateAskMetric symbol s).metrics
      = (getMetric s symbol).1.metrics.map (fun r =>
          if r.id = (getMetric s symbol).2.id then
            { (getMetric s symbol).2 with lowestAsk := bestAsk s.sellBook symbol }
          else r) ∧
    (updateBidMetric symbol s).metrics.find? (fun m => m.symbol == symbol)
      = some { (getMetric s symbol).2 with highestBid := bestBid s.buyBook symbol } ∧
    (updateAskMetric symbol s).metrics.find? (fun m => m.symbol == symbol)
      = some { (getMetric s symbol).2 with lowestAsk := bestAsk s.sellBook symbol } := by
  refine ⟨updateBidMetric_twice symbol s, updateAskMetric_twice symbol s,
    updateBidMetric_same symbol s, updateAskMetric_same symbol s, ?_, ?_,
    updateBidMetric_found symbol s, updateAskMetric_found symbol s⟩
  · rw [updateBidMetric_eq]
    rfl
  · rw [updateAskMetric_eq]
    rfl

theorem isBestBid_bestBid (book : List Order) (symbol : String) :
    IsBestBid book symbol (bestBid book symbol) := bestBid_spec book symbol

theorem isBestAsk_bestAsk (book : List Order) (symbol : String) :
    IsBestAsk book symbol (bestAsk book symbol) := bestAsk_spec book symbol

theorem updateBidMetric_best (symbol : String) (s : State) :
    ∃ m, (updateBidMetric symbol s).metrics.find? (fun m => m.symbol == symbol) = some m ∧
      IsBestBid (updateBidMetric symbol s).buyBook symbol m.highestBid := by
  refine ⟨_, updateBidMetric_found symbol s, ?_⟩
  rw [(updateBidMetric_same symbol s).1]
  exact bestBid_spec _ _

theorem updateAskMetric_best (symbol : String) (s : State) :
    ∃ m, (updateAskMetric symbol s).metrics.find? (fun m => m.symbol == symbol) = some m ∧
      IsBestAsk (updateAskMetric symbol s).sellBook symbol m.lowestAsk := by
  refine ⟨_, updateAskMetric_found symbol s, ?_⟩
  rw [(updateAskMetric_same symbol s).2.1]
  exact bestAsk_spec _ _

theorem filter_id_eq_erase (o : Order) :
    ∀ l : List Order, (l.map (fun r => r.id)).Nodup → o ∈ l →
      l.filter (fun r => r.id != o.id) = l.erase o := by
  intro l
  induction l with
  | nil => intro _ h; simp at h
  | cons x xs ih =>
    intro hnd hmem
    rw [List.map_cons, List.nodup_cons] at hnd
    by_cases hx : x = o
    · subst hx
      rw [List.erase_cons_head]
      have h1 : (List.filter (fun r => r.id != x.id) (x :: xs)) =
          List.filter (fun r => r.id != x.id) xs := by
        rw [List.filter_cons_of_neg]
        simp
      rw [h1, List.filter_eq_self]
      intro r hr
      have : r.id ≠ x.id := by
        intro e
        exact hnd.1 (e ▸ List.mem_map_of_mem (fun r => r.id) hr)
      simpa using this
    · have hmem' : o ∈ xs := by
        rcases List.mem_cons.1 hmem with h | h
        · exact absurd h.symm hx
        · exact h
      have hxid : x.id ≠ o.id := by
        intro e
        exact hnd.1 (e ▸ List.mem_map_of_mem (fun r => r.id) hmem')
      rw [List.filter_cons_of_pos (by simpa using hxid), ih hnd.2 hmem',
        List.erase_cons_tail (by simpa using hx)]

theorem cancel_buy_done (env : Env) (id : String) (s : State) (o : Order)
    (hid : id ≠ "") (hlen : id.length < 50)
    (hfound : s.buyBook.find? (fun r => r.txId == id) = some o)
    (howner : o.account = env.sender) :
    cancel env (cancelPayload "buy" id) s
      = updateBidMetric o.symbol
          (removeOrder (transferTokens s env.sender STEEM_PEGGED_SYMBOL o.tokensLocked)
            Table.buyBook o) := by
  have hbook : (apiAssert (apiAssert s true
      "you must use a custom_json signed with your active key") true "invalid params").book
      Table.buyBook = s.buyBook := rfl
  unfold cancel cancelPayload
  simp [IdField.truthy, hid, hlen, hbook, hfound, howner, apiAssert, State.book]

theorem cancel_sell_done (env : Env) (id : String) (s : State) (o : Order)
    (hid : id ≠ "") (hlen : id.length < 50)
    (hfound : s.sellBook.find? (fun r => r.txId == id) = some o)
    (howner : o.account = env.sender) :
    cancel env (cancelPayload "sell" id) s
      = updateAskMetric o.symbol
          (removeOrder (transferTokens s env.sender o.symbol o.quantity)
            Table.sellBook o) := by
  unfold cancel cancelPayload
  simp [IdField.truthy, hid, hlen, hfound, howner, apiAssert, State.book]

theorem cancelTable_buy : cancelTable "buy" = Table.buyBook := by decide

theorem cancelTable_sell : cancelTable "sell" = Table.sellBook := by decide

/-- C24 (successful cancel): a signed cancel of type `buy` or `sell` whose `id` (a
non-empty string shorter than 50 characters) is the `txId` of an order `o` that
`findOne` returns from the book named by the type, `o` being owned by the sender, in a
book whose rows have distinct `_id`s.  It issues exactly one transfer, to the sender:
`o.tokensLocked` of the peg token for `buy`, `o.quantity` of `o.symbol` for `sell`; the
book is the old book with `o` erased, the other book, the trades, the escrow requests
and the assertion log are unchanged, and the metric row of `o.symbol` afterwards holds
the best bid of the remaining buy book (`buy`) or the best ask of the remaining sell
book (`sell`), `0` when no order of the symbol remains. -/
theorem cancel_refunds_and_removes_the_order (env : Env) (type id : String) (s : State)
    (o : Order) (htype : type = "buy" ∨ type = "sell") (hid : id ≠ "")
    (hlen : id.length < 50)
    (hfound : (s.book (cancelTable type)).find? (fun r => r.txId == id) = some o)
    (howner : o.account = env.sender)
    (hids : ((s.book (cancelTable type)).map (fun r => r.id)).Nodup) :
    (cancel env (cancelPayload type id) s).transfers
      = s.transfers ++
        [if type = "buy" then ⟨env.sender, STEEM_PEGGED_SYMBOL, o.tokensLocked⟩
         else ⟨env.sender, o.symbol, o.quantity⟩] ∧
    (cancel env (cancelPayload type id) s).book (cancelTable type)
      = (s.book (cancelTable type)).erase o ∧
    o ∉ (cancel env (cancelPayload type id) s).book (cancelTable type) ∧
    (cancel env (cancelPayload type id) s).book (cancelTable type).opposite
      = s.book (cancelTable type).opposite ∧
    (cancel env (cancelPayload type id) s).tradesHistory = s.tradesHistory ∧
    (cancel env (cancelPayload type id) s).escrows = s.escrows ∧
    (cancel env (cancelPayload type id) s).asserts = s.asserts ∧
    ∃ m, (cancel env (cancelPayload type id) s).metrics.find?
          (fun m => m.symbol == o.symbol) = some m ∧
      (type = "buy" →
        IsBestBid (cancel env (cancelPayload type id) s).buyBook o.symbol m.highestBid) ∧
      (type = "sell" →
        IsBestAsk (cancel env (cancelPayload type id) s).sellBook o.symbol m.lowestAsk) := by
  have hmem : o ∈ s.book (cancelTable type) := List.mem_of_find?_eq_some hfound
  have hnd : (s.book (cancelTable type)).Nodup := List.Nodup.of_map _ hids
  have herase := filter_id_eq_erase o _ hids hmem
  have hnot : o ∉ (s.book (cancelTable type)).erase o := fun h =>
    (List.Nodup.mem_erase_iff hnd).1 h |>.1 rfl
  rcases htype with rfl | rfl
  · rw [cancelTable_buy] at hfound herase hnot ⊢
    rw [cancel_buy_done env id s o hid hlen hfound howner]
    obtain ⟨m, hm, hbest⟩ := updateBidMetric_best o.symbol
      (removeOrder (transferTokens s env.sender STEEM_PEGGED_SYMBOL o.tokensLocked)
        Table.buyBook o)
    obtain ⟨h1, h2, h3, h4, h5, h6, _⟩ := updateBidMetric_same o.symbol
      (removeOrder (transferTokens s env.sender STEEM_PEGGED_SYMBOL o.tokensLocked)
        Table.buyBook o)
    have hb : (updateBidMetric o.symbol
        (removeOrder (transferTokens s env.sender STEEM_PEGGED_SYMBOL o.tokensLocked)
          Table.buyBook o)).buyBook = s.buyBook.erase o := by
      rw [h1]
      exact herase
    refine ⟨by rw [h4]; rfl, hb, ?_, h2, h3, h5, h6, m, hm, fun _ => hbest, ?_⟩
    · show o ∉ (updateBidMetric o.symbol _).buyBook
      rw [hb]
      exact hnot
    · intro h
      exact absurd h (by decide)
  · rw [cancelTable_sell] at hfound herase hnot ⊢
    rw [cancel_sell_done env id s o hid hlen hfound howner]
    obtain ⟨m, hm, hbest⟩ := updateAskMetric_best o.symbol
      (removeOrder (transferTokens s env.sender o.symbol o.quantity) Table.sellBook o)
    obtain ⟨h1, h2, h3, h4, h5, h6, _⟩ := updateAskMetric_same o.symbol
      (removeOrder (transferTokens s env.sender o.symbol o.quantity) Table.sellBook o)
    have hb : (updateAskMetric o.symbol
        (removeOrder (transferTokens s env.sender o.symbol o.quantity)
          Table.sellBook o)).sellBook = s.sellBook.erase o := by
      rw [h2]
      exact herase
    refine ⟨by rw [h4]; rfl, hb, ?_, h1, h3, h5, h6, m, hm, ?_, fun _ => hbest⟩
    · show o ∉ (updateAskMetric o.symbol _).sellBook
      rw [hb]
      exact hnot
    · intro h
      exact absurd h (by decide)

/-- C24 at Alice's resting sell order of `10 ABC` at `2.0`, cancelled by Alice: the
`10 ABC` go back to her, the sell book is empty and `lowestAsk` of `ABC` is `0`. -/
theorem cancel_refunds_and_removes_the_order_witness :
    restingSellTen.sellBook
      = [⟨0, "s1", 100, "alice", "ABC", 100, 200000000, 0, 2592100⟩] ∧
    (cancel (exampleEnv "alice" "c1" 200) (cancelPayload "sell" "s1") restingSellTen).transfers
      = [⟨"alice", "ABC", 100⟩] ∧
    (cancel (exampleEnv "alice" "c1" 200) (cancelPayload "sell" "s1") restingSellTen).sellBook
      = [] ∧
    (cancel (exampleEnv "alice" "c1" 200) (cancelPayload "sell" "s1") restingSellTen).metrics.map
        (fun m => (m.symbol, m.lowestAsk)) = [("ABC", 0)] := by
  have h := cancel_refunds_and_removes_the_order (exampleEnv "alice" "c1" 200) "sell" "s1"
    restingSellTen ⟨0, "s1", 100, "alice", "ABC", 100, 200000000, 0, 2592100⟩
    (Or.inr rfl) (by decide) (by decide) (by decide!) rfl (by decide!)
  refine ⟨by decide!, ?_, ?_, by decide!⟩
  · exact h.1.trans (by decide!)
  · exact h.2.1.trans (by decide!)

/-- What `cancel` does: either every condition of the refund holds, or the state is
written in the assertion log only. -/
theorem cancel_cases (env : Env) (payload : CancelPayload) (s : State) :
    (∃ id o, payload.isSignedWithActiveKey = true ∧
      (payload.type = "buy" ∨ payload.type = "sell") ∧ payload.id = IdField.str id ∧
      id ≠ "" ∧ id.length < 50 ∧
      (s.book (cancelTable payload.type)).find? (fun r => r.txId == id) = some o ∧
      o.account = env.sender) ∨
    (∃ msgs, cancel env payload s = { s with asserts := s.asserts ++ msgs }) := by
  obtain ⟨type, pid, signed⟩ := payload
  cases signed with
  | false =>
    exact Or.inr ⟨["you must use a custom_json signed with your active key"], rfl⟩
  | true =>
    by_cases htype : type = "buy" ∨ type = "sell"
    · cases pid with
      | missing =>
        refine Or.inr ⟨["invalid params"], ?_⟩
        unfold cancel
        simp [IdField.truthy, apiAssert]
      | nonString =>
        refine Or.inr ⟨["order does not exist or invalid params"], ?_⟩
        rcases htype with rfl | rfl <;>
        · unfold cancel
          simp [IdField.truthy, apiAssert]
      | str id =>
        by_cases hid : id = ""
        · refine Or.inr ⟨["invalid params"], ?_⟩
          unfold cancel
          simp [IdField.truthy, apiAssert, hid]
        · by_cases hlen : id.length < 50
          · cases hf : (s.book (cancelTable type)).find? (fun r => r.txId == id) with
            | none =>
              refine Or.inr ⟨["order does not exist or invalid params"], ?_⟩
              rcases htype with rfl | rfl
              · rw [cancelTable_buy] at hf
                unfold cancel
                simp [IdField.truthy, apiAssert, hid, hlen, hf]
              · rw [cancelTable_sell] at hf
                unfold cancel
                simp [IdField.truthy, apiAssert, hid, hlen, hf]
            | some o =>
              by_cases hown : o.account = env.sender
              · exact Or.inl ⟨id, o, rfl, htype, rfl, hid, hlen, hf, hown⟩
              · refine Or.inr ⟨[], ?_⟩
                rcases htype with rfl | rfl
                · rw [cancelTable_buy] at hf
                  unfold cancel
                  simp [IdField.truthy, apiAssert, hid, hlen, hf, hown]
                · rw [cancelTable_sell] at hf
                  unfold cancel
                  simp [IdField.truthy, apiAssert, hid, hlen, hf, hown]
          · refine Or.inr ⟨["order does not exist or invalid params"], ?_⟩
            rcases htype with rfl | rfl <;>
            · unfold cancel
              simp [IdField.truthy, apiAssert, hid, hlen]
    · refine Or.inr ⟨["invalid params"], ?_⟩
      have h1 : ¬ type = "buy" := fun h => htype (Or.inl h)
      have h2 : ¬ type = "sell" := fun h => htype (Or.inr h)
      unfold cancel
      simp [apiAssert, h1, h2]

/-- C25 (failed cancel changes nothing): when the cancel is not signed with the active
key, or its type is neither `buy` nor `sell`, or its `id` is not a string shorter than
50 characters, or no order of the named book has that `txId`, or the order found is
owned by another account than the sender, no transfer is issued and `buyBook`,
`sellBook`, `tradesHistory` and `metrics` are unchanged (so are the escrow requests,
the fill log and the `_id` counter). -/
theorem failed_cancel_changes_nothing (env : Env) (payload : CancelPayload) (s : State)
    (hfail : payload.isSignedWithActiveKey = false
      ∨ (payload.type ≠ "buy" ∧ payload.type ≠ "sell")
      ∨ (∀ id, payload.id = IdField.str id → 50 ≤ id.length)
      ∨ (∀ id, payload.id = IdField.str id →
          (s.book (cancelTable payload.type)).find? (fun r => r.txId == id) = none)
      ∨ (∀ id o, payload.id = IdField.str id →
          (s.book (cancelTable payload.type)).find? (fun r => r.txId == id) = some o →
          o.account ≠ env.sender)) :
    (cancel env payload s).transfers = s.transfers ∧
    (cancel env payload s).buyBook = s.buyBook ∧
    (cancel env payload s).sellBook = s.sellBook ∧
    (cancel env payload s).tradesHistory = s.tradesHistory ∧
    (cancel env payload s).metrics = s.metrics ∧
    (cancel env payload s).escrows = s.escrows ∧
    (cancel env payload s).fills = s.fills ∧
    (cancel env payload s).nextId = s.nextId := by
  rcases cancel_cases env payload s with ⟨id, o, hs, ht, hpid, _, hlen, hf, hown⟩ | ⟨msgs, h⟩
  · exfalso
    rcases hfail with h | h | h | h | h
    · rw [hs] at h
      exact Bool.noConfusion h
    · rcases ht with ht | ht
      · exact h.1 ht
      · exact h.2 ht
    · have := h id hpid
      omega
    · have := h id hpid
      rw [hf] at this
      exact Option.noConfusion this
    · exact h id o hpid hf hown
  · rw [h]
    exact ⟨rfl, rfl, rfl, rfl, rfl, rfl, rfl, rfl⟩

/-- C25 at Alice's resting sell order: an unsigned cancel by Alice leaves the order in
the book and issues no transfer. -/
theorem failed_cancel_changes_nothing_witness :
    restingSellTen.sellBook.map (fun o => (o.txId, o.account)) = [("s1", "alice")] ∧
    (cancel (exampleEnv "alice" "c1" 200) ⟨"sell", IdField.str "s1", false⟩
      restingSellTen).transfers = [] ∧
    (cancel (exampleEnv "alice" "c1" 200) ⟨"sell", IdField.str "s1", false⟩
      restingSellTen).sellBook = restingSellTen.sellBook ∧
    (cancel (exampleEnv "alice" "c1" 200) ⟨"sell", IdField.str "s1", false⟩
      restingSellTen).metrics = restingSellTen.metrics := by
  have h := failed_cancel_changes_nothing (exampleEnv "alice" "c1" 200)
    ⟨"sell", IdField.str "s1", false⟩ restingSellTen (Or.inl rfl)
  exact ⟨by decide!, h.1.trans (by decide!), h.2.2.1, h.2.2.2.2.1⟩

/-- C26 (a failed cancel and the assertion log), for a signed cancel of type `buy` or
`sell` with an `id` that is a non-empty string shorter than 50 characters.  When no
order of the named book has that `txId`, the message
`order does not exist or invalid params` is recorded and nothing else changes.  When
the order found is owned by another account than the sender, the state after the
cancel is the state before it: the assertion log records nothing. -/
theorem cancel_by_another_account_reports_nothing (env : Env) (type id : String)
    (s : State) (htype : type = "buy" ∨ type = "sell") (hid : id ≠ "")
    (hlen : id.length < 50) :
    ((s.book (cancelTable type)).find? (fun r => r.txId == id) = none →
      cancel env (cancelPayload type id) s
        = { s with asserts := s.asserts ++ ["order does not exist or invalid params"] }) ∧
    (∀ o, (s.book (cancelTable type)).find? (fun r => r.txId == id) = some o →
      o.account ≠ env.sender → cancel env (cancelPayload type id) s = s) := by
  constructor
  · intro hf
    rcases htype with rfl | rfl
    · rw [cancelTable_buy] at hf
      unfold cancel cancelPayload
      simp [IdField.truthy, apiAssert, hid, hlen, hf]
    · rw [cancelTable_sell] at hf
      unfold cancel cancelPayload
      simp [IdField.truthy, apiAssert, hid, hlen, hf]
  · intro o hf hown
    rcases htype with rfl | rfl
    · rw [cancelTable_buy] at hf
      unfold cancel cancelPayload
      simp [IdField.truthy, apiAssert, hid, hlen, hf, hown]
    · rw [cancelTable_sell] at hf
      unfold cancel cancelPayload
      simp [IdField.truthy, apiAssert, hid, hlen, hf, hown]

/-- C26 at Alice's resting sell order `s1`: Bob's cancel of `s1` leaves the state as it
was, with an empty assertion log; his cancel of an unknown `zz` records the message. -/
theorem cancel_by_another_account_reports_nothing_witness :
    restingSellTen.sellBook.map (fun o => (o.txId, o.account)) = [("s1", "alice")] ∧
    restingSellTen.asserts = [] ∧
    cancel (exampleEnv "bob" "c1" 200) (cancelPayload "sell" "s1") restingSellTen
      = restingSellTen ∧
    (cancel (exampleEnv "bob" "c1" 200) (cancelPayload "sell" "s1") restingSellTen).asserts
      = [] ∧
    (cancel (exampleEnv "bob" "c2" 200) (cancelPayload "sell" "zz") restingSellTen).asserts
      = ["order does not exist or invalid params"] := by
  have h := (cancel_by_another_account_reports_nothing (exampleEnv "bob" "c1" 200) "sell"
    "s1" restingSellTen (Or.inr rfl) (by decide) (by decide)).2
    ⟨0, "s1", 100, "alice", "ABC", 100, 200000000, 0, 2592100⟩ (by decide!) (by decide)
  refine ⟨by decide!, by decide!, h, ?_, by decide!⟩
  rw [h]
  decide!

theorem finishMetrics_best (env : Env) (symbol : String) (v : Int) (s : State) :
    BestPrices (finishMetrics env symbol v s) symbol := by
  unfold finishMetrics
  simp only
  generalize (if v > 0 then updateVolumeMetric env symbol v true s else s) = s1
  have hask := updateAskMetric_found symbol s1
  have hsameA := updateAskMetric_same symbol s1
  have hbid := updateBidMetric_found symbol (updateAskMetric symbol s1)
  have hsameB := updateBidMetric_same symbol (updateAskMetric symbol s1)
  rw [getMetric_of_found _ _ _ hask] at hbid
  refine ⟨_, hbid, ?_, ?_⟩
  · rw [hsameB.1]
    exact bestBid_spec _ _
  · rw [hsameB.2.1, hsameA.2.1]
    exact bestAsk_spec _ _

/-- C27 (best-price metrics after matching): after a `buy`, a `sell`, a `marketBuy` or a
`marketSell` that passes its validation and whose escrow succeeded, the metric row of
the traded symbol has `highestBid` equal to the highest price of the symbol's orders in
`buyBook` and `lowestAsk` equal to the lowest price of the symbol's orders in
`sellBook`, `0` when there is none, whether or not a trade occurred. -/
theorem best_prices_are_right_after_matching (env : Env) (s : State) :
    (∀ payload s1 v, validateOrder env payload s = (s1, some v) →
      (env.escrowOk STEEM_PEGGED_SYMBOL
          ((v.price.mul v.quantity).toFixed STEEM_PEGGED_SYMBOL_PRESICION) = true →
        BestPrices (buy env payload s) v.symbol) ∧
      (env.escrowOk v.symbol (v.quantity.toFixed v.precision) = true →
        BestPrices (sell env payload s) v.symbol)) ∧
    (∀ payload s1 v,
      validateMarket env payload (fun _ => STEEM_PEGGED_SYMBOL_PRESICION) s = (s1, some v) →
      env.escrowOk STEEM_PEGGED_SYMBOL
        (v.quantity.toFixed STEEM_PEGGED_SYMBOL_PRESICION) = true →
      BestPrices (marketBuy env payload s) v.symbol) ∧
    (∀ payload s1 v,
      validateMarket env payload (fun precision => precision) s = (s1, some v) →
      env.escrowOk v.symbol (v.quantity.toFixed v.precision) = true →
      BestPrices (marketSell env payload s) v.symbol) := by
  refine ⟨fun payload s1 v hv => ⟨fun hok => ?_, fun hok => ?_⟩,
    fun payload s1 v hv hok => ?_, fun payload s1 v hv hok => ?_⟩
  · unfold buy
    rw [hv]
    simp only [hok, if_true]
    unfold findMatchingSellOrders
    exact finishMetrics_best _ _ _ _
  · unfold sell
    rw [hv]
    simp only [hok, if_true]
    unfold findMatchingBuyOrders
    exact finishMetrics_best _ _ _ _
  · unfold marketBuy
    rw [hv]
    simp only [hok, if_true]
    exact finishMetrics_best _ _ _ _
  · unfold marketSell
    rw [hv]
    simp only [hok, if_true]
    exact finishMetrics_best _ _ _ _

/-- C27 at Bob's buy of `10 ABC` at `2.0` against Alice's resting `4 ABC` at `1.0`: the
sell book is emptied and Bob's order rests, so `lowestAsk` is `0` and `highestBid` is
`2.0`. -/
theorem best_prices_are_right_after_matching_witness :
    BestPrices (buy (exampleEnv "bob" "b1" 101) (limitPayload ⟨10, 0⟩ ⟨2, 0⟩) restingSellFour)
      "ABC" ∧
    (buy (exampleEnv "bob" "b1" 101) (limitPayload ⟨10, 0⟩ ⟨2, 0⟩) restingSellFour).metrics.map
      (fun m => (m.symbol, m.highestBid, m.lowestAsk)) = [("ABC", 200000000, 0)] ∧
    (buy (exampleEnv "bob" "b1" 101) (limitPayload ⟨10, 0⟩ ⟨2, 0⟩) restingSellFour).buyBook.map
      (fun o => (o.symbol, o.price)) = [("ABC", 200000000)] ∧
    (buy (exampleEnv "bob" "b1" 101) (limitPayload ⟨10, 0⟩ ⟨2, 0⟩) restingSellFour).sellBook
      = [] :=
  ⟨((best_prices_are_right_after_matching (exampleEnv "bob" "b1" 101) restingSellFour).1
      (limitPayload ⟨10, 0⟩ ⟨2, 0⟩) restingSellFour ⟨"ABC", 1, ⟨2, 0⟩, ⟨10, 0⟩⟩
      (by decide!)).1 (by decide!),
    by decide!, by decide!, by decide!⟩

theorem validateOrder_of_invalid (env : Env) (payload : OrderPayload) (s : State)
    (h : orderValid env payload = false) :
    ∃ msg, validateOrder env payload s = ({ s with asserts := s.asserts ++ [msg] }, none) := by
  obtain ⟨sym, q, p, e, signed⟩ := payload
  unfold orderValid at h
  unfold validateOrder
  cases signed with
  | false =>
    exact ⟨"you must use a custom_json signed with your active key", by simp [apiAssert]⟩
  | true =>
    cases p with
    | none => exact ⟨"invalid params", by simp [apiAssert]⟩
    | some price =>
      cases sym with
      | none => exact ⟨"invalid params", by simp [apiAssert]⟩
      | some symbol =>
        cases q with
        | none => exact ⟨"invalid params", by simp [apiAssert]⟩
        | some quantity =>
          by_cases hvalid : (symbol != "" && symbol != STEEM_PEGGED_SYMBOL && e.valid) = true
          · cases ht : env.tokens symbol with
            | none =>
              refine ⟨"invalid params", ?_⟩
              simp only [apiAssert, hvalid, ht]
              simp
            | some precision =>
              by_cases hv2 : (price.gt0
                  && decide (countDecimals price ≤ STEEM_PEGGED_SYMBOL_PRESICION)
                  && decide (countDecimals quantity ≤ precision)) = true
              · by_cases hf : decide ((price.mul quantity).toFixed
                    STEEM_PEGGED_SYMBOL_PRESICION ≥ DUST) = true
                · exfalso
                  simp only [Dec.gt0, STEEM_PEGGED_SYMBOL_PRESICION] at hv2 hf
                  simp only [hvalid, ht, hv2] at h
                  simp only [ge_iff_le, decide_eq_true_eq] at hf
                  simp [hf] at h
                · refine ⟨"order cannot be placed as it cannot be filled", ?_⟩
                  simp only [apiAssert, hvalid, ht, hv2, hf]
                  simp
              · refine ⟨"invalid params", ?_⟩
                simp only [apiAssert, hvalid, ht, hv2]
                simp
          · refine ⟨"invalid params", ?_⟩
            simp only [apiAssert, hvalid]
            simp

theorem validateOrder_of_valid (env : Env) (payload : OrderPayload) (s : State)
    (h : orderValid env payload = true) :
    ∃ symbol price quantity precision, payload.symbol = some symbol ∧
      payload.price = some price ∧ payload.quantity = some quantity ∧
      env.tokens symbol = some precision ∧
      validateOrder env payload s = (s, some ⟨symbol, precision, price, quantity⟩) := by
  obtain ⟨sym, q, p, e, signed⟩ := payload
  unfold orderValid at h
  cases signed with
  | false => simp at h
  | true =>
    cases p with
    | none => simp at h
    | some price =>
      cases sym with
      | none => simp at h
      | some symbol =>
        cases q with
        | none => simp at h
        | some quantity =>
          cases ht : env.tokens symbol with
          | none => simp [ht] at h
          | some precision =>
            refine ⟨symbol, price, quantity, precision, rfl, rfl, rfl, ht, ?_⟩
            simp only [ht, Bool.true_and, Bool.and_eq_true, decide_eq_true_eq] at h
            obtain ⟨⟨hvalid, h2, h4⟩, h5⟩ := h
            unfold validateOrder
            simp [apiAssert, hvalid, ht, Dec.gt0, h2, h4, h5,
              STEEM_PEGGED_SYMBOL_PRESICION]

theorem matchSellOrder_escrows (env : Env) (prec : Nat) (m : Taker) (o : Order) :
    (matchSellOrder env prec m o).st.escrows = m.st.escrows := by
  unfold matchSellOrder buyFilledWhole sellOrderConsumed settleRestingSell
  simp only
  repeat' split
  all_goals simp [transferTokens, removeOrder, updateOrder, recordFill, State.setBook]

theorem findMatchingSellOrders_escrows (env : Env) (order : Order) (prec : Nat) (s : State) :
    (findMatchingSellOrders env order prec s).escrows = s.escrows := by
  have hinv := findMatchingSellOrdersLoop_inv env order prec s
    (fun m => m.st.escrows = s.escrows)
    (fun m o _ hi => (matchSellOrder_escrows env prec m o).trans hi)
    (removeExpiredOrders_escrows env Table.sellBook s)
  unfold findMatchingSellOrders
  simp only [finishMetrics_escrows]
  generalize findMatchingSellOrdersLoop env order prec s = m at hinv ⊢
  split
  · exact hinv
  · exact hinv

theorem decimalsLe_dp (x : BigNum) (n : Nat) :
    decimalsLe x.dp n = x.decimalsAtMost n := by
  cases x <;> simp [decimalsLe, BigNum.dp, BigNum.decimalsAtMost]

theorem gteDust_toFixed (x : BigNum) :
    (x.toFixed STEEM_PEGGED_SYMBOL_PRESICION).gteDust = x.atLeastDust := by
  cases x <;> simp [BigNum.toFixed, BigNum.gteDust, BigNum.atLeastDust, Dec.toFixed,
    STEEM_PEGGED_SYMBOL_PRESICION]

theorem isNaN_eq (x : BigNum) : x.isNaN = !(x != BigNum.nan) := by
  cases x <;> simp [BigNum.isNaN]

theorem validatePlacement_of_invalid (env : Env) (payload : RawOrderPayload) (s : State)
    (h : placementValid env payload = false) :
    ∃ msg, validatePlacement env payload s
      = ({ s with asserts := s.asserts ++ [msg] }, none) := by
  obtain ⟨sym, q, p, e, signed⟩ := payload
  unfold placementValid at h
  unfold validatePlacement
  cases signed with
  | false =>
    exact ⟨"you must use a custom_json signed with your active key", by simp [apiAssert]⟩
  | true =>
    cases p with
    | none => exact ⟨"invalid params", by simp [apiAssert]⟩
    | some price =>
      cases sym with
      | none => exact ⟨"invalid params", by simp [apiAssert]⟩
      | some symbol =>
        cases q with
        | none => exact ⟨"invalid params", by simp [apiAssert]⟩
        | some quantity =>
          by_cases hvalid : (!price.isNaN && symbol != "" && symbol != STEEM_PEGGED_SYMBOL
              && !quantity.isNaN && e.valid) = true
          · cases ht : env.tokens symbol with
            | none =>
              refine ⟨"invalid params", ?_⟩
              simp only [apiAssert, hvalid, ht]
              simp
            | some precision =>
              by_cases hv2 : (price.gt0
                  && decimalsLe price.dp STEEM_PEGGED_SYMBOL_PRESICION
                  && decimalsLe quantity.dp precision) = true
              · by_cases hf : ((price.mul quantity).toFixed
                    STEEM_PEGGED_SYMBOL_PRESICION).gteDust = true
                · exfalso
                  rw [gteDust_toFixed] at hf
                  rw [decimalsLe_dp, decimalsLe_dp] at hv2
                  rw [isNaN_eq, isNaN_eq] at hvalid
                  simp only [Bool.not_not, Bool.and_eq_true, STEEM_PEGGED_SYMBOL_PRESICION]
                    at hvalid hv2
                  obtain ⟨⟨⟨⟨a1, a2⟩, a3⟩, a4⟩, a5⟩ := hvalid
                  obtain ⟨⟨b1, b2⟩, b3⟩ := hv2
                  simp [ht, a1, a2, a3, a4, a5, b1, b2, b3, hf] at h
                · refine ⟨"order cannot be placed as it cannot be filled", ?_⟩
                  simp only [apiAssert, hvalid, ht, hv2, hf]
                  simp
              · refine ⟨"invalid params", ?_⟩
                simp only [apiAssert, hvalid, ht, hv2]
                simp
          · refine ⟨"invalid params", ?_⟩
            simp only [apiAssert, hvalid]
            simp

theorem validatePlacement_of_valid (env : Env) (payload : RawOrderPayload) (s : State)
    (h : placementValid env payload = true) :
    ∃ symbol price quantity precision, payload.symbol = some symbol ∧
      payload.price = some price ∧ payload.quantity = some quantity ∧
      env.tokens symbol = some precision ∧
      validatePlacement env payload s = (s, some ⟨symbol, precision, price, quantity⟩) := by
  obtain ⟨sym, q, p, e, signed⟩ := payload
  unfold placementValid at h
  cases signed with
  | false => simp at h
  | true =>
    cases p with
    | none => simp at h
    | some price =>
      cases sym with
      | none => simp at h
      | some symbol =>
        cases q with
        | none => simp at h
        | some quantity =>
          cases ht : env.tokens symbol with
          | none => simp [ht] at h
          | some precision =>
            refine ⟨symbol, price, quantity, precision, rfl, rfl, rfl, ht, ?_⟩
            simp only [ht, Bool.true_and, Bool.and_eq_true] at h
            obtain ⟨⟨⟨⟨⟨⟨a2, a3⟩, a5⟩, a1⟩, a4⟩, ⟨b1, b2⟩, b3⟩, hf⟩ := h
            have hf2 := gteDust_toFixed (price.mul quantity)
            rw [hf] at hf2
            simp only [STEEM_PEGGED_SYMBOL_PRESICION] at hf2
            have hb2 := decimalsLe_dp price 8
            rw [b2] at hb2
            have hb3 := decimalsLe_dp quantity precision
            rw [b3] at hb3
            unfold validatePlacement
            simp [apiAssert, ht, isNaN_eq, a1, a2, a3, a4, a5, b1, hb2, hb3, hf2,
              STEEM_PEGGED_SYMBOL_PRESICION]

theorem finite_bne_nan (d : Dec) : (BigNum.finite d != BigNum.nan) = true := by
  simp [bne_iff_ne]

theorem placementValid_toRaw (env : Env) (payload : OrderPayload) :
    placementValid env payload.toRaw = orderValid env payload := by
  obtain ⟨sym, q, p, e, signed⟩ := payload
  unfold placementValid orderValid OrderPayload.toRaw
  cases signed with
  | false => rfl
  | true =>
    cases p with
    | none => cases sym <;> cases q <;> rfl
    | some price =>
      cases sym with
      | none => rfl
      | some symbol =>
        cases q with
        | none => rfl
        | some quantity =>
          cases ht : env.tokens symbol with
          | none => simp [ht]
          | some precision =>
            simp [ht, BigNum.gt0, Dec.gt0, BigNum.mul, BigNum.decimalsAtMost,
              BigNum.atLeastDust, finite_bne_nan]

theorem toFixed_same (m : Int) (n : Nat) : Dec.toFixed ⟨m, n⟩ n = m := by
  simp [Dec.toFixed]

theorem validatePlacement_toRaw (env : Env) (payload : OrderPayload) (s : State) :
    validatePlacement env payload.toRaw s
      = ((validateOrder env payload s).1,
          (validateOrder env payload s).2.map
            (fun v => ⟨v.symbol, v.precision, BigNum.finite v.price,
              BigNum.finite v.quantity⟩)) := by
  obtain ⟨sym, q, p, e, signed⟩ := payload
  unfold validatePlacement validateOrder OrderPayload.toRaw
  cases signed with
  | false => rfl
  | true =>
    cases p with
    | none => cases sym <;> cases q <;> rfl
    | some price =>
      cases sym with
      | none => rfl
      | some symbol =>
        cases q with
        | none => rfl
        | some quantity =>
          simp only [Option.map_some', BigNum.isNaN, BigNum.gt0, BigNum.dp, decimalsLe,
            BigNum.mul, BigNum.toFixed, BigNum.gteDust, toFixed_same, Bool.not_false,
            Bool.true_and, Bool.and_true, Bool.not_true, Bool.false_eq_true, if_false]
          by_cases hvalid : (symbol != "" && symbol != STEEM_PEGGED_SYMBOL && e.valid) = true
          · simp only [hvalid, Bool.not_true, Bool.false_eq_true, if_false]
            cases ht : env.tokens symbol with
            | none => rfl
            | some precision =>
              simp only
              split
              · rfl
              · split
                · rfl
                · rfl
          · simp only [Bool.not_eq_true] at hvalid
            simp only [hvalid, Bool.not_false, if_true]
            rfl

/-- C21 (counterexample).  Bob's signed order of `1 ABC` at the price `Infinity`:
`BigNumber` reads the string as a number, it is `> 0`, `dp()` gives `null` and
`null <= 8` holds, and `Infinity * 1` is not below `0.00000001`.  The payload passes every
assertion: `buy` asks for the escrow of `Infinity` peg tokens and `sell` for the escrow of
`1 ABC`, although the price is not a decimal number with at most 8 decimals. -/
theorem infinite_price_passes_validation :
    validatePlacement (exampleEnv "bob" "b1" 100)
      ⟨some "ABC", some (BigNum.finite ⟨1, 0⟩), some (BigNum.infinity false),
        ExpirationField.undefined, true⟩ State.empty
      = (State.empty, some ⟨"ABC", 1, BigNum.infinity false, BigNum.finite ⟨1, 0⟩⟩) ∧
    buyRequest (exampleEnv "bob" "b1" 100)
      ⟨some "ABC", some (BigNum.finite ⟨1, 0⟩), some (BigNum.infinity false),
        ExpirationField.undefined, true⟩ State.empty
      = some ("STEEMP", BigNum.infinity false) ∧
    sellRequest (exampleEnv "bob" "b1" 100)
      ⟨some "ABC", some (BigNum.finite ⟨1, 0⟩), some (BigNum.infinity false),
        ExpirationField.undefined, true⟩ State.empty
      = some ("ABC", BigNum.finite ⟨1, 0⟩) ∧
    ¬ ∃ p : OrderPayload,
      (⟨some "ABC", some (BigNum.finite ⟨1, 0⟩), some (BigNum.infinity false),
        ExpirationField.undefined, true⟩ : RawOrderPayload) = p.toRaw := by
  refine ⟨by decide!, by decide!, by decide!, ?_⟩
  rintro ⟨p, hp⟩
  obtain ⟨sym, q, price, e, signed⟩ := p
  simp only [OrderPayload.toRaw, RawOrderPayload.mk.injEq] at hp
  obtain ⟨_, _, h, _⟩ := hp
  cases price with
  | none => cases h
  | some d => cases h

/-- C21 (amended).  On any payload, `Infinity` and `-Infinity` counting as numbers:
when one of the conditions of `placementValid` fails, the validation of `buy` and `sell`
records one assertion message and nothing else, and neither action asks for an escrow;
when all of them hold, it records nothing, `buy` asks for the escrow of
`round8(price * quantity)` peg tokens and `sell` for the escrow of `quantity` of the
symbol.  On a payload whose `price` and `quantity` are decimal numbers the conditions are
those of `orderValid`, the ones the specification lists, and the validation is the one
of the actions `buy` and `sell`: when a condition fails they record one assertion message
and do nothing else (no escrow request, no transfer, `buyBook`, `sellBook`,
`tradesHistory` and `metrics` unchanged); when all hold, `buy` requests the escrow of
`round8(price * quantity)` peg tokens from the sender and `sell` the escrow of `quantity`
of the symbol. -/
theorem order_placement_is_validated (env : Env) (payload : RawOrderPayload) (s : State) :
    (placementValid env payload = false →
      (∃ msg, validatePlacement env payload s
        = ({ s with asserts := s.asserts ++ [msg] }, none)) ∧
      buyRequest env payload s = none ∧ sellRequest env payload s = none) ∧
    (placementValid env payload = true →
      ∃ symbol price quantity precision, payload.symbol = some symbol ∧
        payload.price = some price ∧ payload.quantity = some quantity ∧
        env.tokens symbol = some precision ∧
        validatePlacement env payload s
          = (s, some ⟨symbol, precision, price, quantity⟩) ∧
        buyRequest env payload s = some (STEEM_PEGGED_SYMBOL,
          (price.mul quantity).toFixed STEEM_PEGGED_SYMBOL_PRESICION) ∧
        sellRequest env payload s = some (symbol, quantity)) ∧
    (∀ p : OrderPayload, payload = p.toRaw →
      placementValid env payload = orderValid env p ∧
      validatePlacement env payload s
        = ((validateOrder env p s).1,
            (validateOrder env p s).2.map
              (fun v => ⟨v.symbol, v.precision, BigNum.finite v.price,
                BigNum.finite v.quantity⟩)) ∧
      (orderValid env p = false →
        (∃ msg, buy env p s = { s with asserts := s.asserts ++ [msg] }) ∧
        (∃ msg, sell env p s = { s with asserts := s.asserts ++ [msg] }) ∧
        (buy env p s).escrows = s.escrows ∧ (buy env p s).transfers = s.transfers ∧
        (buy env p s).buyBook = s.buyBook ∧ (buy env p s).sellBook = s.sellBook ∧
        (buy env p s).tradesHistory = s.tradesHistory ∧
        (buy env p s).metrics = s.metrics ∧
        (sell env p s).escrows = s.escrows ∧
        (sell env p s).transfers = s.transfers ∧
        (sell env p s).buyBook = s.buyBook ∧ (sell env p s).sellBook = s.sellBook ∧
        (sell env p s).tradesHistory = s.tradesHistory ∧
        (sell env p s).metrics = s.metrics) ∧
      (orderValid env p = true →
        ∃ symbol price quantity precision, p.symbol = some symbol ∧
          p.price = some price ∧ p.quantity = some quantity ∧
          env.tokens symbol = some precision ∧
          (buy env p s).escrows = s.escrows ++
            [⟨env.sender, STEEM_PEGGED_SYMBOL,
              (price.mul quantity).toFixed STEEM_PEGGED_SYMBOL_PRESICION⟩] ∧
          (sell env p s).escrows = s.escrows ++
            [⟨env.sender, symbol, quantity.toFixed precision⟩])) := by
  refine ⟨?_, ?_, ?_⟩
  · intro h
    obtain ⟨msg, hv⟩ := validatePlacement_of_invalid env payload s h
    refine ⟨⟨msg, hv⟩, ?_, ?_⟩
    · unfold buyRequest
      rw [hv]
      rfl
    · unfold sellRequest
      rw [hv]
      rfl
  · intro h
    obtain ⟨symbol, price, quantity, precision, h1, h2, h3, h4, hv⟩ :=
      validatePlacement_of_valid env payload s h
    refine ⟨symbol, price, quantity, precision, h1, h2, h3, h4, hv, ?_, ?_⟩
    · unfold buyRequest
      rw [hv]
      rfl
    · unfold sellRequest
      rw [hv]
      rfl
  · intro p hp
    subst hp
    refine ⟨placementValid_toRaw env p, validatePlacement_toRaw env p s, ?_, ?_⟩
    · intro h
      obtain ⟨msg, hv⟩ := validateOrder_of_invalid env p s h
      have hb : buy env p s = { s with asserts := s.asserts ++ [msg] } := by
        unfold buy
        rw [hv]
      have hs : sell env p s = { s with asserts := s.asserts ++ [msg] } := by
        unfold sell
        rw [hv]
      refine ⟨⟨msg, hb⟩, ⟨msg, hs⟩, ?_⟩
      rw [hb, hs]
      exact ⟨rfl, rfl, rfl, rfl, rfl, rfl, rfl, rfl, rfl, rfl, rfl, rfl⟩
    · intro h
      obtain ⟨symbol, price, quantity, precision, h1, h2, h3, h4, hv⟩ :=
        validateOrder_of_valid env p s h
      refine ⟨symbol, price, quantity, precision, h1, h2, h3, h4, ?_, ?_⟩
      · unfold buy
        rw [hv]
        simp only
        split
        · rw [findMatchingSellOrders_escrows]
          rfl
        · rfl
      · unfold sell
        rw [hv]
        simp only
        split
        · rw [findMatchingBuyOrders_escrows]
          rfl
        · rfl

/-- C21 at three payloads on the empty tables: Bob's buy of `10 ABC` at `2.0` requests
the escrow of `20` peg tokens; the same buy unsigned records the message of the first
assertion and requests nothing; and an order whose quantity is `-Infinity` requests
nothing. -/
theorem order_placement_is_validated_witness :
    orderValid (exampleEnv "bob" "b1" 100) (limitPayload ⟨10, 0⟩ ⟨2, 0⟩) = true ∧
    (buy (exampleEnv "bob" "b1" 100) (limitPayload ⟨10, 0⟩ ⟨2, 0⟩) State.empty).escrows
      = [⟨"bob", "STEEMP", 2000000000⟩] ∧
    orderValid (exampleEnv "bob" "b1" 100)
      ⟨some "ABC", some ⟨10, 0⟩, some ⟨2, 0⟩, ExpirationField.undefined, false⟩ = false ∧
    (buy (exampleEnv "bob" "b1" 100)
      ⟨some "ABC", some ⟨10, 0⟩, some ⟨2, 0⟩, ExpirationField.undefined, false⟩
      State.empty).escrows = [] ∧
    (buy (exampleEnv "bob" "b1" 100)
      ⟨some "ABC", some ⟨10, 0⟩, some ⟨2, 0⟩, ExpirationField.undefined, false⟩
      State.empty).buyBook = [] ∧
    placementValid (exampleEnv "bob" "b1" 100)
      ⟨some "ABC", some (BigNum.infinity true), some (BigNum.finite ⟨2, 0⟩),
        ExpirationField.undefined, true⟩ = false ∧
    buyRequest (exampleEnv "bob" "b1" 100)
      ⟨some "ABC", some (BigNum.infinity true), some (BigNum.finite ⟨2, 0⟩),
        ExpirationField.undefined, true⟩ State.empty = none := by
  have h := ((order_placement_is_validated (exampleEnv "bob" "b1" 100)
    (OrderPayload.toRaw
      ⟨some "ABC", some ⟨10, 0⟩, some ⟨2, 0⟩, ExpirationField.undefined, false⟩)
    State.empty).2.2 _ rfl).2.2.1 (by decide)
  have h2 := ((order_placement_is_validated (exampleEnv "bob" "b1" 100)
    ⟨some "ABC", some (BigNum.infinity true), some (BigNum.finite ⟨2, 0⟩),
      ExpirationField.undefined, true⟩ State.empty).1 (by decide)).2.1
  exact ⟨by decide, by decide!, by decide, h.2.2.1, h.2.2.2.2.1, by decide, h2⟩

theorem validateOrder_onlyAsserts (env : Env) (payload : OrderPayload) (s : State) :
    OnlyAsserts s (validateOrder env payload s).1 := by
  cases h : orderValid env payload with
  | false =>
    obtain ⟨msg, hv⟩ := validateOrder_of_invalid env payload s h
    rw [hv]
    exact ⟨[msg], rfl⟩
  | true =>
    obtain ⟨_, _, _, _, _, _, _, _, hv⟩ := validateOrder_of_valid env payload s h
    rw [hv]
    exact ⟨[], by simp⟩

theorem validateMarket_onlyAsserts (env : Env) (payload : MarketPayload) (f : Nat → Nat)
    (s : State) : OnlyAsserts s (validateMarket env payload f s).1 := by
  obtain ⟨sym, q, signed⟩ := payload
  unfold validateMarket
  cases signed with
  | false => exact ⟨[_], by simp [apiAssert]; rfl⟩
  | true =>
    cases sym with
    | none => exact ⟨[], by simp [apiAssert]⟩
    | some symbol =>
      cases q with
      | none => exact ⟨[], by simp [apiAssert]⟩
      | some quantity =>
        simp only [apiAssert_true, Bool.not_true, Bool.false_eq_true, if_false]
        split
        · cases ht : env.tokens symbol with
          | none => exact ⟨["invalid params"], by simp [apiAssert]⟩
          | some precision =>
            simp only
            by_cases hd : countDecimals quantity ≤ f precision
            · exact ⟨[], by simp [apiAssert, hd]⟩
            · exact ⟨["invalid params"], by simp [apiAssert, hd]⟩
        · exact ⟨[], by simp⟩

theorem escrowOk_eq_false_iff (env : Env) (symbol : String) (quantity : Int) :
    env.escrowOk symbol quantity = false ↔
      EscrowRefused (env.transferToContract symbol quantity) env.sender symbol quantity := by
  unfold Env.escrowOk EscrowRefused
  cases herr : (env.transferToContract symbol quantity).errors with
  | true => simp
  | false =>
    cases hev : (env.transferToContract symbol quantity).events with
    | none => simp
    | some events =>
      simp only [Bool.not_false, Bool.true_and, Bool.false_eq_true, false_or, Option.some.injEq,
        forall_eq', ← Bool.not_eq_true, Option.isSome_iff_exists, not_exists]
      constructor
      · intro h el hel hm
        obtain ⟨h1, h2, h3, h4, h5, h6⟩ := hm
        have hp : (el.contract == "tokens" && el.event == "transferToContract" &&
            el.fromAccount == env.sender && el.toAccount == CONTRACT_NAME &&
            el.quantity == quantity && el.symbol == symbol) = true := by
          simp [h1, h2, h3, h4, h5, h6, CONTRACT_NAME]
        cases hf : events.find? (fun el => el.contract == "tokens" &&
            el.event == "transferToContract" && el.fromAccount == env.sender &&
            el.toAccount == CONTRACT_NAME && el.quantity == quantity &&
            el.symbol == symbol) with
        | none => exact absurd hp (by simpa using List.find?_eq_none.1 hf el hel)
        | some x => exact h x hf
      · intro h x hf
        have hx := List.find?_some hf
        have hmem := List.mem_of_find?_eq_some hf
        simp only [Bool.and_eq_true, beq_iff_eq, CONTRACT_NAME] at hx
        obtain ⟨⟨⟨⟨⟨h1, h2⟩, h3⟩, h4⟩, h5⟩, h6⟩ := hx
        exact h x hmem ⟨h1, h2, h3, h4, h6, h5⟩

/-- C22 (the escrow is trusted only on a matching event).  Let a `buy`, a `sell`, a
`marketBuy` or a `marketSell` ask `transferToContract` for `quantity` of `symbol`.  When
the answer carries errors, or has no event with contract `tokens`, event
`transferToContract`, `from` the sender, `to` `market` and that symbol and quantity, the
test of the action on the answer fails and the action stops there: the request was
made, no order is inserted, no sweep or match is run and no transfer is issued; the four
tables, the transfers, the fills and the `_id` counter are as before. -/
theorem failed_escrow_changes_no_table (env : Env) (a : Action) (s : State)
    (symbol : String) (quantity : Int)
    (hreq : escrowRequest env a s = some (symbol, quantity))
    (href : EscrowRefused (env.transferToContract symbol quantity) env.sender symbol
      quantity) :
    env.escrowOk symbol quantity = false ∧
    (step env a s).escrows = s.escrows ++ [⟨env.sender, symbol, quantity⟩] ∧
    (step env a s).buyBook = s.buyBook ∧ (step env a s).sellBook = s.sellBook ∧
    (step env a s).tradesHistory = s.tradesHistory ∧ (step env a s).metrics = s.metrics ∧
    (step env a s).transfers = s.transfers ∧ (step env a s).fills = s.fills ∧
    (step env a s).nextId = s.nextId := by
  have hesc := (escrowOk_eq_false_iff env symbol quantity).2 href
  refine ⟨hesc, ?_⟩
  cases a with
  | buy p =>
    obtain ⟨msgs, hO⟩ := validateOrder_onlyAsserts env p s
    simp only [escrowRequest] at hreq
    unfold step buy
    cases hv : validateOrder env p s with
    | mk s1 ov =>
      rw [hv] at hO
      simp only [hv] at hreq
      simp only at hO
      subst hO
      cases ov with
      | none => simp at hreq
      | some v =>
        simp only [Option.some.injEq, Prod.mk.injEq] at hreq
        obtain ⟨h1, h2⟩ := hreq
        subst h1 h2
        simp [hv, hesc, requestEscrow]
  | sell p =>
    obtain ⟨msgs, hO⟩ := validateOrder_onlyAsserts env p s
    simp only [escrowRequest] at hreq
    unfold step sell
    cases hv : validateOrder env p s with
    | mk s1 ov =>
      rw [hv] at hO
      simp only [hv] at hreq
      simp only at hO
      subst hO
      cases ov with
      | none => simp at hreq
      | some v =>
        simp only [Option.some.injEq, Prod.mk.injEq] at hreq
        obtain ⟨h1, h2⟩ := hreq
        subst h1 h2
        simp [hv, hesc, requestEscrow]
  | marketBuy p =>
    obtain ⟨msgs, hO⟩ := validateMarket_onlyAsserts env p
      (fun _ => STEEM_PEGGED_SYMBOL_PRESICION) s
    simp only [escrowRequest] at hreq
    unfold step marketBuy
    cases hv : validateMarket env p (fun _ => STEEM_PEGGED_SYMBOL_PRESICION) s with
    | mk s1 ov =>
      rw [hv] at hO
      simp only [hv] at hreq
      simp only at hO
      subst hO
      cases ov with
      | none => simp at hreq
      | some v =>
        simp only [Option.some.injEq, Prod.mk.injEq] at hreq
        obtain ⟨h1, h2⟩ := hreq
        subst h1 h2
        simp [hv, hesc, requestEscrow]
  | marketSell p =>
    obtain ⟨msgs, hO⟩ := validateMarket_onlyAsserts env p (fun precision => precision) s
    simp only [escrowRequest] at hreq
    unfold step marketSell
    cases hv : validateMarket env p (fun precision => precision) s with
    | mk s1 ov =>
      rw [hv] at hO
      simp only [hv] at hreq
      simp only at hO
      subst hO
      cases ov with
      | none => simp at hreq
      | some v =>
        simp only [Option.some.injEq, Prod.mk.injEq] at hreq
        obtain ⟨h1, h2⟩ := hreq
        subst h1 h2
        simp [hv, hesc, requestEscrow]
  | cancel p => simp [escrowRequest] at hreq

/-- C22 at Bob's buy of `10 ABC` at `2.0` against Alice's resting sell order, when the
`tokens` contract answers the request for `20` peg tokens without error but with the
event of a transfer of one unit less: the event does not match, the escrow was requested,
and the books and the transfers are as before. -/
theorem failed_escrow_changes_no_table_witness :
    escrowRequest ⟨"bob", "b1", 101, exampleTokens, transferShort "bob", DAY, DAY⟩
      (Action.buy (limitPayload ⟨10, 0⟩ ⟨2, 0⟩)) restingSellFour
      = some ("STEEMP", 2000000000) ∧
    (transferShort "bob" "STEEMP" 2000000000).errors = false ∧
    (step ⟨"bob", "b1", 101, exampleTokens, transferShort "bob", DAY, DAY⟩
      (Action.buy (limitPayload ⟨10, 0⟩ ⟨2, 0⟩)) restingSellFour).escrows
      = restingSellFour.escrows ++ [⟨"bob", "STEEMP", 2000000000⟩] ∧
    (step ⟨"bob", "b1", 101, exampleTokens, transferShort "bob", DAY, DAY⟩
      (Action.buy (limitPayload ⟨10, 0⟩ ⟨2, 0⟩)) restingSellFour).buyBook
      = restingSellFour.buyBook ∧
    (step ⟨"bob", "b1", 101, exampleTokens, transferShort "bob", DAY, DAY⟩
      (Action.buy (limitPayload ⟨10, 0⟩ ⟨2, 0⟩)) restingSellFour).sellBook
      = restingSellFour.sellBook ∧
    (step ⟨"bob", "b1", 101, exampleTokens, transferShort "bob", DAY, DAY⟩
      (Action.buy (limitPayload ⟨10, 0⟩ ⟨2, 0⟩)) restingSellFour).transfers
      = restingSellFour.transfers := by
  have hreq : escrowRequest ⟨"bob", "b1", 101, exampleTokens, transferShort "bob", DAY, DAY⟩
      (Action.buy (limitPayload ⟨10, 0⟩ ⟨2, 0⟩)) restingSellFour
      = some ("STEEMP", 2000000000) := by decide!
  have h := failed_escrow_changes_no_table
    ⟨"bob", "b1", 101, exampleTokens, transferShort "bob", DAY, DAY⟩
    (Action.buy (limitPayload ⟨10, 0⟩ ⟨2, 0⟩)) restingSellFour "STEEMP" 2000000000 hreq
    (Or.inr (by
      intro events he el hel
      simp only [transferShort, Option.some.injEq] at he
      subst he
      simp only [List.mem_singleton] at hel
      subst hel
      decide))
  exact ⟨hreq, rfl, h.2.1, h.2.2.1, h.2.2.2.1, h.2.2.2.2.2.2.1⟩

theorem matchSellOrder_order (env : Env) (prec : Nat) (m : Taker) (o : Order) :
    SameOrder (matchSellOrder env prec m o).order m.order := by
  unfold matchSellOrder buyFilledWhole sellOrderConsumed
  simp only
  repeat' split
  all_goals exact ⟨rfl, rfl, rfl, rfl, rfl, rfl, rfl⟩

theorem matchBuyOrder_order (env : Env) (prec : Nat) (m : Taker) (o : Order) :
    SameOrder (matchBuyOrder env prec m o).order m.order := by
  unfold matchBuyOrder sellFilledWhole buyOrderConsumed
  simp only
  repeat' split
  all_goals exact ⟨rfl, rfl, rfl, rfl, rfl, rfl, rfl⟩

theorem mem_updateOrder_book (l : List Order) (o r : Order)
    (h : r ∈ l.map (fun x => if x.id = o.id then o else x)) : r ∈ l ∨ r = o := by
  obtain ⟨x, hx, he⟩ := List.mem_map.1 h
  by_cases hid : x.id = o.id
  · rw [if_pos hid] at he
    exact Or.inr he.symm
  · rw [if_neg hid] at he
    exact Or.inl (he ▸ hx)

theorem findMatchingSellOrders_own_rows (env : Env) (order : Order) (prec : Nat) (s : State) :
    ∀ r ∈ (findMatchingSellOrders env order prec s).buyBook,
      r ∈ s.buyBook ∨ SameOrder r order := by
  have hinv := findMatchingSellOrdersLoop_inv env order prec s
    (fun m => (∀ r ∈ m.st.buyBook, r ∈ s.buyBook) ∧ SameOrder m.order order)
    (fun m o _ hi => ⟨fun r hr => hi.1 r ((matchSellOrder_rows env prec m o).2 r hr),
      sameOrder_trans (matchSellOrder_order env prec m o) hi.2⟩)
    ⟨fun r hr => by
      rw [removeExpiredOrders_sellBook_buyBook] at hr
      exact hr, sameOrder_refl order⟩
  unfold findMatchingSellOrders
  simp only [finishMetrics_buyBook]
  generalize findMatchingSellOrdersLoop env order prec s = m at hinv ⊢
  intro r hr
  split at hr
  · rcases mem_updateOrder_book _ _ _ hr with h | h
    · exact Or.inl (hinv.1 r h)
    · exact Or.inr (h ▸ hinv.2)
  · exact Or.inl (hinv.1 r hr)

theorem findMatchingBuyOrders_own_rows (env : Env) (order : Order) (prec : Nat) (s : State) :
    ∀ r ∈ (findMatchingBuyOrders env order prec s).sellBook,
      r ∈ s.sellBook ∨ SameOrder r order := by
  have hinv := findMatchingBuyOrdersLoop_inv env order prec s
    (fun m => (∀ r ∈ m.st.sellBook, r ∈ s.sellBook) ∧ SameOrder m.order order)
    (fun m o _ hi => ⟨fun r hr => hi.1 r ((matchBuyOrder_rows env prec m o).2 r hr),
      sameOrder_trans (matchBuyOrder_order env prec m o) hi.2⟩)
    ⟨fun r hr => by
      rw [removeExpiredOrders_buyBook_sellBook] at hr
      exact hr, sameOrder_refl order⟩
  unfold findMatchingBuyOrders
  simp only [finishMetrics_sellBook]
  generalize findMatchingBuyOrdersLoop env order prec s = m at hinv ⊢
  intro r hr
  split at hr
  · rcases mem_updateOrder_book _ _ _ hr with h | h
    · exact Or.inl (hinv.1 r h)
    · exact Or.inr (h ▸ hinv.2)
  · exact Or.inl (hinv.1 r hr)

/-- C23 (expiration defaulted and capped at 30 days): for a `buy` or a `sell` at block
time `t` that passes its validation and whose escrow succeeded, the order inserted (the
one handed to the matching pass, with the next `_id`) has `expiration = t + 2592000`
when the payload has no expiration or one above `2592000`, and `t + expiration`
otherwise, so `t < expiration <= t + 2592000`; and every row of the sender's side of
the book afterwards that was not there before carries that `_id` and that expiration. -/
theorem placed_order_expires_within_thirty_days (env : Env) (payload : OrderPayload)
    (s s1 : State) (v : ValidOrder)
    (hv : validateOrder env payload s = (s1, some v)) :
    (payload.expiration = ExpirationField.undefined →
      orderExpiration env.timestampSec payload.expiration = env.timestampSec + 2592000) ∧
    (∀ n, payload.expiration = ExpirationField.int n →
      orderExpiration env.timestampSec payload.expiration
        = if 2592000 < n then env.timestampSec + 2592000 else env.timestampSec + n) ∧
    env.timestampSec < orderExpiration env.timestampSec payload.expiration ∧
    orderExpiration env.timestampSec payload.expiration ≤ env.timestampSec + 2592000 ∧
    (env.escrowOk STEEM_PEGGED_SYMBOL
        ((v.price.mul v.quantity).toFixed STEEM_PEGGED_SYMBOL_PRESICION) = true →
      ∃ row st, row.id = s.nextId ∧
        row.expiration = orderExpiration env.timestampSec payload.expiration ∧
        st.buyBook = s.buyBook ++ [row] ∧
        buy env payload s = findMatchingSellOrders env row v.precision st) ∧
    (env.escrowOk v.symbol (v.quantity.toFixed v.precision) = true →
      ∃ row st, row.id = s.nextId ∧
        row.expiration = orderExpiration env.timestampSec payload.expiration ∧
        st.sellBook = s.sellBook ++ [row] ∧
        sell env payload s = findMatchingBuyOrders env row v.precision st) ∧
    (∀ r ∈ (buy env payload s).buyBook, r ∈ s.buyBook ∨
      (r.id = s.nextId ∧
        r.expiration = orderExpiration env.timestampSec payload.expiration)) ∧
    (∀ r ∈ (sell env payload s).sellBook, r ∈ s.sellBook ∨
      (r.id = s.nextId ∧
        r.expiration = orderExpiration env.timestampSec payload.expiration)) := by
  obtain ⟨hs1, _, _, _, _, _, _, hexp, _⟩ := validateOrder_some hv
  rw [hs1] at hv
  have hbuy : env.escrowOk STEEM_PEGGED_SYMBOL
        ((v.price.mul v.quantity).toFixed STEEM_PEGGED_SYMBOL_PRESICION) = true →
      buy env payload s = findMatchingSellOrders env
      (insertOrder (requestEscrow env s STEEM_PEGGED_SYMBOL
        ((v.price.mul v.quantity).toFixed STEEM_PEGGED_SYMBOL_PRESICION)) Table.buyBook
        (newOrder env payload.expiration v
          ((v.price.mul v.quantity).toFixed STEEM_PEGGED_SYMBOL_PRESICION))).2 v.precision
      (insertOrder (requestEscrow env s STEEM_PEGGED_SYMBOL
        ((v.price.mul v.quantity).toFixed STEEM_PEGGED_SYMBOL_PRESICION)) Table.buyBook
        (newOrder env payload.expiration v
          ((v.price.mul v.quantity).toFixed STEEM_PEGGED_SYMBOL_PRESICION))).1 := by
    intro hok
    unfold buy
    rw [hv]
    simp only [hok, if_true]
  have hsell : env.escrowOk v.symbol (v.quantity.toFixed v.precision) = true →
      sell env payload s = findMatchingBuyOrders env
      (insertOrder (requestEscrow env s v.symbol (v.quantity.toFixed v.precision))
        Table.sellBook (newOrder env payload.expiration v 0)).2 v.precision
      (insertOrder (requestEscrow env s v.symbol (v.quantity.toFixed v.precision))
        Table.sellBook (newOrder env payload.expiration v 0)).1 := by
    intro hok
    unfold sell
    rw [hv]
    simp only [hok, if_true]
  have hb : env.escrowOk STEEM_PEGGED_SYMBOL
        ((v.price.mul v.quantity).toFixed STEEM_PEGGED_SYMBOL_PRESICION) = true →
      ∃ row st, row.id = s.nextId ∧
      row.expiration = orderExpiration env.timestampSec payload.expiration ∧
      st.buyBook = s.buyBook ++ [row] ∧
      buy env payload s = findMatchingSellOrders env row v.precision st :=
    fun hok => ⟨_, _, rfl, rfl, rfl, hbuy hok⟩
  have hsl : env.escrowOk v.symbol (v.quantity.toFixed v.precision) = true →
      ∃ row st, row.id = s.nextId ∧
      row.expiration = orderExpiration env.timestampSec payload.expiration ∧
      st.sellBook = s.sellBook ++ [row] ∧
      sell env payload s = findMatchingBuyOrders env row v.precision st :=
    fun hok => ⟨_, _, rfl, rfl, rfl, hsell hok⟩
  refine ⟨?_, ?_, ?_, ?_, hb, hsl, ?_, ?_⟩
  · intro h
    rw [h]
    rfl
  · intro n h
    rw [h]
    simp only [orderExpiration, gt_iff_lt]
  · cases he : payload.expiration with
    | undefined => simp [orderExpiration]
    | invalid => simp [he, ExpirationField.valid] at hexp
    | int n =>
      have hn : 0 < n := by simpa [he, ExpirationField.valid] using hexp
      simp only [orderExpiration]
      split <;> omega
  · cases he : payload.expiration with
    | undefined => simp [orderExpiration]
    | invalid => simp [he, ExpirationField.valid] at hexp
    | int n =>
      simp only [orderExpiration]
      split <;> omega
  · intro r hr
    cases hok : env.escrowOk STEEM_PEGGED_SYMBOL
        ((v.price.mul v.quantity).toFixed STEEM_PEGGED_SYMBOL_PRESICION) with
    | false =>
      left
      unfold buy at hr
      rw [hv] at hr
      simp only [hok, Bool.false_eq_true, if_false] at hr
      exact hr
    | true =>
    obtain ⟨row, st, hid, hrow, hbook, hrun⟩ := hb hok
    rw [hrun] at hr
    rcases findMatchingSellOrders_own_rows _ _ _ _ r hr with h | h
    · rw [hbook] at h
      rcases List.mem_append.1 h with h1 | h1
      · exact Or.inl h1
      · rw [List.mem_singleton] at h1
        rw [h1]
        exact Or.inr ⟨hid, hrow⟩
    · exact Or.inr ⟨h.1.trans hid, h.2.2.2.2.2.2.trans hrow⟩
  · intro r hr
    cases hok : env.escrowOk v.symbol (v.quantity.toFixed v.precision) with
    | false =>
      left
      unfold sell at hr
      rw [hv] at hr
      simp only [hok, Bool.false_eq_true, if_false] at hr
      exact hr
    | true =>
    obtain ⟨row, st, hid, hrow, hbook, hrun⟩ := hsl hok
    rw [hrun] at hr
    rcases findMatchingBuyOrders_own_rows _ _ _ _ r hr with h | h
    · rw [hbook] at h
      rcases List.mem_append.1 h with h1 | h1
      · exact Or.inl h1
      · rw [List.mem_singleton] at h1
        rw [h1]
        exact Or.inr ⟨hid, hrow⟩
    · exact Or.inr ⟨h.1.trans hid, h.2.2.2.2.2.2.trans hrow⟩

/-- C23 at Bob's buy of `1 ABC` at `2.0` with an expiration of 10 seconds, at time 100
on the empty tables: the order rests with expiration `110`. -/
theorem placed_order_expires_within_thirty_days_witness :
    (100 : Int) < orderExpiration 100 (ExpirationField.int 10) ∧
    orderExpiration 100 (ExpirationField.int 10) ≤ 100 + 2592000 ∧
    (buy (twoEnv "bob" "b1" 100)
      (orderPayload "ABC" ⟨1, 0⟩ ⟨2, 0⟩ (ExpirationField.int 10)) State.empty).buyBook.map
      (fun o => (o.id, o.expiration)) = [(0, 110)] := by
  have h := placed_order_expires_within_thirty_days (twoEnv "bob" "b1" 100)
    (orderPayload "ABC" ⟨1, 0⟩ ⟨2, 0⟩ (ExpirationField.int 10)) State.empty State.empty
    ⟨"ABC", 1, ⟨2, 0⟩, ⟨1, 0⟩⟩ (by decide!)
  exact ⟨h.2.2.1, h.2.2.2.1, by decide!⟩

theorem updateVolumeMetric_found (env : Env) (symbol : String) (q : Int) (add : Bool)
    (s : State) :
    (updateVolumeMetric env symbol q add s).metrics.find? (fun m => m.symbol == symbol)
      = some { (getMetric s symbol).2 with
          volume := max 0
            (if add then
              (if (getMetric s symbol).2.volumeExpiration < env.timestampSec then 0
               else (getMetric s symbol).2.volume) + q
             else (getMetric s symbol).2.volume - q),
          volumeExpiration :=
            if add then env.timestampSec + env.dayAhead
            else (getMetric s symbol).2.volumeExpiration } := by
  obtain ⟨hf, hsym⟩ := getMetric_found s symbol
  unfold updateVolumeMetric
  simp only
  cases add with
  | true =>
    simp only [if_true]
    by_cases hexp : (getMetric s symbol).2.volumeExpiration < env.timestampSec
    · simp only [hexp, if_true]
      by_cases hneg : 0 + q < 0
      · rw [if_pos hneg, max_eq_left (le_of_lt hneg)]
        exact updateMetric_found _ symbol _ _ hf rfl hsym
      · rw [if_neg hneg, max_eq_right (not_lt.1 hneg)]
        exact updateMetric_found _ symbol _ _ hf rfl hsym
    · simp only [hexp, if_false]
      by_cases hneg : (getMetric s symbol).2.volume + q < 0
      · rw [if_pos hneg, max_eq_left (le_of_lt hneg)]
        exact updateMetric_found _ symbol _ _ hf rfl hsym
      · rw [if_neg hneg, max_eq_right (not_lt.1 hneg)]
        exact updateMetric_found _ symbol _ _ hf rfl hsym
  | false =>
    simp only [Bool.false_eq_true, if_false]
    by_cases hneg : (getMetric s symbol).2.volume - q < 0
    · rw [if_pos hneg, max_eq_left (le_of_lt hneg)]
      exact updateMetric_found _ symbol _ _ hf rfl hsym
    · rw [if_neg hneg, max_eq_right (not_lt.1 hneg)]
      exact updateMetric_found _ symbol _ _ hf rfl hsym

/-- C29 (counterexample).  After Bob's buy against Alice's sell order at time `101` on a
host in UTC (`exampleEnv`, where the calendar day after the block time lasts `86400`
seconds) the volume of `ABC` is `4.0` and its window ends at time `86501`.  At time
`200000` the window has expired; `updateVolumeMetric('ABC', '1.0', false)` then leaves
`3.0`, not `max(0, 0 - 1.0) = 0`. -/
theorem expired_window_is_kept_when_subtracting :
    (run buyAboveAsk State.empty).metrics.map
      (fun m => (m.symbol, m.volume, m.volumeExpiration)) = [("ABC", 400000000, 86501)] ∧
    (exampleEnv "bob" "x" 200000).timestampSec = 200000 ∧
    (updateVolumeMetric (exampleEnv "bob" "x" 200000) "ABC" 100000000 false
      (run buyAboveAsk State.empty)).metrics.map
      (fun m => (m.symbol, m.volume, m.volumeExpiration)) = [("ABC", 300000000, 86501)] := by
  decide!

/-- C29 (amended).  `updateVolumeMetric(symbol, amount, add)` writes the metric row of
the symbol (the default row when there was none) with: for `add = true`, the volume
reset to zero when `volumeExpiration` is before the block time, then `amount` added, and
the window set to end at the block date moved one calendar day ahead by
`setDate(getDate() + 1)`, `dayAhead` seconds after the block time (`86400` on a host in
UTC); for `add = false`, `amount` subtracted from the stored volume whether or not the window has expired, the window
left as it was.  In both cases a negative result is replaced by zero, so the volume
written is never negative; no other field of the row and no other table is written. -/
theorem volume_window_is_reset_only_when_adding (env : Env) (symbol : String) (q : Int)
    (add : Bool) (s : State) :
    ∃ m, (updateVolumeMetric env symbol q add s).metrics.find? (fun m => m.symbol == symbol)
        = some m ∧
      0 ≤ m.volume ∧
      (add = true → (getMetric s symbol).2.volumeExpiration < env.timestampSec →
        m.volume = max 0 (0 + q)) ∧
      (add = true → ¬ (getMetric s symbol).2.volumeExpiration < env.timestampSec →
        m.volume = max 0 ((getMetric s symbol).2.volume + q)) ∧
      (add = true → m.volumeExpiration = env.timestampSec + env.dayAhead) ∧
      (add = false → m.volume = max 0 ((getMetric s symbol).2.volume - q)) ∧
      (add = false → m.volumeExpiration = (getMetric s symbol).2.volumeExpiration) ∧
      m = { (getMetric s symbol).2 with
              volume := (m.volume), volumeExpiration := (m.volumeExpiration) } ∧
      SameButMetrics s (updateVolumeMetric env symbol q add s) := by
  refine ⟨_, updateVolumeMetric_found env symbol q add s, le_max_left _ _, ?_, ?_, ?_, ?_, ?_,
    rfl, updateVolumeMetric_same env symbol q add s⟩
  · intro ha hexp
    simp only [ha, if_true, hexp]
  · intro ha hexp
    simp only [ha, if_true, hexp, if_false]
  · intro ha
    simp only [ha, if_true]
  · intro ha
    simp only [ha, Bool.false_eq_true, if_false]
  · intro ha
    simp only [ha, Bool.false_eq_true, if_false]

theorem foldl_filter_trade_ids (ds : List Trade) :
    ∀ l : List Trade,
      ds.foldl (fun acc t => acc.filter (fun r => r.id != t.id)) l
        = l.filter (fun r => !(ds.any (fun o => o.id == r.id))) := by
  induction ds with
  | nil => intro l; simp
  | cons d rest ih =>
    intro l
    simp only [List.foldl_cons]
    rw [ih, List.filter_filter]
    apply List.filter_congr
    intro r _
    have e : (r.id != d.id) = !(d.id == r.id) := by
      rw [bne, BEq.comm]
    simp only [List.any_cons, Bool.not_or, e]
    exact Bool.and_comm _ _

theorem any_trade_id_iff_mem (l ds : List Trade) (hids : (l.map (fun o => o.id)).Nodup)
    (hsub : ∀ o ∈ ds, o ∈ l) (r : Trade) (hr : r ∈ l) :
    ds.any (fun o => o.id == r.id) = true ↔ r ∈ ds := by
  rw [List.any_eq_true]
  constructor
  · rintro ⟨o, ho, he⟩
    have : o = r := List.inj_on_of_nodup_map hids (hsub o ho) hr (beq_iff_eq.1 he)
    rw [← this]
    exact ho
  · intro h
    exact ⟨r, h, by simp⟩

theorem purge_page_old (q : Trade → Bool) (l : List Trade)
    (hids : (l.map (fun o => o.id)).Nodup) (n : Nat) :
    (l.filter (fun r => !(((l.filter q).take n).any (fun o => o.id == r.id)))).filter q
      = (l.filter q).drop n := by
  have hsub : ∀ o ∈ (l.filter q).take n, o ∈ l :=
    fun o ho => (List.mem_filter.1 (List.mem_of_mem_take ho)).1
  have hnd : (l.filter q).Nodup :=
    List.Nodup.sublist (List.filter_sublist _) (List.Nodup.of_map _ hids)
  have e1 : (l.filter (fun r => !(((l.filter q).take n).any (fun o => o.id == r.id)))).filter q
      = (l.filter q).filter (fun r => !(((l.filter q).take n).any (fun o => o.id == r.id))) := by
    rw [List.filter_filter, List.filter_filter]
    apply List.filter_congr
    intro r _
    exact Bool.and_comm _ _
  rw [e1]
  generalize hE : l.filter q = E at *
  have hEl : ∀ r ∈ E, r ∈ l := by
    intro r hr
    rw [← hE] at hr
    exact (List.mem_filter.1 hr).1
  conv_lhs => rw [← List.take_append_drop n E]
  rw [List.filter_append]
  have h1 : (E.take n).filter (fun r => !((E.take n).any (fun o => o.id == r.id))) = [] := by
    rw [List.filter_eq_nil_iff]
    intro r hr
    have := (any_trade_id_iff_mem l (E.take n) hids hsub r (hEl r (List.mem_of_mem_take hr))).2 hr
    simp [this]
  have h2 : (E.drop n).filter (fun r => !((E.take n).any (fun o => o.id == r.id)))
      = E.drop n := by
    rw [List.filter_eq_self]
    intro r hr
    have hdis := List.disjoint_take_drop hnd (le_refl n)
    have hnot : ¬ ((E.take n).any (fun o => o.id == r.id) = true) := by
      intro h
      have := (any_trade_id_iff_mem l (E.take n) hids hsub r
        (hEl r (List.mem_of_mem_drop hr))).1 h
      exact hdis this hr
    simpa using hnot
  rw [List.take_append_drop, h1, h2, List.nil_append]

theorem purge_page_fresh (q : Trade → Bool) (l : List Trade)
    (hids : (l.map (fun o => o.id)).Nodup) (n : Nat) :
    (l.filter (fun r => !(((l.filter q).take n).any (fun o => o.id == r.id)))).filter
        (fun o => !q o)
      = l.filter (fun o => !q o) := by
  have hsub : ∀ o ∈ (l.filter q).take n, o ∈ l :=
    fun o ho => (List.mem_filter.1 (List.mem_of_mem_take ho)).1
  rw [List.filter_filter]
  apply List.filter_congr
  intro r hr
  cases he : q r with
  | true => simp
  | false =>
    have hnot : ¬ (((l.filter q).take n).any (fun o => o.id == r.id) = true) := by
      intro h
      have := (any_trade_id_iff_mem l _ hids hsub r hr).1 h
      have := (List.mem_filter.1 (List.mem_of_mem_take this)).2
      rw [he] at this
      exact Bool.false_ne_true this
    simpa using hnot

theorem getMetric_volume_congr (a b : State) (symbol : String) (h : b.metrics = a.metrics) :
    (getMetric b symbol).2.volume = (getMetric a symbol).2.volume := by
  unfold getMetric
  rw [h]
  cases a.metrics.find? (fun m => m.symbol == symbol) <;> rfl

theorem getMetric_congr (a b : State) (symbol : String) (h : b.metrics = a.metrics)
    (hn : b.nextId = a.nextId) : (getMetric b symbol).2 = (getMetric a symbol).2 := by
  unfold getMetric
  rw [h, hn]
  cases a.metrics.find? (fun m => m.symbol == symbol) <;> rfl

theorem purge_step_metric (env : Env) (symbol : String) (s : State) (t : Trade) :
    (getMetric (removeTrade (updateVolumeMetric env symbol t.volume false s) t) symbol).2
      = { (getMetric s symbol).2 with
          volume := max 0 ((getMetric s symbol).2.volume - t.volume) } := by
  have h := updateVolumeMetric_found env symbol t.volume false s
  simp only [Bool.false_eq_true, if_false] at h
  have h' : (removeTrade (updateVolumeMetric env symbol t.volume false s) t).metrics.find?
      (fun m => m.symbol == symbol) = some { (getMetric s symbol).2 with
          volume := max 0 ((getMetric s symbol).2.volume - t.volume) } := h
  rw [getMetric_of_found _ _ _ h']

theorem purgePass_metric (env : Env) (symbol : String) :
    ∀ (ts : List Trade) (s : State), (∀ t ∈ ts, t.symbol = symbol) →
      (getMetric (purgePass env s ts) symbol).2
        = { (getMetric s symbol).2 with
            volume := purgedVolume (getMetric s symbol).2.volume ts } := by
  intro ts
  induction ts with
  | nil => intro s _; rfl
  | cons t rest ih =>
    intro s hsym
    have ht : t.symbol = symbol := hsym t (List.mem_cons_self _ _)
    have h := ih (removeTrade (updateVolumeMetric env t.symbol t.volume false s) t)
      (fun r hr => hsym r (List.mem_cons_of_mem _ hr))
    unfold purgePass at h ⊢
    simp only [List.foldl_cons]
    rw [h, ht, purge_step_metric]
    rfl

theorem purgedVolume_append (v : Int) (a b : List Trade) :
    purgedVolume (purgedVolume v a) b = purgedVolume v (a ++ b) := by
  unfold purgedVolume
  rw [List.foldl_append]

theorem purgeTrades_spec (env : Env) (symbol : String) :
    ∀ (fuel : Nat) (s : State),
      (s.tradesHistory.map (fun t => t.id)).Nodup →
      (s.tradesHistory.filter (oldTrade env symbol)).length < fuel →
      (purgeTrades env symbol fuel s).tradesHistory
        = s.tradesHistory.filter (fun t => !oldTrade env symbol t) ∧
      (getMetric (purgeTrades env symbol fuel s) symbol).2
        = { (getMetric s symbol).2 with
            volume := purgedVolume (getMetric s symbol).2.volume
              (s.tradesHistory.filter (oldTrade env symbol)) } := by
  intro fuel
  induction fuel with
  | zero => intro s _ h; omega
  | succ n ih =>
    intro s hids hlen
    unfold purgeTrades
    simp only [dbFind_noSort]
    split
    · rename_i hpage
      have hsym : ∀ t ∈ (s.tradesHistory.filter (oldTrade env symbol)).take PAGE,
          t.symbol = symbol := by
        intro t ht
        have := (List.mem_filter.1 (List.mem_of_mem_take ht)).2
        unfold oldTrade at this
        simp only [Bool.and_eq_true, beq_iff_eq] at this
        exact this.1
      have hhist : (purgePass env s
            ((s.tradesHistory.filter (oldTrade env symbol)).take PAGE)).tradesHistory
          = s.tradesHistory.filter (fun r =>
            !(((s.tradesHistory.filter (oldTrade env symbol)).take PAGE).any
              (fun o => o.id == r.id))) := by
        rw [purgePass_tradesHistory, foldl_filter_trade_ids]
      have hids' : ((purgePass env s
            ((s.tradesHistory.filter (oldTrade env symbol)).take PAGE)).tradesHistory.map
            (fun t => t.id)).Nodup := by
        rw [hhist]
        exact List.Nodup.sublist (List.Sublist.map _ (List.filter_sublist _)) hids
      have hold : (purgePass env s
            ((s.tradesHistory.filter (oldTrade env symbol)).take PAGE)).tradesHistory.filter
            (oldTrade env symbol)
          = (s.tradesHistory.filter (oldTrade env symbol)).drop PAGE := by
        rw [hhist]
        exact purge_page_old _ _ hids PAGE
      have hlen' : ((purgePass env s
            ((s.tradesHistory.filter (oldTrade env symbol)).take PAGE)).tradesHistory.filter
            (oldTrade env symbol)).length < n := by
        rw [hold, List.length_drop]
        have : 0 < (s.tradesHistory.filter (oldTrade env symbol)).length := by
          cases hE : s.tradesHistory.filter (oldTrade env symbol) with
          | nil => simp [hE] at hpage
          | cons a b => simp
        unfold PAGE
        omega
      obtain ⟨h1, h2⟩ := ih _ hids' hlen'
      constructor
      · rw [h1, hhist]
        exact purge_page_fresh _ _ hids PAGE
      · rw [h2, hold, purgePass_metric env symbol _ s hsym]
        simp only
        rw [purgedVolume_append, List.take_append_drop]
    · rename_i hpage
      have hE : s.tradesHistory.filter (oldTrade env symbol) = [] := by
        cases hE : s.tradesHistory.filter (oldTrade env symbol) with
        | nil => rfl
        | cons a b => simp [hE, PAGE] at hpage
      constructor
      · symm
        rw [List.filter_eq_self]
        intro r hr
        have := List.filter_eq_nil_iff.1 hE r hr
        simpa using this
      · rw [hE]
        rfl

theorem updatePriceMetrics_found (env : Env) (symbol : String) (price : Int) (s : State) :
    ∃ m, (updatePriceMetrics env symbol price s).metrics.find? (fun m => m.symbol == symbol)
        = some m ∧
      m.lastPrice = price ∧ m.volume = (getMetric s symbol).2.volume := by
  obtain ⟨hf, hsym⟩ := getMetric_found s symbol
  unfold updatePriceMetrics
  simp only
  split
  · exact ⟨_, updateMetric_found _ symbol _ _ hf rfl hsym, rfl, rfl⟩
  · exact ⟨_, updateMetric_found _ symbol _ _ hf rfl hsym, rfl, rfl⟩

/-- What `updateTradesHistory` does at block time `t` for the symbol `S`, for a
`tradesHistory` whose rows have distinct `_id`s.  The table afterwards is its former rows
without those of `S` with `timestamp < t - dayBehind` (the block date moved one calendar
day back), unchanged and in the same order, followed by one new row carrying the given
type, buyer, seller, symbol, quantity, price and volume with timestamp `t`.  The metric
row of `S` has `lastPrice` equal to the given price, and its volume is the former volume
(`0` when `S` had no row) from which the volume of each purged trade was subtracted in
turn, each result clamped at zero.  The books, the transfers, the escrow requests and the
fills are not written. -/
theorem updateTradesHistory_purges_then_appends (env : Env) (type : Side)
    (buyer seller symbol : String) (quantity price volume : Int) (s : State)
    (hids : (s.tradesHistory.map (fun t => t.id)).Nodup) :
    (∃ id, (updateTradesHistory env type buyer seller symbol quantity price volume
          s).tradesHistory
        = s.tradesHistory.filter (fun t => !oldTrade env symbol t) ++
          [⟨id, type, buyer, seller, symbol, quantity, price, env.timestampSec, volume⟩]) ∧
    (∀ r ∈ (updateTradesHistory env type buyer seller symbol quantity price volume
          s).tradesHistory,
      r.symbol = symbol → env.timestampSec - env.dayBehind ≤ r.timestamp) ∧
    (∃ m, (updateTradesHistory env type buyer seller symbol quantity price volume
          s).metrics.find? (fun m => m.symbol == symbol) = some m ∧
      m.lastPrice = price ∧
      m.volume = purgedVolume (getMetric s symbol).2.volume
        (s.tradesHistory.filter (oldTrade env symbol))) ∧
    SameButHistory s
      (updateTradesHistory env type buyer seller symbol quantity price volume s) := by
  obtain ⟨h1, h2⟩ := purgeTrades_spec env symbol (s.tradesHistory.length + 1) s hids
    (Nat.lt_succ_of_le (List.length_filter_le _ _))
  have hhist : (updateTradesHistory env type buyer seller symbol quantity price volume
        s).tradesHistory
      = s.tradesHistory.filter (fun t => !oldTrade env symbol t) ++
        [⟨(purgeTrades env symbol (s.tradesHistory.length + 1) s).nextId, type, buyer, seller,
          symbol, quantity, price, env.timestampSec, volume⟩] := by
    rw [updateTradesHistory_tradesHistory]
    unfold keptTrades
    rw [← purgeTrades_tradesHistory, h1]
  refine ⟨⟨_, hhist⟩, ?_, ?_, updateTradesHistory_same _ _ _ _ _ _ _ _ _⟩
  · intro r hr hsym
    rw [hhist] at hr
    rcases List.mem_append.1 hr with h | h
    · have := (List.mem_filter.1 h).2
      unfold oldTrade at this
      simp only [hsym, beq_self_eq_true, Bool.true_and, Bool.not_eq_true',
        decide_eq_false_iff_not, not_lt] at this
      exact this
    · rw [List.mem_singleton] at h
      rw [h]
      show env.timestampSec - env.dayBehind ≤ env.timestampSec
      omega
  · unfold updateTradesHistory
    simp only
    obtain ⟨m, hm, hp, hv⟩ := updatePriceMetrics_found env symbol price
      { purgeTrades env symbol (s.tradesHistory.length + 1) s with
        tradesHistory := (purgeTrades env symbol (s.tradesHistory.length + 1) s).tradesHistory
          ++ [⟨(purgeTrades env symbol (s.tradesHistory.length + 1) s).nextId, type, buyer,
            seller, symbol, quantity, price, env.timestampSec, volume⟩],
        nextId := (purgeTrades env symbol (s.tradesHistory.length + 1) s).nextId + 1 }
    refine ⟨m, hm, hp, ?_⟩
    have hc := getMetric_volume_congr (purgeTrades env symbol (s.tradesHistory.length + 1) s)
      { purgeTrades env symbol (s.tradesHistory.length + 1) s with
        tradesHistory := (purgeTrades env symbol (s.tradesHistory.length + 1) s).tradesHistory
          ++ [⟨(purgeTrades env symbol (s.tradesHistory.length + 1) s).nextId, type, buyer,
            seller, symbol, quantity, price, env.timestampSec, volume⟩],
        nextId := (purgeTrades env symbol (s.tradesHistory.length + 1) s).nextId + 1 }
      symbol rfl
    rw [h2] at hc
    exact hv.trans hc

/-- C30 (the trade history purges, then appends).  For every state whose trades have
distinct `_id`s and every call at block time `t` for the symbol `S`, `updateTradesHistory`
removes the rows of `S` with `timestamp < t - dayBehind`, keeps every other row unchanged
and in order, appends one new row with the given fields and timestamp `t`, subtracts the
volume of each purged row from the volume of `S` (clamped at zero) and sets `lastPrice`.
Here `t - dayBehind` is the block date moved one calendar day back on the host: where that
day lasts 24 hours no row of `S` with `timestamp < t - 86400` is left, as claimed; on a
host in Europe/Paris at 2019-10-27T01:30:00Z it lasts 25 hours, and the trade recorded at
2019-10-26T00:30:00Z, older than 24 hours, is still in the table after the call. -/
theorem trade_history_cutoff_is_a_calendar_day :
    (∀ (env : Env) (type : Side) (buyer seller symbol : String)
        (quantity price volume : Int) (s : State),
      (s.tradesHistory.map (fun t => t.id)).Nodup →
      (∃ id, (updateTradesHistory env type buyer seller symbol quantity price volume
            s).tradesHistory
          = s.tradesHistory.filter (fun t => !oldTrade env symbol t) ++
            [⟨id, type, buyer, seller, symbol, quantity, price, env.timestampSec, volume⟩]) ∧
      (∀ t, oldTrade env symbol t = true ↔
        (t.symbol = symbol ∧ t.timestamp < env.timestampSec - env.dayBehind)) ∧
      (env.dayBehind = DAY →
        ∀ r ∈ (updateTradesHistory env type buyer seller symbol quantity price volume
            s).tradesHistory,
          r.symbol = symbol → env.timestampSec - 86400 ≤ r.timestamp) ∧
      (∃ m, (updateTradesHistory env type buyer seller symbol quantity price volume
            s).metrics.find? (fun m => m.symbol == symbol) = some m ∧
        m.lastPrice = price ∧
        m.volume = purgedVolume (getMetric s symbol).2.volume
          (s.tradesHistory.filter (oldTrade env symbol))) ∧
      SameButHistory s
        (updateTradesHistory env type buyer seller symbol quantity price volume s)) ∧
    (run (parisAutumn.take 3) State.empty).tradesHistory.map
      (fun r => (r.symbol, r.timestamp, r.volume)) = [("ABC", 1572049800, 400000000)] ∧
    (updateTradesHistory (hostEnv "bob" "b2" 1572139800 86400 90000) Side.buy "bob" "alice"
      "ABC" 40 100000000 400000000 (run (parisAutumn.take 3) State.empty)).tradesHistory.map
      (fun r => (r.symbol, r.timestamp, r.volume))
      = [("ABC", 1572049800, 400000000), ("ABC", 1572139800, 400000000)] ∧
    ∃ r ∈ (updateTradesHistory (hostEnv "bob" "b2" 1572139800 86400 90000) Side.buy "bob"
        "alice" "ABC" 40 100000000 400000000
        (run (parisAutumn.take 3) State.empty)).tradesHistory,
      r.symbol = "ABC" ∧ r.timestamp < (1572139800 : Int) - 86400 := by
  refine ⟨?_, by decide!, by decide!, by decide!⟩
  intro env type buyer seller symbol quantity price volume s hids
  obtain ⟨h1, h2, h3, h4⟩ := updateTradesHistory_purges_then_appends env type buyer seller
    symbol quantity price volume s hids
  refine ⟨h1, ?_, ?_, h3, h4⟩
  · intro t
    unfold oldTrade
    simp only [Bool.and_eq_true, beq_iff_eq, decide_eq_true_eq]
  · intro hd r hr hsym
    have := h2 r hr hsym
    have hD : DAY = 86400 := rfl
    omega

theorem matchSellOrder_taker_dust (env : Env) (prec : Nat) (m : Taker) (o : Order)
    (h : m.order.quantity > 0 → DUST ≤ roundHalfUp (m.order.price * m.order.quantity) prec) :
    (matchSellOrder env prec m o).order.quantity > 0 →
      DUST ≤ roundHalfUp ((matchSellOrder env prec m o).order.price
        * (matchSellOrder env prec m o).order.quantity) prec := by
  unfold matchSellOrder
  split
  · unfold buyFilledWhole
    simp only
    split
    · intro hq
      simp at hq
    · exact h
  · unfold sellOrderConsumed
    simp only
    split
    · by_cases hd : roundHalfUp (m.order.price * (m.order.quantity - o.quantity)) prec < DUST
      · simp only [hd, decide_True, if_true]
        intro hq
        simp at hq
      · simp only [hd, decide_False, Bool.false_eq_true, if_false]
        intro _
        exact not_lt.1 hd
    · exact h

theorem matchBuyOrder_taker_dust (env : Env) (prec : Nat) (m : Taker) (o : Order)
    (h : m.order.quantity > 0 → DUST ≤ roundHalfUp (m.order.price * m.order.quantity) prec) :
    (matchBuyOrder env prec m o).order.quantity > 0 →
      DUST ≤ roundHalfUp ((matchBuyOrder env prec m o).order.price
        * (matchBuyOrder env prec m o).order.quantity) prec := by
  unfold matchBuyOrder
  split
  · unfold sellFilledWhole
    simp only
    split
    · intro hq
      simp at hq
    · exact h
  · unfold buyOrderConsumed
    simp only
    split
    · by_cases hd : roundHalfUp (m.order.price * (m.order.quantity - o.quantity)) prec < DUST
      · simp only [hd, decide_True, if_true]
        intro hq
        simp at hq
      · simp only [hd, decide_False, Bool.false_eq_true, if_false]
        intro _
        exact not_lt.1 hd
    · exact h

theorem aboveDust_of_sameOrder (tokens : String → Option Nat) (sym : String) (prec : Nat)
    (ht : tokens sym = some prec) (r o : Order) (hs : SameOrder r o) (ho : o.symbol = sym)
    (hd : DUST ≤ roundHalfUp (r.price * r.quantity) prec) : AboveDust tokens r :=
  ⟨prec, by rw [hs.2.2.2.2.1, ho, ht], hd⟩

theorem findMatchingSellOrders_dustFree (tokens : String → Option Nat) (env : Env)
    (order : Order) (prec : Nat) (s : State) (ht : tokens order.symbol = some prec)
    (hq : order.quantity > 0 → DUST ≤ roundHalfUp (order.price * order.quantity) prec)
    (hb : ∀ r ∈ s.buyBook, AboveDust tokens r) (hs : ∀ r ∈ s.sellBook, AboveDust tokens r) :
    DustFree tokens (findMatchingSellOrders env order prec s) := by
  have hloop : TakerAboveDust tokens order.symbol prec
      (findMatchingSellOrdersLoop env order prec s) := by
    unfold findMatchingSellOrdersLoop
    refine pagesLoop_inv_rows _ _ _ (TakerAboveDust tokens order.symbol prec)
      (fun o => o.symbol = order.symbol) ?_ ?_ _ _ _ _ ?_ ?_
    · intro m o _ ho hi
      obtain ⟨h1, h2, h3, h4⟩ := hi
      obtain ⟨r1, r2⟩ := matchSellOrder_rows env prec m o
      refine ⟨fun r hr => h1 r (r2 r hr), fun r hr => ?_,
        matchSellOrder_taker_dust env prec m o h3,
        (matchSellOrder_order env prec m o).2.2.2.2.1.trans h4⟩
      rcases r1 r hr with h | h
      · exact h2 r h
      · exact aboveDust_of_sameOrder tokens order.symbol prec ht r o h.1 ho h.2.2
    · intro m off _ o ho
      have := (mem_dbFind _ _ _ _ _ o ho).2
      unfold crossingSell at this
      simp only [Bool.and_eq_true, beq_iff_eq] at this
      exact this.1
    · intro o ho
      have := (mem_dbFind _ _ _ _ _ o ho).2
      unfold crossingSell at this
      simp only [Bool.and_eq_true, beq_iff_eq] at this
      exact this.1
    · refine ⟨fun r hr => ?_, fun r hr => ?_, hq, rfl⟩
      · rw [removeExpiredOrders_sellBook_buyBook] at hr
        exact hb r hr
      · have e : (removeExpiredOrders env Table.sellBook s).sellBook
            = sweptBook env s.sellBook := removeExpiredOrders_book env Table.sellBook s
        rw [e] at hr
        exact hs r ((sweptBook_sublist env _).subset hr)
  unfold findMatchingSellOrders
  generalize findMatchingSellOrdersLoop env order prec s = m at hloop ⊢
  obtain ⟨h1, h2, h3, h4⟩ := hloop
  intro r hr
  simp only [finishMetrics_buyBook, finishMetrics_sellBook] at hr
  rcases List.mem_append.1 hr with h | h
  · split at h
    · rename_i hpos
      rcases mem_updateOrder_book _ _ _ h with h' | h'
      · exact h1 r h'
      · rw [h']
        exact ⟨prec, by rw [h4, ht], h3 hpos⟩
    · exact h1 r h
  · split at h
    · exact h2 r h
    · exact h2 r h

theorem findMatchingBuyOrders_dustFree (tokens : String → Option Nat) (env : Env)
    (order : Order) (prec : Nat) (s : State) (ht : tokens order.symbol = some prec)
    (hq : order.quantity > 0 → DUST ≤ roundHalfUp (order.price * order.quantity) prec)
    (hb : ∀ r ∈ s.buyBook, AboveDust tokens r) (hs : ∀ r ∈ s.sellBook, AboveDust tokens r) :
    DustFree tokens (findMatchingBuyOrders env order prec s) := by
  have hloop : TakerAboveDust tokens order.symbol prec
      (findMatchingBuyOrdersLoop env order prec s) := by
    unfold findMatchingBuyOrdersLoop
    refine pagesLoop_inv_rows _ _ _ (TakerAboveDust tokens order.symbol prec)
      (fun o => o.symbol = order.symbol) ?_ ?_ _ _ _ _ ?_ ?_
    · intro m o _ ho hi
      obtain ⟨h1, h2, h3, h4⟩ := hi
      obtain ⟨r1, r2⟩ := matchBuyOrder_rows env prec m o
      refine ⟨fun r hr => ?_, fun r hr => h2 r (r2 r hr),
        matchBuyOrder_taker_dust env prec m o h3,
        (matchBuyOrder_order env prec m o).2.2.2.2.1.trans h4⟩
      rcases r1 r hr with h | h
      · exact h1 r h
      · exact aboveDust_of_sameOrder tokens order.symbol prec ht r o h.1 ho h.2.2
    · intro m off _ o ho
      have := (mem_dbFind _ _ _ _ _ o ho).2
      unfold crossingBuy at this
      simp only [Bool.and_eq_true, beq_iff_eq] at this
      exact this.1
    · intro o ho
      have := (mem_dbFind _ _ _ _ _ o ho).2
      unfold crossingBuy at this
      simp only [Bool.and_eq_true, beq_iff_eq] at this
      exact this.1
    · refine ⟨fun r hr => ?_, fun r hr => ?_, hq, rfl⟩
      · have e : (removeExpiredOrders env Table.buyBook s).buyBook
            = sweptBook env s.buyBook := removeExpiredOrders_book env Table.buyBook s
        rw [e] at hr
        exact hb r ((sweptBook_sublist env _).subset hr)
      · rw [removeExpiredOrders_buyBook_sellBook] at hr
        exact hs r hr
  unfold findMatchingBuyOrders
  generalize findMatchingBuyOrdersLoop env order prec s = m at hloop ⊢
  obtain ⟨h1, h2, h3, h4⟩ := hloop
  intro r hr
  simp only [finishMetrics_buyBook, finishMetrics_sellBook] at hr
  rcases List.mem_append.1 hr with h | h
  · split at h
    · exact h1 r h
    · exact h1 r h
  · split at h
    · rename_i hpos
      rcases mem_updateOrder_book _ _ _ h with h' | h'
      · exact h2 r h'
      · rw [h']
        exact ⟨prec, by rw [h4, ht], h3 hpos⟩
    · exact h2 r h

theorem dustFree_of_rows (tokens : String → Option Nat) (s s' : State)
    (h : DustFree tokens s) (hb : ∀ r ∈ s'.buyBook, r ∈ s.buyBook)
    (hs : ∀ r ∈ s'.sellBook, r ∈ s.sellBook) : DustFree tokens s' := by
  intro r hr
  rcases List.mem_append.1 hr with h1 | h1
  · exact h r (List.mem_append_left _ (hb r h1))
  · exact h r (List.mem_append_right _ (hs r h1))

theorem dustFree_of_books (tokens : String → Option Nat) (s s' : State)
    (h : DustFree tokens s) (hb : s'.buyBook = s.buyBook) (hs : s'.sellBook = s.sellBook) :
    DustFree tokens s' :=
  dustFree_of_rows tokens s s' h (fun _ hr => hb ▸ hr) (fun _ hr => hs ▸ hr)

theorem dustFree_of_onlyAsserts (tokens : String → Option Nat) (s s' : State)
    (h : DustFree tokens s) (ho : OnlyAsserts s s') : DustFree tokens s' := by
  obtain ⟨msgs, rfl⟩ := ho
  exact h

theorem marketBuyLoop_dustFree (tokens : String → Option Nat) (env : Env) (sym : String)
    (prec : Nat) (X : Int) (s : State) (ht : tokens sym = some prec)
    (h : DustFree tokens s) :
    SweepAboveDust tokens (marketBuyLoop env sym prec X s) := by
  unfold marketBuyLoop
  refine pagesLoop_inv_rows _ _ _ (SweepAboveDust tokens) (fun o => o.symbol = sym)
    ?_ ?_ _ _ _ _ ?_ ?_
  · intro m o _ ho hi
    obtain ⟨r1, r2⟩ := marketBuyOrder_rows env sym prec m o
    refine ⟨fun r hr => hi.1 r (r2 ▸ hr), fun r hr => ?_⟩
    rcases r1 r hr with h' | h'
    · exact hi.2 r h'
    · exact aboveDust_of_sameOrder tokens sym prec ht r o h'.1 ho h'.2.2
  · intro m off _ o ho
    have := (mem_dbFind _ _ _ _ _ o ho).2
    unfold ofSymbol at this
    exact beq_iff_eq.1 this
  · intro o ho
    have := (mem_dbFind _ _ _ _ _ o ho).2
    unfold ofSymbol at this
    exact beq_iff_eq.1 this
  · refine ⟨fun r hr => ?_, fun r hr => ?_⟩
    · rw [removeExpiredOrders_sellBook_buyBook] at hr
      exact h r (List.mem_append_left _ hr)
    · have e : (removeExpiredOrders env Table.sellBook s).sellBook
          = sweptBook env s.sellBook := removeExpiredOrders_book env Table.sellBook s
      rw [e] at hr
      exact h r (List.mem_append_right _ ((sweptBook_sublist env _).subset hr))

theorem marketSellLoop_dustFree (tokens : String → Option Nat) (env : Env) (sym : String)
    (prec : Nat) (X : Int) (s : State) (ht : tokens sym = some prec)
    (h : DustFree tokens s) :
    SweepAboveDust tokens (marketSellLoop env sym prec X s) := by
  unfold marketSellLoop
  refine pagesLoop_inv_rows _ _ _ (SweepAboveDust tokens) (fun o => o.symbol = sym)
    ?_ ?_ _ _ _ _ ?_ ?_
  · intro m o _ ho hi
    obtain ⟨r1, r2⟩ := marketSellOrder_rows env sym prec m o
    refine ⟨fun r hr => ?_, fun r hr => hi.2 r (r2 ▸ hr)⟩
    rcases r1 r hr with h' | h'
    · exact hi.1 r h'
    · exact aboveDust_of_sameOrder tokens sym prec ht r o h'.1 ho h'.2.2
  · intro m off _ o ho
    have := (mem_dbFind _ _ _ _ _ o ho).2
    unfold ofSymbol at this
    exact beq_iff_eq.1 this
  · intro o ho
    have := (mem_dbFind _ _ _ _ _ o ho).2
    unfold ofSymbol at this
    exact beq_iff_eq.1 this
  · refine ⟨fun r hr => ?_, fun r hr => ?_⟩
    · have e : (removeExpiredOrders env Table.buyBook s).buyBook
          = sweptBook env s.buyBook := removeExpiredOrders_book env Table.buyBook s
      rw [e] at hr
      exact h r (List.mem_append_left _ ((sweptBook_sublist env _).subset hr))
    · rw [removeExpiredOrders_buyBook_sellBook] at hr
      exact h r (List.mem_append_right _ hr)

theorem marketBuy_dustFree (tokens : String → Option Nat) (env : Env)
    (payload : MarketPayload) (s : State) (henv : env.tokens = tokens)
    (h : DustFree tokens s) : DustFree tokens (marketBuy env payload s) := by
  have ho := validateMarket_onlyAsserts env payload (fun _ => STEEM_PEGGED_SYMBOL_PRESICION) s
  unfold marketBuy
  cases hv : validateMarket env payload (fun _ => STEEM_PEGGED_SYMBOL_PRESICION) s with
  | mk s1 ov =>
    rw [hv] at ho
    cases ov with
    | none => exact dustFree_of_onlyAsserts tokens s s1 h ho
    | some v =>
      obtain ⟨hs1, _, _, _, _, _, _, htok, _⟩ := validateMarket_some hv
      simp only
      split
      · have hl := marketBuyLoop_dustFree tokens env v.symbol v.precision
          (v.quantity.toFixed STEEM_PEGGED_SYMBOL_PRESICION)
          (requestEscrow env s1 STEEM_PEGGED_SYMBOL
            (v.quantity.toFixed STEEM_PEGGED_SYMBOL_PRESICION)) (henv ▸ htok)
          (dustFree_of_books tokens s _ h (by rw [hs1]; rfl) (by rw [hs1]; rfl))
        generalize marketBuyLoop env _ _ _ _ = m at hl ⊢
        intro r hr
        simp only [finishMetrics_buyBook, finishMetrics_sellBook] at hr
        rcases List.mem_append.1 hr with h1 | h1
        · split at h1
          · exact hl.1 r h1
          · exact hl.1 r h1
        · split at h1
          · exact hl.2 r h1
          · exact hl.2 r h1
      · exact dustFree_of_books tokens s _ h (by rw [hs1]; rfl) (by rw [hs1]; rfl)

theorem marketSell_dustFree (tokens : String → Option Nat) (env : Env)
    (payload : MarketPayload) (s : State) (henv : env.tokens = tokens)
    (h : DustFree tokens s) : DustFree tokens (marketSell env payload s) := by
  have ho := validateMarket_onlyAsserts env payload (fun precision => precision) s
  unfold marketSell
  cases hv : validateMarket env payload (fun precision => precision) s with
  | mk s1 ov =>
    rw [hv] at ho
    cases ov with
    | none => exact dustFree_of_onlyAsserts tokens s s1 h ho
    | some v =>
      obtain ⟨hs1, _, _, _, _, _, _, htok, _⟩ := validateMarket_some hv
      simp only
      split
      · have hl := marketSellLoop_dustFree tokens env v.symbol v.precision
          (v.quantity.toFixed v.precision)
          (requestEscrow env s1 v.symbol (v.quantity.toFixed v.precision)) (henv ▸ htok)
          (dustFree_of_books tokens s _ h (by rw [hs1]; rfl) (by rw [hs1]; rfl))
        generalize marketSellLoop env _ _ _ _ = m at hl ⊢
        intro r hr
        simp only [finishMetrics_buyBook, finishMetrics_sellBook] at hr
        rcases List.mem_append.1 hr with h1 | h1
        · split at h1
          · exact hl.1 r h1
          · exact hl.1 r h1
        · split at h1
          · exact hl.2 r h1
          · exact hl.2 r h1
      · exact dustFree_of_books tokens s _ h (by rw [hs1]; rfl) (by rw [hs1]; rfl)

theorem buy_dustFree (tokens : String → Option Nat) (env : Env) (payload : OrderPayload)
    (s : State) (henv : env.tokens = tokens) (h : DustFree tokens s) :
    DustFree tokens (buy env payload s) := by
  have ho := validateOrder_onlyAsserts env payload s
  unfold buy
  cases hv : validateOrder env payload s with
  | mk s1 ov =>
    rw [hv] at ho
    cases ov with
    | none => exact dustFree_of_onlyAsserts tokens s s1 h ho
    | some v =>
      obtain ⟨hs1, _, _, _, _, _, _, _, htok, _, hp, hq, hd⟩ := validateOrder_some hv
      simp only
      split
      · rw [toFixed_mul_eq v.price v.quantity v.precision hp hq] at hd
        apply findMatchingSellOrders_dustFree tokens env _ v.precision _ (henv ▸ htok)
        · intro _
          exact hd
        · intro r hr
          have hr' : r ∈ s1.buyBook ++ [{ newOrder env payload.expiration v
              ((v.price.mul v.quantity).toFixed STEEM_PEGGED_SYMBOL_PRESICION) with
              id := s1.nextId }] := hr
          rcases List.mem_append.1 hr' with h1 | h1
          · exact h r (List.mem_append_left _ (hs1 ▸ h1))
          · rw [List.mem_singleton] at h1
            rw [h1]
            exact ⟨v.precision, henv ▸ htok, hd⟩
        · intro r hr
          have hr' : r ∈ s1.sellBook := hr
          exact h r (List.mem_append_right _ (hs1 ▸ hr'))
      · exact dustFree_of_books tokens s _ h (by rw [hs1]; rfl) (by rw [hs1]; rfl)

theorem sell_dustFree (tokens : String → Option Nat) (env : Env) (payload : OrderPayload)
    (s : State) (henv : env.tokens = tokens) (h : DustFree tokens s) :
    DustFree tokens (sell env payload s) := by
  have ho := validateOrder_onlyAsserts env payload s
  unfold sell
  cases hv : validateOrder env payload s with
  | mk s1 ov =>
    rw [hv] at ho
    cases ov with
    | none => exact dustFree_of_onlyAsserts tokens s s1 h ho
    | some v =>
      obtain ⟨hs1, _, _, _, _, _, _, _, htok, _, hp, hq, hd⟩ := validateOrder_some hv
      simp only
      split
      · rw [toFixed_mul_eq v.price v.quantity v.precision hp hq] at hd
        apply findMatchingBuyOrders_dustFree tokens env _ v.precision _ (henv ▸ htok)
        · intro _
          exact hd
        · intro r hr
          have hr' : r ∈ s1.buyBook := hr
          exact h r (List.mem_append_left _ (hs1 ▸ hr'))
        · intro r hr
          have hr' : r ∈ s1.sellBook ++ [{ newOrder env payload.expiration v 0 with
              id := s1.nextId }] := hr
          rcases List.mem_append.1 hr' with h1 | h1
          · exact h r (List.mem_append_right _ (hs1 ▸ h1))
          · rw [List.mem_singleton] at h1
            rw [h1]
            exact ⟨v.precision, henv ▸ htok, hd⟩
      · exact dustFree_of_books tokens s _ h (by rw [hs1]; rfl) (by rw [hs1]; rfl)

theorem cancel_dustFree (tokens : String → Option Nat) (env : Env) (payload : CancelPayload)
    (s : State) (h : DustFree tokens s) : DustFree tokens (cancel env payload s) := by
  rcases cancel_cases env payload s with ⟨id, o, hs, ht, hpid, hid, hlen, hf, hown⟩ | ⟨msgs, hm⟩
  · obtain ⟨type, pid, signed⟩ := payload
    simp only at hs ht hpid hf
    subst hs hpid
    rcases ht with rfl | rfl
    · rw [cancelTable_buy] at hf
      have e := cancel_buy_done env id s o hid hlen hf hown
      unfold cancelPayload at e
      rw [e]
      obtain ⟨h1, h2, _⟩ := updateBidMetric_same o.symbol
        (removeOrder (transferTokens s env.sender STEEM_PEGGED_SYMBOL o.tokensLocked)
          Table.buyBook o)
      refine dustFree_of_rows tokens s _ h (fun r hr => ?_) (fun r hr => ?_)
      · rw [h1] at hr
        exact (List.mem_filter.1 hr).1
      · rw [h2] at hr
        exact hr
    · rw [cancelTable_sell] at hf
      have e := cancel_sell_done env id s o hid hlen hf hown
      unfold cancelPayload at e
      rw [e]
      obtain ⟨h1, h2, _⟩ := updateAskMetric_same o.symbol
        (removeOrder (transferTokens s env.sender o.symbol o.quantity) Table.sellBook o)
      refine dustFree_of_rows tokens s _ h (fun r hr => ?_) (fun r hr => ?_)
      · rw [h1] at hr
        exact hr
      · rw [h2] at hr
        exact (List.mem_filter.1 hr).1
  · rw [hm]
    exact h

theorem step_dustFree (tokens : String → Option Nat) (env : Env) (a : Action) (s : State)
    (henv : env.tokens = tokens) (h : DustFree tokens s) :
    DustFree tokens (step env a s) := by
  cases a with
  | buy p => exact buy_dustFree tokens env p s henv h
  | sell p => exact sell_dustFree tokens env p s henv h
  | marketBuy p => exact marketBuy_dustFree tokens env p s henv h
  | marketSell p => exact marketSell_dustFree tokens env p s henv h
  | cancel p => exact cancel_dustFree tokens env p s h

theorem run_dustFree (tokens : String → Option Nat) :
    ∀ (txs : List (Env × Action)) (s : State), (∀ tx ∈ txs, tx.1.tokens = tokens) →
      DustFree tokens s → DustFree tokens (run txs s) := by
  intro txs
  induction txs with
  | nil => intro s _ h; exact h
  | cons tx rest ih =>
    intro s htok h
    obtain ⟨env, a⟩ := tx
    unfold run
    exact ih _ (fun t ht => htok t (List.mem_cons_of_mem _ ht))
      (step_dustFree tokens env a s (htok (env, a) (List.mem_cons_self _ _)) h)

/-- C20 (amended: no dust persistence, as the contract measures dust).  In every state
reached from the empty tables by `buy`, `sell`, `marketBuy`, `marketSell` and `cancel`
actions, every resting order of `buyBook` and of `sellBook` is of a registered token and
has `price * quantity`, rounded to 8 decimals, at least `0.00000001`. -/
theorem resting_orders_round_to_dust_or_more (tokens : String → Option Nat) (s : State)
    (h : Reachable tokens s) :
    ∀ o ∈ s.buyBook ++ s.sellBook,
      ∃ p, tokens o.symbol = some p ∧ DUST ≤ roundHalfUp (o.price * o.quantity) p := by
  obtain ⟨txs, htok, rfl⟩ := h
  exact run_dustFree tokens txs State.empty htok (fun o ho => by simp [State.empty] at ho)

/-- C20 (amended) at Alice's sell of `0.5 ABC` at `0.00000001`: the exact product is
`0.000000005`, and it rounds to `0.00000001`. -/
theorem resting_orders_round_to_dust_or_more_witness :
    (run halfUnitSell State.empty).sellBook.map (fun o => (o.symbol, o.price, o.quantity))
      = [("ABC", 1, 5)] ∧
    ∀ o ∈ (run halfUnitSell State.empty).buyBook ++ (run halfUnitSell State.empty).sellBook,
      ∃ p, exampleTokens o.symbol = some p ∧ DUST ≤ roundHalfUp (o.price * o.quantity) p :=
  ⟨by decide!, resting_orders_round_to_dust_or_more exampleTokens (run halfUnitSell State.empty)
    ⟨halfUnitSell, halfUnitSell_tokens, rfl⟩⟩

theorem pageWhile_unfilled (body : Sweep → Order → Sweep) (book : Sweep → List Order)
    (P : Order → Prop) (U : Int → Order → Prop)
    (hstep : ∀ m o, P o → 0 < m.remaining → 0 < (body m o).remaining →
      (body m o).remaining ≤ m.remaining ∧
      (book (body m o) = (book m).filter (fun r => r.id != o.id) ∨
        (book (body m o) = book m ∧ U m.remaining o))) :
    ∀ (page : List Order) (m : Sweep), (∀ o ∈ page, P o) →
      0 < (pageWhile body Sweep.active m page).remaining →
      (pageWhile body Sweep.active m page).remaining ≤ m.remaining ∧
      (∀ r ∈ book (pageWhile body Sweep.active m page), r ∈ book m) ∧
      ∀ o ∈ page, o ∈ book (pageWhile body Sweep.active m page) →
        ∃ X, (pageWhile body Sweep.active m page).remaining ≤ X ∧ X ≤ m.remaining ∧ U X o := by
  intro page
  induction page with
  | nil =>
    intro m _ _
    exact ⟨le_refl _, fun r hr => hr, fun o ho => absurd ho (List.not_mem_nil o)⟩
  | cons o rest ih =>
    intro m hP hpos
    by_cases hact : Sweep.active m = true
    · have e : pageWhile body Sweep.active m (o :: rest)
          = pageWhile body Sweep.active (body m o) rest := by
        simp [pageWhile, hact]
      rw [e] at hpos ⊢
      have hm : 0 < m.remaining := by simpa [Sweep.active] using hact
      have hm1 : 0 < (body m o).remaining := by
        by_contra hneg
        have hin : Sweep.active (body m o) = false := by
          simpa [Sweep.active] using hneg
        rw [pageWhile_inactive body Sweep.active (body m o) rest hin] at hpos
        exact hneg hpos
      obtain ⟨h1, h2, h3⟩ := ih (body m o)
        (fun r hr => hP r (List.mem_cons_of_mem _ hr)) hpos
      obtain ⟨s1, s2⟩ := hstep m o (hP o (List.mem_cons_self _ _)) hm hm1
      have hsub : ∀ r ∈ book (body m o), r ∈ book m := by
        intro r hr
        rcases s2 with hb | hb
        · rw [hb] at hr
          exact (List.mem_filter.1 hr).1
        · rw [hb.1] at hr
          exact hr
      refine ⟨le_trans h1 s1, fun r hr => hsub r (h2 r hr), fun r hr hin => ?_⟩
      rcases List.mem_cons.1 hr with hro | hro
      · rw [hro] at hin ⊢
        have hin1 := h2 o hin
        rcases s2 with hb | hb
        · rw [hb] at hin1
          have := (List.mem_filter.1 hin1).2
          simp at this
        · exact ⟨m.remaining, le_trans h1 s1, le_refl _, hb.2⟩
      · obtain ⟨X, x1, x2, x3⟩ := h3 r hro hin
        exact ⟨X, x1, le_trans x2 s1, x3⟩
    · have hin : Sweep.active m = false := by simpa using hact
      rw [pageWhile_inactive body Sweep.active m (o :: rest) hin] at hpos
      have : Sweep.active m = true := by simpa [Sweep.active] using hpos
      exact absurd this hact

theorem pagesLoop_single_page {σ : Type} (body : σ → Order → σ) (active : σ → Bool)
    (book : σ → List Order) (q : Order → Bool) (cmp : Order → Order → Bool)
    (fetch : σ → Nat → List Order)
    (hfetch : ∀ m off, fetch m off = dbFind (book m) q PAGE off cmp)
    (hstep : ∀ m o, active m = true → active (body m o) = true →
      ∃ p, book (body m o) = (book m).filter p)
    (m : σ) (page : List Order) (n : Nat)
    (hlen : ((book m).filter q).length ≤ PAGE) :
    pagesLoop body active fetch (n + 1) m page 0 = pageWhile body active m page := by
  have h := pagesLoop_fuel_add body active book q cmp fetch hfetch hstep m page 0
    (by simpa using hlen) n
  have e : 0 + 1 + n = n + 1 := by omega
  rw [e] at h
  rw [h, pagesLoop_succ]
  split_ifs <;> rfl

theorem mem_single_page (l : List Order) (q : Order → Bool) (cmp : Order → Order → Bool)
    (hlen : (l.filter q).length ≤ PAGE) (r : Order) (hr : r ∈ l) (hq : q r = true) :
    r ∈ dbFind l q PAGE 0 cmp := by
  unfold dbFind
  rw [List.drop_zero, List.take_of_length_le (by rw [length_sortBy]; exact hlen), mem_sortBy]
  exact List.mem_filter.2 ⟨hr, hq⟩

theorem marketBuyWhole_skip (env : Env) (sym : String) (prec : Nat) (m : Sweep) (o : Order)
    (hm : 0 < m.remaining) :
    (marketBuyWhole env sym prec m o).remaining ≤ m.remaining ∧
    ((marketBuyWhole env sym prec m o).st.sellBook
        = m.st.sellBook.filter (fun r => r.id != o.id) ∨
      ((marketBuyWhole env sym prec m o).st.sellBook = m.st.sellBook ∧
        cappedAmount prec o.price o.quantity m.remaining ≤ 0)) := by
  unfold marketBuyWhole
  simp only
  by_cases hc : cappedAmount prec o.price o.quantity m.remaining > 0
  · have hok : (decide (cappedAmount prec o.price o.quantity m.remaining > 0)
        && decide (m.remaining > 0)) = true := by simp [hc, hm]
    rw [if_pos hok]
    refine ⟨by simp only; omega, Or.inl ?_⟩
    simp only [recordFill_sellBook, updateTradesHistory_sellBook, removeOrder_sellBook_sell,
      transferTokens_sellBook, apiAssert_sellBook]
  · have hok : ¬ (decide (cappedAmount prec o.price o.quantity m.remaining > 0)
        && decide (m.remaining > 0)) = true := by simp [hc]
    rw [if_neg hok]
    exact ⟨le_refl _, Or.inr ⟨by simp only [apiAssert_sellBook], not_lt.1 hc⟩⟩

theorem marketBuyOrder_skip (env : Env) (sym : String) (prec : Nat) (m : Sweep) (o : Order)
    (hm : 0 < m.remaining) (hpos : 0 < (marketBuyOrder env sym prec m o).remaining) :
    (marketBuyOrder env sym prec m o).remaining ≤ m.remaining ∧
    ((marketBuyOrder env sym prec m o).st.sellBook
        = m.st.sellBook.filter (fun r => r.id != o.id) ∨
      ((marketBuyOrder env sym prec m o).st.sellBook = m.st.sellBook ∧
        UnfilledBySpend prec m.remaining o)) := by
  obtain ⟨w1, w2⟩ := marketBuyWhole_skip env sym prec m o hm
  unfold marketBuyOrder at hpos ⊢
  unfold UnfilledBySpend
  cases hq : marketBuyQuantity m.remaining o.price prec with
  | none =>
    simp only [hq] at hpos ⊢
    exact ⟨w1, w2⟩
  | some q =>
    simp only [hq] at hpos ⊢
    by_cases h1 : q ≤ o.quantity ∧ q > 0
    · rw [if_pos h1] at hpos
      exfalso
      unfold marketBuyAll at hpos
      have hok : (decide (q > 0) && decide (m.remaining > 0)) = true := by simp [h1.2, hm]
      simp only [hok, if_true] at hpos
      exact lt_irrefl _ hpos
    · rw [if_neg h1]
      by_cases h2 : q > 0
      · rw [if_pos h2]
        refine ⟨w1, w2.imp id (fun h => ⟨h.1, Or.inr ⟨?_, h.2⟩⟩)⟩
        by_contra hle
        exact h1 ⟨not_lt.1 hle, h2⟩
      · rw [if_neg h2]
        exact ⟨le_refl _, Or.inr ⟨rfl, Or.inl (not_lt.1 h2)⟩⟩

theorem marketSellOrder_skip (env : Env) (sym : String) (prec : Nat) (m : Sweep) (o : Order)
    (hq0 : 0 ≤ o.quantity) (hm : 0 < m.remaining)
    (hpos : 0 < (marketSellOrder env sym prec m o).remaining) :
    (marketSellOrder env sym prec m o).remaining ≤ m.remaining ∧
    ((marketSellOrder env sym prec m o).st.buyBook
        = m.st.buyBook.filter (fun r => r.id != o.id) ∨
      ((marketSellOrder env sym prec m o).st.buyBook = m.st.buyBook ∧
        UnfilledBySale prec m.remaining o)) := by
  unfold marketSellOrder at hpos ⊢
  unfold UnfilledBySale
  by_cases hle : m.remaining ≤ o.quantity
  · rw [if_pos hle] at hpos ⊢
    unfold marketSellAll at hpos ⊢
    simp only at hpos ⊢
    by_cases hc : cappedAmount prec o.price m.remaining o.tokensLocked > 0
    · exfalso
      have hok : (decide (cappedAmount prec o.price m.remaining o.tokensLocked > 0)
          && decide (m.remaining > 0)) = true := by simp [hc, hm]
      rw [if_pos hok] at hpos
      exact lt_irrefl _ hpos
    · have hok : ¬ (decide (cappedAmount prec o.price m.remaining o.tokensLocked > 0)
          && decide (m.remaining > 0)) = true := by simp [hc]
      rw [if_neg hok]
      exact ⟨le_refl _, Or.inr ⟨by simp only [apiAssert_buyBook],
        Or.inl ⟨hle, not_lt.1 hc⟩⟩⟩
  · rw [if_neg hle]
    unfold marketSellWhole
    simp only
    by_cases hc : payForWholeBuyOrder prec o > 0
    · have hok : (decide (payForWholeBuyOrder prec o > 0)
          && decide (m.remaining > 0)) = true := by simp [hc, hm]
      rw [if_pos hok]
      refine ⟨by simp only; omega, Or.inl ?_⟩
      simp only [recordFill_buyBook, updateTradesHistory_buyBook, consumeBuyOrder_buyBook,
        apiAssert_buyBook]
    · have hok : ¬ (decide (payForWholeBuyOrder prec o > 0)
          && decide (m.remaining > 0)) = true := by simp [hc]
      rw [if_neg hok]
      exact ⟨le_refl _, Or.inr ⟨by simp only [apiAssert_buyBook],
        Or.inr ⟨not_le.1 hle, not_lt.1 hc⟩⟩⟩

theorem marketBuyLoop_unfilled (env : Env) (sym : String) (prec : Nat) (X : Int) (s : State)
    (hlen : (s.sellBook.filter (ofSymbol sym)).length ≤ PAGE)
    (hpos : 0 < (marketBuyLoop env sym prec X s).remaining) :
    ∀ o ∈ (marketBuyLoop env sym prec X s).st.sellBook, o.symbol = sym →
      o ∈ s.sellBook ∧
      ∃ X', (marketBuyLoop env sym prec X s).remaining ≤ X' ∧ X' ≤ X ∧
        UnfilledBySpend prec X' o := by
  have hbook : (removeExpiredOrders env Table.sellBook s).sellBook
      = sweptBook env s.sellBook := removeExpiredOrders_book env Table.sellBook s
  have hsub := sweptBook_sublist env s.sellBook
  have hlen1 : ((removeExpiredOrders env Table.sellBook s).sellBook.filter
      (ofSymbol sym)).length ≤ PAGE := by
    rw [hbook]
    exact le_trans (List.Sublist.length_le (List.Sublist.filter _ hsub)) hlen
  have e : marketBuyLoop env sym prec X s
      = pageWhile (marketBuyOrder env sym prec) Sweep.active
          { st := removeExpiredOrders env Table.sellBook s, remaining := X, volumeTraded := 0 }
          (fetchSells sym
            { st := removeExpiredOrders env Table.sellBook s, remaining := X, volumeTraded := 0 }
            0) := by
    unfold marketBuyLoop
    exact pagesLoop_single_page (marketBuyOrder env sym prec) Sweep.active
      (fun m => m.st.sellBook) (ofSymbol sym) priceAsc (fetchSells sym) (fun _ _ => rfl)
      (fun m o _ h => (marketBuyOrder_step env sym prec m o).2 h) _ _ _ hlen1
  rw [e] at hpos ⊢
  obtain ⟨_, h2, h3⟩ := pageWhile_unfilled (marketBuyOrder env sym prec)
    (fun m => m.st.sellBook) (fun _ => True) (UnfilledBySpend prec)
    (fun m o _ hm hp => marketBuyOrder_skip env sym prec m o hm hp) _ _
    (fun _ _ => trivial) hpos
  intro o ho hsym
  have ho1 : o ∈ (removeExpiredOrders env Table.sellBook s).sellBook := h2 o ho
  refine ⟨hsub.subset (hbook ▸ ho1), ?_⟩
  exact h3 o (mem_single_page _ _ _ hlen1 o ho1 (by simp [ofSymbol, hsym])) ho

theorem marketSellLoop_unfilled (env : Env) (sym : String) (prec : Nat) (X : Int)
    (s : State) (hlen : (s.buyBook.filter (ofSymbol sym)).length ≤ PAGE)
    (hq : ∀ o ∈ s.buyBook, 0 ≤ o.quantity)
    (hpos : 0 < (marketSellLoop env sym prec X s).remaining) :
    ∀ o ∈ (marketSellLoop env sym prec X s).st.buyBook, o.symbol = sym →
      o ∈ s.buyBook ∧
      ∃ X', (marketSellLoop env sym prec X s).remaining ≤ X' ∧ X' ≤ X ∧
        UnfilledBySale prec X' o := by
  have hbook : (removeExpiredOrders env Table.buyBook s).buyBook
      = sweptBook env s.buyBook := removeExpiredOrders_book env Table.buyBook s
  have hsub := sweptBook_sublist env s.buyBook
  have hlen1 : ((removeExpiredOrders env Table.buyBook s).buyBook.filter
      (ofSymbol sym)).length ≤ PAGE := by
    rw [hbook]
    exact le_trans (List.Sublist.length_le (List.Sublist.filter _ hsub)) hlen
  have e : marketSellLoop env sym prec X s
      = pageWhile (marketSellOrder env sym prec) Sweep.active
          { st := removeExpiredOrders env Table.buyBook s, remaining := X, volumeTraded := 0 }
          (fetchBuys sym
            { st := removeExpiredOrders env Table.buyBook s, remaining := X, volumeTraded := 0 }
            0) := by
    unfold marketSellLoop
    exact pagesLoop_single_page (marketSellOrder env sym prec) Sweep.active
      (fun m => m.st.buyBook) (ofSymbol sym) priceDesc (fetchBuys sym) (fun _ _ => rfl)
      (fun m o _ h => (marketSellOrder_step env sym prec m o).2 h) _ _ _ hlen1
  rw [e] at hpos ⊢
  obtain ⟨_, h2, h3⟩ := pageWhile_unfilled (marketSellOrder env sym prec)
    (fun m => m.st.buyBook) (fun o => 0 ≤ o.quantity) (UnfilledBySale prec)
    (fun m o ho hm hp => marketSellOrder_skip env sym prec m o ho hm hp) _ _
    (fun o ho => hq o (hsub.subset (hbook ▸ (mem_dbFind _ _ _ _ _ o ho).1))) hpos
  intro o ho hsym
  have ho1 : o ∈ (removeExpiredOrders env Table.buyBook s).buyBook := h2 o ho
  refine ⟨hsub.subset (hbook ▸ ho1), ?_⟩
  exact h3 o (mem_single_page _ _ _ hlen1 o ho1 (by simp [ofSymbol, hsym])) ho

/-- C15 (amended: what a refund says about the book).  For a `marketBuy` that passes its
validation and its escrow, when the symbol has at most 1000 sell orders (one page) and
the sweep ends with a positive remainder `R`: the refund of `R` to the sender is the
last transfer, and every sell order of the symbol still in `sellBook` was there before,
untouched, and was passed over by the sweep: reached with `X` left, `R <= X <= input`,
either `X` bought no positive quantity of it at its price or the amount to pay for the
whole order was not positive.  Symmetrically for a `marketSell`, with buy orders of
non-negative quantity: every buy order of the symbol still in `buyBook` would have paid
nothing for what was offered to it. -/
theorem market_refund_leaves_only_unfillable_orders (env : Env) (s : State) :
    (∀ payload s1 v,
      validateMarket env payload (fun _ => STEEM_PEGGED_SYMBOL_PRESICION) s = (s1, some v) →
      env.escrowOk STEEM_PEGGED_SYMBOL
        (v.quantity.toFixed STEEM_PEGGED_SYMBOL_PRESICION) = true →
      (s.sellBook.filter (ofSymbol v.symbol)).length ≤ PAGE →
      0 < (marketBuySweep env v s).remaining →
      (marketBuy env payload s).transfers = (marketBuySweep env v s).st.transfers ++
        [⟨env.sender, STEEM_PEGGED_SYMBOL, (marketBuySweep env v s).remaining⟩] ∧
      ∀ o ∈ (marketBuy env payload s).sellBook, o.symbol = v.symbol →
        o ∈ s.sellBook ∧
        ∃ X, (marketBuySweep env v s).remaining ≤ X ∧
          X ≤ v.quantity.toFixed STEEM_PEGGED_SYMBOL_PRESICION ∧
          UnfilledBySpend v.precision X o) ∧
    (∀ payload s1 v,
      validateMarket env payload (fun precision => precision) s = (s1, some v) →
      env.escrowOk v.symbol (v.quantity.toFixed v.precision) = true →
      (s.buyBook.filter (ofSymbol v.symbol)).length ≤ PAGE →
      (∀ o ∈ s.buyBook, 0 ≤ o.quantity) →
      0 < (marketSellSweep env v s).remaining →
      (marketSell env payload s).transfers = (marketSellSweep env v s).st.transfers ++
        [⟨env.sender, v.symbol, (marketSellSweep env v s).remaining⟩] ∧
      ∀ o ∈ (marketSell env payload s).buyBook, o.symbol = v.symbol →
        o ∈ s.buyBook ∧
        ∃ X, (marketSellSweep env v s).remaining ≤ X ∧
          X ≤ v.quantity.toFixed v.precision ∧ UnfilledBySale v.precision X o) := by
  constructor
  · intro payload s1 v hv hok hlen hpos
    obtain ⟨hs1, _⟩ := validateMarket_some hv
    rw [hs1] at hv
    have hrun : marketBuy env payload s = finishMetrics env v.symbol
        (marketBuySweep env v s).volumeTraded
        (transferTokens (marketBuySweep env v s).st env.sender STEEM_PEGGED_SYMBOL
          (marketBuySweep env v s).remaining) := by
      unfold marketBuy
      rw [hv]
      simp only [hok, if_true]
      unfold marketBuySweep at hpos ⊢
      rw [if_pos hpos]
    have hrows := marketBuyLoop_unfilled env v.symbol v.precision
      (v.quantity.toFixed STEEM_PEGGED_SYMBOL_PRESICION)
      (requestEscrow env s STEEM_PEGGED_SYMBOL
        (v.quantity.toFixed STEEM_PEGGED_SYMBOL_PRESICION)) hlen hpos
    rw [hrun]
    refine ⟨by rw [finishMetrics_transfers]; rfl, fun o ho hsym => ?_⟩
    rw [finishMetrics_sellBook, transferTokens_sellBook] at ho
    exact hrows o ho hsym
  · intro payload s1 v hv hok hlen hq hpos
    obtain ⟨hs1, _⟩ := validateMarket_some hv
    rw [hs1] at hv
    have hrun : marketSell env payload s = finishMetrics env v.symbol
        (marketSellSweep env v s).volumeTraded
        (transferTokens (marketSellSweep env v s).st env.sender v.symbol
          (marketSellSweep env v s).remaining) := by
      unfold marketSell
      rw [hv]
      simp only [hok, if_true]
      unfold marketSellSweep at hpos ⊢
      rw [if_pos hpos]
    have hrows := marketSellLoop_unfilled env v.symbol v.precision
      (v.quantity.toFixed v.precision)
      (requestEscrow env s v.symbol (v.quantity.toFixed v.precision)) hlen hq hpos
    rw [hrun]
    refine ⟨by rw [finishMetrics_transfers]; rfl, fun o ho hsym => ?_⟩
    rw [finishMetrics_buyBook, transferTokens_buyBook] at ho
    exact hrows o ho hsym

/-- C15 (amended) at Bob's market buy of `1` peg token against Alice's `10 XYZ` at `2.0`:
the whole input is refunded, and the order left in the book is one of which `1` peg
token buys no whole unit. -/
theorem market_refund_leaves_only_unfillable_orders_witness :
    (marketBuySweep (twoEnv "bob" "m1" 101) ⟨"XYZ", 0, ⟨1, 0⟩⟩ restingSellXYZ).remaining
      = 100000000 ∧
    (marketBuy (twoEnv "bob" "m1" 101) ⟨some "XYZ", some ⟨1, 0⟩, true⟩ restingSellXYZ).transfers
      = [⟨"bob", "STEEMP", 100000000⟩] ∧
    (marketBuy (twoEnv "bob" "m1" 101) ⟨some "XYZ", some ⟨1, 0⟩, true⟩
      restingSellXYZ).sellBook.map (fun o => (o.symbol, o.quantity, o.price))
      = [("XYZ", 10, 200000000)] ∧
    ∀ o ∈ (marketBuy (twoEnv "bob" "m1" 101) ⟨some "XYZ", some ⟨1, 0⟩, true⟩
        restingSellXYZ).sellBook,
      o.symbol = "XYZ" →
      o ∈ restingSellXYZ.sellBook ∧
      ∃ X, (marketBuySweep (twoEnv "bob" "m1" 101) ⟨"XYZ", 0, ⟨1, 0⟩⟩
          restingSellXYZ).remaining ≤ X ∧
        X ≤ (⟨1, 0⟩ : Dec).toFixed STEEM_PEGGED_SYMBOL_PRESICION ∧ UnfilledBySpend 0 X o := by
  have h := (market_refund_leaves_only_unfillable_orders (twoEnv "bob" "m1" 101)
    restingSellXYZ).1 ⟨some "XYZ", some ⟨1, 0⟩, true⟩ restingSellXYZ ⟨"XYZ", 0, ⟨1, 0⟩⟩
    (by decide!) (by decide!) (by decide!) (by decide!)
  exact ⟨by decide!, by decide!, by decide!, h.2⟩

theorem surplusBuyThenSell_tokens : ∀ tx ∈ surplusBuyThenSell, tx.1.tokens = exampleTokens := by
  intro tx h
  simp only [surplusBuyThenSell, surplusBuy, List.cons_append, List.nil_append,
    List.mem_cons, List.mem_singleton, List.mem_nil_iff, or_false] at h
  rcases h with h | h | h <;> rw [h] <;> rfl

theorem surplusBuyThenMarketSell_tokens :
    ∀ tx ∈ surplusBuyThenMarketSell, tx.1.tokens = exampleTokens := by
  intro tx h
  simp only [surplusBuyThenMarketSell, surplusBuy, List.cons_append, List.nil_append,
    List.mem_cons, List.mem_singleton, List.mem_nil_iff, or_false] at h
  rcases h with h | h | h <;> rw [h] <;> rfl

/-- C33 (evaluation at the failing input).  Bob's resting buy order of `0.5 ABC` at
`18.00000001` holds `17.50000001`.  Consumed whole by Carol's sell (limit or market),
`price * quantity = 9.000000005` rounds to `9.00000001`, which is not numerically greater
than `17.50000001`, so the numeric decision (`cappedAmount`) pays `9.00000001`; but the
string `9.00000001` is greater than the string `17.50000001`, so the contract pays the
amount rounded down, `9.00000000`. -/
theorem whole_buy_order_cap_compares_strings :
    Reachable exampleTokens (run surplusBuyThenSell State.empty) ∧
    Reachable exampleTokens (run surplusBuyThenMarketSell State.empty) ∧
    (run surplusBuy State.empty).buyBook.map (fun o => (o.quantity, o.price, o.tokensLocked))
      = [(5, 1800000001, 1750000001)] ∧
    roundHalfUp (1800000001 * 5) 1 = 900000001 ∧
    cappedAmount 1 1800000001 5 1750000001 = 900000001 ∧
    ((run surplusBuyThenSell State.empty).fills.drop 1).map
        (fun f => (f.maker.account, f.quantity, f.amount, f.locked))
      = [("bob", 5, 900000000, 1750000001)] ∧
    ((run surplusBuyThenMarketSell State.empty).fills.drop 1).map
        (fun f => (f.maker.account, f.quantity, f.amount, f.locked))
      = [("bob", 5, 900000000, 1750000001)] ∧
    (⟨"carol", "STEEMP", 900000000⟩ : Transfer) ∈ (run surplusBuyThenSell State.empty).transfers ∧
    (⟨"carol", "STEEMP", 900000000⟩ : Transfer)
      ∈ (run surplusBuyThenMarketSell State.empty).transfers := by
  refine ⟨⟨surplusBuyThenSell, surplusBuyThenSell_tokens, rfl⟩,
    ⟨surplusBuyThenMarketSell, surplusBuyThenMarketSell_tokens, rfl⟩, ?_, ?_, ?_, ?_, ?_, ?_, ?_⟩
    <;> decide!

/-- C38 (evaluation at the failing input).  Alice has an account row, has not voted for
the registered witness `wit1` and has a stake of `10`.  After `vote` the vote row exists
and her counter is `1`, but the approval weight of `wit1` and `totalApprovalWeight` are
still `0`: the call of `actions.updateWitnessRank` threw.  The same weight passed to
`updateWitnessRank` itself would have raised both to `10`. -/
theorem vote_does_not_update_the_rank :
    (Witnesses.vote Witnesses.aliceStaked ⟨some "wit1"⟩ Witnesses.aliceKnown).votes.map
        (fun v => (v.fromAccount, v.toAccount)) = [("alice", "wit1")] ∧
    (Witnesses.vote Witnesses.aliceStaked ⟨some "wit1"⟩ Witnesses.aliceKnown).accounts.map
        (fun a => (a.account, a.votes)) = [("alice", 1)] ∧
    (Witnesses.vote Witnesses.aliceStaked ⟨some "wit1"⟩ Witnesses.aliceKnown).asserts = [] ∧
    (Witnesses.vote Witnesses.aliceStaked ⟨some "wit1"⟩ Witnesses.aliceKnown).witnesses
      = [⟨0, "wit1", 0⟩] ∧
    (Witnesses.vote Witnesses.aliceStaked ⟨some "wit1"⟩ Witnesses.aliceKnown).params = ⟨0, 0⟩ ∧
    (Witnesses.vote Witnesses.aliceStaked ⟨some "wit1"⟩ Witnesses.aliceKnown).errors
      = ["TypeError: actions.updateWitnessRank is not a function"] ∧
    (Witnesses.updateWitnessRank Witnesses.aliceKnown "wit1" 10).witnesses = [⟨0, "wit1", 10⟩] ∧
    (Witnesses.updateWitnessRank Witnesses.aliceKnown "wit1" 10).params = ⟨10, 1⟩ := by
  refine ⟨?_, ?_, ?_, ?_, ?_, ?_, ?_, ?_⟩ <;> decide

/-- C39 (evaluation at the failing input).  The witness `wit1` has weight `5` and the
counter is `1`, the number of witnesses with a positive weight.  `updateWitnessRank` with
`-7` (what `unvote` passes when Alice's stake is `7`) leaves the weight at `-2` and the
counter at `1`, while no witness has a positive weight; `totalApprovalWeight` changes by
exactly `-7`. -/
theorem rank_update_misses_the_sign_change :
    Witnesses.aliceVoted.params.numberOfApprovedWitnesses
      = Witnesses.approvedCount Witnesses.aliceVoted ∧
    (Witnesses.updateWitnessRank Witnesses.aliceVoted "wit1" (-7)).witnesses
      = [⟨0, "wit1", -2⟩] ∧
    (Witnesses.updateWitnessRank Witnesses.aliceVoted "wit1" (-7)).params = ⟨-2, 1⟩ ∧
    Witnesses.approvedCount (Witnesses.updateWitnessRank Witnesses.aliceVoted "wit1" (-7)) = 0 ∧
    Witnesses.unvote ⟨"alice", some 7, none⟩ ⟨some "wit1"⟩ Witnesses.aliceVoted
      = { Witnesses.updateWitnessRank Witnesses.aliceVoted "wit1" (-7) with
          votes := [], accounts := [⟨some 1, "alice", 0, 7⟩] } := by
  refine ⟨?_, ?_, ?_, ?_, ?_⟩ <;> decide

/-- C40 (evaluation at the failing input).  Alice has no account row and no stake.  Her
first vote inserts the account row with `votes: 0` and the vote row; the update of the
counter is made with the record the contract built, which is not the stored row, so the
stored counter is still `0` while one vote row exists. -/
theorem first_vote_is_not_counted :
    (Witnesses.vote Witnesses.aliceUnstaked ⟨some "wit1"⟩ Witnesses.oneWitness).votes.map
        (fun v => (v.fromAccount, v.toAccount)) = [("alice", "wit1")] ∧
    Witnesses.voteRows
      (Witnesses.vote Witnesses.aliceUnstaked ⟨some "wit1"⟩ Witnesses.oneWitness) "alice" = 1 ∧
    (Witnesses.vote Witnesses.aliceUnstaked ⟨some "wit1"⟩ Witnesses.oneWitness).accounts
      = [⟨some 1, "alice", 0, 0⟩] ∧
    (Witnesses.vote Witnesses.aliceUnstaked ⟨some "wit1"⟩ Witnesses.oneWitness).asserts = [] ∧
    (Witnesses.vote Witnesses.aliceUnstaked ⟨some "wit1"⟩ Witnesses.oneWitness).errors = [] := by
  refine ⟨?_, ?_, ?_, ?_, ?_⟩ <;> decide

theorem nonEmpty_eq_some (x : Option String) (s : String) :
    Database.nonEmpty x = some s ↔ x = some s ∧ s ≠ "" := by
  cases x with
  | none => simp [Database.nonEmpty]
  | some y =>
    by_cases hy : y = ""
    · simp only [Database.nonEmpty, hy, ne_eq, not_true_eq_false, if_false, Option.some.injEq]
      constructor
      · intro h
        cases h
      · rintro ⟨h1, h2⟩
        exact absurd h1.symm h2
    · simp only [Database.nonEmpty, ne_eq, hy, not_false_eq_true, if_true, Option.some.injEq]
      constructor
      · intro h
        exact ⟨h, h ▸ hy⟩
      · exact fun h => h.1

theorem index_default (x : JsValue) (i : String) :
    (x.orElse (JsValue.str "")).asString = some i ↔
      (x.truthy = false ∧ i = "") ∨ (x = JsValue.str i ∧ i ≠ "") := by
  cases x with
  | undefined => simp [JsValue.orElse, JsValue.truthy, JsValue.asString, eq_comm]
  | null => simp [JsValue.orElse, JsValue.truthy, JsValue.asString, eq_comm]
  | bool b => cases b <;> simp [JsValue.orElse, JsValue.truthy, JsValue.asString, eq_comm]
  | int n => by_cases h : n = 0 <;> simp [JsValue.orElse, JsValue.truthy, JsValue.asString, h, eq_comm]
  | nan => simp [JsValue.orElse, JsValue.truthy, JsValue.asString, eq_comm]
  | fraction => simp [JsValue.orElse, JsValue.truthy, JsValue.asString]
  | object => simp [JsValue.orElse, JsValue.truthy, JsValue.asString]
  | str s =>
    by_cases h : s = ""
    · simp [JsValue.orElse, JsValue.truthy, JsValue.asString, h, eq_comm]
    · simp only [JsValue.orElse, JsValue.truthy, JsValue.asString, h, ne_eq, not_false_eq_true,
        decide_True, if_true, Option.some.injEq, decide_eq_false_iff_not, not_true_eq_false,
        false_and, JsValue.str.injEq, false_or]
      constructor
      · intro h1
        exact Or.inr ⟨h1, h1 ▸ h⟩
      · rintro (⟨h1, _⟩ | ⟨h1, _⟩)
        · cases h1
        · exact h1

theorem descending_default (x : JsValue) (b : Bool) :
    (x.orElse (JsValue.bool false)).asBool = some b ↔
      (x.truthy = false ∧ b = false) ∨ (x = JsValue.bool true ∧ b = true) := by
  cases x with
  | undefined => simp [JsValue.orElse, JsValue.truthy, JsValue.asBool, eq_comm]
  | null => simp [JsValue.orElse, JsValue.truthy, JsValue.asBool, eq_comm]
  | bool c => cases c <;> simp [JsValue.orElse, JsValue.truthy, JsValue.asBool, eq_comm]
  | int n => by_cases h : n = 0 <;> simp [JsValue.orElse, JsValue.truthy, JsValue.asBool, h, eq_comm]
  | nan => simp [JsValue.orElse, JsValue.truthy, JsValue.asBool, eq_comm]
  | fraction => simp [JsValue.orElse, JsValue.truthy, JsValue.asBool]
  | object => simp [JsValue.orElse, JsValue.truthy, JsValue.asBool]
  | str s => by_cases h : s = "" <;> simp [JsValue.orElse, JsValue.truthy, JsValue.asBool, h, eq_comm]

theorem integer_default (x : JsValue) (d n : Int) :
    (x.orElse (JsValue.int d)).asInteger = some n ↔
      (x.truthy = false ∧ n = d) ∨ (x = JsValue.int n ∧ n ≠ 0) := by
  cases x with
  | undefined => simp [JsValue.orElse, JsValue.truthy, JsValue.asInteger, eq_comm]
  | null => simp [JsValue.orElse, JsValue.truthy, JsValue.asInteger, eq_comm]
  | bool c => cases c <;> simp [JsValue.orElse, JsValue.truthy, JsValue.asInteger, eq_comm]
  | nan => simp [JsValue.orElse, JsValue.truthy, JsValue.asInteger, eq_comm]
  | fraction => simp [JsValue.orElse, JsValue.truthy, JsValue.asInteger]
  | object => simp [JsValue.orElse, JsValue.truthy, JsValue.asInteger]
  | str s => by_cases h : s = "" <;> simp [JsValue.orElse, JsValue.truthy, JsValue.asInteger, h, eq_comm]
  | int m =>
    by_cases h : m = 0
    · simp only [JsValue.orElse, JsValue.truthy, h, ne_eq, not_true_eq_false, decide_False,
        Bool.false_eq_true, if_false, JsValue.asInteger, Option.some.injEq, true_and,
        JsValue.int.injEq]
      constructor
      · intro h1
        exact Or.inl h1.symm
      · rintro (h1 | ⟨h1, h2⟩)
        · exact h1.symm
        · exact absurd h1.symm h2
    · simp only [JsValue.orElse, JsValue.truthy, ne_eq, h, not_false_eq_true, decide_True,
        if_true, JsValue.asInteger, Option.some.injEq, Bool.true_eq_false, false_and,
        JsValue.int.injEq, false_or]
      constructor
      · intro h1
        exact ⟨h1, h1 ▸ h⟩
      · exact fun h1 => h1.1

theorem checked_eq_some {α : Type} (p : Database.FindPayload α) (v : Database.Checked α) :
    Database.checked p = some v ↔
      Database.nonEmpty p.contract = some v.contract ∧
      Database.nonEmpty p.table = some v.table ∧ p.query = some v.query ∧
      (p.index.orElse (JsValue.str "")).asString = some v.ind ∧
      (p.descending.orElse (JsValue.bool false)).asBool = some v.des ∧
      (p.limit.orElse (JsValue.int 1000)).asInteger = some v.lim ∧
      (p.offset.orElse (JsValue.int 0)).asInteger = some v.off ∧
      0 < v.lim ∧ v.lim ≤ 1000 ∧ 0 ≤ v.off := by
  obtain ⟨c, t, q, i, d, l, o⟩ := v
  unfold Database.checked
  constructor
  · intro h
    simp only [Option.bind_eq_bind, Option.bind_eq_some] at h
    obtain ⟨c1, hc, t1, ht, q1, hq, i1, hi, d1, hd, l1, hl, o1, ho, h⟩ := h
    split at h
    · rename_i hr
      simp only [Option.some.injEq, Database.Checked.mk.injEq] at h
      obtain ⟨rfl, rfl, rfl, rfl, rfl, rfl, rfl⟩ := h
      exact ⟨hc, ht, hq, hi, hd, hl, ho, hr⟩
    · cases h
  · rintro ⟨hc, ht, hq, hi, hd, hl, ho, hr⟩
    simp only [Option.bind_eq_bind, hc, ht, hq, hi, hd, hl, ho, Option.some_bind]
    rw [if_pos hr]

theorem valid_iff_checked {α : Type} (p : Database.FindPayload α) :
    p.valid ↔ ∃ v, Database.checked p = some v := by
  constructor
  · rintro ⟨⟨c, hc, hc0⟩, ⟨t, ht, ht0⟩, hq, hi, hd, hl, ho⟩
    obtain ⟨q, hq⟩ := Option.isSome_iff_exists.mp hq
    have hi1 : ∃ i, (p.index.orElse (JsValue.str "")).asString = some i := by
      rcases hi with hi | ⟨i, hi⟩
      · exact ⟨"", (index_default _ _).mpr (Or.inl ⟨hi, rfl⟩)⟩
      · by_cases h0 : i = ""
        · refine ⟨"", (index_default _ _).mpr (Or.inl ⟨?_, rfl⟩)⟩
          rw [hi, h0]
          rfl
        · exact ⟨i, (index_default _ _).mpr (Or.inr ⟨hi, h0⟩)⟩
    have hd1 : ∃ d, (p.descending.orElse (JsValue.bool false)).asBool = some d := by
      rcases hd with hd | ⟨d, hd⟩
      · exact ⟨false, (descending_default _ _).mpr (Or.inl ⟨hd, rfl⟩)⟩
      · cases d with
        | false =>
          refine ⟨false, (descending_default _ _).mpr (Or.inl ⟨?_, rfl⟩)⟩
          rw [hd]
          rfl
        | true => exact ⟨true, (descending_default _ _).mpr (Or.inr ⟨hd, rfl⟩)⟩
    have hl1 : ∃ l, (p.limit.orElse (JsValue.int 1000)).asInteger = some l ∧ 0 < l ∧
        l ≤ 1000 := by
      rcases hl with hl | ⟨l, hl, h1, h2⟩
      · exact ⟨1000, (integer_default _ _ _).mpr (Or.inl ⟨hl, rfl⟩), by decide, le_refl _⟩
      · exact ⟨l, (integer_default _ _ _).mpr (Or.inr ⟨hl, by omega⟩), h1, h2⟩
    have ho1 : ∃ o, (p.offset.orElse (JsValue.int 0)).asInteger = some o ∧ 0 ≤ o := by
      rcases ho with ho | ⟨o, ho, h1⟩
      · exact ⟨0, (integer_default _ _ _).mpr (Or.inl ⟨ho, rfl⟩), le_refl _⟩
      · by_cases h0 : o = 0
        · refine ⟨0, (integer_default _ _ _).mpr (Or.inl ⟨?_, rfl⟩), le_refl _⟩
          rw [ho, h0]
          rfl
        · exact ⟨o, (integer_default _ _ _).mpr (Or.inr ⟨ho, h0⟩), h1⟩
    obtain ⟨i, hi1⟩ := hi1
    obtain ⟨d, hd1⟩ := hd1
    obtain ⟨l, hl1, hl2, hl3⟩ := hl1
    obtain ⟨o, ho1, ho2⟩ := ho1
    exact ⟨⟨c, t, q, i, d, l, o⟩, (checked_eq_some p _).mpr
      ⟨(nonEmpty_eq_some _ _).mpr ⟨hc, hc0⟩, (nonEmpty_eq_some _ _).mpr ⟨ht, ht0⟩, hq, hi1,
        hd1, hl1, ho1, hl2, hl3, ho2⟩⟩
  · rintro ⟨v, hv⟩
    obtain ⟨hc, ht, hq, hi, hd, hl, ho, h1, h2, h3⟩ := (checked_eq_some p v).mp hv
    refine ⟨⟨_, (nonEmpty_eq_some _ _).mp hc⟩, ⟨_, (nonEmpty_eq_some _ _).mp ht⟩, ?_, ?_, ?_,
      ?_, ?_⟩
    · rw [hq]
      rfl
    · rcases (index_default _ _).mp hi with h | h
      · exact Or.inl h.1
      · exact Or.inr ⟨_, h.1⟩
    · rcases (descending_default _ _).mp hd with h | h
      · exact Or.inl h.1
      · exact Or.inr ⟨_, h.1⟩
    · rcases (integer_default _ _ _).mp hl with h | h
      · exact Or.inl h.1
      · exact Or.inr ⟨_, h.1, h1, h2⟩
    · rcases (integer_default _ _ _).mp ho with h | h
      · exact Or.inl h.1
      · exact Or.inr ⟨_, h.1, h3⟩

/-- The answers of `find` by cases.  A payload that fails the test of `find` on its
fields is answered with `null`.  For a payload that passes it, `find` answers `null` when
the contract is unknown or does not list the table; when the contract lists the table and
the store has the collection, it answers with an array of at most 1000 records: without
a usable index, the records matching the query in insertion order, after `offset` of them,
`limit` at most; in every case (the sort of the store being a reordering) only records of
the table that match the query, none when no record matches, and all of them when
`offset` is zero and `limit` covers them. -/
theorem find_cases {α : Type} (db : Database.Db α)
    (p : Database.FindPayload α) :
    (¬ p.valid → Database.find db p = Database.Result.null) ∧
    (p.valid → ∃ v, Database.checked p = some v ∧ p.contract = some v.contract ∧
      p.table = some v.table ∧ p.query = some v.query ∧ 0 < v.lim ∧ v.lim ≤ 1000 ∧ 0 ≤ v.off ∧
      (Database.findContract db v.contract = none → Database.find db p = Database.Result.null) ∧
      (∀ contractInDb, Database.findContract db v.contract = some contractInDb →
        (v.contract ++ "_" ++ v.table ∉ contractInDb.tables →
          Database.find db p = Database.Result.null) ∧
        (v.contract ++ "_" ++ v.table ∈ contractInDb.tables →
          ∀ tableData, Database.getCollection db (v.contract ++ "_" ++ v.table) = some tableData →
          ∃ l, Database.find db p = Database.Result.rows l ∧ l.length ≤ 1000 ∧
            (¬ (v.ind ≠ "" ∧ v.ind ∈ tableData.binaryIndices) →
              l = ((tableData.data.filter v.query).drop v.off.toNat).take v.lim.toNat) ∧
            ((∀ rows, (db.simplesort v.ind v.des rows).Perm rows) →
              (∀ r ∈ l, r ∈ tableData.data ∧ v.query r = true) ∧
              ((∀ r ∈ tableData.data, v.query r = false) → l = []) ∧
              (v.off = 0 → (tableData.data.filter v.query).length ≤ v.lim.toNat →
                l.Perm (tableData.data.filter v.query)))))) := by
  constructor
  · intro h
    have hn : Database.checked p = none := by
      cases hc : Database.checked p with
      | none => rfl
      | some v => exact absurd ((valid_iff_checked p).mpr ⟨v, hc⟩) h
    unfold Database.find
    rw [hn]
  · intro h
    obtain ⟨v, hv⟩ := (valid_iff_checked p).mp h
    obtain ⟨hc, ht, hq, _, _, _, _, h1, h2, h3⟩ := (checked_eq_some p v).mp hv
    refine ⟨v, hv, ((nonEmpty_eq_some _ _).mp hc).1, ((nonEmpty_eq_some _ _).mp ht).1, hq,
      h1, h2, h3, ?_, ?_⟩
    · intro hf
      unfold Database.find
      rw [hv]
      simp only [hf]
    · intro contractInDb hf
      constructor
      · intro hnot
        unfold Database.find
        rw [hv]
        simp only [hf, if_neg hnot]
      · intro hin tableData hg
        have hlen : ∀ l : List α, (l.take v.lim.toNat).length ≤ 1000 := by
          intro l
          rw [List.length_take]
          have : v.lim.toNat ≤ 1000 := by omega
          omega
        by_cases hi : v.ind ≠ "" ∧ v.ind ∈ tableData.binaryIndices
        · refine ⟨((db.simplesort v.ind v.des (tableData.data.filter v.query)).drop
            v.off.toNat).take v.lim.toNat, ?_, hlen _, fun hn => absurd hi hn, ?_⟩
          · unfold Database.find
            rw [hv]
            simp only [hf, if_pos hin, hg, if_pos hi]
          · intro hperm
            have hp := hperm (tableData.data.filter v.query)
            refine ⟨?_, ?_, ?_⟩
            · intro r hr
              have h4 := hp.subset ((List.drop_subset _ _) ((List.take_subset _ _) hr))
              exact List.mem_filter.mp h4
            · intro hnone
              have h5 : tableData.data.filter v.query = [] := by
                rw [List.filter_eq_nil_iff]
                intro r hr
                rw [hnone r hr]
                exact Bool.false_ne_true
              rw [h5] at hp ⊢
              rw [hp.eq_nil]
              simp
            · intro h0 hcover
              rw [h0]
              simp only [Int.toNat_zero, List.drop_zero]
              rw [List.take_of_length_le (by rw [hp.length_eq]; exact hcover)]
              exact hp
        · refine ⟨((tableData.data.filter v.query).drop v.off.toNat).take v.lim.toNat, ?_,
            hlen _, fun _ => rfl, ?_⟩
          · unfold Database.find
            rw [hv]
            simp only [hf, if_pos hin, hg, if_neg hi]
          · intro _
            refine ⟨?_, ?_, ?_⟩
            · intro r hr
              exact List.mem_filter.mp ((List.drop_subset _ _) ((List.take_subset _ _) hr))
            · intro hnone
              have h5 : tableData.data.filter v.query = [] := by
                rw [List.filter_eq_nil_iff]
                intro r hr
                rw [hnone r hr]
                exact Bool.false_ne_true
              rw [h5]
              simp
            · intro h0 hcover
              rw [h0]
              simp only [Int.toNat_zero, List.drop_zero]
              rw [List.take_of_length_le hcover]

theorem allRows_valid (contract table : String) (hc : contract ≠ "") (ht : table ≠ "") :
    (Database.allRows contract table).valid :=
  ⟨⟨contract, rfl, hc⟩, ⟨table, rfl, ht⟩, rfl, Or.inl rfl, Or.inl rfl, Or.inl rfl, Or.inl rfl⟩

theorem sameLedger_refl (s : State) : SameLedger s s := ⟨rfl, rfl, rfl⟩

theorem sameLedger_trans {a b c : State} (h1 : SameLedger a b) (h2 : SameLedger b c) :
    SameLedger a c :=
  ⟨h2.1.trans h1.1, h2.2.1.trans h1.2.1, h2.2.2.trans h1.2.2⟩

theorem sl_transfer {a b : State} (x y : String) (q : Int) (h : SameLedger a b) :
    SameLedger a (transferTokens b x y q) := h

theorem sl_assert {a b : State} (c : Bool) (msg : String) (h : SameLedger a b) :
    SameLedger a (apiAssert b c msg) := by
  unfold apiAssert
  split
  · exact h
  · exact h

theorem sl_removeOrder {a b : State} (t : Table) (o : Order) (h : SameLedger a b) :
    SameLedger a (removeOrder b t o) := by
  cases t <;> exact h

theorem sl_updateOrder {a b : State} (t : Table) (o : Order) (h : SameLedger a b) :
    SameLedger a (updateOrder b t o) := by
  cases t <;> exact h

theorem sl_recordFill {a b : State} (o : Order) (q x l : Int) (h : SameLedger a b) :
    SameLedger a (recordFill b o q x l) := h

theorem sl_settleRestingSell {a b : State} (prec : Nat) (sym : String) (o : Order) (f : Int)
    (h : SameLedger a b) : SameLedger a (settleRestingSell prec b sym o f) := by
  unfold settleRestingSell
  simp only
  split
  · exact sl_updateOrder _ _ h
  · split
    · exact sl_removeOrder _ _ (sl_transfer _ _ _ h)
    · exact sl_removeOrder _ _ h

theorem sl_settleRestingBuy {a b : State} (prec : Nat) (o : Order) (f x : Int)
    (h : SameLedger a b) : SameLedger a (settleRestingBuy prec b o f x) := by
  unfold settleRestingBuy
  simp only
  split
  · exact sl_updateOrder _ _ h
  · split
    · exact sl_removeOrder _ _ (sl_transfer _ _ _ h)
    · exact sl_removeOrder _ _ h

theorem sl_consumeBuyOrder {a b : State} (seller sym : String) (o : Order) (x : Int)
    (h : SameLedger a b) : SameLedger a (consumeBuyOrder b seller sym o x) := by
  unfold consumeBuyOrder
  simp only
  split
  · exact sl_removeOrder _ _ (sl_transfer _ _ _ (sl_transfer _ _ _ (sl_transfer _ _ _ h)))
  · exact sl_removeOrder _ _ (sl_transfer _ _ _ (sl_transfer _ _ _ h))

theorem buyFilledWhole_ledger (env : Env) (prec : Nat) (m : Taker) (o : Order) :
    LedgerStep env m.order.symbol o.price m.st (buyFilledWhole env prec m o).st
      m.volumeTraded (buyFilledWhole env prec m o).volumeTraded := by
  unfold buyFilledWhole
  simp only
  split
  · rename_i hok
    simp only [Bool.and_eq_true, decide_eq_true_eq] at hok
    refine Or.inr ⟨Side.buy, m.order.account, o.account, m.order.quantity,
      cappedAmount prec o.price m.order.quantity m.order.tokensLocked, _, ?_, hok.1,
      sl_removeOrder _ _ (sl_recordFill _ _ _ _ (sameLedger_refl _)), rfl⟩
    split
    · exact sl_transfer _ _ _ (sl_settleRestingSell _ _ _ _
        (sl_transfer _ _ _ (sl_transfer _ _ _ (sl_assert _ _ (sameLedger_refl _)))))
    · exact sl_settleRestingSell _ _ _ _
        (sl_transfer _ _ _ (sl_transfer _ _ _ (sl_assert _ _ (sameLedger_refl _))))
  · exact Or.inl ⟨sl_assert _ _ (sameLedger_refl _), rfl⟩

theorem sellOrderConsumed_ledger (env : Env) (prec : Nat) (m : Taker) (o : Order) :
    LedgerStep env m.order.symbol o.price m.st (sellOrderConsumed env prec m o).st
      m.volumeTraded (sellOrderConsumed env prec m o).volumeTraded := by
  unfold sellOrderConsumed
  simp only
  split
  · rename_i hok
    simp only [Bool.and_eq_true, decide_eq_true_eq] at hok
    refine Or.inr ⟨Side.buy, m.order.account, o.account, o.quantity,
      cappedAmount prec o.price o.quantity m.order.tokensLocked, _, ?_, hok.1,
      sl_recordFill _ _ _ _ (sameLedger_refl _), rfl⟩
    split
    · exact sl_removeOrder _ _ (sl_transfer _ _ _ (sl_removeOrder _ _
        (sl_transfer _ _ _ (sl_transfer _ _ _ (sl_assert _ _ (sameLedger_refl _))))))
    · exact sl_removeOrder _ _
        (sl_transfer _ _ _ (sl_transfer _ _ _ (sl_assert _ _ (sameLedger_refl _))))
  · exact Or.inl ⟨sl_assert _ _ (sameLedger_refl _), rfl⟩

theorem matchSellOrder_ledger (env : Env) (prec : Nat) (m : Taker) (o : Order) :
    LedgerStep env m.order.symbol o.price m.st (matchSellOrder env prec m o).st
      m.volumeTraded (matchSellOrder env prec m o).volumeTraded := by
  unfold matchSellOrder
  split
  · exact buyFilledWhole_ledger env prec m o
  · exact sellOrderConsumed_ledger env prec m o

theorem sellFilledWhole_ledger (env : Env) (prec : Nat) (m : Taker) (o : Order) :
    LedgerStep env m.order.symbol o.price m.st (sellFilledWhole env prec m o).st
      m.volumeTraded (sellFilledWhole env prec m o).volumeTraded := by
  unfold sellFilledWhole
  simp only
  split
  · rename_i hok
    simp only [Bool.and_eq_true, decide_eq_true_eq] at hok
    exact Or.inr ⟨Side.sell, o.account, m.order.account, m.order.quantity,
      cappedAmount prec o.price m.order.quantity o.tokensLocked, _,
      sl_settleRestingBuy _ _ _ _
        (sl_transfer _ _ _ (sl_transfer _ _ _ (sl_assert _ _ (sameLedger_refl _)))), hok.1,
      sl_removeOrder _ _ (sl_recordFill _ _ _ _ (sameLedger_refl _)), rfl⟩
  · exact Or.inl ⟨sl_assert _ _ (sameLedger_refl _), rfl⟩

theorem buyOrderConsumed_ledger (env : Env) (prec : Nat) (m : Taker) (o : Order) :
    LedgerStep env m.order.symbol o.price m.st (buyOrderConsumed env prec m o).st
      m.volumeTraded (buyOrderConsumed env prec m o).volumeTraded := by
  unfold buyOrderConsumed
  simp only
  split
  · rename_i hok
    simp only [Bool.and_eq_true, decide_eq_true_eq] at hok
    refine Or.inr ⟨Side.sell, o.account, m.order.account, o.quantity,
      payForWholeBuyOrder prec o, _, ?_, hok.1,
      sl_recordFill _ _ _ _ (sameLedger_refl _), rfl⟩
    split
    · exact sl_removeOrder _ _ (sl_transfer _ _ _
        (sl_consumeBuyOrder _ _ _ _ (sl_assert _ _ (sameLedger_refl _))))
    · exact sl_consumeBuyOrder _ _ _ _ (sl_assert _ _ (sameLedger_refl _))
  · exact Or.inl ⟨sl_assert _ _ (sameLedger_refl _), rfl⟩

theorem matchBuyOrder_ledger (env : Env) (prec : Nat) (m : Taker) (o : Order) :
    LedgerStep env m.order.symbol o.price m.st (matchBuyOrder env prec m o).st
      m.volumeTraded (matchBuyOrder env prec m o).volumeTraded := by
  unfold matchBuyOrder
  split
  · exact sellFilledWhole_ledger env prec m o
  · exact buyOrderConsumed_ledger env prec m o

theorem marketBuyAll_ledger (env : Env) (sym : String) (prec : Nat) (m : Sweep) (o : Order)
    (q : Int) :
    LedgerStep env sym o.price m.st (marketBuyAll env sym prec m o q).st
      m.volumeTraded (marketBuyAll env sym prec m o q).volumeTraded := by
  unfold marketBuyAll
  simp only
  split
  · rename_i hok
    simp only [Bool.and_eq_true, decide_eq_true_eq] at hok
    exact Or.inr ⟨Side.buy, env.sender, o.account, q, m.remaining, _,
      sl_settleRestingSell _ _ _ _
        (sl_transfer _ _ _ (sl_transfer _ _ _ (sl_assert _ _ (sameLedger_refl _)))), hok.2,
      sl_recordFill _ _ _ _ (sameLedger_refl _), rfl⟩
  · exact Or.inl ⟨sl_assert _ _ (sameLedger_refl _), rfl⟩

theorem marketBuyWhole_ledger (env : Env) (sym : String) (prec : Nat) (m : Sweep)
    (o : Order) :
    LedgerStep env sym o.price m.st (marketBuyWhole env sym prec m o).st
      m.volumeTraded (marketBuyWhole env sym prec m o).volumeTraded := by
  unfold marketBuyWhole
  simp only
  split
  · rename_i hok
    simp only [Bool.and_eq_true, decide_eq_true_eq] at hok
    exact Or.inr ⟨Side.buy, env.sender, o.account, o.quantity,
      cappedAmount prec o.price o.quantity m.remaining, _,
      sl_removeOrder _ _
        (sl_transfer _ _ _ (sl_transfer _ _ _ (sl_assert _ _ (sameLedger_refl _)))), hok.1,
      sl_recordFill _ _ _ _ (sameLedger_refl _), rfl⟩
  · exact Or.inl ⟨sl_assert _ _ (sameLedger_refl _), rfl⟩

theorem marketBuyOrder_ledger (env : Env) (sym : String) (prec : Nat) (m : Sweep)
    (o : Order) :
    LedgerStep env sym o.price m.st (marketBuyOrder env sym prec m o).st
      m.volumeTraded (marketBuyOrder env sym prec m o).volumeTraded := by
  unfold marketBuyOrder
  split
  · split
    · exact marketBuyAll_ledger env sym prec m o _
    · split
      · exact marketBuyWhole_ledger env sym prec m o
      · exact Or.inl ⟨sameLedger_refl _, rfl⟩
  · exact marketBuyWhole_ledger env sym prec m o

theorem marketSellAll_ledger (env : Env) (sym : String) (prec : Nat) (m : Sweep)
    (o : Order) :
    LedgerStep env sym o.price m.st (marketSellAll env sym prec m o).st
      m.volumeTraded (marketSellAll env sym prec m o).volumeTraded := by
  unfold marketSellAll
  simp only
  split
  · rename_i hok
    simp only [Bool.and_eq_true, decide_eq_true_eq] at hok
    exact Or.inr ⟨Side.sell, o.account, env.sender, m.remaining,
      cappedAmount prec o.price m.remaining o.tokensLocked, _,
      sl_settleRestingBuy _ _ _ _
        (sl_transfer _ _ _ (sl_transfer _ _ _ (sl_assert _ _ (sameLedger_refl _)))), hok.1,
      sl_recordFill _ _ _ _ (sameLedger_refl _), rfl⟩
  · exact Or.inl ⟨sl_assert _ _ (sameLedger_refl _), rfl⟩

theorem marketSellWhole_ledger (env : Env) (sym : String) (prec : Nat) (m : Sweep)
    (o : Order) :
    LedgerStep env sym o.price m.st (marketSellWhole env sym prec m o).st
      m.volumeTraded (marketSellWhole env sym prec m o).volumeTraded := by
  unfold marketSellWhole
  simp only
  split
  · rename_i hok
    simp only [Bool.and_eq_true, decide_eq_true_eq] at hok
    exact Or.inr ⟨Side.sell, o.account, env.sender, o.quantity, payForWholeBuyOrder prec o, _,
      sl_consumeBuyOrder _ _ _ _ (sl_assert _ _ (sameLedger_refl _)), hok.1,
      sl_recordFill _ _ _ _ (sameLedger_refl _), rfl⟩
  · exact Or.inl ⟨sl_assert _ _ (sameLedger_refl _), rfl⟩

theorem marketSellOrder_ledger (env : Env) (sym : String) (prec : Nat) (m : Sweep)
    (o : Order) :
    LedgerStep env sym o.price m.st (marketSellOrder env sym prec m o).st
      m.volumeTraded (marketSellOrder env sym prec m o).volumeTraded := by
  unfold marketSellOrder
  split
  · exact marketSellAll_ledger env sym prec m o
  · exact marketSellWhole_ledger env sym prec m o

/-! ### Properties of the metric rows kept by every update -/

theorem getMetric_rule {Q : Metric → Prop} {G : Env → Int → Prop} (R : MetricRule Q G)
    (s : State) (symbol : String) (h : ∀ r ∈ s.metrics, Q r) :
    (∀ r ∈ (getMetric s symbol).1.metrics, Q r) ∧ Q (getMetric s symbol).2 := by
  unfold getMetric
  split
  · rename_i m hm
    exact ⟨h, h m (List.mem_of_find?_eq_some hm)⟩
  · refine ⟨?_, R.dflt _ _⟩
    intro r hr
    simp only [List.mem_append, List.mem_singleton] at hr
    rcases hr with hr | hr
    · exact h r hr
    · rw [hr]
      exact R.dflt _ _

theorem updateMetric_rule {Q : Metric → Prop} (s : State) (m : Metric)
    (h : ∀ r ∈ s.metrics, Q r) (hm : Q m) : ∀ r ∈ (updateMetric s m).metrics, Q r := by
  intro r hr
  simp only [updateMetric, List.mem_map] at hr
  obtain ⟨a, ha, rfl⟩ := hr
  split
  · exact hm
  · exact h a ha

theorem updateVolumeMetric_rule {Q : Metric → Prop} {G : Env → Int → Prop}
    (R : MetricRule Q G) (env : Env) (symbol : String) (q : Int) (add : Bool) (s : State)
    (h : ∀ r ∈ s.metrics, Q r) :
    ∀ r ∈ (updateVolumeMetric env symbol q add s).metrics, Q r := by
  obtain ⟨h1, h2⟩ := getMetric_rule R s symbol h
  unfold updateVolumeMetric
  simp only
  apply updateMetric_rule _ _ h1
  cases add with
  | true =>
    simp only [if_true]
    split_ifs <;> exact R.volume (getMetric s symbol).2 _ _ h2
  | false =>
    simp only [Bool.false_eq_true, if_false]
    split_ifs <;> exact R.volume (getMetric s symbol).2 _ _ h2

theorem updatePriceMetrics_rule {Q : Metric → Prop} {G : Env → Int → Prop}
    (R : MetricRule Q G) (env : Env) (symbol : String) (p : Int) (s : State) (hG : G env p)
    (h : ∀ r ∈ s.metrics, Q r) : ∀ r ∈ (updatePriceMetrics env symbol p s).metrics, Q r := by
  obtain ⟨h1, h2⟩ := getMetric_rule R s symbol h
  unfold updatePriceMetrics
  simp only
  apply updateMetric_rule _ _ h1
  split
  · exact R.reset env (getMetric s symbol).2 p hG h2
  · rename_i hk
    exact R.keep env (getMetric s symbol).2 p hG hk h2

theorem updateBidMetric_rule {Q : Metric → Prop} {G : Env → Int → Prop}
    (R : MetricRule Q G) (symbol : String) (s : State) (h : ∀ r ∈ s.metrics, Q r) :
    ∀ r ∈ (updateBidMetric symbol s).metrics, Q r := by
  obtain ⟨h1, h2⟩ := getMetric_rule R s symbol h
  unfold updateBidMetric
  simp only
  split
  · exact updateMetric_rule _ _ h1 (R.bid _ _ h2)
  · exact updateMetric_rule _ _ h1 (R.bid _ _ h2)

theorem updateAskMetric_rule {Q : Metric → Prop} {G : Env → Int → Prop}
    (R : MetricRule Q G) (symbol : String) (s : State) (h : ∀ r ∈ s.metrics, Q r) :
    ∀ r ∈ (updateAskMetric symbol s).metrics, Q r := by
  obtain ⟨h1, h2⟩ := getMetric_rule R s symbol h
  unfold updateAskMetric
  simp only
  split
  · exact updateMetric_rule _ _ h1 (R.ask _ _ h2)
  · exact updateMetric_rule _ _ h1 (R.ask _ _ h2)

theorem purgePass_rule {Q : Metric → Prop} {G : Env → Int → Prop} (R : MetricRule Q G)
    (env : Env) : ∀ (ts : List Trade) (s : State), (∀ r ∈ s.metrics, Q r) →
      ∀ r ∈ (purgePass env s ts).metrics, Q r := by
  intro ts
  induction ts with
  | nil => intro s h; exact h
  | cons t rest ih =>
    intro s h
    unfold purgePass
    simp only [List.foldl_cons]
    exact ih _ (updateVolumeMetric_rule R env t.symbol t.volume false s h)

theorem purgeTrades_rule {Q : Metric → Prop} {G : Env → Int → Prop} (R : MetricRule Q G)
    (env : Env) (symbol : String) : ∀ (fuel : Nat) (s : State), (∀ r ∈ s.metrics, Q r) →
      ∀ r ∈ (purgeTrades env symbol fuel s).metrics, Q r := by
  intro fuel
  induction fuel with
  | zero => intro s h; exact h
  | succ n ih =>
    intro s h
    unfold purgeTrades
    simp only
    split
    · exact ih _ (purgePass_rule R env _ s h)
    · exact h

theorem updateTradesHistory_rule {Q : Metric → Prop} {G : Env → Int → Prop}
    (R : MetricRule Q G) (env : Env) (type : Side) (buyer seller symbol : String)
    (quantity price volume : Int) (s : State) (hG : G env price)
    (h : ∀ r ∈ s.metrics, Q r) :
    ∀ r ∈ (updateTradesHistory env type buyer seller symbol quantity price volume
      s).metrics, Q r := by
  unfold updateTradesHistory
  simp only
  apply updatePriceMetrics_rule R env symbol price _ hG
  exact purgeTrades_rule R env symbol _ s h

theorem finishMetrics_rule {Q : Metric → Prop} {G : Env → Int → Prop} (R : MetricRule Q G)
    (env : Env) (symbol : String) (v : Int) (s : State) (h : ∀ r ∈ s.metrics, Q r) :
    ∀ r ∈ (finishMetrics env symbol v s).metrics, Q r := by
  unfold finishMetrics
  simp only
  apply updateBidMetric_rule R
  apply updateAskMetric_rule R
  split
  · exact updateVolumeMetric_rule R env symbol v true s h
  · exact h

theorem removeExpiredOrders_rule {Q : Metric → Prop} {G : Env → Int → Prop}
    (R : MetricRule Q G) (env : Env) (table : Table) (s : State)
    (h : ∀ r ∈ s.metrics, Q r) : ∀ r ∈ (removeExpiredOrders env table s).metrics, Q r := by
  refine removeExpiredOrders_rel
    (fun a b => (∀ r ∈ a.metrics, Q r) → ∀ r ∈ b.metrics, Q r)
    (fun _ h => h) (fun _ _ _ h1 h2 h => h2 (h1 h)) env table ?_ s h
  intro s o h
  cases table with
  | buyBook => exact updateAskMetric_rule R _ _ h
  | sellBook => exact updateBidMetric_rule R _ _ h

theorem ledgerStep_rule {Q : Metric → Prop} {G : Env → Int → Prop} (R : MetricRule Q G)
    (env : Env) (symbol : String) (price : Int) (st st' : State) (v v' : Int)
    (hG : G env price) (hl : LedgerStep env symbol price st st' v v')
    (h : ∀ r ∈ st.metrics, Q r) : ∀ r ∈ st'.metrics, Q r := by
  rcases hl with ⟨⟨_, hm, _⟩, _⟩ | ⟨type, buyer, seller, quantity, amount, base, hb, _, hs, _⟩
  · rw [hm]
    exact h
  · rw [hs.2.1]
    apply updateTradesHistory_rule R env type buyer seller symbol quantity price amount base hG
    rw [hb.2.1]
    exact h

/-! ### Positive prices and sound metric rows through the four passes -/

theorem findMatchingSellOrders_sound {Q : Metric → Prop} {G : Env → Int → Prop}
    (R : MetricRule Q G) (env : Env) (order : Order) (prec : Nat) (s : State)
    (hG : ∀ p, 0 < p → G env p) (hp : 0 < order.price) (h : Sound Q s) :
    Sound Q (findMatchingSellOrders env order prec s) := by
  have hloop : (fun m : Taker => Sound Q m.st ∧ 0 < m.order.price)
      (findMatchingSellOrdersLoop env order prec s) := by
    unfold findMatchingSellOrdersLoop
    refine pagesLoop_inv_rows _ _ _ (fun m : Taker => Sound Q m.st ∧ 0 < m.order.price)
      (fun o => 0 < o.price) ?_ ?_ _ _ _ _ ?_ ?_
    · intro m o _ ho hi
      obtain ⟨⟨h1, h2, h3⟩, h4⟩ := hi
      obtain ⟨r1, r2⟩ := matchSellOrder_rows env prec m o
      refine ⟨⟨fun r hr => h1 r (r2 r hr), fun r hr => ?_,
        ledgerStep_rule R env _ _ _ _ _ _ (hG _ ho) (matchSellOrder_ledger env prec m o) h3⟩,
        ?_⟩
      · rcases r1 r hr with h' | h'
        · exact h2 r h'
        · rw [h'.1.2.2.2.2.2.1]
          exact ho
      · rw [(matchSellOrder_order env prec m o).2.2.2.2.2.1]
        exact h4
    · intro m off hi o ho
      exact hi.1.2.1 o (mem_dbFind _ _ _ _ _ o ho).1
    · intro o ho
      have hmem := (mem_dbFind _ _ _ _ _ o ho).1
      have e : (removeExpiredOrders env Table.sellBook s).sellBook
          = sweptBook env s.sellBook := removeExpiredOrders_book env Table.sellBook s
      have hmem2 : o ∈ (removeExpiredOrders env Table.sellBook s).sellBook := hmem
      rw [e] at hmem2
      exact h.2.1 o ((sweptBook_sublist env _).subset hmem2)
    · refine ⟨⟨fun r hr => ?_, fun r hr => ?_, removeExpiredOrders_rule R env _ s h.2.2⟩, hp⟩
      · rw [removeExpiredOrders_sellBook_buyBook] at hr
        exact h.1 r hr
      · have e : (removeExpiredOrders env Table.sellBook s).sellBook
            = sweptBook env s.sellBook := removeExpiredOrders_book env Table.sellBook s
        rw [e] at hr
        exact h.2.1 r ((sweptBook_sublist env _).subset hr)
  unfold findMatchingSellOrders
  generalize findMatchingSellOrdersLoop env order prec s = m at hloop ⊢
  obtain ⟨⟨h1, h2, h3⟩, h4⟩ := hloop
  refine ⟨fun r hr => ?_, fun r hr => ?_, ?_⟩
  · simp only [finishMetrics_buyBook] at hr
    split at hr
    · rcases mem_updateOrder_book _ _ _ hr with h' | h'
      · exact h1 r h'
      · rw [h']
        exact h4
    · exact h1 r hr
  · simp only [finishMetrics_sellBook] at hr
    split at hr
    · exact h2 r hr
    · exact h2 r hr
  · apply finishMetrics_rule R
    split
    · exact h3
    · exact h3

theorem findMatchingBuyOrders_sound {Q : Metric → Prop} {G : Env → Int → Prop}
    (R : MetricRule Q G) (env : Env) (order : Order) (prec : Nat) (s : State)
    (hG : ∀ p, 0 < p → G env p) (hp : 0 < order.price) (h : Sound Q s) :
    Sound Q (findMatchingBuyOrders env order prec s) := by
  have hloop : (fun m : Taker => Sound Q m.st ∧ 0 < m.order.price)
      (findMatchingBuyOrdersLoop env order prec s) := by
    unfold findMatchingBuyOrdersLoop
    refine pagesLoop_inv_rows _ _ _ (fun m : Taker => Sound Q m.st ∧ 0 < m.order.price)
      (fun o => 0 < o.price) ?_ ?_ _ _ _ _ ?_ ?_
    · intro m o _ ho hi
      obtain ⟨⟨h1, h2, h3⟩, h4⟩ := hi
      obtain ⟨r1, r2⟩ := matchBuyOrder_rows env prec m o
      refine ⟨⟨fun r hr => ?_, fun r hr => h2 r (r2 r hr),
        ledgerStep_rule R env _ _ _ _ _ _ (hG _ ho) (matchBuyOrder_ledger env prec m o) h3⟩,
        ?_⟩
      · rcases r1 r hr with h' | h'
        · exact h1 r h'
        · rw [h'.1.2.2.2.2.2.1]
          exact ho
      · rw [(matchBuyOrder_order env prec m o).2.2.2.2.2.1]
        exact h4
    · intro m off hi o ho
      exact hi.1.1 o (mem_dbFind _ _ _ _ _ o ho).1
    · intro o ho
      have hmem := (mem_dbFind _ _ _ _ _ o ho).1
      have e : (removeExpiredOrders env Table.buyBook s).buyBook
          = sweptBook env s.buyBook := removeExpiredOrders_book env Table.buyBook s
      have hmem2 : o ∈ (removeExpiredOrders env Table.buyBook s).buyBook := hmem
      rw [e] at hmem2
      exact h.1 o ((sweptBook_sublist env _).subset hmem2)
    · refine ⟨⟨fun r hr => ?_, fun r hr => ?_, removeExpiredOrders_rule R env _ s h.2.2⟩, hp⟩
      · have e : (removeExpiredOrders env Table.buyBook s).buyBook
            = sweptBook env s.buyBook := removeExpiredOrders_book env Table.buyBook s
        rw [e] at hr
        exact h.1 r ((sweptBook_sublist env _).subset hr)
      · rw [removeExpiredOrders_buyBook_sellBook] at hr
        exact h.2.1 r hr
  unfold findMatchingBuyOrders
  generalize findMatchingBuyOrdersLoop env order prec s = m at hloop ⊢
  obtain ⟨⟨h1, h2, h3⟩, h4⟩ := hloop
  refine ⟨fun r hr => ?_, fun r hr => ?_, ?_⟩
  · simp only [finishMetrics_buyBook] at hr
    split at hr
    · exact h1 r hr
    · exact h1 r hr
  · simp only [finishMetrics_sellBook] at hr
    split at hr
    · rcases mem_updateOrder_book _ _ _ hr with h' | h'
      · exact h2 r h'
      · rw [h']
        exact h4
    · exact h2 r hr
  · apply finishMetrics_rule R
    split
    · exact h3
    · exact h3

theorem marketBuyLoop_sound {Q : Metric → Prop} {G : Env → Int → Prop}
    (R : MetricRule Q G) (env : Env) (sym : String) (prec : Nat) (X : Int) (s : State)
    (hG : ∀ p, 0 < p → G env p) (h : Sound Q s) :
    Sound Q (marketBuyLoop env sym prec X s).st := by
  unfold marketBuyLoop
  refine pagesLoop_inv_rows _ _ _ (fun m : Sweep => Sound Q m.st) (fun o => 0 < o.price)
    ?_ ?_ _ _ _ _ ?_ ?_
  · intro m o _ ho hi
    obtain ⟨h1, h2, h3⟩ := hi
    obtain ⟨r1, r2⟩ := marketBuyOrder_rows env sym prec m o
    refine ⟨fun r hr => h1 r (r2 ▸ hr), fun r hr => ?_,
      ledgerStep_rule R env _ _ _ _ _ _ (hG _ ho) (marketBuyOrder_ledger env sym prec m o) h3⟩
    rcases r1 r hr with h' | h'
    · exact h2 r h'
    · rw [h'.1.2.2.2.2.2.1]
      exact ho
  · intro m off hi o ho
    exact hi.2.1 o (mem_dbFind _ _ _ _ _ o ho).1
  · intro o ho
    have hmem := (mem_dbFind _ _ _ _ _ o ho).1
    have e : (removeExpiredOrders env Table.sellBook s).sellBook
        = sweptBook env s.sellBook := removeExpiredOrders_book env Table.sellBook s
    have hmem2 : o ∈ (removeExpiredOrders env Table.sellBook s).sellBook := hmem
    rw [e] at hmem2
    exact h.2.1 o ((sweptBook_sublist env _).subset hmem2)
  · refine ⟨fun r hr => ?_, fun r hr => ?_, removeExpiredOrders_rule R env _ s h.2.2⟩
    · rw [removeExpiredOrders_sellBook_buyBook] at hr
      exact h.1 r hr
    · have e : (removeExpiredOrders env Table.sellBook s).sellBook
          = sweptBook env s.sellBook := removeExpiredOrders_book env Table.sellBook s
      rw [e] at hr
      exact h.2.1 r ((sweptBook_sublist env _).subset hr)

theorem marketSellLoop_sound {Q : Metric → Prop} {G : Env → Int → Prop}
    (R : MetricRule Q G) (env : Env) (sym : String) (prec : Nat) (X : Int) (s : State)
    (hG : ∀ p, 0 < p → G env p) (h : Sound Q s) :
    Sound Q (marketSellLoop env sym prec X s).st := by
  unfold marketSellLoop
  refine pagesLoop_inv_rows _ _ _ (fun m : Sweep => Sound Q m.st) (fun o => 0 < o.price)
    ?_ ?_ _ _ _ _ ?_ ?_
  · intro m o _ ho hi
    obtain ⟨h1, h2, h3⟩ := hi
    obtain ⟨r1, r2⟩ := marketSellOrder_rows env sym prec m o
    refine ⟨fun r hr => ?_, fun r hr => h2 r (r2 ▸ hr),
      ledgerStep_rule R env _ _ _ _ _ _ (hG _ ho) (marketSellOrder_ledger env sym prec m o) h3⟩
    rcases r1 r hr with h' | h'
    · exact h1 r h'
    · rw [h'.1.2.2.2.2.2.1]
      exact ho
  · intro m off hi o ho
    exact hi.1 o (mem_dbFind _ _ _ _ _ o ho).1
  · intro o ho
    have hmem := (mem_dbFind _ _ _ _ _ o ho).1
    have e : (removeExpiredOrders env Table.buyBook s).buyBook
        = sweptBook env s.buyBook := removeExpiredOrders_book env Table.buyBook s
    have hmem2 : o ∈ (removeExpiredOrders env Table.buyBook s).buyBook := hmem
    rw [e] at hmem2
    exact h.1 o ((sweptBook_sublist env _).subset hmem2)
  · refine ⟨fun r hr => ?_, fun r hr => ?_, removeExpiredOrders_rule R env _ s h.2.2⟩
    · have e : (removeExpiredOrders env Table.buyBook s).buyBook
          = sweptBook env s.buyBook := removeExpiredOrders_book env Table.buyBook s
      rw [e] at hr
      exact h.1 r ((sweptBook_sublist env _).subset hr)
    · rw [removeExpiredOrders_buyBook_sellBook] at hr
      exact h.2.1 r hr

theorem sound_of_onlyAsserts {Q : Metric → Prop} (s s' : State) (h : Sound Q s)
    (ho : OnlyAsserts s s') : Sound Q s' := by
  obtain ⟨msgs, rfl⟩ := ho
  exact h

theorem buy_sound {Q : Metric → Prop} {G : Env → Int → Prop} (R : MetricRule Q G)
    (env : Env) (payload : OrderPayload) (s : State) (hG : ∀ p, 0 < p → G env p)
    (h : Sound Q s) : Sound Q (buy env payload s) := by
  have ho := validateOrder_onlyAsserts env payload s
  unfold buy
  cases hv : validateOrder env payload s with
  | mk s1 ov =>
    rw [hv] at ho
    cases ov with
    | none => exact sound_of_onlyAsserts s s1 h ho
    | some v =>
      obtain ⟨hs1, _, _, _, _, _, _, _, _, hpos, hp, _, _⟩ := validateOrder_some hv
      have hprice : 0 < v.price.toFixed STEEM_PEGGED_SYMBOL_PRESICION :=
        Dec.toFixed_pos v.price _ hp hpos
      simp only
      split
      · apply findMatchingSellOrders_sound R env _ v.precision _ hG
        · exact hprice
        · refine ⟨fun r hr => ?_, fun r hr => ?_, ?_⟩
          · have hr' : r ∈ s1.buyBook ++ [{ newOrder env payload.expiration v
                ((v.price.mul v.quantity).toFixed STEEM_PEGGED_SYMBOL_PRESICION) with
                id := s1.nextId }] := hr
            rcases List.mem_append.1 hr' with h1 | h1
            · exact h.1 r (hs1 ▸ h1)
            · rw [List.mem_singleton] at h1
              rw [h1]
              exact hprice
          · have hr' : r ∈ s1.sellBook := hr
            exact h.2.1 r (hs1 ▸ hr')
          · intro r hr
            have hr' : r ∈ s1.metrics := hr
            exact h.2.2 r (hs1 ▸ hr')
      · rw [hs1]
        exact h

theorem sell_sound {Q : Metric → Prop} {G : Env → Int → Prop} (R : MetricRule Q G)
    (env : Env) (payload : OrderPayload) (s : State) (hG : ∀ p, 0 < p → G env p)
    (h : Sound Q s) : Sound Q (sell env payload s) := by
  have ho := validateOrder_onlyAsserts env payload s
  unfold sell
  cases hv : validateOrder env payload s with
  | mk s1 ov =>
    rw [hv] at ho
    cases ov with
    | none => exact sound_of_onlyAsserts s s1 h ho
    | some v =>
      obtain ⟨hs1, _, _, _, _, _, _, _, _, hpos, hp, _, _⟩ := validateOrder_some hv
      have hprice : 0 < v.price.toFixed STEEM_PEGGED_SYMBOL_PRESICION :=
        Dec.toFixed_pos v.price _ hp hpos
      simp only
      split
      · apply findMatchingBuyOrders_sound R env _ v.precision _ hG
        · exact hprice
        · refine ⟨fun r hr => ?_, fun r hr => ?_, ?_⟩
          · have hr' : r ∈ s1.buyBook := hr
            exact h.1 r (hs1 ▸ hr')
          · have hr' : r ∈ s1.sellBook ++ [{ newOrder env payload.expiration v 0 with
                id := s1.nextId }] := hr
            rcases List.mem_append.1 hr' with h1 | h1
            · exact h.2.1 r (hs1 ▸ h1)
            · rw [List.mem_singleton] at h1
              rw [h1]
              exact hprice
          · intro r hr
            have hr' : r ∈ s1.metrics := hr
            exact h.2.2 r (hs1 ▸ hr')
      · rw [hs1]
        exact h

theorem marketBuy_sound {Q : Metric → Prop} {G : Env → Int → Prop} (R : MetricRule Q G)
    (env : Env) (payload : MarketPayload) (s : State) (hG : ∀ p, 0 < p → G env p)
    (h : Sound Q s) : Sound Q (marketBuy env payload s) := by
  have ho := validateMarket_onlyAsserts env payload (fun _ => STEEM_PEGGED_SYMBOL_PRESICION) s
  unfold marketBuy
  cases hv : validateMarket env payload (fun _ => STEEM_PEGGED_SYMBOL_PRESICION) s with
  | mk s1 ov =>
    rw [hv] at ho
    cases ov with
    | none => exact sound_of_onlyAsserts s s1 h ho
    | some v =>
      obtain ⟨hs1, _⟩ := validateMarket_some hv
      simp only
      split
      · have hl := marketBuyLoop_sound R env v.symbol v.precision
          (v.quantity.toFixed STEEM_PEGGED_SYMBOL_PRESICION)
          (requestEscrow env s1 STEEM_PEGGED_SYMBOL
            (v.quantity.toFixed STEEM_PEGGED_SYMBOL_PRESICION)) hG (by rw [hs1]; exact h)
        generalize marketBuyLoop env _ _ _ _ = m at hl ⊢
        refine ⟨fun r hr => ?_, fun r hr => ?_, ?_⟩
        · simp only [finishMetrics_buyBook] at hr
          split at hr
          · exact hl.1 r hr
          · exact hl.1 r hr
        · simp only [finishMetrics_sellBook] at hr
          split at hr
          · exact hl.2.1 r hr
          · exact hl.2.1 r hr
        · apply finishMetrics_rule R
          split
          · exact hl.2.2
          · exact hl.2.2
      · rw [hs1]
        exact h

theorem marketSell_sound {Q : Metric → Prop} {G : Env → Int → Prop} (R : MetricRule Q G)
    (env : Env) (payload : MarketPayload) (s : State) (hG : ∀ p, 0 < p → G env p)
    (h : Sound Q s) : Sound Q (marketSell env payload s) := by
  have ho := validateMarket_onlyAsserts env payload (fun precision => precision) s
  unfold marketSell
  cases hv : validateMarket env payload (fun precision => precision) s with
  | mk s1 ov =>
    rw [hv] at ho
    cases ov with
    | none => exact sound_of_onlyAsserts s s1 h ho
    | some v =>
      obtain ⟨hs1, _⟩ := validateMarket_some hv
      simp only
      split
      · have hl := marketSellLoop_sound R env v.symbol v.precision
          (v.quantity.toFixed v.precision)
          (requestEscrow env s1 v.symbol (v.quantity.toFixed v.precision)) hG
          (by rw [hs1]; exact h)
        generalize marketSellLoop env _ _ _ _ = m at hl ⊢
        refine ⟨fun r hr => ?_, fun r hr => ?_, ?_⟩
        · simp only [finishMetrics_buyBook] at hr
          split at hr
          · exact hl.1 r hr
          · exact hl.1 r hr
        · simp only [finishMetrics_sellBook] at hr
          split at hr
          · exact hl.2.1 r hr
          · exact hl.2.1 r hr
        · apply finishMetrics_rule R
          split
          · exact hl.2.2
          · exact hl.2.2
      · rw [hs1]
        exact h

theorem cancel_sound {Q : Metric → Prop} {G : Env → Int → Prop} (R : MetricRule Q G)
    (env : Env) (payload : CancelPayload) (s : State) (h : Sound Q s) :
    Sound Q (cancel env payload s) := by
  rcases cancel_cases env payload s with ⟨id, o, hs, ht, hpid, hid, hlen, hf, hown⟩ | ⟨msgs, hm⟩
  · obtain ⟨type, pid, signed⟩ := payload
    simp only at hs ht hpid hf
    subst hs hpid
    rcases ht with rfl | rfl
    · rw [cancelTable_buy] at hf
      have e := cancel_buy_done env id s o hid hlen hf hown
      unfold cancelPayload at e
      rw [e]
      obtain ⟨h1, h2, _⟩ := updateBidMetric_same o.symbol
        (removeOrder (transferTokens s env.sender STEEM_PEGGED_SYMBOL o.tokensLocked)
          Table.buyBook o)
      refine ⟨fun r hr => ?_, fun r hr => ?_, updateBidMetric_rule R _ _ h.2.2⟩
      · rw [h1] at hr
        exact h.1 r (List.mem_filter.1 hr).1
      · rw [h2] at hr
        exact h.2.1 r hr
    · rw [cancelTable_sell] at hf
      have e := cancel_sell_done env id s o hid hlen hf hown
      unfold cancelPayload at e
      rw [e]
      obtain ⟨h1, h2, _⟩ := updateAskMetric_same o.symbol
        (removeOrder (transferTokens s env.sender o.symbol o.quantity) Table.sellBook o)
      refine ⟨fun r hr => ?_, fun r hr => ?_, updateAskMetric_rule R _ _ h.2.2⟩
      · rw [h1] at hr
        exact h.1 r hr
      · rw [h2] at hr
        exact h.2.1 r (List.mem_filter.1 hr).1
  · rw [hm]
    exact h

theorem step_sound {Q : Metric → Prop} {G : Env → Int → Prop} (R : MetricRule Q G)
    (env : Env) (a : Action) (s : State) (hG : ∀ p, 0 < p → G env p) (h : Sound Q s) :
    Sound Q (step env a s) := by
  cases a with
  | buy p => exact buy_sound R env p s hG h
  | sell p => exact sell_sound R env p s hG h
  | marketBuy p => exact marketBuy_sound R env p s hG h
  | marketSell p => exact marketSell_sound R env p s hG h
  | cancel p => exact cancel_sound R env p s h

theorem run_sound {Q : Metric → Prop} {G : Env → Int → Prop} (R : MetricRule Q G) :
    ∀ (txs : List (Env × Action)) (s : State), (∀ tx ∈ txs, ∀ p, 0 < p → G tx.1 p) →
      Sound Q s → Sound Q (run txs s) := by
  intro txs
  induction txs with
  | nil => intro s _ h; exact h
  | cons tx rest ih =>
    intro s hG h
    obtain ⟨env, a⟩ := tx
    unfold run
    exact ih _ (fun t ht => hG t (List.mem_cons_of_mem _ ht))
      (step_sound R env a s (hG (env, a) (List.mem_cons_self _ _)) h)

theorem sound_empty (Q : Metric → Prop) : Sound Q State.empty :=
  ⟨fun o ho => by simp [State.empty] at ho, fun o ho => by simp [State.empty] at ho,
    fun r hr => by simp [State.empty] at hr⟩

theorem changeIsDifference_rule : MetricRule ChangeIsDifference (fun _ _ => True) where
  dflt := fun _ _ => rfl
  volume := fun _ _ _ h => h
  bid := fun _ _ h => h
  ask := fun _ _ h => h
  reset := fun _ _ p _ _ => (sub_self p).symm
  keep := fun _ _ _ _ _ _ => rfl

theorem percentChange_isSome (c d : Int) (h : 0 < d) : (percentChange c d).isSome = true := by
  unfold percentChange
  rw [if_neg (ne_of_gt h), if_pos h]
  rfl

theorem divisorPositive_rule :
    MetricRule DivisorPositive (fun env p => 0 < p ∧ 0 < env.timestampSec) where
  dflt := fun _ _ => ⟨fun h => absurd h (lt_irrefl 0), rfl⟩
  volume := fun _ _ _ h => h
  bid := fun _ _ h => h
  ask := fun _ _ h => h
  reset := fun _ _ _ hG _ => ⟨fun _ => hG.1, rfl⟩
  keep := fun _ _ _ hG hk h =>
    ⟨h.1, percentChange_isSome _ _ (h.1 (lt_of_lt_of_le hG.2 (not_lt.1 hk)))⟩

/-! ### The claims on the day-over-day price change and on the divisors -/

theorem divRound_near (a b : Int) (dp : Nat) (hb : 0 < b) :
    |2 * (divRound a b dp * b - a * 10 ^ dp)| ≤ b := by
  have key : ∀ k : Int, -b ≤ 2 * ((2 * k + b) / (2 * b) * b - k) ∧
      2 * ((2 * k + b) / (2 * b) * b - k) ≤ b := by
    intro k
    have h1 := Int.ediv_add_emod (2 * k + b) (2 * b)
    have h2 := Int.emod_nonneg (2 * k + b) (by omega : (2 * b : Int) ≠ 0)
    have h3 := Int.emod_lt_of_pos (2 * k + b) (by omega : (0 : Int) < 2 * b)
    constructor <;> linarith
  unfold divRound
  rw [abs_le]
  split
  · have h := key (a * 10 ^ dp)
    have e : 2 * a * 10 ^ dp = 2 * (a * 10 ^ dp) := by ring
    rw [e]
    exact h
  · have h := key (-a * 10 ^ dp)
    have e : 2 * (-a) * 10 ^ dp = 2 * (-a * 10 ^ dp) := by ring
    rw [e]
    constructor <;> linarith [h.1, h.2]

theorem percentChange_near (c d : Int) (hd : 0 < d) :
    ∃ r, percentChange c d = some r ∧
      |2 * (r * 10 ^ 16 * d - c * 10 ^ 20)| ≤ (10 ^ 16 + 1) * d := by
  refine ⟨roundHalfUp (divRound c d 20) 16, ?_, ?_⟩
  · unfold percentChange
    rw [if_neg (ne_of_gt hd), if_pos hd]
  · have h1 := abs_le.1 (roundHalfUp_near (divRound c d 20) 16)
    have h2 := abs_le.1 (divRound_near c d 20 hd)
    have h3 := mul_le_mul_of_nonneg_right h1.1 (le_of_lt hd)
    have h4 := mul_le_mul_of_nonneg_right h1.2 (le_of_lt hd)
    rw [abs_le]
    constructor <;> nlinarith [h2.1, h2.2, h3, h4]

theorem doubleRound_nonneg (a d : Int) (hd : 0 < d) (hlt : d < 10 ^ 16) :
    (2 * ((2 * a * 10 ^ 20 + d) / (2 * d)) + 10 ^ 16) / (2 * 10 ^ 16)
      = (2 * (a * 100) * 10 ^ 2 + d) / (2 * d) := by
  have hd2 : (0 : Int) < 2 * d := by omega
  have hq1 := Int.ediv_mul_le (2 * a * 10 ^ 20 + d) (ne_of_gt hd2)
  have hq2 := Int.lt_ediv_add_one_mul_self (2 * a * 10 ^ 20 + d) hd2
  have hk1 := Int.ediv_mul_le (2 * (a * 100) * 10 ^ 2 + d) (ne_of_gt hd2)
  have hk2 := Int.lt_ediv_add_one_mul_self (2 * (a * 100) * 10 ^ 2 + d) hd2
  generalize (2 * a * 10 ^ 20 + d) / (2 * d) = q at hq1 hq2 ⊢
  generalize (2 * (a * 100) * 10 ^ 2 + d) / (2 * d) = k at hk1 hk2 ⊢
  norm_num at hq1 hq2 hk1 hk2 hlt ⊢
  have hlow : k ≤ (2 * q + 10000000000000000) / 20000000000000000 := by
    apply Int.le_ediv_of_mul_le (by norm_num)
    by_contra hcon
    have h1 : q + 1 ≤ 10000000000000000 * k - 5000000000000000 := by omega
    have h2 := mul_le_mul_of_nonneg_right h1 (le_of_lt hd2)
    nlinarith
  have hup : (2 * q + 10000000000000000) / 20000000000000000 < k + 1 := by
    apply Int.ediv_lt_of_lt_mul (by norm_num)
    by_contra hcon
    have h1 : 10000000000000000 * k + 5000000000000000 ≤ q := by omega
    have h2 := mul_le_mul_of_nonneg_right h1 (le_of_lt hd2)
    nlinarith
  omega

theorem percentChange_exact (c d : Int) (hd : 0 < d) (hlt : d < 10 ^ 16) :
    percentChange c d = some (divRound (c * 100) d 2) := by
  have hN : (0 : Int) < 10 ^ 16 := by norm_num
  have hd2 : (0 : Int) < 2 * d := by omega
  unfold percentChange
  rw [if_neg (ne_of_gt hd), if_pos hd]
  congr 1
  by_cases hc : 0 ≤ c
  · have hq : 0 ≤ divRound c d 20 := divRound_nonneg c d 20 hc hd
    unfold roundHalfUp
    rw [if_pos hq]
    unfold divRound
    rw [if_pos hc, if_pos (by omega : 0 ≤ c * 100)]
    exact doubleRound_nonneg c d hd hlt
  · have hneg : ¬ 0 ≤ c * 100 := by omega
    have key := doubleRound_nonneg (-c) d hd hlt
    have hq0 : 0 ≤ (2 * -c * 10 ^ 20 + d) / (2 * d) :=
      Int.ediv_nonneg (by nlinarith [pow_pos (show (0 : Int) < 10 by norm_num) 20]) (le_of_lt hd2)
    have e1 : divRound c d 20 = -((2 * -c * 10 ^ 20 + d) / (2 * d)) := by
      unfold divRound
      rw [if_neg hc]
    have e2 : divRound (c * 100) d 2 = -((2 * (-c * 100) * 10 ^ 2 + d) / (2 * d)) := by
      unfold divRound
      rw [if_neg hneg]
      have : -(c * 100) = -c * 100 := by ring
      rw [this]
    rw [e1, e2, ← key]
    generalize (2 * -c * 10 ^ 20 + d) / (2 * d) = q at hq0 ⊢
    unfold roundHalfUp
    by_cases hz : q = 0
    · subst hz
      norm_num
    · rw [if_neg (by omega)]
      simp only [neg_neg]

theorem updatePriceMetrics_row (env : Env) (symbol : String) (p : Int) (s : State) :
    (updatePriceMetrics env symbol p s).metrics.find? (fun m => m.symbol == symbol)
      = some (if (getMetric s symbol).2.lastDayPriceExpiration < env.timestampSec then
          { (getMetric s symbol).2 with
            lastPrice := p, lastDayPrice := p,
            lastDayPriceExpiration := env.timestampSec + env.dayAhead, priceChangeSteem := 0,
            priceChangePercent := some 0 }
        else
          { (getMetric s symbol).2 with
            lastPrice := p,
            priceChangeSteem := p - (getMetric s symbol).2.lastDayPrice,
            priceChangePercent := percentChange (p - (getMetric s symbol).2.lastDayPrice)
              (getMetric s symbol).2.lastDayPrice }) := by
  obtain ⟨hf, hsym⟩ := getMetric_found s symbol
  unfold updatePriceMetrics
  simp only
  by_cases hexp : (getMetric s symbol).2.lastDayPriceExpiration < env.timestampSec
  · rw [if_pos hexp]
    exact updateMetric_found _ symbol _ _ hf rfl hsym
  · rw [if_neg hexp]
    exact updateMetric_found _ symbol _ _ hf rfl hsym

/-- C31 (amended).  After `updatePriceMetrics(symbol, p)` at block time `t` on any state,
the row of the symbol has `lastPrice = p`; when the stored `lastDayPriceExpiration` (`0`
for a symbol without a row) is `< t`, `lastDayPrice = p`, the change is zero (`0` and
`0%`) and the expiration is the block date moved one calendar day ahead, which is
`t + 86400` where that day lasts 24 hours; otherwise `lastDayPrice` and its expiration
are unchanged, `priceChangeSteem = p - lastDayPrice` and `priceChangePercent` is the
quotient `(p - lastDayPrice) / lastDayPrice` kept at 20 decimals, times 100, rounded half
up to 2 decimals: for a positive `lastDayPrice` it is within `0.005 * (1 + 10^-16)` of
`(p - lastDayPrice) / lastDayPrice * 100`, and for a `lastDayPrice` below `10^8` of the
peg token it is that percent rounded half up to 2 decimals.  In every state reachable
from the empty tables every metric row has `priceChangeSteem = lastPrice - lastDayPrice`. -/
theorem price_change_is_last_price_less_last_day_price (tokens : String → Option Nat)
    (s : State) (hs : Reachable tokens s) (env : Env) (symbol : String) (p : Int)
    (s0 : State) :
    (∀ m ∈ s.metrics, m.priceChangeSteem = m.lastPrice - m.lastDayPrice) ∧
    ∃ m, (updatePriceMetrics env symbol p s0).metrics.find? (fun m => m.symbol == symbol)
        = some m ∧
      m.lastPrice = p ∧ m.priceChangeSteem = m.lastPrice - m.lastDayPrice ∧
      ((getMetric s0 symbol).2.lastDayPriceExpiration < env.timestampSec →
        m.lastDayPrice = p ∧
        (env.dayAhead = DAY → m.lastDayPriceExpiration = env.timestampSec + 86400) ∧
        m.priceChangeSteem = 0 ∧ m.priceChangePercent = some 0) ∧
      (¬ (getMetric s0 symbol).2.lastDayPriceExpiration < env.timestampSec →
        m.lastDayPrice = (getMetric s0 symbol).2.lastDayPrice ∧
        m.lastDayPriceExpiration = (getMetric s0 symbol).2.lastDayPriceExpiration ∧
        m.priceChangeSteem = p - (getMetric s0 symbol).2.lastDayPrice ∧
        m.priceChangePercent = percentChange (p - (getMetric s0 symbol).2.lastDayPrice)
          (getMetric s0 symbol).2.lastDayPrice ∧
        (0 < (getMetric s0 symbol).2.lastDayPrice →
          ∃ r, m.priceChangePercent = some r ∧
            |2 * (r * 10 ^ 16 * (getMetric s0 symbol).2.lastDayPrice
                - (p - (getMetric s0 symbol).2.lastDayPrice) * 10 ^ 20)|
              ≤ (10 ^ 16 + 1) * (getMetric s0 symbol).2.lastDayPrice) ∧
        (0 < (getMetric s0 symbol).2.lastDayPrice →
          (getMetric s0 symbol).2.lastDayPrice < 10 ^ 16 →
          m.priceChangePercent
            = some (divRound ((p - (getMetric s0 symbol).2.lastDayPrice) * 100)
                (getMetric s0 symbol).2.lastDayPrice 2))) := by
  constructor
  · obtain ⟨txs, _, rfl⟩ := hs
    exact (run_sound changeIsDifference_rule txs State.empty (fun _ _ _ _ => trivial)
      (sound_empty _)).2.2
  · refine ⟨_, updatePriceMetrics_row env symbol p s0, ?_⟩
    by_cases hexp : (getMetric s0 symbol).2.lastDayPriceExpiration < env.timestampSec
    · rw [if_pos hexp]
      exact ⟨rfl, (sub_self p).symm,
        fun _ => ⟨rfl, fun hd => by
          show env.timestampSec + (env.dayAhead : Int) = env.timestampSec + 86400
          rw [hd]
          rfl, rfl, rfl⟩,
        fun h => absurd hexp h⟩
    · rw [if_neg hexp]
      exact ⟨rfl, rfl, fun h => absurd h hexp,
        fun _ => ⟨rfl, rfl, rfl, rfl, fun hd => percentChange_near _ _ hd,
          fun hd hlt => percentChange_exact _ _ hd hlt⟩⟩

/-- C31 after Alice's sell of `4 ABC` at `1.0` and Bob's buy of `10 ABC` at `2.0`, which
trades at `1.0`: the row of `ABC` has `lastPrice = lastDayPrice = 1.0` and a change of
zero. -/
theorem price_change_is_last_price_less_last_day_price_witness :
    Reachable exampleTokens (run buyAboveAsk State.empty) ∧
    (∀ m ∈ (run buyAboveAsk State.empty).metrics,
      m.priceChangeSteem = m.lastPrice - m.lastDayPrice) ∧
    (run buyAboveAsk State.empty).metrics.map
        (fun m => (m.symbol, m.lastPrice, m.lastDayPrice, m.priceChangeSteem))
      = [("ABC", 100000000, 100000000, 0)] :=
  ⟨⟨buyAboveAsk, buyAboveAsk_tokens, rfl⟩,
    (price_change_is_last_price_less_last_day_price exampleTokens (run buyAboveAsk State.empty)
      ⟨buyAboveAsk, buyAboveAsk_tokens, rfl⟩ (exampleEnv "bob" "b1" 101) "ABC" 0
      State.empty).1,
    by decide!⟩

theorem orderValid_of_quantity_nonpos (env : Env) (payload : OrderPayload) (q : Dec)
    (hq : payload.quantity = some q) (hneg : q.mant ≤ 0) : orderValid env payload = false := by
  cases hv : orderValid env payload with
  | false => rfl
  | true =>
    obtain ⟨symbol, price, quantity, precision, _, _, h3, _, hval⟩ :=
      validateOrder_of_valid env payload State.empty hv
    have hpos := validateOrder_quantity_pos hval
    rw [hq] at h3
    simp only [Option.some.injEq] at h3
    have hle := Dec.toFixed_nonpos quantity precision (h3 ▸ hneg)
    exact absurd hpos (not_lt.2 hle)

/-- C34 (resting orders are well formed).  In every state reachable from the empty
tables through `buy`, `sell`, `marketBuy`, `marketSell` and `cancel`, every order of
`buyBook` and of `sellBook` has a positive price, a positive quantity, a registered
symbol, and `price * quantity` rounded to the nearest unit of `10^-8` is at least
`0.00000001`.  A `buy` or `sell` whose quantity is zero or negative leaves both books as
they were. -/
theorem resting_orders_are_well_formed (tokens : String → Option Nat) (s : State)
    (hs : Reachable tokens s) :
    (∀ o ∈ s.buyBook ++ s.sellBook, 0 < o.price ∧ 0 < o.quantity ∧
      ∃ p, tokens o.symbol = some p ∧ DUST ≤ roundHalfUp (o.price * o.quantity) p) ∧
    ∀ (env : Env) (payload : OrderPayload) (q : Dec), payload.quantity = some q →
      q.mant ≤ 0 →
      (buy env payload s).buyBook = s.buyBook ∧ (buy env payload s).sellBook = s.sellBook ∧
      (sell env payload s).buyBook = s.buyBook ∧ (sell env payload s).sellBook = s.sellBook := by
  constructor
  · obtain ⟨txs, htok, rfl⟩ := hs
    have hdust := run_dustFree tokens txs State.empty htok
      (fun o ho => by simp [State.empty] at ho)
    have hsound := run_sound changeIsDifference_rule txs State.empty
      (fun _ _ _ _ => trivial) (sound_empty _)
    intro o ho
    have hprice : 0 < o.price := by
      rcases List.mem_append.1 ho with h | h
      · exact hsound.1 o h
      · exact hsound.2.1 o h
    obtain ⟨p, hp, hd⟩ := hdust o ho
    refine ⟨hprice, ?_, p, hp, hd⟩
    by_contra hq
    have h1 : o.price * o.quantity ≤ 0 :=
      mul_nonpos_of_nonneg_of_nonpos (le_of_lt hprice) (not_lt.1 hq)
    have h2 := roundHalfUp_nonpos _ p h1
    have h3 : DUST = 1 := rfl
    omega
  · intro env payload q hq hneg
    have hv := orderValid_of_quantity_nonpos env payload q hq hneg
    obtain ⟨msg, hval⟩ := validateOrder_of_invalid env payload s hv
    have hb : buy env payload s = { s with asserts := s.asserts ++ [msg] } := by
      unfold buy
      rw [hval]
    have hsell : sell env payload s = { s with asserts := s.asserts ++ [msg] } := by
      unfold sell
      rw [hval]
    rw [hb, hsell]
    exact ⟨rfl, rfl, rfl, rfl⟩

/-- C34 after Alice's sell of `4 ABC` at `1.0` and Bob's buy of `10 ABC` at `2.0`: Bob's
order rests with quantity `6`; and a buy of `-1 ABC` in that state adds no order. -/
theorem resting_orders_are_well_formed_witness :
    Reachable exampleTokens (run buyAboveAsk State.empty) ∧
    (∀ o ∈ (run buyAboveAsk State.empty).buyBook ++ (run buyAboveAsk State.empty).sellBook,
      0 < o.price ∧ 0 < o.quantity ∧
      ∃ p, exampleTokens o.symbol = some p ∧ DUST ≤ roundHalfUp (o.price * o.quantity) p) ∧
    (run buyAboveAsk State.empty).buyBook.map (fun o => (o.account, o.price, o.quantity))
      = [("bob", 200000000, 60)] ∧
    (buy (exampleEnv "carol" "b2" 102) (limitPayload ⟨-1, 0⟩ ⟨2, 0⟩)
      (run buyAboveAsk State.empty)).buyBook = (run buyAboveAsk State.empty).buyBook :=
  ⟨⟨buyAboveAsk, buyAboveAsk_tokens, rfl⟩,
    (resting_orders_are_well_formed exampleTokens (run buyAboveAsk State.empty)
      ⟨buyAboveAsk, buyAboveAsk_tokens, rfl⟩).1,
    by decide!,
    ((resting_orders_are_well_formed exampleTokens (run buyAboveAsk State.empty)
      ⟨buyAboveAsk, buyAboveAsk_tokens, rfl⟩).2 (exampleEnv "carol" "b2" 102)
      (limitPayload ⟨-1, 0⟩ ⟨2, 0⟩) ⟨-1, 0⟩ rfl (by decide)).1⟩

theorem pageWhile_traced {σ τ : Type} (body : σ → Order → σ) (active : σ → Bool)
    (g : τ → Order → τ) :
    ∀ (page : List Order) (m : σ) (t : τ),
      (pageWhile (fun (x : σ × τ) o => (body x.1 o, g x.2 o)) (fun x => active x.1) (m, t)
        page).1 = pageWhile body active m page := by
  intro page
  induction page with
  | nil => intro m t; rfl
  | cons o rest ih =>
    intro m t
    unfold pageWhile
    by_cases ha : active m = true
    · simp only [ha, if_true]
      exact ih _ _
    · simp only [ha, Bool.false_eq_true, if_false]

theorem pagesLoop_traced {σ τ : Type} (body : σ → Order → σ) (active : σ → Bool)
    (fetch : σ → Nat → List Order) (g : τ → Order → τ) :
    ∀ (fuel : Nat) (m : σ) (t : τ) (page : List Order) (offset : Nat),
      (pagesLoop (fun (x : σ × τ) o => (body x.1 o, g x.2 o)) (fun x => active x.1)
        (fun x off => fetch x.1 off) fuel (m, t) page offset).1
        = pagesLoop body active fetch fuel m page offset := by
  intro fuel
  induction fuel with
  | zero => intro m t page offset; rfl
  | succ n ih =>
    intro m t page offset
    rw [pagesLoop_succ, pagesLoop_succ]
    have h1 := pageWhile_traced body active g page m t
    generalize pageWhile (fun (x : σ × τ) o => (body x.1 o, g x.2 o)) (fun x => active x.1)
      (m, t) page = y at h1 ⊢
    obtain ⟨y1, y2⟩ := y
    simp only at h1
    subst h1
    simp only
    by_cases ha : active (pageWhile body active m page) = true
    · simp only [ha, if_true, and_true]
      split_ifs
      · exact ih _ _ _ _
      · rfl
    · simp only [ha, Bool.false_eq_true, and_false, if_false]

theorem marketBuyLoopTraced_fst (env : Env) (symbol : String) (precision : Nat)
    (quantity : Int) (s : State) :
    (marketBuyLoopTraced env symbol precision quantity s).1
      = marketBuyLoop env symbol precision quantity s :=
  pagesLoop_traced (marketBuyOrder env symbol precision) Sweep.active (fetchSells symbol)
    (fun (t : List Int) o => t ++ [o.price]) _ _ _ _ _

theorem marketBuyLoopTraced_pos (env : Env) (symbol : String) (precision : Nat)
    (quantity : Int) (s : State) (h : ∀ o ∈ s.sellBook, 0 < o.price) :
    ∀ d ∈ (marketBuyLoopTraced env symbol precision quantity s).2, 0 < d := by
  have key : (fun x : Sweep × List Int =>
      (∀ o ∈ x.1.st.sellBook, 0 < o.price) ∧ ∀ d ∈ x.2, 0 < d)
      (marketBuyLoopTraced env symbol precision quantity s) := by
    unfold marketBuyLoopTraced
    refine pagesLoop_inv_rows _ _ _
      (fun x : Sweep × List Int => (∀ o ∈ x.1.st.sellBook, 0 < o.price) ∧ ∀ d ∈ x.2, 0 < d)
      (fun o => 0 < o.price) ?_ ?_ _ _ _ _ ?_ ?_
    · intro x o _ ho hi
      refine ⟨fun r hr => ?_, fun d hd => ?_⟩
      · rcases (marketBuyOrder_rows env symbol precision x.1 o).1 r hr with h' | h'
        · exact hi.1 r h'
        · rw [h'.1.2.2.2.2.2.1]
          exact ho
      · rcases List.mem_append.1 hd with h' | h'
        · exact hi.2 d h'
        · rw [List.mem_singleton.1 h']
          exact ho
    · intro x off hi o ho
      exact hi.1 o (mem_dbFind _ _ _ _ _ o ho).1
    · intro o ho
      have hmem := (mem_dbFind _ _ _ _ _ o ho).1
      have e : (removeExpiredOrders env Table.sellBook s).sellBook
          = sweptBook env s.sellBook := removeExpiredOrders_book env Table.sellBook s
      have hmem2 : o ∈ (removeExpiredOrders env Table.sellBook s).sellBook := hmem
      rw [e] at hmem2
      exact h o ((sweptBook_sublist env _).subset hmem2)
    · refine ⟨fun r hr => ?_, fun d hd => absurd hd (List.not_mem_nil d)⟩
      have e : (removeExpiredOrders env Table.sellBook s).sellBook
          = sweptBook env s.sellBook := removeExpiredOrders_book env Table.sellBook s
      have hr2 : r ∈ (removeExpiredOrders env Table.sellBook s).sellBook := hr
      rw [e] at hr2
      exact h r ((sweptBook_sublist env _).subset hr2)
  exact key.2

theorem marketBuyQuantity_isSome (x price : Int) (precision : Nat) (h : 0 < price) :
    (marketBuyQuantity x price precision).isSome = true := by
  unfold marketBuyQuantity
  rw [if_neg (ne_of_gt h)]
  simp only
  split <;> rfl

/-- C36 (no division by zero).  Take any sequence of `buy`, `sell`, `marketBuy`,
`marketSell` and `cancel` actions at block times `> 0`, run from the empty tables, and a
block time `t > 0`.  In the state reached, every order of `sellBook` has a price `> 0`;
in every state with that sell book, each run of the body of the `marketBuy` loop at `t`
divides by a `sellOrder.price > 0` (the traced loop is the loop of the contract, and all
the divisors it records are positive); every metric row holds a number in
`priceChangePercent`; and whenever `updatePriceMetrics` at `t` takes the dividing branch
(`lastDayPriceExpiration >= t`) for a symbol, its divisor `lastDayPrice` is `> 0`, so
that the percent is a number. -/
theorem no_division_by_zero_is_reachable (txs : List (Env × Action))
    (ht : ∀ tx ∈ txs, 0 < tx.1.timestampSec) (env : Env) (henv : 0 < env.timestampSec) :
    (∀ o ∈ (run txs State.empty).sellBook,
      0 < o.price ∧ ∀ x precision, (marketBuyQuantity x o.price precision).isSome = true) ∧
    (∀ (s0 : State) (symbol : String) (precision : Nat) (quantity : Int),
      s0.sellBook = (run txs State.empty).sellBook →
      (marketBuyLoopTraced env symbol precision quantity s0).1
        = marketBuyLoop env symbol precision quantity s0 ∧
      ∀ d ∈ (marketBuyLoopTraced env symbol precision quantity s0).2, 0 < d) ∧
    (∀ m ∈ (run txs State.empty).metrics, m.priceChangePercent.isSome = true) ∧
    ∀ (symbol : String) (p : Int),
      ¬ (getMetric (run txs State.empty) symbol).2.lastDayPriceExpiration
          < env.timestampSec →
      0 < (getMetric (run txs State.empty) symbol).2.lastDayPrice ∧
      (percentChange (p - (getMetric (run txs State.empty) symbol).2.lastDayPrice)
        (getMetric (run txs State.empty) symbol).2.lastDayPrice).isSome = true := by
  have hsound := run_sound divisorPositive_rule txs State.empty
    (fun tx htx p hp => ⟨hp, ht tx htx⟩) (sound_empty _)
  refine ⟨fun o ho => ⟨hsound.2.1 o ho, fun x precision =>
      marketBuyQuantity_isSome x o.price precision (hsound.2.1 o ho)⟩,
    fun s0 symbol precision quantity hbook =>
      ⟨marketBuyLoopTraced_fst env symbol precision quantity s0,
        marketBuyLoopTraced_pos env symbol precision quantity s0
          (fun o ho => hsound.2.1 o (hbook ▸ ho))⟩,
    fun m hm => (hsound.2.2 m hm).2, fun symbol p hexp => ?_⟩
  have hrow := getMetric_rule divisorPositive_rule (run txs State.empty) symbol hsound.2.2
  have hpos : 0 < (getMetric (run txs State.empty) symbol).2.lastDayPrice :=
    hrow.2.1 (lt_of_lt_of_le henv (not_lt.1 hexp))
  exact ⟨hpos, percentChange_isSome _ _ hpos⟩

/-- C36 after Alice's sell of `4 ABC` at `1.0` at block time `100`: a `marketBuy` of
`2.0` of the peg token at block time `101` runs its body once, dividing by `1.0`. -/
theorem no_division_by_zero_is_reachable_witness :
    (∀ tx ∈ buyAboveAsk.take 1, 0 < tx.1.timestampSec) ∧
    (0 : Int) < (exampleEnv "bob" "b1" 101).timestampSec ∧
    (marketBuyLoopTraced (exampleEnv "bob" "b1" 101) "ABC" 1 200000000
      (run (buyAboveAsk.take 1) State.empty)).2 = [100000000] ∧
    ∀ d ∈ (marketBuyLoopTraced (exampleEnv "bob" "b1" 101) "ABC" 1 200000000
      (run (buyAboveAsk.take 1) State.empty)).2, 0 < d :=
  ⟨by decide, by decide, by decide!,
    ((no_division_by_zero_is_reachable (buyAboveAsk.take 1) (by decide)
      (exampleEnv "bob" "b1" 101) (by decide)).2.1 (run (buyAboveAsk.take 1) State.empty)
      "ABC" 1 200000000 rfl).2⟩

theorem pagesLoopReads_succ {σ : Type} (body : σ → Order → σ) (active : σ → Bool)
    (fetch : σ → Nat → List Order) (fuel : Nat) (m : σ) (page : List Order) (off : Nat) :
    pagesLoopReads body active fetch (fuel + 1) m page off
      = if active (pageWhile body active m page) = true then
          if (fetch (pageWhile body active m page) (off + PAGE)).length > 0 then
            ((pagesLoopReads body active fetch fuel (pageWhile body active m page)
                (fetch (pageWhile body active m page) (off + PAGE)) (off + PAGE)).1,
              (pagesLoopReads body active fetch fuel (pageWhile body active m page)
                (fetch (pageWhile body active m page) (off + PAGE)) (off + PAGE)).2.1 + 1,
              (pagesLoopReads body active fetch fuel (pageWhile body active m page)
                (fetch (pageWhile body active m page) (off + PAGE)) (off + PAGE)).2.2)
          else (pageWhile body active m page, 1,
            fetch (pageWhile body active m page) (off + PAGE))
        else (pageWhile body active m page, 0, page) := rfl

theorem pagesLoopReads_fst {σ : Type} (body : σ → Order → σ) (active : σ → Bool)
    (fetch : σ → Nat → List Order) :
    ∀ (fuel : Nat) (m : σ) (page : List Order) (off : Nat),
      (pagesLoopReads body active fetch fuel m page off).1
        = pagesLoop body active fetch fuel m page off := by
  intro fuel
  induction fuel with
  | zero => intro m page off; rfl
  | succ n ih =>
    intro m page off
    rw [pagesLoopReads_succ, pagesLoop_succ]
    by_cases ha : active (pageWhile body active m page) = true
    · simp only [ha, if_true, and_true]
      by_cases hl : (fetch (pageWhile body active m page) (off + PAGE)).length > 0
      · rw [if_pos hl, if_pos hl]
        exact ih _ _ _
      · rw [if_neg hl, if_neg hl]
    · simp only [ha, Bool.false_eq_true, and_false, if_false]

theorem filter_length_of_active {σ : Type} (body : σ → Order → σ) (active : σ → Bool)
    (book : σ → List Order) (q : Order → Bool)
    (hstep : ∀ m o, active m = true → active (body m o) = true →
      ∃ p, book (body m o) = (book m).filter p)
    (m : σ) (page : List Order) (hact : active (pageWhile body active m page) = true) :
    ((book (pageWhile body active m page)).filter q).length ≤ ((book m).filter q).length := by
  obtain ⟨p, hp⟩ := pageWhile_book body active book hstep page m hact
  rw [hp, List.filter_filter]
  have e : (book m).filter (fun a => q a && p a) = ((book m).filter q).filter p := by
    rw [List.filter_filter]
    apply List.filter_congr
    intro r _
    exact Bool.and_comm _ _
  rw [e]
  exact List.length_filter_le _ _

theorem dbFind_length_pos {α : Type} (rows : List α) (q : α → Bool) (limit off : Nat)
    (cmp : α → α → Bool) (h : (dbFind rows q limit off cmp).length > 0) :
    off < (rows.filter q).length := by
  unfold dbFind at h
  by_contra hle
  rw [List.drop_eq_nil_of_le (by rw [length_sortBy]; omega)] at h
  simp at h

theorem pagesLoopReads_reads {σ : Type} (body : σ → Order → σ) (active : σ → Bool)
    (book : σ → List Order) (q : Order → Bool) (cmp : Order → Order → Bool)
    (fetch : σ → Nat → List Order)
    (hfetch : ∀ m off, fetch m off = dbFind (book m) q PAGE off cmp)
    (hstep : ∀ m o, active m = true → active (body m o) = true →
      ∃ p, book (body m o) = (book m).filter p) :
    ∀ (fuel : Nat) (m : σ) (page : List Order) (off : Nat),
      (pagesLoopReads body active fetch fuel m page off).2.1
        ≤ (((book m).filter q).length - off) / PAGE + 1 := by
  intro fuel
  induction fuel with
  | zero => intro m page off; exact Nat.zero_le _
  | succ n ih =>
    intro m page off
    rw [pagesLoopReads_succ]
    by_cases ha : active (pageWhile body active m page) = true
    · rw [if_pos ha]
      by_cases hl : (fetch (pageWhile body active m page) (off + PAGE)).length > 0
      · rw [if_pos hl]
        have h1 := ih (pageWhile body active m page)
          (fetch (pageWhile body active m page) (off + PAGE)) (off + PAGE)
        have h2 := filter_length_of_active body active book q hstep m page ha
        rw [hfetch] at hl
        have h3 := dbFind_length_pos _ _ _ _ _ hl
        simp only
        unfold PAGE at h1 h3 ⊢
        omega
      · rw [if_neg hl]
        exact Nat.le_add_left 1 _
    · rw [if_neg ha]
      exact Nat.zero_le _

theorem pagesLoopReads_stop {σ : Type} (body : σ → Order → σ) (active : σ → Bool)
    (book : σ → List Order) (q : Order → Bool) (cmp : Order → Order → Bool)
    (fetch : σ → Nat → List Order)
    (hfetch : ∀ m off, fetch m off = dbFind (book m) q PAGE off cmp)
    (hstep : ∀ m o, active m = true → active (body m o) = true →
      ∃ p, book (body m o) = (book m).filter p) :
    ∀ (fuel : Nat) (m : σ) (page : List Order) (off : Nat),
      ((book m).filter q).length ≤ off + (fuel + 1) * PAGE →
      active (pagesLoopReads body active fetch (fuel + 1) m page off).1 = false ∨
      (pagesLoopReads body active fetch (fuel + 1) m page off).2.2 = [] := by
  intro fuel
  induction fuel with
  | zero =>
    intro m page off hlen
    rw [pagesLoopReads_succ]
    by_cases ha : active (pageWhile body active m page) = true
    · rw [if_pos ha]
      have h2 := filter_length_of_active body active book q hstep m page ha
      by_cases hl : (fetch (pageWhile body active m page) (off + PAGE)).length > 0
      · exfalso
        rw [hfetch] at hl
        have h3 := dbFind_length_pos _ _ _ _ _ hl
        omega
      · rw [if_neg hl]
        right
        exact List.length_eq_zero.1 (Nat.eq_zero_of_not_pos hl)
    · rw [if_neg ha]
      left
      simpa using ha
  | succ n ih =>
    intro m page off hlen
    rw [pagesLoopReads_succ]
    by_cases ha : active (pageWhile body active m page) = true
    · rw [if_pos ha]
      have h2 := filter_length_of_active body active book q hstep m page ha
      by_cases hl : (fetch (pageWhile body active m page) (off + PAGE)).length > 0
      · rw [if_pos hl]
        refine ih _ _ _ ?_
        have e : off + (n + 1 + 1) * PAGE = off + PAGE + (n + 1) * PAGE := by ring
        omega
      · rw [if_neg hl]
        right
        exact List.length_eq_zero.1 (Nat.eq_zero_of_not_pos hl)
    · rw [if_neg ha]
      left
      simpa using ha

theorem filter_length_le_more (q : Order → Bool) (l : List Order) (extra : Nat) :
    (l.filter q).length ≤ 0 + (l.length + extra + 1) * PAGE := by
  have h1 := List.length_filter_le q l
  have h2 : l.length + extra + 1 ≤ (l.length + extra + 1) * PAGE := by
    unfold PAGE
    omega
  omega

theorem removeExpiredLoop_succ (env : Env) (table : Table) (fuel : Nat) (s : State) :
    removeExpiredLoop env table (fuel + 1) s
      = if (dbFind (s.book table) (expired env) PAGE 0 noSort).length > 0 then
          removeExpiredLoop env table fuel
            ((dbFind (s.book table) (expired env) PAGE 0 noSort).foldl
              (removeExpiredOrder table) s)
        else s := rfl

theorem removeExpiredPass_shorter (env : Env) (table : Table) (s : State)
    (h : (dbFind (s.book table) (expired env) PAGE 0 noSort).length > 0) :
    (((dbFind (s.book table) (expired env) PAGE 0 noSort).foldl
      (removeExpiredOrder table) s).book table).length < (s.book table).length := by
  rw [foldl_removeExpiredOrder_book]
  rw [dbFind_noSort] at h ⊢
  cases hl : ((s.book table).filter (expired env)).take PAGE with
  | nil => simp [hl] at h
  | cons d rest =>
    have hd : d ∈ s.book table := by
      have : d ∈ ((s.book table).filter (expired env)).take PAGE := by
        rw [hl]; exact List.mem_cons_self _ _
      exact (List.mem_filter.1 (List.mem_of_mem_take this)).1
    simp only [List.foldl_cons]
    have h2 := (foldl_filter_orders_sublist rest
      ((s.book table).filter (fun r => r.id != d.id))).length_le
    have h3 : ((s.book table).filter (fun r => r.id != d.id)).length
        < (s.book table).length := by
      apply List.length_filter_lt_length_iff_exists.2
      exact ⟨d, hd, by simp⟩
    omega

theorem removeExpiredLoop_fuel (env : Env) (table : Table) :
    ∀ (fuel : Nat) (s : State), (s.book table).length < fuel → ∀ extra : Nat,
      removeExpiredLoop env table (fuel + extra) s = removeExpiredLoop env table fuel s := by
  intro fuel
  induction fuel with
  | zero => intro s h; omega
  | succ n ih =>
    intro s hlen extra
    have e : n + 1 + extra = n + extra + 1 := by omega
    rw [e, removeExpiredLoop_succ, removeExpiredLoop_succ]
    by_cases hp : (dbFind (s.book table) (expired env) PAGE 0 noSort).length > 0
    · rw [if_pos hp, if_pos hp]
      have h1 := removeExpiredPass_shorter env table s hp
      exact ih _ (by omega) extra
    · rw [if_neg hp, if_neg hp]

theorem removeExpiredPass_removes (env : Env) (table : Table) (s : State) :
    ∀ o ∈ dbFind (s.book table) (expired env) PAGE 0 noSort,
      ∀ r ∈ ((dbFind (s.book table) (expired env) PAGE 0 noSort).foldl
        (removeExpiredOrder table) s).book table, r.id ≠ o.id := by
  intro o ho r hr
  rw [foldl_removeExpiredOrder_book, foldl_filter_ids] at hr
  have h1 := (List.mem_filter.1 hr).2
  intro heq
  have h2 : (dbFind (s.book table) (expired env) PAGE 0 noSort).any
      (fun o => o.id == r.id) = true :=
    List.any_eq_true.2 ⟨o, ho, by simp [heq]⟩
  rw [h2] at h1
  exact Bool.false_ne_true h1

theorem swept_filter_length (env : Env) (table : Table) (s : State) (q : Order → Bool) :
    (((removeExpiredOrders env table s).book table).filter q).length
      ≤ ((s.book table).filter q).length := by
  rw [removeExpiredOrders_book]
  exact ((sweptBook_sublist env _).filter q).length_le

/-- C37 (the sweep and the matching loops terminate).  For every state and block time:
`removeExpiredOrders` gives the same state however many more passes are allowed than the
number of rows of the book plus one, leaves no expired order in the book, and each of
its passes removes every row it read (no row of the book after the pass has the `_id`
of a row of the page).  The page loops of `findMatchingSellOrders`,
`findMatchingBuyOrders`, `marketBuy` and `marketSell` give the same result however many
more pages are allowed; they stop with a taker that has nothing left to fill or on an
empty page; and the number of their page reads, the first one included, is at most the
number of rows of the book that match the query of the loop, divided by 1000, plus
two. -/
theorem sweep_and_matching_loops_terminate (env : Env) (s : State) :
    (∀ table : Table,
      (∀ extra : Nat, removeExpiredLoop env table ((s.book table).length + 1 + extra) s
        = removeExpiredOrders env table s) ∧
      (∀ o ∈ (removeExpiredOrders env table s).book table, expired env o = false) ∧
      ∀ o ∈ dbFind (s.book table) (expired env) PAGE 0 noSort,
        ∀ r ∈ ((dbFind (s.book table) (expired env) PAGE 0 noSort).foldl
          (removeExpiredOrder table) s).book table, r.id ≠ o.id) ∧
    (∀ (order : Order) (tokenPrecision extra : Nat),
      (findMatchingSellOrdersReads env order tokenPrecision s extra).1
        = findMatchingSellOrdersLoop env order tokenPrecision s ∧
      ((findMatchingSellOrdersReads env order tokenPrecision s extra).1.active = false ∨
        (findMatchingSellOrdersReads env order tokenPrecision s extra).2.2 = []) ∧
      1 + (findMatchingSellOrdersReads env order tokenPrecision s extra).2.1
        ≤ (s.sellBook.filter (crossingSell order.symbol order.price)).length / 1000 + 2) ∧
    (∀ (order : Order) (tokenPrecision extra : Nat),
      (findMatchingBuyOrdersReads env order tokenPrecision s extra).1
        = findMatchingBuyOrdersLoop env order tokenPrecision s ∧
      ((findMatchingBuyOrdersReads env order tokenPrecision s extra).1.active = false ∨
        (findMatchingBuyOrdersReads env order tokenPrecision s extra).2.2 = []) ∧
      1 + (findMatchingBuyOrdersReads env order tokenPrecision s extra).2.1
        ≤ (s.buyBook.filter (crossingBuy order.symbol order.price)).length / 1000 + 2) ∧
    (∀ (symbol : String) (precision : Nat) (quantity : Int) (extra : Nat),
      (marketBuyReads env symbol precision quantity s extra).1
        = marketBuyLoop env symbol precision quantity s ∧
      ((marketBuyReads env symbol precision quantity s extra).1.active = false ∨
        (marketBuyReads env symbol precision quantity s extra).2.2 = []) ∧
      1 + (marketBuyReads env symbol precision quantity s extra).2.1
        ≤ (s.sellBook.filter (ofSymbol symbol)).length / 1000 + 2) ∧
    ∀ (symbol : String) (precision : Nat) (quantity : Int) (extra : Nat),
      (marketSellReads env symbol precision quantity s extra).1
        = marketSellLoop env symbol precision quantity s ∧
      ((marketSellReads env symbol precision quantity s extra).1.active = false ∨
        (marketSellReads env symbol precision quantity s extra).2.2 = []) ∧
      1 + (marketSellReads env symbol precision quantity s extra).2.1
        ≤ (s.buyBook.filter (ofSymbol symbol)).length / 1000 + 2 := by
  refine ⟨fun table => ⟨fun extra => ?_, ?_, removeExpiredPass_removes env table s⟩,
    fun order prec extra => ⟨?_, ?_, ?_⟩, fun order prec extra => ⟨?_, ?_, ?_⟩,
    fun sym prec quantity extra => ⟨?_, ?_, ?_⟩, fun sym prec quantity extra => ⟨?_, ?_, ?_⟩⟩
  · exact removeExpiredLoop_fuel env table _ s (Nat.lt_succ_self _) extra
  · rw [removeExpiredOrders_book]
    exact sweptBook_no_expired env _
  · unfold findMatchingSellOrdersReads
    simp only
    rw [pagesLoopReads_fst]
    exact findMatchingSellOrdersLoop_fuel env order prec s extra
  · unfold findMatchingSellOrdersReads
    simp only
    have e : (removeExpiredOrders env Table.sellBook s).sellBook.length + 1 + extra
        = (removeExpiredOrders env Table.sellBook s).sellBook.length + extra + 1 := by omega
    rw [e]
    exact pagesLoopReads_stop (matchSellOrder env prec) Taker.active (fun m => m.st.sellBook)
      (crossingSell order.symbol order.price) priceAsc
      (fetchCrossingSells order.symbol order.price) (fun _ _ => rfl)
      (fun m o _ h => (matchSellOrder_step env prec m o).2 h) _ _ _ 0
      (filter_length_le_more _ _ extra)
  · have h1 := pagesLoopReads_reads (matchSellOrder env prec) Taker.active
      (fun m => m.st.sellBook) (crossingSell order.symbol order.price) priceAsc
      (fetchCrossingSells order.symbol order.price) (fun _ _ => rfl)
      (fun m o _ h => (matchSellOrder_step env prec m o).2 h)
      ((removeExpiredOrders env Table.sellBook s).sellBook.length + 1 + extra)
      { st := removeExpiredOrders env Table.sellBook s, order := order, volumeTraded := 0 }
      (fetchCrossingSells order.symbol order.price
        { st := removeExpiredOrders env Table.sellBook s, order := order,
          volumeTraded := 0 } 0) 0
    have h2 := swept_filter_length env Table.sellBook s
      (crossingSell order.symbol order.price)
    unfold findMatchingSellOrdersReads
    simp only [State.book, PAGE] at h1 h2 ⊢
    omega
  · unfold findMatchingBuyOrdersReads
    simp only
    rw [pagesLoopReads_fst]
    exact findMatchingBuyOrdersLoop_fuel env order prec s extra
  · unfold findMatchingBuyOrdersReads
    simp only
    have e : (removeExpiredOrders env Table.buyBook s).buyBook.length + 1 + extra
        = (removeExpiredOrders env Table.buyBook s).buyBook.length + extra + 1 := by omega
    rw [e]
    exact pagesLoopReads_stop (matchBuyOrder env prec) Taker.active (fun m => m.st.buyBook)
      (crossingBuy order.symbol order.price) priceDesc
      (fetchCrossingBuys order.symbol order.price) (fun _ _ => rfl)
      (fun m o _ h => (matchBuyOrder_step env prec m o).2 h) _ _ _ 0
      (filter_length_le_more _ _ extra)
  · have h1 := pagesLoopReads_reads (matchBuyOrder env prec) Taker.active
      (fun m => m.st.buyBook) (crossingBuy order.symbol order.price) priceDesc
      (fetchCrossingBuys order.symbol order.price) (fun _ _ => rfl)
      (fun m o _ h => (matchBuyOrder_step env prec m o).2 h)
      ((removeExpiredOrders env Table.buyBook s).buyBook.length + 1 + extra)
      { st := removeExpiredOrders env Table.buyBook s, order := order, volumeTraded := 0 }
      (fetchCrossingBuys order.symbol order.price
        { st := removeExpiredOrders env Table.buyBook s, order := order,
          volumeTraded := 0 } 0) 0
    have h2 := swept_filter_length env Table.buyBook s
      (crossingBuy order.symbol order.price)
    unfold findMatchingBuyOrdersReads
    simp only [State.book, PAGE] at h1 h2 ⊢
    omega
  · unfold marketBuyReads
    simp only
    rw [pagesLoopReads_fst]
    exact marketBuyLoop_fuel env sym prec quantity s extra
  · unfold marketBuyReads
    simp only
    have e : (removeExpiredOrders env Table.sellBook s).sellBook.length + 1 + extra
        = (removeExpiredOrders env Table.sellBook s).sellBook.length + extra + 1 := by omega
    rw [e]
    exact pagesLoopReads_stop (marketBuyOrder env sym prec) Sweep.active
      (fun m => m.st.sellBook) (ofSymbol sym) priceAsc (fetchSells sym) (fun _ _ => rfl)
      (fun m o _ h => (marketBuyOrder_step env sym prec m o).2 h) _ _ _ 0
      (filter_length_le_more _ _ extra)
  · have h1 := pagesLoopReads_reads (marketBuyOrder env sym prec) Sweep.active
      (fun m => m.st.sellBook) (ofSymbol sym) priceAsc (fetchSells sym) (fun _ _ => rfl)
      (fun m o _ h => (marketBuyOrder_step env sym prec m o).2 h)
      ((removeExpiredOrders env Table.sellBook s).sellBook.length + 1 + extra)
      { st := removeExpiredOrders env Table.sellBook s, remaining := quantity,
        volumeTraded := 0 }
      (fetchSells sym
        { st := removeExpiredOrders env Table.sellBook s, remaining := quantity,
          volumeTraded := 0 } 0) 0
    have h2 := swept_filter_length env Table.sellBook s (ofSymbol sym)
    unfold marketBuyReads
    simp only [State.book, PAGE] at h1 h2 ⊢
    omega
  · unfold marketSellReads
    simp only
    rw [pagesLoopReads_fst]
    exact marketSellLoop_fuel env sym prec quantity s extra
  · unfold marketSellReads
    simp only
    have e : (removeExpiredOrders env Table.buyBook s).buyBook.length + 1 + extra
        = (removeExpiredOrders env Table.buyBook s).buyBook.length + extra + 1 := by omega
    rw [e]
    exact pagesLoopReads_stop (marketSellOrder env sym prec) Sweep.active
      (fun m => m.st.buyBook) (ofSymbol sym) priceDesc (fetchBuys sym) (fun _ _ => rfl)
      (fun m o _ h => (marketSellOrder_step env sym prec m o).2 h) _ _ _ 0
      (filter_length_le_more _ _ extra)
  · have h1 := pagesLoopReads_reads (marketSellOrder env sym prec) Sweep.active
      (fun m => m.st.buyBook) (ofSymbol sym) priceDesc (fetchBuys sym) (fun _ _ => rfl)
      (fun m o _ h => (marketSellOrder_step env sym prec m o).2 h)
      ((removeExpiredOrders env Table.buyBook s).buyBook.length + 1 + extra)
      { st := removeExpiredOrders env Table.buyBook s, remaining := quantity,
        volumeTraded := 0 }
      (fetchBuys sym
        { st := removeExpiredOrders env Table.buyBook s, remaining := quantity,
          volumeTraded := 0 } 0) 0
    have h2 := swept_filter_length env Table.buyBook s (ofSymbol sym)
    unfold marketSellReads
    simp only [State.book, PAGE] at h1 h2 ⊢
    omega

theorem symbolVolume_nil (sym : String) : symbolVolume sym [] = 0 := rfl

theorem symbolVolume_cons (sym : String) (a : Trade) (l : List Trade) :
    symbolVolume sym (a :: l)
      = (if a.symbol = sym then a.volume else 0) + symbolVolume sym l := by
  unfold symbolVolume
  by_cases h : a.symbol = sym
  · simp [List.filter_cons, h]
  · simp [List.filter_cons, h]

theorem symbolVolume_append (sym : String) (a b : List Trade) :
    symbolVolume sym (a ++ b) = symbolVolume sym a + symbolVolume sym b := by
  unfold symbolVolume
  rw [List.filter_append, List.map_append, List.sum_append]

theorem symbolVolume_eq_zero (sym : String) (l : List Trade)
    (h : ∀ t ∈ l, t.symbol ≠ sym) : symbolVolume sym l = 0 := by
  induction l with
  | nil => rfl
  | cons a l ih =>
    rw [symbolVolume_cons, if_neg (h a (List.mem_cons_self _ _)),
      ih (fun t ht => h t (List.mem_cons_of_mem _ ht))]
    rfl

theorem symbolVolume_all (sym : String) (l : List Trade) (h : ∀ t ∈ l, t.symbol = sym) :
    symbolVolume sym l = (l.map (fun t => t.volume)).sum := by
  induction l with
  | nil => rfl
  | cons a l ih =>
    rw [symbolVolume_cons, if_pos (h a (List.mem_cons_self _ _)),
      ih (fun t ht => h t (List.mem_cons_of_mem _ ht))]
    simp

theorem symbolVolume_nonneg (sym : String) (l : List Trade) (h : ∀ t ∈ l, 0 ≤ t.volume) :
    0 ≤ symbolVolume sym l := by
  induction l with
  | nil => exact le_refl _
  | cons a l ih =>
    rw [symbolVolume_cons]
    have h1 := ih (fun t ht => h t (List.mem_cons_of_mem _ ht))
    have h2 := h a (List.mem_cons_self _ _)
    split <;> omega

theorem sum_volume_pos (l : List Trade) (h : ∀ t ∈ l, 0 < t.volume) (hne : l ≠ []) :
    0 < (l.map (fun t => t.volume)).sum := by
  induction l with
  | nil => exact absurd rfl hne
  | cons a l ih =>
    simp only [List.map_cons, List.sum_cons]
    have h2 := h a (List.mem_cons_self _ _)
    by_cases hl : l = []
    · subst hl
      simpa using h2
    · have h1 := ih (fun t ht => h t (List.mem_cons_of_mem _ ht)) hl
      omega

theorem symbolVolume_remove (sym : String) (t : Trade) :
    ∀ l : List Trade, (l.map (fun r => r.id)).Nodup → t ∈ l →
      symbolVolume sym (l.filter (fun r => r.id != t.id))
        = symbolVolume sym l - (if t.symbol = sym then t.volume else 0) := by
  intro l
  induction l with
  | nil => intro _ h; exact absurd h (List.not_mem_nil _)
  | cons a l ih =>
    intro hn ht
    simp only [List.map_cons, List.nodup_cons, List.mem_map, not_exists, not_and] at hn
    by_cases hta : a.id = t.id
    · have hat : t = a := by
        rcases List.mem_cons.1 ht with h | h
        · exact h
        · exact absurd hta.symm (hn.1 t h)
      subst hat
      have hrest : l.filter (fun r => r.id != t.id) = l := by
        apply List.filter_eq_self.2
        intro r hr
        have := hn.1 r hr
        simpa [bne_iff_ne] using this
      rw [List.filter_cons, if_neg (by simp), hrest, symbolVolume_cons]
      ring
    · have htl : t ∈ l := by
        rcases List.mem_cons.1 ht with h | h
        · exact absurd (by rw [h]) hta
        · exact h
      rw [List.filter_cons, if_pos (by simpa [bne_iff_ne] using hta), symbolVolume_cons,
        symbolVolume_cons, ih hn.2 htl]
      ring

theorem getMetric_of_none (s : State) (symbol : String)
    (h : s.metrics.find? (fun m => m.symbol == symbol) = none) :
    getMetric s symbol
      = ({ s with metrics := s.metrics ++ [defaultMetric s.nextId symbol],
                  nextId := s.nextId + 1 }, defaultMetric s.nextId symbol) := by
  unfold getMetric
  rw [h]

theorem touch_metrics (s : State) (sym : String) (m' : Metric)
    (hid : m'.id = (getMetric s sym).2.id) (hsym : m'.symbol = sym)
    (mids : (s.metrics.map (fun m => m.id)).Nodup) (mlt : ∀ m ∈ s.metrics, m.id < s.nextId)
    (msyms : (s.metrics.map (fun m => m.symbol)).Nodup) :
    ((updateMetric (getMetric s sym).1 m').metrics.map (fun m => m.id)).Nodup ∧
    (∀ m ∈ (updateMetric (getMetric s sym).1 m').metrics,
      m.id < (updateMetric (getMetric s sym).1 m').nextId) ∧
    ((updateMetric (getMetric s sym).1 m').metrics.map (fun m => m.symbol)).Nodup ∧
    s.nextId ≤ (updateMetric (getMetric s sym).1 m').nextId ∧
    (updateMetric (getMetric s sym).1 m').tradesHistory = s.tradesHistory ∧
    m' ∈ (updateMetric (getMetric s sym).1 m').metrics ∧
    (∀ r ∈ (updateMetric (getMetric s sym).1 m').metrics,
      r = m' ∨ (r ∈ s.metrics ∧ r.symbol ≠ sym)) ∧
    (∀ r ∈ s.metrics, r.symbol ≠ sym → r ∈ (updateMetric (getMetric s sym).1 m').metrics) ∧
    ((getMetric s sym).2 ∈ s.metrics ∨
      ((getMetric s sym).2 = defaultMetric s.nextId sym ∧ ∀ r ∈ s.metrics, r.symbol ≠ sym)) := by
  cases hf : s.metrics.find? (fun m => m.symbol == sym) with
  | some m =>
    rw [getMetric_of_found s sym m hf] at hid ⊢
    simp only at hid ⊢
    have hm : m ∈ s.metrics := List.mem_of_find?_eq_some hf
    have hms : m.symbol = sym := by simpa using List.find?_some hf
    have hone : ∀ r ∈ s.metrics, r.id = m'.id → r = m := fun r hr h =>
      List.inj_on_of_nodup_map mids hr hm (h.trans hid)
    have hsame : ∀ r ∈ s.metrics, r.symbol = sym → r = m := fun r hr h =>
      List.inj_on_of_nodup_map msyms hr hm (h.trans hms.symm)
    have e1 : (s.metrics.map (fun r => if r.id = m'.id then m' else r)).map (fun m => m.id)
        = s.metrics.map (fun m => m.id) := by
      rw [List.map_map]
      apply List.map_congr_left
      intro r _
      simp only [Function.comp]
      split
      · rename_i h; exact h.symm
      · rfl
    have e2 : (s.metrics.map (fun r => if r.id = m'.id then m' else r)).map
        (fun m => m.symbol) = s.metrics.map (fun m => m.symbol) := by
      rw [List.map_map]
      apply List.map_congr_left
      intro r hr
      simp only [Function.comp]
      split
      · rename_i h
        rw [hone r hr h, hsym, hms]
      · rfl
    refine ⟨?_, ?_, ?_, le_refl _, rfl, ?_, ?_, ?_, Or.inl hm⟩
    · simp only [updateMetric]
      rw [e1]
      exact mids
    · intro r hr
      simp only [updateMetric, List.mem_map] at hr
      obtain ⟨a, ha, rfl⟩ := hr
      simp only [updateMetric]
      split
      · rw [hid]
        exact mlt m hm
      · exact mlt a ha
    · simp only [updateMetric]
      rw [e2]
      exact msyms
    · simp only [updateMetric, List.mem_map]
      exact ⟨m, hm, by rw [if_pos hid.symm]⟩
    · intro r hr
      simp only [updateMetric, List.mem_map] at hr
      obtain ⟨a, ha, rfl⟩ := hr
      split
      · exact Or.inl rfl
      · rename_i h
        refine Or.inr ⟨ha, fun hs => h ?_⟩
        rw [hsame a ha hs]
        exact hid.symm
    · intro r hr hne
      simp only [updateMetric, List.mem_map]
      refine ⟨r, hr, ?_⟩
      rw [if_neg]
      intro h
      exact hne ((hone r hr h).symm ▸ hms)
  | none =>
    rw [getMetric_of_none s sym hf] at hid ⊢
    simp only at hid ⊢
    have hnone : ∀ r ∈ s.metrics, r.symbol ≠ sym := by
      intro r hr h
      have := List.find?_eq_none.1 hf r hr
      simp [h] at this
    have hidd : m'.id = s.nextId := hid
    have e0 : (s.metrics ++ [defaultMetric s.nextId sym]).map
        (fun r => if r.id = m'.id then m' else r) = s.metrics ++ [m'] := by
      rw [List.map_append]
      congr 1
      · conv_rhs => rw [← List.map_id s.metrics]
        apply List.map_congr_left
        intro r hr
        have := mlt r hr
        rw [if_neg (by omega)]
        rfl
      · simp only [List.map_cons, List.map_nil]
        rw [if_pos hid.symm]
    refine ⟨?_, ?_, ?_, Nat.le_succ _, rfl, ?_, ?_, ?_,
      Or.inr ⟨trivial, hnone⟩⟩
    · simp only [updateMetric]
      rw [e0, List.map_append, List.nodup_append]
      refine ⟨mids, by simp, ?_⟩
      intro a ha hb
      simp only [List.map_cons, List.map_nil, List.mem_singleton] at hb
      obtain ⟨r, hr, rfl⟩ := List.mem_map.1 ha
      have := mlt r hr
      omega
    · intro r hr
      simp only [updateMetric] at hr ⊢
      rw [e0] at hr
      rcases List.mem_append.1 hr with h | h
      · have := mlt r h
        omega
      · rw [List.mem_singleton.1 h, hidd]
        exact Nat.lt_succ_self _
    · simp only [updateMetric]
      rw [e0, List.map_append, List.nodup_append]
      refine ⟨msyms, by simp, ?_⟩
      intro a ha hb
      simp only [List.map_cons, List.map_nil, List.mem_singleton] at hb
      obtain ⟨r, hr, rfl⟩ := List.mem_map.1 ha
      exact hnone r hr (hb.trans hsym)
    · simp only [updateMetric]
      rw [e0]
      exact List.mem_append_right _ (List.mem_singleton_self _)
    · intro r hr
      simp only [updateMetric] at hr
      rw [e0] at hr
      rcases List.mem_append.1 hr with h | h
      · exact Or.inr ⟨h, hnone r h⟩
      · exact Or.inl (List.mem_singleton.1 h)
    · intro r hr _
      simp only [updateMetric]
      rw [e0]
      exact List.mem_append_left _ hr

theorem ledgerCore_mono {now : Int} {S : String} {kept appended : List Trade} {s : State}
    (hc : LedgerCore now S kept appended s) (s' : State)
    (hh : s'.tradesHistory = s.tradesHistory) (hm : s'.metrics = s.metrics)
    (hn : s.nextId ≤ s'.nextId) : LedgerCore now S kept appended s' :=
  { hist := hh.trans hc.hist
    tids := by rw [hh]; exact hc.tids
    tlt := fun t ht => lt_of_lt_of_le (hc.tlt t (hh ▸ ht)) hn
    mids := by rw [hm]; exact hc.mids
    mlt := fun m h => lt_of_lt_of_le (hc.mlt m (hm ▸ h)) hn
    msyms := by rw [hm]; exact hc.msyms
    rows := fun t ht => by
      obtain ⟨m, h1, h2⟩ := hc.rows t (hh ▸ ht)
      exact ⟨m, hm ▸ h1, h2⟩
    keptOk := hc.keptOk
    appendedOk := hc.appendedOk
    vol := fun m h => hc.vol m (hm ▸ h)
    exp := fun m h => hc.exp m (hm ▸ h) }

theorem ledgerCore_row {now : Int} {S : String} {kept appended : List Trade} {s : State}
    (hc : LedgerCore now S kept appended s) (b : State) (hbm : b.metrics = s.metrics)
    (sym : String) :
    (getMetric b sym).2.volume = symbolVolume sym kept ∧
    ∀ t ∈ kept, t.symbol = sym → t.timestamp + DAY ≤ (getMetric b sym).2.volumeExpiration := by
  cases hf : b.metrics.find? (fun m => m.symbol == sym) with
  | some m =>
    rw [getMetric_of_found b sym m hf]
    have hm : m ∈ s.metrics := hbm ▸ List.mem_of_find?_eq_some hf
    have hms : m.symbol = sym := by simpa using List.find?_some hf
    exact ⟨hms ▸ hc.vol m hm, fun t ht h => hc.exp m hm t ht (h.trans hms.symm)⟩
  | none =>
    rw [getMetric_of_none b sym hf]
    have hnone : ∀ t ∈ kept, t.symbol ≠ sym := by
      intro t ht h
      obtain ⟨m, h1, h2⟩ := hc.rows t (by rw [hc.hist]; exact List.mem_append_left _ ht)
      have := List.find?_eq_none.1 hf m (hbm ▸ h1)
      simp [h2, h] at this
    exact ⟨(symbolVolume_eq_zero sym kept hnone).symm, fun t ht h => absurd h (hnone t ht)⟩

theorem ledgerCore_update {now : Int} {S : String} {kept appended : List Trade} {s : State}
    (hc : LedgerCore now S kept appended s) (b : State) (hbm : b.metrics = s.metrics)
    (hbn : s.nextId ≤ b.nextId) (sym : String) (m' : Metric)
    (hid : m'.id = (getMetric b sym).2.id) (hsym : m'.symbol = sym) (s' : State)
    (hm : s'.metrics = (updateMetric (getMetric b sym).1 m').metrics)
    (hn : s'.nextId = (updateMetric (getMetric b sym).1 m').nextId)
    (kept' appended' : List Trade) (hh : s'.tradesHistory = kept' ++ appended')
    (htids : (s'.tradesHistory.map (fun t => t.id)).Nodup)
    (htlt : ∀ t ∈ s'.tradesHistory, t.id < b.nextId)
    (hrows : ∀ t ∈ s'.tradesHistory, t.symbol = sym ∨ t ∈ s.tradesHistory)
    (hk : ∀ t ∈ kept', 0 ≤ t.volume ∧ t.timestamp ≤ now)
    (ha : ∀ t ∈ appended', t.symbol = S ∧ t.timestamp = now ∧ 0 < t.volume)
    (hvol : m'.volume = symbolVolume sym kept')
    (hexp : ∀ t ∈ kept', t.symbol = sym → t.timestamp + DAY ≤ m'.volumeExpiration)
    (hother : ∀ sym', sym' ≠ sym → symbolVolume sym' kept' = symbolVolume sym' kept ∧
      ∀ t ∈ kept', t.symbol = sym' → t ∈ kept) :
    LedgerCore now S kept' appended' s' := by
  obtain ⟨t1, t2, t3, t4, _, t6, t7, t8, _⟩ := touch_metrics b sym m' hid hsym
    (by rw [hbm]; exact hc.mids)
    (fun m h => lt_of_lt_of_le (hc.mlt m (hbm ▸ h)) hbn)
    (by rw [hbm]; exact hc.msyms)
  rw [← hm] at t1 t3 t6 t7 t8
  rw [← hm, ← hn] at t2
  rw [← hn] at t4
  rw [hbm] at t7 t8
  exact
    { hist := hh
      tids := htids
      tlt := fun t ht => lt_of_lt_of_le (htlt t ht) t4
      mids := t1
      mlt := t2
      msyms := t3
      rows := fun t ht => by
        rcases hrows t ht with h | h
        · exact ⟨m', t6, hsym.trans h.symm⟩
        · obtain ⟨m, h1, h2⟩ := hc.rows t h
          by_cases hs : m.symbol = sym
          · exact ⟨m', t6, hsym.trans (hs.symm.trans h2)⟩
          · exact ⟨m, t8 m h1 hs, h2⟩
      keptOk := hk
      appendedOk := ha
      vol := fun r hr => by
        rcases t7 r hr with h | ⟨h1, h2⟩
        · rw [h, hsym]
          exact hvol
        · rw [(hother r.symbol h2).1]
          exact hc.vol r h1
      exp := fun r hr t ht hs => by
        rcases t7 r hr with h | ⟨h1, h2⟩
        · rw [h]
          rw [h, hsym] at hs
          exact hexp t ht hs
        · exact hc.exp r h1 t ((hother r.symbol h2).2 t ht hs) hs }

theorem ledgerCore_touch {now : Int} {S : String} {kept appended : List Trade} {s : State}
    (hc : LedgerCore now S kept appended s) (sym : String) (m' : Metric)
    (hid : m'.id = (getMetric s sym).2.id) (hsym : m'.symbol = sym)
    (hv : m'.volume = (getMetric s sym).2.volume)
    (he : m'.volumeExpiration = (getMetric s sym).2.volumeExpiration) :
    LedgerCore now S kept appended (updateMetric (getMetric s sym).1 m') := by
  obtain ⟨r1, r2⟩ := ledgerCore_row hc s rfl sym
  have hh : (updateMetric (getMetric s sym).1 m').tradesHistory = s.tradesHistory :=
    (getMetric_same s sym).2.2.1
  refine ledgerCore_update hc s rfl (le_refl _) sym m' hid hsym _ rfl rfl kept appended
    (hh.trans hc.hist) (by rw [hh]; exact hc.tids) (fun t ht => hc.tlt t (hh ▸ ht))
    (fun t ht => Or.inr (hh ▸ ht)) hc.keptOk hc.appendedOk (hv.trans r1)
    (fun t ht h => he ▸ r2 t ht h) (fun _ _ => ⟨rfl, fun t ht _ => ht⟩)

theorem ledgerCore_bid {now : Int} {S : String} {kept appended : List Trade} {s : State}
    (hc : LedgerCore now S kept appended s) (sym : String) :
    LedgerCore now S kept appended (updateBidMetric sym s) := by
  rw [updateBidMetric_eq]
  exact ledgerCore_touch hc sym _ rfl (getMetric_found s sym).2 rfl rfl

theorem ledgerCore_ask {now : Int} {S : String} {kept appended : List Trade} {s : State}
    (hc : LedgerCore now S kept appended s) (sym : String) :
    LedgerCore now S kept appended (updateAskMetric sym s) := by
  rw [updateAskMetric_eq]
  exact ledgerCore_touch hc sym _ rfl (getMetric_found s sym).2 rfl rfl

theorem updatePriceMetrics_touch (env : Env) (sym : String) (p : Int) (s : State) :
    ∃ m', updatePriceMetrics env sym p s = updateMetric (getMetric s sym).1 m' ∧
      m'.id = (getMetric s sym).2.id ∧ m'.symbol = sym ∧
      m'.volume = (getMetric s sym).2.volume ∧
      m'.volumeExpiration = (getMetric s sym).2.volumeExpiration := by
  have hsym := (getMetric_found s sym).2
  unfold updatePriceMetrics
  simp only
  split
  · exact ⟨_, rfl, rfl, hsym, rfl, rfl⟩
  · exact ⟨_, rfl, rfl, hsym, rfl, rfl⟩

theorem updateVolumeMetric_touch (env : Env) (sym : String) (q : Int) (add : Bool)
    (s : State) :
    ∃ m', updateVolumeMetric env sym q add s = updateMetric (getMetric s sym).1 m' ∧
      m'.id = (getMetric s sym).2.id ∧ m'.symbol = sym ∧
      m'.volume = max 0
        (if add then
          (if (getMetric s sym).2.volumeExpiration < env.timestampSec then 0
           else (getMetric s sym).2.volume) + q
         else (getMetric s sym).2.volume - q) ∧
      m'.volumeExpiration
        = if add then env.timestampSec + env.dayAhead
          else (getMetric s sym).2.volumeExpiration := by
  have hsym := (getMetric_found s sym).2
  unfold updateVolumeMetric
  simp only
  cases add with
  | true =>
    simp only [if_true]
    by_cases hexp : (getMetric s sym).2.volumeExpiration < env.timestampSec
    · simp only [hexp, if_true]
      by_cases hneg : 0 + q < 0
      · rw [if_pos hneg, max_eq_left (le_of_lt hneg)]
        exact ⟨_, rfl, rfl, hsym, rfl, rfl⟩
      · rw [if_neg hneg, max_eq_right (not_lt.1 hneg)]
        exact ⟨_, rfl, rfl, hsym, rfl, rfl⟩
    · simp only [hexp, if_false]
      by_cases hneg : (getMetric s sym).2.volume + q < 0
      · rw [if_pos hneg, max_eq_left (le_of_lt hneg)]
        exact ⟨_, rfl, rfl, hsym, rfl, rfl⟩
      · rw [if_neg hneg, max_eq_right (not_lt.1 hneg)]
        exact ⟨_, rfl, rfl, hsym, rfl, rfl⟩
  | false =>
    simp only [Bool.false_eq_true, if_false]
    by_cases hneg : (getMetric s sym).2.volume - q < 0
    · rw [if_pos hneg, max_eq_left (le_of_lt hneg)]
      exact ⟨_, rfl, rfl, hsym, rfl, rfl⟩
    · rw [if_neg hneg, max_eq_right (not_lt.1 hneg)]
      exact ⟨_, rfl, rfl, hsym, rfl, rfl⟩

theorem day_pos : (0 : Int) < DAY := by decide

theorem ledgerCore_purge_step {now : Int} {S : String} {kept appended : List Trade}
    {st : State} (env : Env) (hnow : env.timestampSec = now)
    (hc : LedgerCore now S kept appended st) (t : Trade) (ht : t ∈ st.tradesHistory)
    (hold : oldTrade env S t = true) :
    LedgerCore now S (kept.filter (fun r => r.id != t.id)) appended
      (removeTrade (updateVolumeMetric env t.symbol t.volume false st) t) := by
  unfold oldTrade at hold
  simp only [Bool.and_eq_true, beq_iff_eq, decide_eq_true_eq] at hold
  obtain ⟨hsym, hts⟩ := hold
  have hday := day_pos
  have hkept : t ∈ kept := by
    rw [hc.hist] at ht
    rcases List.mem_append.1 ht with h | h
    · exact h
    · have := (hc.appendedOk t h).2.1
      omega
  have hkids : (kept.map (fun r => r.id)).Nodup := by
    have := hc.tids
    rw [hc.hist, List.map_append] at this
    exact (List.nodup_append.1 this).1
  have happ : appended.filter (fun r => r.id != t.id) = appended := by
    apply List.filter_eq_self.2
    intro a ha
    have hne : a.id ≠ t.id := by
      intro he
      have hat : a = t := List.inj_on_of_nodup_map hc.tids
        (by rw [hc.hist]; exact List.mem_append_right _ ha) ht he
      have := (hc.appendedOk a ha).2.1
      rw [hat] at this
      omega
    simpa [bne_iff_ne] using hne
  obtain ⟨m', he, hid, hms, hv, hx⟩ := updateVolumeMetric_touch env t.symbol t.volume false st
  obtain ⟨r1, r2⟩ := ledgerCore_row hc st rfl t.symbol
  have hrem := symbolVolume_remove t.symbol t kept hkids hkept
  rw [if_pos rfl] at hrem
  have hnonneg : 0 ≤ symbolVolume t.symbol (kept.filter (fun r => r.id != t.id)) :=
    symbolVolume_nonneg _ _ (fun r hr => (hc.keptOk r (List.mem_filter.1 hr).1).1)
  have hhist : (removeTrade (updateVolumeMetric env t.symbol t.volume false st) t).tradesHistory
      = st.tradesHistory.filter (fun r => r.id != t.id) := by
    simp only [removeTrade, updateVolumeMetric_tradesHistory]
  refine ledgerCore_update hc st rfl (le_refl _) t.symbol m' hid hms _
    (by rw [he]; rfl) (by rw [he]; rfl) _ appended ?_ ?_ ?_ ?_ ?_ hc.appendedOk ?_ ?_ ?_
  · rw [hhist, hc.hist, List.filter_append, happ]
  · rw [hhist]
    exact List.Nodup.sublist ((List.filter_sublist _).map _) hc.tids
  · intro r hr
    rw [hhist] at hr
    exact hc.tlt r (List.mem_filter.1 hr).1
  · intro r hr
    rw [hhist] at hr
    exact Or.inr (List.mem_filter.1 hr).1
  · intro r hr
    exact hc.keptOk r (List.mem_filter.1 hr).1
  · rw [hv]
    simp only [Bool.false_eq_true, if_false]
    rw [r1, ← hrem]
    exact max_eq_right hnonneg
  · intro r hr h
    rw [hx]
    simp only [Bool.false_eq_true, if_false]
    exact r2 r (List.mem_filter.1 hr).1 h
  · intro sym' hne
    constructor
    · rw [symbolVolume_remove sym' t kept hkids hkept, if_neg (fun h => hne h.symm)]
      ring
    · intro r hr _
      exact (List.mem_filter.1 hr).1

theorem ledgerCore_purgePass {now : Int} {S : String} {appended : List Trade} (env : Env)
    (hnow : env.timestampSec = now) :
    ∀ (ts kept : List Trade) (st : State), LedgerCore now S kept appended st →
      (∀ t ∈ ts, t ∈ st.tradesHistory ∧ oldTrade env S t = true) →
      (ts.map (fun t => t.id)).Nodup →
      ∃ kept', LedgerCore now S kept' appended (purgePass env st ts) := by
  intro ts
  induction ts with
  | nil => intro kept st hc _ _; exact ⟨kept, hc⟩
  | cons t rest ih =>
    intro kept st hc hts hn
    simp only [List.map_cons, List.nodup_cons, List.mem_map, not_exists, not_and] at hn
    have h1 := ledgerCore_purge_step env hnow hc t (hts t (List.mem_cons_self _ _)).1
      (hts t (List.mem_cons_self _ _)).2
    have e : purgePass env st (t :: rest)
        = purgePass env (removeTrade (updateVolumeMetric env t.symbol t.volume false st) t)
            rest := by
      unfold purgePass
      rfl
    rw [e]
    refine ih _ _ h1 ?_ hn.2
    intro r hr
    refine ⟨?_, (hts r (List.mem_cons_of_mem _ hr)).2⟩
    simp only [removeTrade, updateVolumeMetric_tradesHistory]
    refine List.mem_filter.2 ⟨(hts r (List.mem_cons_of_mem _ hr)).1, ?_⟩
    have := hn.1 r hr
    simpa [bne_iff_ne] using this

theorem ledgerCore_purgeTrades {now : Int} {S : String} {appended : List Trade} (env : Env)
    (hnow : env.timestampSec = now) :
    ∀ (fuel : Nat) (kept : List Trade) (st : State), LedgerCore now S kept appended st →
      ∃ kept', LedgerCore now S kept' appended (purgeTrades env S fuel st) := by
  intro fuel
  induction fuel with
  | zero => intro kept st hc; exact ⟨kept, hc⟩
  | succ n ih =>
    intro kept st hc
    unfold purgeTrades
    simp only [dbFind_noSort]
    split
    · obtain ⟨kept1, h1⟩ := ledgerCore_purgePass env hnow
        ((st.tradesHistory.filter (oldTrade env S)).take PAGE) kept st hc
        (fun t ht => by
          have := List.mem_filter.1 (List.mem_of_mem_take ht)
          exact ⟨this.1, this.2⟩)
        (List.Nodup.sublist
          (((List.take_sublist _ _).trans (List.filter_sublist _)).map _) hc.tids)
      exact ih kept1 _ h1
    · exact ⟨kept, hc⟩

theorem ledgerPending_updateTradesHistory (env : Env) (hday : FullDays env)
    (S : String) (v amount : Int)
    (base : State) (h : LedgerPending env.timestampSec S v base) (hpos : 0 < amount)
    (type : Side) (buyer seller : String) (quantity price : Int) :
    LedgerPending env.timestampSec S (v + amount)
      (updateTradesHistory env type buyer seller S quantity price amount base) := by
  obtain ⟨kept, appended, hc, hsum, _⟩ := h
  obtain ⟨kept1, hc1⟩ := ledgerCore_purgeTrades env rfl (base.tradesHistory.length + 1)
    kept base hc
  have hfresh := (purgeTrades_spec env S (base.tradesHistory.length + 1) base hc.tids
    (Nat.lt_succ_of_le (List.length_filter_le _ _))).1
  unfold updateTradesHistory
  simp only
  generalize purgeTrades env S (base.tradesHistory.length + 1) base = s1 at hc1 hfresh ⊢
  generalize hnt : ({
    id := s1.nextId, type := type, buyer := buyer, seller := seller,
    symbol := S, quantity := quantity, price := price, timestamp := env.timestampSec,
    volume := amount } : Trade) = newTrade
  generalize hs2 : ({ s1 with
    tradesHistory := s1.tradesHistory ++ [newTrade],
    nextId := s1.nextId + 1 } : State) = s2
  have e1 : s2.metrics = s1.metrics := by rw [← hs2]
  have e2 : s2.nextId = s1.nextId + 1 := by rw [← hs2]
  have e3 : s2.tradesHistory = s1.tradesHistory ++ [newTrade] := by rw [← hs2]
  have n1 : newTrade.id = s1.nextId := by rw [← hnt]
  have n2 : newTrade.symbol = S := by rw [← hnt]
  have n3 : newTrade.timestamp = env.timestampSec := by rw [← hnt]
  have n4 : newTrade.volume = amount := by rw [← hnt]
  obtain ⟨m', he, hid, hms, hv, hx⟩ := updatePriceMetrics_touch env S price s2
  obtain ⟨r1, r2⟩ := ledgerCore_row hc1 s2 e1 S
  have hh : (updatePriceMetrics env S price s2).tradesHistory
      = s1.tradesHistory ++ [newTrade] :=
    (updatePriceMetrics_tradesHistory _ _ _ _).trans e3
  refine ⟨kept1, appended ++ [newTrade], ?_, ?_, ?_⟩
  · refine ledgerCore_update hc1 s2 e1 (by omega) S m' hid hms _
      (by rw [he]) (by rw [he]) kept1 _ ?_ ?_ ?_ ?_ hc1.keptOk ?_ (hv.trans r1)
      (fun t ht hs => hx ▸ r2 t ht hs) (fun _ _ => ⟨rfl, fun t ht _ => ht⟩)
    · rw [hh, hc1.hist, List.append_assoc]
    · rw [hh, List.map_append, List.nodup_append]
      refine ⟨hc1.tids, by simp, ?_⟩
      intro a ha hb
      simp only [List.map_cons, List.map_nil, List.mem_singleton] at hb
      obtain ⟨r, hr, rfl⟩ := List.mem_map.1 ha
      have := hc1.tlt r hr
      omega
    · intro t ht
      rw [hh] at ht
      rcases List.mem_append.1 ht with h | h
      · have := hc1.tlt t h
        omega
      · rw [List.mem_singleton.1 h]
        omega
    · intro t ht
      rw [hh] at ht
      rcases List.mem_append.1 ht with h | h
      · exact Or.inr h
      · rw [List.mem_singleton.1 h]
        exact Or.inl n2
    · intro t ht
      rcases List.mem_append.1 ht with h | h
      · exact hc1.appendedOk t h
      · rw [List.mem_singleton.1 h]
        exact ⟨n2, n3, by omega⟩
  · rw [List.map_append, List.sum_append, hsum]
    simp [n4]
  · intro _ t ht hs
    have hmem : t ∈ s1.tradesHistory := by
      rw [hc1.hist]
      exact List.mem_append_left _ ht
    rw [hfresh] at hmem
    have := (List.mem_filter.1 hmem).2
    unfold oldTrade at this
    simp only [hs, beq_self_eq_true, Bool.true_and, Bool.not_eq_true', decide_eq_false_iff_not,
      not_lt] at this
    have hb : env.dayBehind = DAY := hday.2
    omega

theorem ledgerPending_congr {now : Int} {S : String} {v : Int} {a b : State}
    (hl : SameLedger a b) (h : LedgerPending now S v a) : LedgerPending now S v b := by
  obtain ⟨kept, appended, hc, h2, h3⟩ := h
  exact ⟨kept, appended, ledgerCore_mono hc b hl.1 hl.2.1 (le_of_eq hl.2.2.symm), h2, h3⟩

theorem ledgerPending_step (env : Env) (hday : FullDays env)
    (S : String) (price : Int) (st st' : State)
    (v v' : Int) (hl : LedgerStep env S price st st' v v')
    (h : LedgerPending env.timestampSec S v st) : LedgerPending env.timestampSec S v' st' := by
  rcases hl with ⟨hs, hv⟩ | ⟨type, buyer, seller, quantity, amount, base, hb, hpos, hs, hv⟩
  · rw [hv]
    exact ledgerPending_congr hs h
  · rw [hv]
    exact ledgerPending_congr hs
      (ledgerPending_updateTradesHistory env hday S v amount base (ledgerPending_congr hb h)
        hpos type buyer seller quantity price)

theorem ledgerPending_bid {now : Int} {S : String} {v : Int} {s : State} (sym : String)
    (h : LedgerPending now S v s) : LedgerPending now S v (updateBidMetric sym s) := by
  obtain ⟨kept, appended, hc, h2, h3⟩ := h
  exact ⟨kept, appended, ledgerCore_bid hc sym, h2, h3⟩

theorem ledgerPending_ask {now : Int} {S : String} {v : Int} {s : State} (sym : String)
    (h : LedgerPending now S v s) : LedgerPending now S v (updateAskMetric sym s) := by
  obtain ⟨kept, appended, hc, h2, h3⟩ := h
  exact ⟨kept, appended, ledgerCore_ask hc sym, h2, h3⟩

theorem ledgerPending_removeExpiredOrders (env : Env) (table : Table) (s : State) :
    ∀ (now : Int) (S : String) (v : Int), LedgerPending now S v s →
      LedgerPending now S v (removeExpiredOrders env table s) := by
  refine removeExpiredOrders_rel
    (fun a b => ∀ (now : Int) (S : String) (v : Int), LedgerPending now S v a →
      LedgerPending now S v b)
    (fun _ _ _ _ h => h) (fun _ _ _ h1 h2 now S v h => h2 now S v (h1 now S v h)) env table
    ?_ s
  intro st o now S v h
  cases table with
  | buyBook =>
    exact ledgerPending_ask o.symbol
      (ledgerPending_congr (a := st) ⟨rfl, rfl, rfl⟩ h)
  | sellBook =>
    exact ledgerPending_bid o.symbol
      (ledgerPending_congr (a := st) ⟨rfl, rfl, rfl⟩ h)

theorem ledgerSettled_of_core {now : Int} {S : String} {kept : List Trade} {s : State}
    (hc : LedgerCore now S kept [] s) : LedgerSettled now s := by
  have e : kept = s.tradesHistory := by rw [hc.hist, List.append_nil]
  subst e
  exact
    { hist := (List.append_nil _).symm
      tids := hc.tids
      tlt := hc.tlt
      mids := hc.mids
      mlt := hc.mlt
      msyms := hc.msyms
      rows := hc.rows
      keptOk := hc.keptOk
      appendedOk := fun t ht => absurd ht (List.not_mem_nil t)
      vol := hc.vol
      exp := hc.exp }

theorem ledgerSettled_same {T : Int} {a : State} (h : LedgerSettled T a) (b : State)
    (hh : b.tradesHistory = a.tradesHistory) (hm : b.metrics = a.metrics)
    (hn : a.nextId ≤ b.nextId) : LedgerSettled T b :=
  ledgerSettled_of_core (ledgerCore_mono h b hh hm hn)

theorem ledgerSettled_mono {T T' : Int} {s : State} (h : LedgerSettled T s) (hT : T ≤ T') :
    LedgerSettled T' s :=
  { hist := h.hist
    tids := h.tids
    tlt := h.tlt
    mids := h.mids
    mlt := h.mlt
    msyms := h.msyms
    rows := h.rows
    keptOk := fun t ht => ⟨(h.keptOk t ht).1, le_trans (h.keptOk t ht).2 hT⟩
    appendedOk := fun t ht => absurd ht (List.not_mem_nil t)
    vol := h.vol
    exp := h.exp }

theorem ledgerPending_of_settled {T now : Int} {s : State} (h : LedgerSettled T s)
    (hT : T ≤ now) (S : String) : LedgerPending now S 0 s :=
  ⟨s.tradesHistory, [],
    { hist := h.hist
      tids := h.tids
      tlt := h.tlt
      mids := h.mids
      mlt := h.mlt
      msyms := h.msyms
      rows := h.rows
      keptOk := fun t ht => ⟨(h.keptOk t ht).1, le_trans (h.keptOk t ht).2 hT⟩
      appendedOk := fun t ht => absurd ht (List.not_mem_nil t)
      vol := h.vol
      exp := h.exp }, rfl, fun hne => absurd rfl hne⟩

theorem ledgerSettled_empty (T : Int) : LedgerSettled T State.empty :=
  { hist := rfl
    tids := List.nodup_nil
    tlt := fun t ht => absurd ht (List.not_mem_nil t)
    mids := List.nodup_nil
    mlt := fun t ht => absurd ht (List.not_mem_nil t)
    msyms := List.nodup_nil
    rows := fun t ht => absurd ht (List.not_mem_nil t)
    keptOk := fun t ht => absurd ht (List.not_mem_nil t)
    appendedOk := fun t ht => absurd ht (List.not_mem_nil t)
    vol := fun t ht => absurd ht (List.not_mem_nil t)
    exp := fun t ht => absurd ht (List.not_mem_nil t) }

theorem ledgerPending_finish (env : Env) (hday : FullDays env)
    (S : String) (v : Int) (s : State)
    (h : LedgerPending env.timestampSec S v s) :
    LedgerSettled env.timestampSec (finishMetrics env S v s) := by
  obtain ⟨kept, appended, hc, hsum, hold⟩ := h
  have hdp := day_pos
  have hda : env.dayAhead = DAY := hday.1
  have hk : ∀ t ∈ kept ++ appended, 0 ≤ t.volume ∧ t.timestamp ≤ env.timestampSec := by
    intro t ht
    rcases List.mem_append.1 ht with h | h
    · exact hc.keptOk t h
    · obtain ⟨_, h2, h3⟩ := hc.appendedOk t h
      exact ⟨le_of_lt h3, le_of_eq h2⟩
  have hA : LedgerCore env.timestampSec S (kept ++ appended) []
      (if v > 0 then updateVolumeMetric env S v true s else s) := by
    by_cases hv : v > 0
    · rw [if_pos hv]
      have hne : appended ≠ [] := by
        intro h0
        rw [h0] at hsum
        simp only [List.map_nil, List.sum_nil] at hsum
        omega
      obtain ⟨m', he, hid, hms, hvol, hx⟩ := updateVolumeMetric_touch env S v true s
      obtain ⟨r1, r2⟩ := ledgerCore_row hc s rfl S
      have hall : symbolVolume S appended = v :=
        (symbolVolume_all S appended (fun t ht => (hc.appendedOk t ht).1)).trans hsum
      have hth : (updateVolumeMetric env S v true s).tradesHistory = s.tradesHistory :=
        updateVolumeMetric_tradesHistory env S v true s
      have hnn := symbolVolume_nonneg S kept (fun t ht => (hc.keptOk t ht).1)
      refine ledgerCore_update hc s rfl (le_refl _) S m' hid hms _ (by rw [he]) (by rw [he])
        (kept ++ appended) [] ?_ ?_ ?_ ?_ hk (fun t ht => absurd ht (List.not_mem_nil t))
        ?_ ?_ ?_
      · rw [hth, hc.hist, List.append_nil]
      · rw [hth]
        exact hc.tids
      · intro t ht
        exact hc.tlt t (hth ▸ ht)
      · intro t ht
        exact Or.inr (hth ▸ ht)
      · rw [hvol, symbolVolume_append, hall]
        simp only [if_true]
        by_cases hexp : (getMetric s S).2.volumeExpiration < env.timestampSec
        · rw [if_pos hexp]
          have hz : symbolVolume S kept = 0 := by
            apply symbolVolume_eq_zero
            intro t ht hs
            have a := r2 t ht hs
            have b := hold hne t ht hs
            omega
          rw [hz]
          exact max_eq_right (by omega)
        · rw [if_neg hexp, r1]
          exact max_eq_right (by omega)
      · intro t ht _
        rw [hx]
        simp only [if_true]
        have := (hk t ht).2
        omega
      · intro sym' hne'
        have hz : symbolVolume sym' appended = 0 :=
          symbolVolume_eq_zero sym' appended
            (fun t ht h => hne' (h.symm.trans (hc.appendedOk t ht).1))
        constructor
        · rw [symbolVolume_append, hz, add_zero]
        · intro t ht hs
          rcases List.mem_append.1 ht with h | h
          · exact h
          · exact absurd (hs.symm.trans (hc.appendedOk t h).1) hne'
    · rw [if_neg hv]
      have hnil : appended = [] := by
        by_contra hne
        have := sum_volume_pos appended (fun t ht => (hc.appendedOk t ht).2.2) hne
        omega
      subst hnil
      rw [List.append_nil]
      exact hc
  unfold finishMetrics
  simp only
  exact ledgerSettled_of_core (ledgerCore_bid (ledgerCore_ask hA S) S)

theorem findMatchingSellOrders_settled (env : Env) (hday : FullDays env)
    (order : Order) (prec : Nat) (s : State)
    (h : LedgerPending env.timestampSec order.symbol 0 s) :
    LedgerSettled env.timestampSec (findMatchingSellOrders env order prec s) := by
  have hloop : (fun m : Taker => m.order.symbol = order.symbol ∧
      LedgerPending env.timestampSec order.symbol m.volumeTraded m.st)
      (findMatchingSellOrdersLoop env order prec s) := by
    refine findMatchingSellOrdersLoop_inv env order prec s
      (fun m : Taker => m.order.symbol = order.symbol ∧
        LedgerPending env.timestampSec order.symbol m.volumeTraded m.st) ?_
      ⟨rfl, ledgerPending_removeExpiredOrders env Table.sellBook s _ _ _ h⟩
    intro m o _ hi
    refine ⟨(matchSellOrder_order env prec m o).2.2.2.2.1.trans hi.1, ?_⟩
    have hl := matchSellOrder_ledger env prec m o
    rw [hi.1] at hl
    exact ledgerPending_step env hday order.symbol o.price _ _ _ _ hl hi.2
  unfold findMatchingSellOrders
  simp only
  generalize findMatchingSellOrdersLoop env order prec s = m at hloop ⊢
  apply ledgerPending_finish env hday
  split
  · exact ledgerPending_congr (sl_updateOrder _ _ (sameLedger_refl _)) hloop.2
  · exact hloop.2

theorem findMatchingBuyOrders_settled (env : Env) (hday : FullDays env)
    (order : Order) (prec : Nat) (s : State)
    (h : LedgerPending env.timestampSec order.symbol 0 s) :
    LedgerSettled env.timestampSec (findMatchingBuyOrders env order prec s) := by
  have hloop : (fun m : Taker => m.order.symbol = order.symbol ∧
      LedgerPending env.timestampSec order.symbol m.volumeTraded m.st)
      (findMatchingBuyOrdersLoop env order prec s) := by
    refine findMatchingBuyOrdersLoop_inv env order prec s
      (fun m : Taker => m.order.symbol = order.symbol ∧
        LedgerPending env.timestampSec order.symbol m.volumeTraded m.st) ?_
      ⟨rfl, ledgerPending_removeExpiredOrders env Table.buyBook s _ _ _ h⟩
    intro m o _ hi
    refine ⟨(matchBuyOrder_order env prec m o).2.2.2.2.1.trans hi.1, ?_⟩
    have hl := matchBuyOrder_ledger env prec m o
    rw [hi.1] at hl
    exact ledgerPending_step env hday order.symbol o.price _ _ _ _ hl hi.2
  unfold findMatchingBuyOrders
  simp only
  generalize findMatchingBuyOrdersLoop env order prec s = m at hloop ⊢
  apply ledgerPending_finish env hday
  split
  · exact ledgerPending_congr (sl_updateOrder _ _ (sameLedger_refl _)) hloop.2
  · exact hloop.2

theorem ledgerSettled_insertOrder {T : Int} {s : State} (h : LedgerSettled T s) (env : Env)
    (sym : String) (q : Int) (t : Table) (o : Order) :
    LedgerSettled T (insertOrder (requestEscrow env s sym q) t o).1 := by
  cases t with
  | buyBook =>
    exact ledgerSettled_same h (insertOrder (requestEscrow env s sym q) Table.buyBook o).1
      rfl rfl (Nat.le_succ _)
  | sellBook =>
    exact ledgerSettled_same h (insertOrder (requestEscrow env s sym q) Table.sellBook o).1
      rfl rfl (Nat.le_succ _)

theorem ledgerSettled_requestEscrow {T : Int} {s : State} (h : LedgerSettled T s) (env : Env)
    (sym : String) (q : Int) : LedgerSettled T (requestEscrow env s sym q) :=
  ledgerSettled_same h (requestEscrow env s sym q) rfl rfl (le_refl _)

theorem buy_settled (env : Env) (hday : FullDays env)
    (payload : OrderPayload) (s : State) (T : Int)
    (h : LedgerSettled T s) (hT : T ≤ env.timestampSec) :
    LedgerSettled env.timestampSec (buy env payload s) := by
  have ho := validateOrder_onlyAsserts env payload s
  unfold buy
  cases hv : validateOrder env payload s with
  | mk s1 ov =>
    rw [hv] at ho
    cases ov with
    | none =>
      obtain ⟨msgs, rfl⟩ := ho
      exact ledgerSettled_mono (ledgerSettled_same h _ rfl rfl (le_refl _)) hT
    | some v =>
      obtain ⟨hs1, _⟩ := validateOrder_some hv
      subst hs1
      simp only
      split
      · apply findMatchingSellOrders_settled env hday
        exact ledgerPending_of_settled (ledgerSettled_insertOrder h env _ _ _ _) hT _
      · exact ledgerSettled_mono (ledgerSettled_requestEscrow h env _ _) hT

theorem sell_settled (env : Env) (hday : FullDays env)
    (payload : OrderPayload) (s : State) (T : Int)
    (h : LedgerSettled T s) (hT : T ≤ env.timestampSec) :
    LedgerSettled env.timestampSec (sell env payload s) := by
  have ho := validateOrder_onlyAsserts env payload s
  unfold sell
  cases hv : validateOrder env payload s with
  | mk s1 ov =>
    rw [hv] at ho
    cases ov with
    | none =>
      obtain ⟨msgs, rfl⟩ := ho
      exact ledgerSettled_mono (ledgerSettled_same h _ rfl rfl (le_refl _)) hT
    | some v =>
      obtain ⟨hs1, _⟩ := validateOrder_some hv
      subst hs1
      simp only
      split
      · apply findMatchingBuyOrders_settled env hday
        exact ledgerPending_of_settled (ledgerSettled_insertOrder h env _ _ _ _) hT _
      · exact ledgerSettled_mono (ledgerSettled_requestEscrow h env _ _) hT

theorem marketBuy_settled (env : Env) (hday : FullDays env)
    (payload : MarketPayload) (s : State) (T : Int)
    (h : LedgerSettled T s) (hT : T ≤ env.timestampSec) :
    LedgerSettled env.timestampSec (marketBuy env payload s) := by
  have ho := validateMarket_onlyAsserts env payload (fun _ => STEEM_PEGGED_SYMBOL_PRESICION) s
  unfold marketBuy
  cases hv : validateMarket env payload (fun _ => STEEM_PEGGED_SYMBOL_PRESICION) s with
  | mk s1 ov =>
    rw [hv] at ho
    cases ov with
    | none =>
      obtain ⟨msgs, rfl⟩ := ho
      exact ledgerSettled_mono (ledgerSettled_same h _ rfl rfl (le_refl _)) hT
    | some v =>
      obtain ⟨hs1, _⟩ := validateMarket_some hv
      subst hs1
      simp only
      split
      · have h0 : LedgerPending env.timestampSec v.symbol 0
            (requestEscrow env s1 STEEM_PEGGED_SYMBOL
              (v.quantity.toFixed STEEM_PEGGED_SYMBOL_PRESICION)) :=
          ledgerPending_of_settled (ledgerSettled_requestEscrow h env _ _) hT _
        have hl : LedgerPending env.timestampSec v.symbol
            (marketBuyLoop env v.symbol v.precision
              (v.quantity.toFixed STEEM_PEGGED_SYMBOL_PRESICION)
              (requestEscrow env s1 STEEM_PEGGED_SYMBOL
                (v.quantity.toFixed STEEM_PEGGED_SYMBOL_PRESICION))).volumeTraded
            (marketBuyLoop env v.symbol v.precision
              (v.quantity.toFixed STEEM_PEGGED_SYMBOL_PRESICION)
              (requestEscrow env s1 STEEM_PEGGED_SYMBOL
                (v.quantity.toFixed STEEM_PEGGED_SYMBOL_PRESICION))).st :=
          marketBuyLoop_inv env v.symbol v.precision
            (v.quantity.toFixed STEEM_PEGGED_SYMBOL_PRESICION)
            (requestEscrow env s1 STEEM_PEGGED_SYMBOL
              (v.quantity.toFixed STEEM_PEGGED_SYMBOL_PRESICION))
            (fun m : Sweep => LedgerPending env.timestampSec v.symbol m.volumeTraded m.st)
            (fun m o _ hi => ledgerPending_step env hday v.symbol o.price _ _ _ _
              (marketBuyOrder_ledger env v.symbol v.precision m o) hi)
            (ledgerPending_removeExpiredOrders env Table.sellBook _ _ _ _ h0)
        generalize marketBuyLoop env _ _ _ _ = m at hl ⊢
        apply ledgerPending_finish env hday
        split
        · exact ledgerPending_congr (sl_transfer _ _ _ (sameLedger_refl _)) hl
        · exact hl
      · exact ledgerSettled_mono (ledgerSettled_requestEscrow h env _ _) hT

theorem marketSell_settled (env : Env) (hday : FullDays env)
    (payload : MarketPayload) (s : State) (T : Int)
    (h : LedgerSettled T s) (hT : T ≤ env.timestampSec) :
    LedgerSettled env.timestampSec (marketSell env payload s) := by
  have ho := validateMarket_onlyAsserts env payload (fun precision => precision) s
  unfold marketSell
  cases hv : validateMarket env payload (fun precision => precision) s with
  | mk s1 ov =>
    rw [hv] at ho
    cases ov with
    | none =>
      obtain ⟨msgs, rfl⟩ := ho
      exact ledgerSettled_mono (ledgerSettled_same h _ rfl rfl (le_refl _)) hT
    | some v =>
      obtain ⟨hs1, _⟩ := validateMarket_some hv
      subst hs1
      simp only
      split
      · have h0 : LedgerPending env.timestampSec v.symbol 0
            (requestEscrow env s1 v.symbol (v.quantity.toFixed v.precision)) :=
          ledgerPending_of_settled (ledgerSettled_requestEscrow h env _ _) hT _
        have hl : LedgerPending env.timestampSec v.symbol
            (marketSellLoop env v.symbol v.precision (v.quantity.toFixed v.precision)
              (requestEscrow env s1 v.symbol
                (v.quantity.toFixed v.precision))).volumeTraded
            (marketSellLoop env v.symbol v.precision (v.quantity.toFixed v.precision)
              (requestEscrow env s1 v.symbol (v.quantity.toFixed v.precision))).st :=
          marketSellLoop_inv env v.symbol v.precision (v.quantity.toFixed v.precision)
            (requestEscrow env s1 v.symbol (v.quantity.toFixed v.precision))
            (fun m : Sweep => LedgerPending env.timestampSec v.symbol m.volumeTraded m.st)
            (fun m o _ hi => ledgerPending_step env hday v.symbol o.price _ _ _ _
              (marketSellOrder_ledger env v.symbol v.precision m o) hi)
            (ledgerPending_removeExpiredOrders env Table.buyBook _ _ _ _ h0)
        generalize marketSellLoop env _ _ _ _ = m at hl ⊢
        apply ledgerPending_finish env hday
        split
        · exact ledgerPending_congr (sl_transfer _ _ _ (sameLedger_refl _)) hl
        · exact hl
      · exact ledgerSettled_mono (ledgerSettled_requestEscrow h env _ _) hT

theorem cancel_settled (env : Env) (payload : CancelPayload) (s : State) (T : Int)
    (h : LedgerSettled T s) (hT : T ≤ env.timestampSec) :
    LedgerSettled env.timestampSec (cancel env payload s) := by
  apply ledgerSettled_mono _ hT
  rcases cancel_cases env payload s with ⟨id, o, hs, ht, hpid, hid, hlen, hf, hown⟩ | ⟨msgs, hm⟩
  · obtain ⟨type, pid, signed⟩ := payload
    simp only at hs ht hpid hf
    subst hs hpid
    rcases ht with rfl | rfl
    · rw [cancelTable_buy] at hf
      have e := cancel_buy_done env id s o hid hlen hf hown
      unfold cancelPayload at e
      rw [e]
      exact ledgerSettled_of_core (ledgerCore_bid
        (ledgerCore_mono h (removeOrder (transferTokens s env.sender STEEM_PEGGED_SYMBOL
          o.tokensLocked) Table.buyBook o) rfl rfl (le_refl _)) o.symbol)
    · rw [cancelTable_sell] at hf
      have e := cancel_sell_done env id s o hid hlen hf hown
      unfold cancelPayload at e
      rw [e]
      exact ledgerSettled_of_core (ledgerCore_ask
        (ledgerCore_mono h (removeOrder (transferTokens s env.sender o.symbol o.quantity)
          Table.sellBook o) rfl rfl (le_refl _)) o.symbol)
  · rw [hm]
    exact ledgerSettled_same h _ rfl rfl (le_refl _)

theorem step_settled (env : Env) (hday : FullDays env)
    (a : Action) (s : State) (T : Int)
    (h : LedgerSettled T s) (hT : T ≤ env.timestampSec) :
    LedgerSettled env.timestampSec (step env a s) := by
  cases a with
  | buy p => exact buy_settled env hday p s T h hT
  | sell p => exact sell_settled env hday p s T h hT
  | marketBuy p => exact marketBuy_settled env hday p s T h hT
  | marketSell p => exact marketSell_settled env hday p s T h hT
  | cancel p => exact cancel_settled env p s T h hT

theorem run_settled :
    ∀ (txs : List (Env × Action)) (T : Int) (s : State), LedgerSettled T s →
      (∀ tx ∈ txs, T ≤ tx.1.timestampSec) → Chronological txs →
      (∀ tx ∈ txs, FullDays tx.1) →
      ∃ T', LedgerSettled T' (run txs s) := by
  intro txs
  induction txs with
  | nil => intro T s h _ _ _; exact ⟨T, h⟩
  | cons tx rest ih =>
    intro T s h hT hc hd
    obtain ⟨env, a⟩ := tx
    unfold run
    unfold Chronological at hc
    rw [List.pairwise_cons] at hc
    exact ih env.timestampSec _
      (step_settled env (hd (env, a) (List.mem_cons_self _ _)) a s T h
        (hT (env, a) (List.mem_cons_self _ _)))
      (fun t ht => hc.1 t ht) hc.2 (fun t ht => hd t (List.mem_cons_of_mem _ ht))

theorem run_settled_empty (txs : List (Env × Action)) (hc : Chronological txs)
    (hd : ∀ tx ∈ txs, FullDays tx.1) :
    ∃ T, LedgerSettled T (run txs State.empty) := by
  cases txs with
  | nil => exact ⟨0, ledgerSettled_empty 0⟩
  | cons tx rest =>
    refine run_settled (tx :: rest) tx.1.timestampSec State.empty (ledgerSettled_empty _) ?_ hc
      hd
    intro t ht
    rcases List.mem_cons.1 ht with h | h
    · rw [h]
    · exact (List.pairwise_cons.1 hc).1 t h

/-- On hosts whose calendar days last 24 hours (as in UTC), the cached volume agrees with
the trade ledger: for every sequence of actions whose block times never decrease, run
from the empty tables, and after each of its actions, every metric row holds in `volume`
the sum of the `volume` fields of the rows of its symbol stored in `tradesHistory`. -/
theorem volume_agrees_on_full_days (txs : List (Env × Action))
    (h : Chronological txs) (hd : ∀ tx ∈ txs, FullDays tx.1) (n : Nat) :
    ∀ m ∈ (run (txs.take n) State.empty).metrics,
      m.volume = symbolVolume m.symbol (run (txs.take n) State.empty).tradesHistory := by
  obtain ⟨T, hs⟩ := run_settled_empty (txs.take n)
    (List.Pairwise.sublist (List.take_sublist n txs) h)
    (fun tx ht => hd tx (List.mem_of_mem_take ht))
  exact hs.vol

/-- C35 (the cached volume and the trade ledger).  On hosts whose calendar days last 24
hours the claim holds: for every sequence of actions whose block times never decrease,
run from the empty tables, after each action every metric row holds in `volume` the sum
of the `volume` fields of the rows of its symbol in `tradesHistory`.  On a host in the
time zone Europe/Paris it fails: after a trade of `ABC` of volume `4.0` at
2019-10-26T00:30:00Z and a second one 25 hours later, when the calendar day back lasts 25
hours, `tradesHistory` holds both trades (`8.0`) and the metric row holds `4.0`. -/
theorem volume_metric_disagrees_after_a_long_day :
    (∀ txs : List (Env × Action), Chronological txs → (∀ tx ∈ txs, FullDays tx.1) →
      ∀ n, ∀ m ∈ (run (txs.take n) State.empty).metrics,
        m.volume = symbolVolume m.symbol (run (txs.take n) State.empty).tradesHistory) ∧
    Chronological parisAutumn ∧
    (run parisAutumn State.empty).tradesHistory.map
      (fun t => (t.symbol, t.timestamp, t.volume))
      = [("ABC", 1572049800, 400000000), ("ABC", 1572139800, 400000000)] ∧
    (run parisAutumn State.empty).metrics.map (fun m => (m.symbol, m.volume))
      = [("ABC", 400000000)] ∧
    symbolVolume "ABC" (run parisAutumn State.empty).tradesHistory = 800000000 ∧
    ∃ m ∈ (run parisAutumn State.empty).metrics,
      m.volume ≠ symbolVolume m.symbol (run parisAutumn State.empty).tradesHistory := by
  refine ⟨fun txs h hd n => volume_agrees_on_full_days txs h hd n,
    by unfold Chronological; decide, by decide!, by decide!, by decide!, ?_⟩
  decide!

theorem find_null_iff {α : Type} (db : Database.Db α) (p : Database.FindPayload α) :
    Database.find db p = Database.Result.null ↔
      (¬ p.valid ∨ ∃ v, Database.checked p = some v ∧
        (Database.findContract db v.contract = none ∨
          ∃ c, Database.findContract db v.contract = some c ∧
            v.contract ++ "_" ++ v.table ∉ c.tables)) := by
  rw [valid_iff_checked]
  unfold Database.find
  cases hc : Database.checked p with
  | none => simp
  | some v =>
    cases hf : Database.findContract db v.contract with
    | none => simp [hf]
    | some c =>
      by_cases hin : v.contract ++ "_" ++ v.table ∈ c.tables
      · cases hg : Database.getCollection db (v.contract ++ "_" ++ v.table) with
        | none => simp [hf, hin, hg]
        | some t =>
          simp only [hf, hin, hg, if_true]
          split <;> simp [hf, hin]
      · simp [hf, hin]

theorem find_typeError_iff {α : Type} (db : Database.Db α) (p : Database.FindPayload α) :
    Database.find db p = Database.Result.typeError ↔
      ∃ v c, Database.checked p = some v ∧ Database.findContract db v.contract = some c ∧
        v.contract ++ "_" ++ v.table ∈ c.tables ∧
        Database.getCollection db (v.contract ++ "_" ++ v.table) = none := by
  unfold Database.find
  cases hc : Database.checked p with
  | none => simp
  | some v =>
    cases hf : Database.findContract db v.contract with
    | none => simp [hf]
    | some c =>
      by_cases hin : v.contract ++ "_" ++ v.table ∈ c.tables
      · cases hg : Database.getCollection db (v.contract ++ "_" ++ v.table) with
        | none => simp [hf, hin, hg]
        | some t =>
          simp only [hf, hin, hg, if_true]
          split <;> simp [hf, hin, hg]
      · simp [hf, hin]

theorem largePriceTrades_tokens : ∀ tx ∈ largePriceTrades, tx.1.tokens = exampleTokens := by
  intro tx h
  simp only [largePriceTrades, List.mem_cons, List.mem_singleton, List.not_mem_nil,
    or_false] at h
  rcases h with rfl | rfl | rfl | rfl <;> rfl

/-- C31 (counterexample).  `0.1 ABC` trades at `100000000.00000001` and, two seconds
later, at `100005000.00000001`.  The change is `5000` peg tokens, `0.00499999...%` of the
price of the day, which is `0.00%` to 2 decimals; the contract keeps the quotient at 20
decimals, `0.00005000000000000000`, and stores `0.01%`. -/
theorem percent_is_rounded_twice :
    Reachable exampleTokens (run largePriceTrades State.empty) ∧
    (run largePriceTrades State.empty).metrics.map
        (fun m => (m.symbol, m.lastPrice, m.lastDayPrice, m.priceChangeSteem,
          m.priceChangePercent))
      = [("ABC", 10000500000000001, 10000000000000001, 500000000000, some 1)] ∧
    divRound 500000000000 10000000000000001 20 = 5000000000000000 ∧
    divRound (500000000000 * 100) 10000000000000001 2 = 0 ∧
    (2 * (500000000000 * 100 * 100) < (10000000000000001 : Int)) := by
  refine ⟨⟨largePriceTrades, largePriceTrades_tokens, rfl⟩, ?_, ?_, ?_, ?_⟩ <;> decide!

/-- C32 (find returns an array, or null).  The JSDoc of `actions.find` promises an array
of objects if records are found and an empty array otherwise.  On a database that holds
the contract `market` with its table `buyBook`: a well-formed query on the table
`balances` of the contract `tokens`, which the database does not know, is answered with
`null`, not with an empty array; so is a query on a table that `market` does not list,
and a query whose limit is `1001`.  The query on all rows of `buyBook` is answered with
its three rows, and a query that matches none of them with the empty array.  In general
`find` answers `null` exactly when the payload fails the test on its fields, the contract
is unknown, or the contract does not list the table. -/
theorem find_returns_null_for_unknown_contract :
    Database.find Database.sample (Database.allRows "tokens" "balances")
      = Database.Result.null ∧
    (∀ l, Database.find Database.sample (Database.allRows "tokens" "balances")
      ≠ Database.Result.rows l) ∧
    Database.find Database.sample (Database.allRows "market" "sellBook")
      = Database.Result.null ∧
    Database.find Database.sample
      { Database.allRows "market" "buyBook" with limit := JsValue.int 1001 }
      = Database.Result.null ∧
    Database.find Database.sample (Database.allRows "market" "buyBook")
      = Database.Result.rows [5, 8, 13] ∧
    Database.find Database.sample
      { Database.allRows "market" "buyBook" with query := some (fun _ => false) }
      = Database.Result.rows [] ∧
    (∀ (α : Type) (db : Database.Db α) (p : Database.FindPayload α),
      Database.find db p = Database.Result.null ↔
        (¬ p.valid ∨ ∃ v, Database.checked p = some v ∧
          (Database.findContract db v.contract = none ∨
            ∃ c, Database.findContract db v.contract = some c ∧
              v.contract ++ "_" ++ v.table ∉ c.tables))) := by
  refine ⟨rfl, ?_, rfl, rfl, rfl, rfl, fun α db p => find_null_iff db p⟩
  intro l h
  have h0 : Database.find Database.sample (Database.allRows "tokens" "balances")
      = Database.Result.null := rfl
  rw [h0] at h
  cases h

theorem roundDown_mul_pow (c : Int) (d : Nat) : roundDown (c * 10 ^ d) d = c := by
  unfold roundDown
  exact Int.mul_tdiv_cancel c (ne_of_gt (ten_pow_pos d))

theorem cappedAmount_exact (prec : Nat) (price q avail : Int)
    (h : (10 : Int) ^ prec ∣ price) :
    cappedAmount prec price q avail * 10 ^ prec = price * q := by
  obtain ⟨c, rfl⟩ := h
  have e : 10 ^ prec * c * q = (c * q) * 10 ^ prec := by ring
  unfold cappedAmount
  simp only [e, roundHalfUp_mul_pow, roundDown_mul_pow, ite_self]

theorem settleRestingBuy_covered (prec : Nat) (st : State) (b : Order) (filled amt : Int)
    (hb : b.price * b.quantity ≤ b.tokensLocked * 10 ^ prec)
    (hamt : amt * 10 ^ prec = b.price * filled) :
    ∀ r ∈ (settleRestingBuy prec st b filled amt).buyBook,
      r ∈ st.buyBook ∨
      (SameOrder r b ∧ r.price * r.quantity ≤ r.tokensLocked * 10 ^ prec) := by
  intro r hr
  unfold settleRestingBuy at hr
  simp only at hr
  split at hr
  · rename_i h
    simp only [updateOrder, State.setBook, State.book, List.mem_map] at hr
    obtain ⟨a, ha, rfl⟩ := hr
    split
    · refine Or.inr ⟨sameOrder_refl _, ?_⟩
      show b.price * (b.quantity - filled) ≤ (b.tokensLocked - amt) * 10 ^ prec
      have e1 : b.price * (b.quantity - filled) = b.price * b.quantity - b.price * filled := by
        ring
      have e2 : (b.tokensLocked - amt) * 10 ^ prec
          = b.tokensLocked * 10 ^ prec - amt * 10 ^ prec := by ring
      rw [e1, e2, hamt]
      omega
    · exact Or.inl ha
  · left
    rw [removeOrder_buyBook_buy] at hr
    have := (List.mem_filter.1 hr).1
    split at this <;> exact this

theorem sellFilledWhole_covered (env : Env) (prec : Nat) (m : Taker) (o : Order)
    (hd : (10 : Int) ^ prec ∣ o.price)
    (hb : o.price * o.quantity ≤ o.tokensLocked * 10 ^ prec) :
    ∀ r ∈ (sellFilledWhole env prec m o).st.buyBook,
      r ∈ m.st.buyBook ∨
      (SameOrder r o ∧ r.price * r.quantity ≤ r.tokensLocked * 10 ^ prec) := by
  unfold sellFilledWhole
  simp only
  split
  · intro r hr
    rw [removeOrder_buyBook_sell, recordFill_buyBook, updateTradesHistory_buyBook] at hr
    rcases settleRestingBuy_covered prec _ o _ _ hb
      (cappedAmount_exact prec o.price m.order.quantity o.tokensLocked hd) r hr with h | h
    · exact Or.inl (by
        simpa only [transferTokens_buyBook, removeOrder_buyBook_sell, apiAssert_buyBook]
          using h)
    · exact Or.inr h
  · exact fun r hr => Or.inl (by rwa [apiAssert_buyBook] at hr)

theorem matchBuyOrder_covered (env : Env) (prec : Nat) (m : Taker) (o : Order)
    (hd : (10 : Int) ^ prec ∣ o.price)
    (hb : o.price * o.quantity ≤ o.tokensLocked * 10 ^ prec) :
    ∀ r ∈ (matchBuyOrder env prec m o).st.buyBook,
      r ∈ m.st.buyBook ∨
      (SameOrder r o ∧ r.price * r.quantity ≤ r.tokensLocked * 10 ^ prec) := by
  unfold matchBuyOrder
  split
  · exact sellFilledWhole_covered env prec m o hd hb
  · exact fun r hr => Or.inl ((buyOrderConsumed_rows env prec m o).1 r hr)

theorem marketSellOrder_covered (env : Env) (sym : String) (prec : Nat) (m : Sweep)
    (o : Order) (hd : (10 : Int) ^ prec ∣ o.price)
    (hb : o.price * o.quantity ≤ o.tokensLocked * 10 ^ prec) :
    ∀ r ∈ (marketSellOrder env sym prec m o).st.buyBook,
      r ∈ m.st.buyBook ∨
      (SameOrder r o ∧ r.price * r.quantity ≤ r.tokensLocked * 10 ^ prec) := by
  unfold marketSellOrder
  split
  · unfold marketSellAll
    simp only
    split
    · intro r hr
      simp only [recordFill_buyBook, updateTradesHistory_buyBook] at hr
      rcases settleRestingBuy_covered prec _ o _ _ hb
        (cappedAmount_exact prec o.price m.remaining o.tokensLocked hd) r hr with h | h
      · left
        simpa [transferTokens] using h
      · exact Or.inr h
    · exact fun r hr => Or.inl (by simpa using hr)
  · unfold marketSellWhole
    simp only
    split
    · intro r hr
      left
      simp only [recordFill_buyBook, updateTradesHistory_buyBook, consumeBuyOrder_buyBook,
        apiAssert_buyBook] at hr
      exact (List.mem_filter.1 hr).1
    · exact fun r hr => Or.inl (by simpa using hr)

theorem matchSellOrder_taker_covered (env : Env) (prec : Nat) (m : Taker) (o : Order)
    (hd : (10 : Int) ^ prec ∣ o.price) (hq : 0 < o.quantity) (hp : o.price ≤ m.order.price)
    (h : m.order.quantity > 0 →
      m.order.price * m.order.quantity ≤ m.order.tokensLocked * 10 ^ prec) :
    (matchSellOrder env prec m o).order.quantity > 0 →
      (matchSellOrder env prec m o).order.price * (matchSellOrder env prec m o).order.quantity
        ≤ (matchSellOrder env prec m o).order.tokensLocked * 10 ^ prec := by
  unfold matchSellOrder
  split
  · unfold buyFilledWhole
    simp only
    split
    · intro hq'
      simp at hq'
    · exact h
  · rename_i hgt
    unfold sellOrderConsumed
    simp only
    split
    · by_cases hdust : roundHalfUp (m.order.price * (m.order.quantity - o.quantity)) prec < DUST
      · simp only [hdust, decide_True, if_true]
        intro hq'
        simp at hq'
      · simp only [hdust, decide_False, Bool.false_eq_true, if_false]
        intro _
        have hpos : m.order.quantity > 0 := by omega
        have h0 := h hpos
        have hexact := cappedAmount_exact prec o.price o.quantity m.order.tokensLocked hd
        have e1 : m.order.price * (m.order.quantity - o.quantity)
            = m.order.price * m.order.quantity - m.order.price * o.quantity := by ring
        have e2 : (m.order.tokensLocked
              - cappedAmount prec o.price o.quantity m.order.tokensLocked) * 10 ^ prec
            = m.order.tokensLocked * 10 ^ prec
              - cappedAmount prec o.price o.quantity m.order.tokensLocked * 10 ^ prec := by
          ring
        rw [e1, e2, hexact]
        have h3 : o.price * o.quantity ≤ m.order.price * o.quantity :=
          mul_le_mul_of_nonneg_right hp (le_of_lt hq)
        omega
    · exact h

theorem exactAsk_of_sameOrder (tokens : String → Option Nat) (r o : Order)
    (hs : SameOrder r o) (ho : ExactAsk tokens o) (hq : 0 < r.quantity) :
    ExactAsk tokens r := by
  obtain ⟨p, h1, h2, _⟩ := ho
  exact ⟨p, by rw [hs.2.2.2.2.1]; exact h1, by rw [hs.2.2.2.2.2.1]; exact h2, hq⟩

theorem covered_of_sameOrder (tokens : String → Option Nat) (prec : Nat) (r o : Order)
    (hs : SameOrder r o) (ht : tokens o.symbol = some prec)
    (hd : (10 : Int) ^ prec ∣ o.price)
    (hc : r.price * r.quantity ≤ r.tokensLocked * 10 ^ prec) : Covered tokens r :=
  ⟨prec, by rw [hs.2.2.2.2.1]; exact ht, by rw [hs.2.2.2.2.2.1]; exact hd, hc⟩

theorem findMatchingSellOrders_covers (tokens : String → Option Nat) (env : Env)
    (order : Order) (prec : Nat) (s : State) (ht : tokens order.symbol = some prec)
    (hd : (10 : Int) ^ prec ∣ order.price)
    (hq : order.quantity > 0 → order.price * order.quantity ≤ order.tokensLocked * 10 ^ prec)
    (h : EscrowCovers tokens s) :
    EscrowCovers tokens (findMatchingSellOrders env order prec s) := by
  have hloop : TakerCovered tokens order.symbol prec order.price
      (findMatchingSellOrdersLoop env order prec s) := by
    unfold findMatchingSellOrdersLoop
    refine pagesLoop_inv_rows _ _ _ (TakerCovered tokens order.symbol prec order.price)
      (fun o => o.symbol = order.symbol ∧ o.price ≤ order.price ∧ ExactAsk tokens o)
      ?_ ?_ _ _ _ _ ?_ ?_
    · intro m o _ ho hi
      obtain ⟨⟨h1, h2⟩, h3, h4, h5⟩ := hi
      obtain ⟨hsym, hle, hex⟩ := ho
      obtain ⟨r1, r2⟩ := matchSellOrder_rows env prec m o
      have hex' := hex
      obtain ⟨p, hp1, hp2, hp3⟩ := hex
      have hpp : p = prec := by
        rw [hsym, ht] at hp1
        exact (Option.some.inj hp1).symm
      subst hpp
      refine ⟨⟨fun r hr => h1 r (r2 r hr), fun r hr => ?_⟩,
        matchSellOrder_taker_covered env p m o hp2 hp3 (h5 ▸ hle) h3,
        (matchSellOrder_order env p m o).2.2.2.2.1.trans h4,
        (matchSellOrder_order env p m o).2.2.2.2.2.1.trans h5⟩
      rcases r1 r hr with h' | h'
      · exact h2 r h'
      · exact exactAsk_of_sameOrder tokens r o h'.1 hex' h'.2.1
    · intro m off hi o ho
      obtain ⟨hmem, hq'⟩ := mem_dbFind _ _ _ _ _ o ho
      unfold crossingSell at hq'
      simp only [Bool.and_eq_true, beq_iff_eq, decide_eq_true_eq] at hq'
      exact ⟨hq'.1, hq'.2, hi.1.2 o hmem⟩
    · intro o ho
      obtain ⟨hmem, hq'⟩ := mem_dbFind _ _ _ _ _ o ho
      unfold crossingSell at hq'
      simp only [Bool.and_eq_true, beq_iff_eq, decide_eq_true_eq] at hq'
      refine ⟨hq'.1, hq'.2, ?_⟩
      have e : (removeExpiredOrders env Table.sellBook s).sellBook
          = sweptBook env s.sellBook := removeExpiredOrders_book env Table.sellBook s
      rw [e] at hmem
      exact h.2 o ((sweptBook_sublist env _).subset hmem)
    · refine ⟨⟨fun r hr => ?_, fun r hr => ?_⟩, hq, rfl, rfl⟩
      · rw [removeExpiredOrders_sellBook_buyBook] at hr
        exact h.1 r hr
      · have e : (removeExpiredOrders env Table.sellBook s).sellBook
            = sweptBook env s.sellBook := removeExpiredOrders_book env Table.sellBook s
        rw [e] at hr
        exact h.2 r ((sweptBook_sublist env _).subset hr)
  unfold findMatchingSellOrders
  generalize findMatchingSellOrdersLoop env order prec s = m at hloop ⊢
  obtain ⟨⟨h1, h2⟩, h3, h4, h5⟩ := hloop
  constructor
  · intro r hr
    simp only [finishMetrics_buyBook] at hr
    split at hr
    · rename_i hpos
      rcases mem_updateOrder_book _ _ _ hr with h' | h'
      · exact h1 r h'
      · rw [h']
        exact ⟨prec, by rw [h4, ht], by rw [h5]; exact hd, h3 hpos⟩
    · exact h1 r hr
  · intro r hr
    simp only [finishMetrics_sellBook] at hr
    split at hr
    · exact h2 r hr
    · exact h2 r hr

theorem findMatchingBuyOrders_covers (tokens : String → Option Nat) (env : Env)
    (order : Order) (prec : Nat) (s : State) (ht : tokens order.symbol = some prec)
    (hd : (10 : Int) ^ prec ∣ order.price) (h : EscrowCovers tokens s) :
    EscrowCovers tokens (findMatchingBuyOrders env order prec s) := by
  have hloop : TakerExact tokens order.symbol order.price
      (findMatchingBuyOrdersLoop env order prec s) := by
    unfold findMatchingBuyOrdersLoop
    refine pagesLoop_inv_rows _ _ _ (TakerExact tokens order.symbol order.price)
      (fun o => o.symbol = order.symbol ∧ Covered tokens o) ?_ ?_ _ _ _ _ ?_ ?_
    · intro m o _ ho hi
      obtain ⟨⟨h1, h2⟩, h4, h5⟩ := hi
      obtain ⟨hsym, hc⟩ := ho
      obtain ⟨_, r2⟩ := matchBuyOrder_rows env prec m o
      obtain ⟨p, hp1, hp2, hp3⟩ := hc
      have hpp : p = prec := by
        rw [hsym, ht] at hp1
        exact (Option.some.inj hp1).symm
      subst hpp
      refine ⟨⟨fun r hr => ?_, fun r hr => h2 r (r2 r hr)⟩,
        (matchBuyOrder_order env p m o).2.2.2.2.1.trans h4,
        (matchBuyOrder_order env p m o).2.2.2.2.2.1.trans h5⟩
      rcases matchBuyOrder_covered env p m o hp2 hp3 r hr with h' | h'
      · exact h1 r h'
      · exact covered_of_sameOrder tokens p r o h'.1 (by rw [hsym]; exact ht) hp2 h'.2
    · intro m off hi o ho
      obtain ⟨hmem, hq'⟩ := mem_dbFind _ _ _ _ _ o ho
      unfold crossingBuy at hq'
      simp only [Bool.and_eq_true, beq_iff_eq, decide_eq_true_eq] at hq'
      exact ⟨hq'.1, hi.1.1 o hmem⟩
    · intro o ho
      obtain ⟨hmem, hq'⟩ := mem_dbFind _ _ _ _ _ o ho
      unfold crossingBuy at hq'
      simp only [Bool.and_eq_true, beq_iff_eq, decide_eq_true_eq] at hq'
      refine ⟨hq'.1, ?_⟩
      have e : (removeExpiredOrders env Table.buyBook s).buyBook
          = sweptBook env s.buyBook := removeExpiredOrders_book env Table.buyBook s
      rw [e] at hmem
      exact h.1 o ((sweptBook_sublist env _).subset hmem)
    · refine ⟨⟨fun r hr => ?_, fun r hr => ?_⟩, rfl, rfl⟩
      · have e : (removeExpiredOrders env Table.buyBook s).buyBook
            = sweptBook env s.buyBook := removeExpiredOrders_book env Table.buyBook s
        rw [e] at hr
        exact h.1 r ((sweptBook_sublist env _).subset hr)
      · rw [removeExpiredOrders_buyBook_sellBook] at hr
        exact h.2 r hr
  unfold findMatchingBuyOrders
  generalize findMatchingBuyOrdersLoop env order prec s = m at hloop ⊢
  obtain ⟨⟨h1, h2⟩, h4, h5⟩ := hloop
  constructor
  · intro r hr
    simp only [finishMetrics_buyBook] at hr
    split at hr
    · exact h1 r hr
    · exact h1 r hr
  · intro r hr
    simp only [finishMetrics_sellBook] at hr
    split at hr
    · rename_i hpos
      rcases mem_updateOrder_book _ _ _ hr with h' | h'
      · exact h2 r h'
      · rw [h']
        exact ⟨prec, by rw [h4, ht], by rw [h5]; exact hd, hpos⟩
    · exact h2 r hr

theorem escrowCovers_of_rows (tokens : String → Option Nat) (s s' : State)
    (h : EscrowCovers tokens s) (hb : ∀ r ∈ s'.buyBook, r ∈ s.buyBook)
    (hs : ∀ r ∈ s'.sellBook, r ∈ s.sellBook) : EscrowCovers tokens s' :=
  ⟨fun r hr => h.1 r (hb r hr), fun r hr => h.2 r (hs r hr)⟩

theorem escrowCovers_of_books (tokens : String → Option Nat) (s s' : State)
    (h : EscrowCovers tokens s) (hb : s'.buyBook = s.buyBook) (hs : s'.sellBook = s.sellBook) :
    EscrowCovers tokens s' :=
  escrowCovers_of_rows tokens s s' h (fun _ hr => hb ▸ hr) (fun _ hr => hs ▸ hr)

theorem escrowCovers_of_onlyAsserts (tokens : String → Option Nat) (s s' : State)
    (h : EscrowCovers tokens s) (ho : OnlyAsserts s s') : EscrowCovers tokens s' := by
  obtain ⟨msgs, rfl⟩ := ho
  exact h

theorem marketBuyLoop_covers (tokens : String → Option Nat) (env : Env) (sym : String)
    (prec : Nat) (X : Int) (s : State) (h : EscrowCovers tokens s) :
    EscrowCovers tokens (marketBuyLoop env sym prec X s).st := by
  unfold marketBuyLoop
  refine pagesLoop_inv_rows _ _ _ (fun m : Sweep => EscrowCovers tokens m.st)
    (fun o => ExactAsk tokens o) ?_ ?_ _ _ _ _ ?_ ?_
  · intro m o _ ho hi
    obtain ⟨r1, r2⟩ := marketBuyOrder_rows env sym prec m o
    refine ⟨fun r hr => hi.1 r (r2 ▸ hr), fun r hr => ?_⟩
    rcases r1 r hr with h' | h'
    · exact hi.2 r h'
    · exact exactAsk_of_sameOrder tokens r o h'.1 ho h'.2.1
  · intro m off hi o ho
    exact hi.2 o (mem_dbFind _ _ _ _ _ o ho).1
  · intro o ho
    have hmem := (mem_dbFind _ _ _ _ _ o ho).1
    have e : (removeExpiredOrders env Table.sellBook s).sellBook
        = sweptBook env s.sellBook := removeExpiredOrders_book env Table.sellBook s
    rw [e] at hmem
    exact h.2 o ((sweptBook_sublist env _).subset hmem)
  · refine ⟨fun r hr => ?_, fun r hr => ?_⟩
    · rw [removeExpiredOrders_sellBook_buyBook] at hr
      exact h.1 r hr
    · have e : (removeExpiredOrders env Table.sellBook s).sellBook
          = sweptBook env s.sellBook := removeExpiredOrders_book env Table.sellBook s
      rw [e] at hr
      exact h.2 r ((sweptBook_sublist env _).subset hr)

theorem marketSellLoop_covers (tokens : String → Option Nat) (env : Env) (sym : String)
    (prec : Nat) (X : Int) (s : State) (ht : tokens sym = some prec)
    (h : EscrowCovers tokens s) :
    EscrowCovers tokens (marketSellLoop env sym prec X s).st := by
  unfold marketSellLoop
  refine pagesLoop_inv_rows _ _ _ (fun m : Sweep => EscrowCovers tokens m.st)
    (fun o => o.symbol = sym ∧ Covered tokens o) ?_ ?_ _ _ _ _ ?_ ?_
  · intro m o _ ho hi
    obtain ⟨hsym, p, hp1, hp2, hp3⟩ := ho
    have hpp : p = prec := by
      rw [hsym, ht] at hp1
      exact (Option.some.inj hp1).symm
    subst hpp
    obtain ⟨_, r2⟩ := marketSellOrder_rows env sym p m o
    refine ⟨fun r hr => ?_, fun r hr => hi.2 r (r2 ▸ hr)⟩
    rcases marketSellOrder_covered env sym p m o hp2 hp3 r hr with h' | h'
    · exact hi.1 r h'
    · exact covered_of_sameOrder tokens p r o h'.1 (by rw [hsym]; exact ht) hp2 h'.2
  · intro m off hi o ho
    obtain ⟨hmem, hq'⟩ := mem_dbFind _ _ _ _ _ o ho
    unfold ofSymbol at hq'
    exact ⟨beq_iff_eq.1 hq', hi.1 o hmem⟩
  · intro o ho
    obtain ⟨hmem, hq'⟩ := mem_dbFind _ _ _ _ _ o ho
    unfold ofSymbol at hq'
    refine ⟨beq_iff_eq.1 hq', ?_⟩
    have e : (removeExpiredOrders env Table.buyBook s).buyBook
        = sweptBook env s.buyBook := removeExpiredOrders_book env Table.buyBook s
    rw [e] at hmem
    exact h.1 o ((sweptBook_sublist env _).subset hmem)
  · refine ⟨fun r hr => ?_, fun r hr => ?_⟩
    · have e : (removeExpiredOrders env Table.buyBook s).buyBook
          = sweptBook env s.buyBook := removeExpiredOrders_book env Table.buyBook s
      rw [e] at hr
      exact h.1 r ((sweptBook_sublist env _).subset hr)
    · rw [removeExpiredOrders_buyBook_sellBook] at hr
      exact h.2 r hr

theorem marketBuy_covers (tokens : String → Option Nat) (env : Env)
    (payload : MarketPayload) (s : State) (h : EscrowCovers tokens s) :
    EscrowCovers tokens (marketBuy env payload s) := by
  have ho := validateMarket_onlyAsserts env payload (fun _ => STEEM_PEGGED_SYMBOL_PRESICION) s
  unfold marketBuy
  cases hv : validateMarket env payload (fun _ => STEEM_PEGGED_SYMBOL_PRESICION) s with
  | mk s1 ov =>
    rw [hv] at ho
    cases ov with
    | none => exact escrowCovers_of_onlyAsserts tokens s s1 h ho
    | some v =>
      obtain ⟨hs1, _⟩ := validateMarket_some hv
      simp only
      split
      · have hl := marketBuyLoop_covers tokens env v.symbol v.precision
          (v.quantity.toFixed STEEM_PEGGED_SYMBOL_PRESICION)
          (requestEscrow env s1 STEEM_PEGGED_SYMBOL
            (v.quantity.toFixed STEEM_PEGGED_SYMBOL_PRESICION))
          (escrowCovers_of_books tokens s _ h (by rw [hs1]; rfl) (by rw [hs1]; rfl))
        generalize marketBuyLoop env _ _ _ _ = m at hl ⊢
        constructor
        · intro r hr
          simp only [finishMetrics_buyBook] at hr
          split at hr
          · exact hl.1 r hr
          · exact hl.1 r hr
        · intro r hr
          simp only [finishMetrics_sellBook] at hr
          split at hr
          · exact hl.2 r hr
          · exact hl.2 r hr
      · exact escrowCovers_of_books tokens s _ h (by rw [hs1]; rfl) (by rw [hs1]; rfl)

theorem marketSell_covers (tokens : String → Option Nat) (env : Env)
    (payload : MarketPayload) (s : State) (henv : env.tokens = tokens)
    (h : EscrowCovers tokens s) : EscrowCovers tokens (marketSell env payload s) := by
  have ho := validateMarket_onlyAsserts env payload (fun precision => precision) s
  unfold marketSell
  cases hv : validateMarket env payload (fun precision => precision) s with
  | mk s1 ov =>
    rw [hv] at ho
    cases ov with
    | none => exact escrowCovers_of_onlyAsserts tokens s s1 h ho
    | some v =>
      obtain ⟨hs1, _, _, _, _, _, _, htok, _⟩ := validateMarket_some hv
      simp only
      split
      · have hl := marketSellLoop_covers tokens env v.symbol v.precision
          (v.quantity.toFixed v.precision)
          (requestEscrow env s1 v.symbol (v.quantity.toFixed v.precision)) (henv ▸ htok)
          (escrowCovers_of_books tokens s _ h (by rw [hs1]; rfl) (by rw [hs1]; rfl))
        generalize marketSellLoop env _ _ _ _ = m at hl ⊢
        constructor
        · intro r hr
          simp only [finishMetrics_buyBook] at hr
          split at hr
          · exact hl.1 r hr
          · exact hl.1 r hr
        · intro r hr
          simp only [finishMetrics_sellBook] at hr
          split at hr
          · exact hl.2 r hr
          · exact hl.2 r hr
      · exact escrowCovers_of_books tokens s _ h (by rw [hs1]; rfl) (by rw [hs1]; rfl)

theorem buy_covers (tokens : String → Option Nat) (env : Env) (payload : OrderPayload)
    (s : State) (henv : env.tokens = tokens) (hex : ExactPrice tokens (Action.buy payload))
    (h : EscrowCovers tokens s) : EscrowCovers tokens (buy env payload s) := by
  have ho := validateOrder_onlyAsserts env payload s
  unfold buy
  cases hv : validateOrder env payload s with
  | mk s1 ov =>
    rw [hv] at ho
    cases ov with
    | none => exact escrowCovers_of_onlyAsserts tokens s s1 h ho
    | some v =>
      obtain ⟨hs1, _, hsym, hprice, _, _, _, _, htok, _, hp, hq, _⟩ := validateOrder_some hv
      have hd : (10 : Int) ^ v.precision ∣ v.price.toFixed STEEM_PEGGED_SYMBOL_PRESICION :=
        hex v.symbol v.price v.precision hsym hprice (henv ▸ htok)
      have hcov : v.price.toFixed STEEM_PEGGED_SYMBOL_PRESICION * v.quantity.toFixed v.precision
          ≤ (v.price.mul v.quantity).toFixed STEEM_PEGGED_SYMBOL_PRESICION
            * 10 ^ v.precision := by
        rw [toFixed_mul_eq v.price v.quantity v.precision hp hq]
        obtain ⟨c, hc⟩ := hd
        rw [hc]
        have e : 10 ^ v.precision * c * v.quantity.toFixed v.precision
            = (c * v.quantity.toFixed v.precision) * 10 ^ v.precision := by ring
        rw [e, roundHalfUp_mul_pow]
      simp only
      split
      · apply findMatchingSellOrders_covers tokens env _ v.precision _ (henv ▸ htok) hd
        · intro _
          exact hcov
        · constructor
          · intro r hr
            have hr' : r ∈ s1.buyBook ++ [{ newOrder env payload.expiration v
                ((v.price.mul v.quantity).toFixed STEEM_PEGGED_SYMBOL_PRESICION) with
                id := s1.nextId }] := hr
            rcases List.mem_append.1 hr' with h1 | h1
            · exact h.1 r (hs1 ▸ h1)
            · rw [List.mem_singleton] at h1
              rw [h1]
              exact ⟨v.precision, henv ▸ htok, hd, hcov⟩
          · intro r hr
            have hr' : r ∈ s1.sellBook := hr
            exact h.2 r (hs1 ▸ hr')
      · exact escrowCovers_of_books tokens s _ h (by rw [hs1]; rfl) (by rw [hs1]; rfl)

theorem sell_covers (tokens : String → Option Nat) (env : Env) (payload : OrderPayload)
    (s : State) (henv : env.tokens = tokens) (hex : ExactPrice tokens (Action.sell payload))
    (h : EscrowCovers tokens s) : EscrowCovers tokens (sell env payload s) := by
  have ho := validateOrder_onlyAsserts env payload s
  unfold sell
  cases hv : validateOrder env payload s with
  | mk s1 ov =>
    rw [hv] at ho
    cases ov with
    | none => exact escrowCovers_of_onlyAsserts tokens s s1 h ho
    | some v =>
      obtain ⟨hs1, _, hsym, hprice, _, _, _, _, htok, _, hp, hq, _⟩ := validateOrder_some hv
      have hd : (10 : Int) ^ v.precision ∣ v.price.toFixed STEEM_PEGGED_SYMBOL_PRESICION :=
        hex v.symbol v.price v.precision hsym hprice (henv ▸ htok)
      have hpos := validateOrder_quantity_pos hv
      simp only
      split
      · apply findMatchingBuyOrders_covers tokens env _ v.precision _ (henv ▸ htok) hd
        constructor
        · intro r hr
          have hr' : r ∈ s1.buyBook := hr
          exact h.1 r (hs1 ▸ hr')
        · intro r hr
          have hr' : r ∈ s1.sellBook ++ [{ newOrder env payload.expiration v 0 with
              id := s1.nextId }] := hr
          rcases List.mem_append.1 hr' with h1 | h1
          · exact h.2 r (hs1 ▸ h1)
          · rw [List.mem_singleton] at h1
            rw [h1]
            exact ⟨v.precision, henv ▸ htok, hd, hpos⟩
      · exact escrowCovers_of_books tokens s _ h (by rw [hs1]; rfl) (by rw [hs1]; rfl)

theorem cancel_covers (tokens : String → Option Nat) (env : Env) (payload : CancelPayload)
    (s : State) (h : EscrowCovers tokens s) : EscrowCovers tokens (cancel env payload s) := by
  rcases cancel_cases env payload s with ⟨id, o, hs, ht, hpid, hid, hlen, hf, hown⟩ | ⟨msgs, hm⟩
  · obtain ⟨type, pid, signed⟩ := payload
    simp only at hs ht hpid hf
    subst hs hpid
    rcases ht with rfl | rfl
    · rw [cancelTable_buy] at hf
      have e := cancel_buy_done env id s o hid hlen hf hown
      unfold cancelPayload at e
      rw [e]
      obtain ⟨h1, h2, _⟩ := updateBidMetric_same o.symbol
        (removeOrder (transferTokens s env.sender STEEM_PEGGED_SYMBOL o.tokensLocked)
          Table.buyBook o)
      refine escrowCovers_of_rows tokens s _ h (fun r hr => ?_) (fun r hr => ?_)
      · rw [h1] at hr
        exact (List.mem_filter.1 hr).1
      · rw [h2] at hr
        exact hr
    · rw [cancelTable_sell] at hf
      have e := cancel_sell_done env id s o hid hlen hf hown
      unfold cancelPayload at e
      rw [e]
      obtain ⟨h1, h2, _⟩ := updateAskMetric_same o.symbol
        (removeOrder (transferTokens s env.sender o.symbol o.quantity) Table.sellBook o)
      refine escrowCovers_of_rows tokens s _ h (fun r hr => ?_) (fun r hr => ?_)
      · rw [h1] at hr
        exact hr
      · rw [h2] at hr
        exact (List.mem_filter.1 hr).1
  · rw [hm]
    exact h

theorem step_covers (tokens : String → Option Nat) (env : Env) (a : Action) (s : State)
    (henv : env.tokens = tokens) (hex : ExactPrice tokens a) (h : EscrowCovers tokens s) :
    EscrowCovers tokens (step env a s) := by
  cases a with
  | buy p => exact buy_covers tokens env p s henv hex h
  | sell p => exact sell_covers tokens env p s henv hex h
  | marketBuy p => exact marketBuy_covers tokens env p s h
  | marketSell p => exact marketSell_covers tokens env p s henv h
  | cancel p => exact cancel_covers tokens env p s h

theorem run_covers (tokens : String → Option Nat) :
    ∀ (txs : List (Env × Action)) (s : State), (∀ tx ∈ txs, tx.1.tokens = tokens) →
      (∀ tx ∈ txs, ExactPrice tokens tx.2) →
      EscrowCovers tokens s → EscrowCovers tokens (run txs s) := by
  intro txs
  induction txs with
  | nil => intro s _ _ h; exact h
  | cons tx rest ih =>
    intro s htok hex h
    obtain ⟨env, a⟩ := tx
    unfold run
    exact ih _ (fun t ht => htok t (List.mem_cons_of_mem _ ht))
      (fun t ht => hex t (List.mem_cons_of_mem _ ht))
      (step_covers tokens env a s (htok (env, a) (List.mem_cons_self _ _))
        (hex (env, a) (List.mem_cons_self _ _)) h)

theorem buyAboveAsk_exact : ∀ tx ∈ buyAboveAsk, ExactPrice exampleTokens tx.2 := by
  intro tx h
  simp only [buyAboveAsk, List.mem_cons, List.mem_singleton, List.not_mem_nil, or_false] at h
  rcases h with rfl | rfl
  · intro symbol price precision hs hp ht
    simp only [limitPayload, Option.some.injEq] at hs hp
    subst hs hp
    simp only [exampleTokens, if_true, Option.some.injEq] at ht
    subst ht
    decide
  · intro symbol price precision hs hp ht
    simp only [limitPayload, Option.some.injEq] at hs hp
    subst hs hp
    simp only [exampleTokens, if_true, Option.some.injEq] at ht
    subst ht
    decide

/-- C3 (amended).  Let the limit prices of a sequence of `buy`, `sell`, `marketBuy`,
`marketSell` and `cancel` actions, all seeing the same token registry, be whole multiples
of `10^(precision - 8)` of the peg token for the precision of their token (at most
`8 - precision` decimals), so that `price * quantity` needs no rounding.  In the state
reached from the empty tables, every resting buy order is of a registered token and its
escrow is not short: `price * quantity <= tokensLocked` (both sides in units of
`10^-(8 + precision)`), at all times, including after the order was partially filled as a
taker against sell orders priced below its own limit; the price improvement of such
fills stays in `tokensLocked`, which is why it can exceed `price * quantity`. -/
theorem resting_buy_escrow_covers_price_times_quantity (tokens : String → Option Nat)
    (txs : List (Env × Action)) (htok : ∀ tx ∈ txs, tx.1.tokens = tokens)
    (hexact : ∀ tx ∈ txs, ExactPrice tokens tx.2) :
    ∀ o ∈ (run txs State.empty).buyBook, ∃ p, tokens o.symbol = some p ∧
      o.price * o.quantity ≤ o.tokensLocked * 10 ^ p := by
  intro o ho
  have h := run_covers tokens txs State.empty htok hexact
    ⟨fun r hr => by simp [State.empty] at hr, fun r hr => by simp [State.empty] at hr⟩
  obtain ⟨p, h1, _, h3⟩ := h.1 o ho
  exact ⟨p, h1, h3⟩

/-- C3 after Alice's sell of `4 ABC` at `1.0` and Bob's buy of `10 ABC` at `2.0` (prices
without decimals, `ABC` has one decimal): Bob's order rests with quantity `6.0` and
`tokensLocked = 16`, which covers `price * quantity = 12`. -/
theorem resting_buy_escrow_covers_price_times_quantity_witness :
    (∀ tx ∈ buyAboveAsk, tx.1.tokens = exampleTokens) ∧
    (∀ tx ∈ buyAboveAsk, ExactPrice exampleTokens tx.2) ∧
    (run buyAboveAsk State.empty).buyBook.map
        (fun o => (o.symbol, o.price, o.quantity, o.tokensLocked))
      = [("ABC", 200000000, 60, 1600000000)] ∧
    ∀ o ∈ (run buyAboveAsk State.empty).buyBook, ∃ p, exampleTokens o.symbol = some p ∧
      o.price * o.quantity ≤ o.tokensLocked * 10 ^ p :=
  ⟨buyAboveAsk_tokens, buyAboveAsk_exact, by decide!,
    resting_buy_escrow_covers_price_times_quantity exampleTokens buyAboveAsk
      buyAboveAsk_tokens buyAboveAsk_exact⟩

end Market
